import Mathlib

/-!
# xfile: a shallow embedding of the stream layer, the RAM device and its pool

The definitions follow `source/xfile.h`, `source/xfile.cpp` and
`source/implementation/general/xfile_device_general_ram.h`.

Conventions of the embedding

* a byte (`std::byte`, `char`) is a natural number; a span of bytes is a `List Byte`;
* a C++ function that mutates its object and returns an `xerr` becomes a function
  from the old state to the pair of the returned `xerr` and the new state;
* a tripped `assert` stops the run: every operation returns in `Except Stop`;
* 64-bit conversions between `std::int64_t` and `std::size_t` are explicit (`u64`, `i64`);
* the host is little-endian and `wchar_t` has two bytes, as the source assumes
  (`View.size()/2`, `Delta*2`).
-/

namespace xfile

/-! ## Basic types -/

/-- A byte of a buffer (`std::byte`, `char`). -/
abbrev Byte := Nat

/-- A wide string (`std::wstring`, `std::wstring_view`). -/
abbrev wstring := List Char

/-- The enumeration `xfile::state` of error states. -/
inductive state where
  | OK
  | FAILURE
  | DEVICE_FAILURE
  | CREATING_FILE
  | OPENING_FILE
  | UNEXPECTED_EOF
  | INCOMPLETE
  deriving DecidableEq, Repr

/-- The value returned by a fallible operation: `ok` is the empty `xerr` (`return {}`),
`create st msg` is `xerr::create<st, msg>()`; `create_f<state, msg>()` is
`create state.FAILURE msg`. -/
inductive xerr where
  | ok
  | create (st : state) (msg : String)
  deriving DecidableEq, Repr

/-- Why a run stops without returning: an `assert` tripped, the code touched memory
outside an object (undefined behaviour the embedding does not follow further), the
embedding ran out of recursion fuel, or an exception left a `noexcept` function
(`std::terminate`). -/
inductive Stop where
  | asserted (msg : String)
  | undefined (msg : String)
  | fuel
  | thrown (msg : String)
  deriving DecidableEq, Repr

/-- The enumeration `device::seek_mode`. -/
inductive seek_mode where
  | SKM_ORIGIN
  | SKM_CURENT
  | SKM_END
  deriving DecidableEq, Repr

/-- The bit field `device::access_types`; `m_Value = 0` is the all-clear value `zero`. -/
structure access_types where
  m_Text : Nat := 0
  m_bCreate : Bool := false
  m_bRead : Bool := false
  m_bWrite : Bool := false
  m_bASync : Bool := false
  m_bCompress : Bool := false
  m_bForceFlush : Bool := false
  deriving DecidableEq, Repr

/-- The flags after `m_AccessType.m_Value = 0`. -/
def access_types.zero : access_types := {}

/-- The virtual interface `device::instance`, over the state type `σ` of a backend.
`Read` receives the current content of the caller's view and returns its new content. -/
structure device_instance (σ : Type) where
  open_ : σ → wstring → access_types → Except Stop (xerr × σ)
  close : σ → σ
  Read : σ → List Byte → Except Stop (xerr × List Byte × σ)
  Write : σ → List Byte → Except Stop (xerr × σ)
  Seek : σ → seek_mode → Nat → Except Stop (xerr × σ)
  Tell : σ → Except Stop (xerr × Nat × σ)
  Flush : σ → σ
  Length : σ → Except Stop (xerr × Nat × σ)
  isEOF : σ → Except Stop (Bool × σ)
  Synchronize : σ → Bool → Except Stop (xerr × σ)
  AsyncAbort : σ → σ

/-- Conversion of a `std::int64_t` to `std::size_t`. -/
def u64 (x : Int) : Nat := (x % (2 ^ 64 : Int)).toNat

/-- Conversion of a `std::size_t` to `std::int64_t` (two's complement). -/
def i64 (n : Nat) : Int :=
  if n % 2 ^ 64 < 2 ^ 63 then ((n % 2 ^ 64 : Nat) : Int) else ((n % 2 ^ 64 : Nat) : Int) - 2 ^ 64

/-- The bytes of the `w`-byte unsigned integer `x` in memory order on a little-endian host. -/
def le_bytes : Nat → Nat → List Byte
  | 0, _ => []
  | w + 1, x => (x % 256) :: le_bytes w (x / 256)

/-- The span `{ &p[start], len }` of a buffer. -/
def span (View : List Byte) (start len : Nat) : List Byte := (View.drop start).take len

/-- The byte at address `View.data() + j`: inside the view for `j < View.size()`, and
`past (j - View.size())`, the memory that follows the view, otherwise. -/
def peek (View : List Byte) (past : Nat → Byte) (j : Nat) : Byte :=
  if j < View.length then View.getD j 0 else past (j - View.length)

/-- The memory that follows a sub-view ending `rest.length` bytes before the end of its
parent view: first the parent's remaining bytes, then what follows the parent. -/
def after (rest : List Byte) (past : Nat → Byte) : Nat → Byte :=
  fun k => if k < rest.length then rest.getD k 0 else past (k - rest.length)

/-! ## stream::WriteRaw -/

/-- The constant `Data` of the narrow branch of `WriteRaw`:
`(uint16_t{'\n'} << 8) | (uint16_t{'\r'} << 0)`. -/
def WriteRaw.Data16 : Nat := (10 <<< 8) ||| (13 <<< 0)

/-- The constant `Data` of the wide branch of `WriteRaw`:
`(uint16_t{L'\n'} << 16) | (uint16_t{L'\r'} << 0)`, a `std::uint32_t`. -/
def WriteRaw.Data32 : Nat := (10 <<< 16) ||| (13 <<< 0)

/-- The `for (i = 0; i < View.size(); i++)` loop of the narrow branch of `WriteRaw`;
the first argument counts the iterations left. Returns the error of the first failing
backend write, and `iLast`. -/
def WriteRaw.narrowLoop {σ : Type} (I : device_instance σ) (View : List Byte) :
    Nat → Nat → Nat → σ → Except Stop (xerr × Nat × σ)
  | 0, _, iLast, s => .ok (xerr.ok, iLast, s)
  | k + 1, i, iLast, s =>
    if View.getD i 0 = 10 then
      match I.Write s (span View iLast (i - iLast)) with
      | .error e => .error e
      | .ok (e1, s1) =>
        if e1 ≠ xerr.ok then .ok (e1, iLast, s1)
        else
          match I.Write s1 (le_bytes 2 WriteRaw.Data16) with
          | .error e => .error e
          | .ok (e2, s2) =>
            if e2 ≠ xerr.ok then .ok (e2, iLast, s2)
            else WriteRaw.narrowLoop I View k (i + 1) (i + 1) s2
    else WriteRaw.narrowLoop I View k (i + 1) iLast s

/-- The wide character `pFound[j]` of `wView`: bytes `2j` and `2j+1` of the view. -/
def wchar_at (View : List Byte) (j : Nat) : Nat := View.getD (2 * j) 0 + 256 * View.getD (2 * j + 1) 0

/-- The `for (i = 0; i < wView.size(); i++)` loop of the wide branch of `WriteRaw`. -/
def WriteRaw.wideLoop {σ : Type} (I : device_instance σ) (View : List Byte) :
    Nat → Nat → Nat → σ → Except Stop (xerr × Nat × σ)
  | 0, _, iLast, s => .ok (xerr.ok, iLast, s)
  | k + 1, i, iLast, s =>
    if wchar_at View i = 10 then
      match I.Write s (span View (2 * iLast) ((i - iLast) * 2)) with
      | .error e => .error e
      | .ok (e1, s1) =>
        if e1 ≠ xerr.ok then .ok (e1, iLast, s1)
        else
          match I.Write s1 (le_bytes 4 WriteRaw.Data32) with
          | .error e => .error e
          | .ok (e2, s2) =>
            if e2 ≠ xerr.ok then .ok (e2, iLast, s2)
            else WriteRaw.wideLoop I View k (i + 1) (i + 1) s2
    else WriteRaw.wideLoop I View k (i + 1) iLast s

/-- The tail of `WriteRaw`: `if (m_AccessType.m_bForceFlush) m_pInstance->Flush(); return {};`. -/
def WriteRaw.finish {σ : Type} (I : device_instance σ) (m_AccessType : access_types) (s : σ) :
    Except Stop (xerr × σ) :=
  if m_AccessType.m_bForceFlush then .ok (xerr.ok, I.Flush s) else .ok (xerr.ok, s)

/-- The function `stream::WriteRaw(View)` on a stream whose instance has state `s`. -/
def stream.WriteRaw {σ : Type} (I : device_instance σ) (m_AccessType : access_types) (s : σ)
    (View : List Byte) : Except Stop (xerr × σ) :=
  if View.isEmpty then .error (Stop.asserted "View.empty() == false")
  else if m_AccessType.m_Text ≠ 0 then
    if m_AccessType.m_Text = 1 then
      match WriteRaw.narrowLoop I View View.length 0 0 s with
      | .error e => .error e
      | .ok (e, iLast, s1) =>
        if e ≠ xerr.ok then .ok (e, s1)
        else if iLast ≠ View.length then
          match I.Write s1 (span View iLast (View.length - iLast)) with
          | .error e => .error e
          | .ok (e2, s2) =>
            if e2 ≠ xerr.ok then .ok (e2, s2) else WriteRaw.finish I m_AccessType s2
        else WriteRaw.finish I m_AccessType s1
    else if m_AccessType.m_Text = 2 then
      match WriteRaw.wideLoop I View (View.length / 2) 0 0 s with
      | .error e => .error e
      | .ok (e, iLast, s1) =>
        if e ≠ xerr.ok then .ok (e, s1)
        else if iLast ≠ View.length / 2 then
          match I.Write s1 (span View (2 * iLast) ((View.length / 2 - iLast) * 2)) with
          | .error e => .error e
          | .ok (e2, s2) =>
            if e2 ≠ xerr.ok then .ok (e2, s2) else WriteRaw.finish I m_AccessType s2
        else WriteRaw.finish I m_AccessType s1
    else WriteRaw.finish I m_AccessType s
  else
    match I.Write s View with
    | .error e => .error e
    | .ok (e, s1) => if e ≠ xerr.ok then .ok (e, s1) else WriteRaw.finish I m_AccessType s1

/-! ## stream::ReadRaw -/

/-- The message of the length check of the wide branch of `ReadRaw`. -/
def ReadRaw.msgNotMultipleOf2 : String :=
  "The text buffer you are trying to read is not multiple of 2... For wide character it needs to be multiple of 2"

/-- The compaction loop of the narrow branch of `ReadRaw`; the first argument counts the
iterations left, `pSrc` and `pDst` are offsets from `View.data()`. The test reads
`*pCharSrc` after the increment, so the last iteration reads the byte after the view. -/
def ReadRaw.narrowLoop (past : Nat → Byte) : Nat → List Byte → Nat → Nat → List Byte × Nat × Nat
  | 0, View, pSrc, pDst => (View, pSrc, pDst)
  | k + 1, View, pSrc, pDst =>
    let View1 := View.set pDst (peek View past pSrc)
    if ¬ (peek View1 past (pSrc + 1) = 10 ∧ peek View1 past pSrc = 13) then
      ReadRaw.narrowLoop past k View1 (pSrc + 1) (pDst + 1)
    else ReadRaw.narrowLoop past k View1 (pSrc + 1) pDst

/-- The wide character at `wView.data() + j`, possibly after the end of the view. -/
def wpeek (View : List Byte) (past : Nat → Byte) (j : Nat) : Nat :=
  peek View past (2 * j) + 256 * peek View past (2 * j + 1)

/-- The compaction loop of the wide branch of `ReadRaw`; `pSrc` and `pDst` count wide
characters from `wView.data()`. -/
def ReadRaw.wideLoop (past : Nat → Byte) : Nat → List Byte → Nat → Nat → List Byte × Nat × Nat
  | 0, View, pSrc, pDst => (View, pSrc, pDst)
  | k + 1, View, pSrc, pDst =>
    let View1 := (View.set (2 * pDst) (peek View past (2 * pSrc))).set (2 * pDst + 1)
      (peek View past (2 * pSrc + 1))
    if ¬ (wpeek View1 past (pSrc + 1) = 10 ∧ wpeek View1 past pSrc = 13) then
      ReadRaw.wideLoop past k View1 (pSrc + 1) (pDst + 1)
    else ReadRaw.wideLoop past k View1 (pSrc + 1) pDst

/-- The function `stream::ReadRaw(View)` on a stream whose instance has state `s`.
`View` is the content of the caller's buffer before the call, `past` the memory that
follows it; the result holds the buffer after the call. The recursive call of the source
is on the tail of the same buffer, so it consumes one unit of `fuel`. -/
def stream.ReadRaw {σ : Type} (I : device_instance σ) (m_AccessType : access_types) :
    Nat → (Nat → Byte) → σ → List Byte → Except Stop (xerr × List Byte × σ)
  | 0, _, _, _ => .error Stop.fuel
  | fuel + 1, past, s, View0 =>
    if View0.isEmpty then .error (Stop.asserted "View.empty() == false")
    else
      match I.Read s View0 with
      | .error e => .error e
      | .ok (e, View, s1) =>
        if e ≠ xerr.ok then .ok (e, View, s1)
        else if m_AccessType.m_Text ≠ 0 then
          if m_AccessType.m_Text = 1 then
            match ReadRaw.narrowLoop past View.length View 0 0 with
            | (View1, pSrc, pDst) =>
              if pSrc ≠ pDst then
                let Delta := pSrc - pDst
                match stream.ReadRaw I m_AccessType fuel past s1
                    (span View1 (View1.length - Delta) Delta) with
                | .error e => .error e
                | .ok (e2, sub, s2) => .ok (e2, View1.take (View1.length - Delta) ++ sub, s2)
              else if View1.getD (pDst - 1) 0 = 13 then
                match I.Read s1 [0] with
                | .error e => .error e
                | .ok (e2, C, s2) =>
                  if e2 ≠ xerr.ok then .ok (e2, View1, s2)
                  else if C.getD 0 0 = 10 then .ok (xerr.ok, View1.set (pDst - 1) 10, s2)
                  else
                    match I.Seek s2 seek_mode.SKM_CURENT (2 ^ 64 - 1) with
                    | .error e => .error e
                    | .ok (e3, s3) => .ok (e3, View1, s3)
              else .ok (xerr.ok, View1, s1)
          else if m_AccessType.m_Text = 2 then
            if View.length % 2 = 0 then
              .ok (xerr.create state.FAILURE ReadRaw.msgNotMultipleOf2, View, s1)
            else
              let m := View.length / 2
              match ReadRaw.wideLoop past m View 0 0 with
              | (View1, pSrc, pDst) =>
                if pSrc ≠ pDst then
                  let Delta := pSrc - pDst
                  match stream.ReadRaw I m_AccessType fuel (after (View1.drop (2 * m)) past) s1
                      (span View1 (2 * (m - Delta)) (Delta * 2)) with
                  | .error e => .error e
                  | .ok (e2, sub, s2) =>
                    .ok (e2, View1.take (2 * (m - Delta)) ++ sub ++ View1.drop (2 * m), s2)
                else if pDst = 0 then
                  .error (Stop.undefined "*--pCharDst reads the wide character in front of the view")
                else if wchar_at View1 (pDst - 1) = 13 then
                  match I.Read s1 [0, 0] with
                  | .error e => .error e
                  | .ok (e2, C, s2) =>
                    if e2 ≠ xerr.ok then .ok (e2, View1, s2)
                    else if wchar_at C 0 = 10 then
                      .ok (xerr.ok, (View1.set (2 * (pDst - 1)) 10).set (2 * (pDst - 1) + 1) 0, s2)
                    else
                      match I.Seek s2 seek_mode.SKM_CURENT (2 ^ 64 - 2) with
                      | .error e => .error e
                      | .ok (e3, s3) => .ok (e3, View1, s3)
                else .ok (xerr.ok, View1, s1)
          else .ok (xerr.ok, View, s1)
        else .ok (xerr.ok, View, s1)

/-! ## The RAM device: memfile -/

/-- The constant `memfile::block_size_v`. -/
abbrev block_size_v : Nat := 1024 * 10

/-- One `memfile::block`, a `std::array<std::byte, block_size_v>`, as the map from an
offset to the byte stored there. -/
abbrev block := Nat → Byte

/-- A block just obtained with `new block`. The source leaves its bytes indeterminate;
the embedding fixes them at zero. -/
def block.fresh : block := fun _ => 0

/-- The assignment `(*pBlock)[off] = b`. -/
def block.set (B : block) (off : Nat) (b : Byte) : block := fun j => if j = off then b else B j

/-- The structure `memfile` of the RAM device. -/
structure memfile where
  m_lBlock : List block := []
  m_SeekPosition : Int := 0
  m_EOF : Int := 0
  m_iNext : Int := 0

/-- The `while (bufferOffset < View.size())` loop of `memfile::Read`; the first argument
counts the iterations left. -/
def memfile.ReadLoop : Nat → memfile → Nat → Nat → Nat → List Byte →
    Except Stop (xerr × List Byte × memfile)
  | 0, f, _, _, _, View => .ok (xerr.ok, View, f)
  | k + 1, f, currentBlockIndex, currentBlockOffset, bufferOffset, View =>
    let View1 := View.set bufferOffset
      ((f.m_lBlock.getD currentBlockIndex block.fresh) currentBlockOffset)
    let f1 := { f with m_SeekPosition := f.m_SeekPosition + 1 }
    if currentBlockOffset + 1 ≥ block_size_v then
      if currentBlockIndex + 1 ≥ f.m_lBlock.length then
        .ok (xerr.create state.FAILURE "Fail to read all the bytes from the ram drive", View1, f1)
      else memfile.ReadLoop k f1 (currentBlockIndex + 1) 0 (bufferOffset + 1) View1
    else memfile.ReadLoop k f1 currentBlockIndex (currentBlockOffset + 1) (bufferOffset + 1) View1

/-- The function `memfile::Read(View)`. -/
def memfile.Read (f : memfile) (View : List Byte) : Except Stop (xerr × List Byte × memfile) :=
  if f.m_SeekPosition ≥ f.m_EOF then
    .ok (xerr.create state.UNEXPECTED_EOF "Unexpected End of File", View, f)
  else
    let currentBlockIndex := u64 f.m_SeekPosition / block_size_v
    let currentBlockOffset := u64 f.m_SeekPosition % block_size_v
    if ¬ (currentBlockIndex < f.m_lBlock.length) then
      .error (Stop.asserted "currentBlockIndex >= 0 && currentBlockIndex < m_lBlock.size()")
    else memfile.ReadLoop View.length f currentBlockIndex currentBlockOffset 0 View

/-- The `while (bufferOffset < View.size())` loop of `memfile::Write`. -/
def memfile.WriteLoop (View : List Byte) : Nat → memfile → Nat → Nat → Nat →
    Except Stop (xerr × memfile)
  | 0, f, _, _, _ => .ok (xerr.ok, f)
  | k + 1, f, currentBlockIndex, currentBlockOffset, bufferOffset =>
    let f1 := { f with
      m_lBlock := f.m_lBlock.set currentBlockIndex
        ((f.m_lBlock.getD currentBlockIndex block.fresh).set currentBlockOffset
          (View.getD bufferOffset 0))
      m_SeekPosition := f.m_SeekPosition + 1 }
    if currentBlockOffset + 1 ≥ block_size_v then
      if ¬ (currentBlockIndex + 1 < f1.m_lBlock.length) then
        .error (Stop.asserted "currentBlockIndex < m_lBlock.size()")
      else memfile.WriteLoop View k f1 (currentBlockIndex + 1) 0 (bufferOffset + 1)
    else memfile.WriteLoop View k f1 currentBlockIndex (currentBlockOffset + 1) (bufferOffset + 1)

/-- The first statements of `memfile::Write`: `NewDataPosition = m_SeekPosition + View.size()`
and `if (m_EOF < NewDataPosition) m_EOF = NewDataPosition`. -/
def memfile.Write.setEOF (f : memfile) (size : Nat) : memfile :=
  let NewDataPosition := (u64 f.m_SeekPosition + size) % 2 ^ 64
  if f.m_EOF < i64 NewDataPosition then { f with m_EOF := i64 NewDataPosition } else f

/-- The allocation of `memfile::Write`: when `m_EOF >= m_lBlock.size() * block_size_v`,
`m_EOF / block_size_v + 1 - m_lBlock.size()` blocks are appended. -/
def memfile.Write.allocate (f : memfile) : memfile :=
  if f.m_EOF ≥ i64 (f.m_lBlock.length * block_size_v) then
    let NumBlocksRequired := (u64 f.m_EOF / block_size_v + 1 + 2 ^ 64 - f.m_lBlock.length) % 2 ^ 64
    { f with m_lBlock := f.m_lBlock ++ List.replicate NumBlocksRequired block.fresh }
  else f

/-- The function `memfile::Write(View)`. -/
def memfile.Write (f : memfile) (View : List Byte) : Except Stop (xerr × memfile) :=
  let f2 := memfile.Write.allocate (memfile.Write.setEOF f View.length)
  let currentBlockIndex := u64 f2.m_SeekPosition / block_size_v
  let currentBlockOffset := u64 f2.m_SeekPosition % block_size_v
  if ¬ (currentBlockIndex < f2.m_lBlock.length) then
    .error (Stop.asserted "currentBlockIndex >= 0 && currentBlockIndex < m_lBlock.size()")
  else memfile.WriteLoop View View.length f2 currentBlockIndex currentBlockOffset 0

/-- The check `assert(m_SeekPosition<=m_EOF && m_SeekPosition >= 0)` of the seek helpers. -/
def memfile.seekCheck (f : memfile) : Except Stop (xerr × memfile) :=
  if f.m_SeekPosition ≤ f.m_EOF ∧ f.m_SeekPosition ≥ 0 then .ok (xerr.ok, f)
  else .error (Stop.asserted "m_SeekPosition<=m_EOF && m_SeekPosition >= 0")

/-- The function `memfile::SeekOrigin(Offset)`. -/
def memfile.SeekOrigin (f : memfile) (Offset : Nat) : Except Stop (xerr × memfile) :=
  memfile.seekCheck { f with m_SeekPosition := i64 Offset }

/-- The function `memfile::SeekCurrent(Offset)`: `m_SeekPosition += Offset` in unsigned
64-bit arithmetic. -/
def memfile.SeekCurrent (f : memfile) (Offset : Nat) : Except Stop (xerr × memfile) :=
  memfile.seekCheck { f with m_SeekPosition := i64 ((u64 f.m_SeekPosition + Offset) % 2 ^ 64) }

/-- The function `memfile::SeekEnd(Offset)`: `m_SeekPosition = m_EOF - Offset` in unsigned
64-bit arithmetic. -/
def memfile.SeekEnd (f : memfile) (Offset : Nat) : Except Stop (xerr × memfile) :=
  memfile.seekCheck
    { f with m_SeekPosition := i64 ((u64 f.m_EOF + 2 ^ 64 - Offset % 2 ^ 64) % 2 ^ 64) }

/-- The function `memfile::Seek(Mode, Pos)`. -/
def memfile.Seek (f : memfile) (Mode : seek_mode) (Pos : Nat) : Except Stop (xerr × memfile) :=
  match Mode with
  | seek_mode.SKM_ORIGIN => memfile.SeekOrigin f Pos
  | seek_mode.SKM_CURENT => memfile.SeekCurrent f Pos
  | seek_mode.SKM_END => memfile.SeekEnd f Pos

/-- The function `memfile::open`: `assert(m_EOF == 0); return {};`. -/
def memfile.open_ (f : memfile) (_FileName : wstring) (_AccessTypes : access_types) :
    Except Stop (xerr × memfile) :=
  if f.m_EOF = 0 then .ok (xerr.ok, f) else .error (Stop.asserted "m_EOF == 0")

/-- The function `memfile::Tell(Pos)`. -/
def memfile.Tell (f : memfile) : Except Stop (xerr × Nat × memfile) :=
  .ok (xerr.ok, u64 f.m_SeekPosition, f)

/-- The function `memfile::Length(L)`. -/
def memfile.Length (f : memfile) : Except Stop (xerr × Nat × memfile) :=
  .ok (xerr.ok, u64 f.m_EOF, f)

/-- The function `memfile::isEOF`. -/
def memfile.isEOF (f : memfile) : Except Stop (Bool × memfile) :=
  .ok (decide (f.m_SeekPosition > f.m_EOF), f)

/-- The function `memfile::clear`. -/
def memfile.clear (_f : memfile) : memfile :=
  { m_lBlock := [], m_SeekPosition := 0, m_EOF := 0, m_iNext := 0 }

/-- The RAM backend as a `device::instance`. -/
def memfile.ops : device_instance memfile where
  open_ := memfile.open_
  close := fun f => f
  Read := memfile.Read
  Write := memfile.Write
  Seek := memfile.Seek
  Tell := memfile.Tell
  Flush := fun f => f
  Length := memfile.Length
  isEOF := memfile.isEOF
  Synchronize := fun f _ => .ok (xerr.ok, f)
  AsyncAbort := fun f => f

/-! ## The RAM device: the pool of instances -/

/-- The structure `next`: the head of the free list and its generation counter
(a `std::uint16_t`). -/
structure next where
  m_iNext : Int := 0
  m_Counter : Nat := 0

/-- The structure `xfile::driver::ram::device`: the pool and the head of its free list. -/
structure device where
  m_FileHPool : List memfile
  m_iEmptyHead : next

/-- The number of slots of `m_FileHPool`, a `std::array<memfile, 128>`. -/
abbrev pool_size : Nat := 128

/-- The link `m_FileHPool[i].m_iNext`. -/
def device.link (d : device) (i : Nat) : Int := (d.m_FileHPool.getD i {}).m_iNext

/-- The assignment `m_FileHPool[i].m_iNext = v`. -/
def device.setLink (d : device) (i : Nat) (v : Int) : device :=
  { d with m_FileHPool := d.m_FileHPool.set i { d.m_FileHPool.getD i {} with m_iNext := v } }

/-- The pool as the constructor `device::device` leaves it: slot `i` links to `i + 1`,
the last slot to `-1`, and the head is `{0, 0}`. -/
def device.mk0 : device :=
  { m_FileHPool := (List.range pool_size).map fun i =>
      { m_iNext := if i + 1 = pool_size then -1 else ((i + 1 : Nat) : Int) }
    m_iEmptyHead := { m_iNext := 0, m_Counter := 0 } }

/-- The function `device::createInstance`, run without interference from another thread:
the compare-and-swap then succeeds with the head it loaded. Returns the index of the slot
whose address the source returns. -/
def device.createInstance (d : device) : Except Stop (Nat × device) :=
  let Local := d.m_iEmptyHead
  if ¬ (Local.m_iNext ≥ 0) then .error (Stop.asserted "Local.m_iNext >= 0")
  else
    let NewValue : next :=
      { m_iNext := d.link Local.m_iNext.toNat, m_Counter := (Local.m_Counter + 1) % 2 ^ 16 }
    let d1 := { d with m_iEmptyHead := NewValue }
    .ok (Local.m_iNext.toNat, d1.setLink Local.m_iNext.toNat (-2))

/-- The function `device::destroyInstance`, run without interference from another thread;
`Index` is the index the source computes from the address of the instance. -/
def device.destroyInstance (d : device) (Index : Nat) : Except Stop device :=
  if ¬ (Index < d.m_FileHPool.length) then .error (Stop.asserted "Index < m_FileHPool.size()")
  else if ¬ (d.link Index = -2) then .error (Stop.asserted "SmallFile.m_iNext == -2")
  else
    let d1 := { d with m_FileHPool := d.m_FileHPool.set Index (memfile.clear (d.m_FileHPool.getD Index {})) }
    let Local := d1.m_iEmptyHead
    let d2 := d1.setLink Index Local.m_iNext
    .ok { d2 with m_iEmptyHead := { m_iNext := (Index : Int), m_Counter := (Local.m_Counter + 1) % 2 ^ 16 } }

/-- The slots met when following the links from `h`: `some l` when the terminator `-1` is
reached within `fuel` steps through slots of the pool, `none` otherwise. -/
def device.walk (d : device) : Nat → Int → Option (List Nat)
  | 0, h => if h = -1 then some [] else none
  | fuel + 1, h =>
    if h = -1 then some []
    else if 0 ≤ h ∧ h.toNat < d.m_FileHPool.length then
      (device.walk d fuel (d.link h.toNat)).map fun l => h.toNat :: l
    else none

/-- The free list of the pool: the slots met from the head to the terminator. -/
def device.freeList (d : device) : Option (List Nat) :=
  device.walk d d.m_FileHPool.length d.m_iEmptyHead.m_iNext

/-- The pool states reached from the constructed pool by sequential calls, together with
the list of slots handed out by `createInstance` and not yet given to `destroyInstance`:
`createInstance` is called while that list has fewer than 128 entries, `destroyInstance`
on one of its entries. -/
inductive device.Reach : device → List Nat → Prop
  | init : device.Reach device.mk0 []
  | create {d d1 : device} {out : List Nat} {i : Nat} :
      device.Reach d out → out.length < pool_size → d.createInstance = .ok (i, d1) →
      device.Reach d1 (i :: out)
  | destroy {d d1 : device} {out : List Nat} {i : Nat} :
      device.Reach d out → i ∈ out → d.destroyInstance i = .ok d1 →
      device.Reach d1 (out.erase i)

/-! ## stream::open: the access mode -/

/-- The `switch (pMode[i])` of `stream::open` on one character; the Boolean is
`bSeekToEnd`. -/
def open_.modeChar (c : Char) (m_AccessType : access_types) (bSeekToEnd : Bool) :
    Except Stop (access_types × Bool) :=
  if c = 'a' then .ok ({ m_AccessType with m_bRead := true, m_bWrite := true }, true)
  else if c = 'r' then .ok ({ m_AccessType with m_bRead := true }, bSeekToEnd)
  else if c = '+' then .ok ({ m_AccessType with m_bWrite := true }, bSeekToEnd)
  else if c = 'w' then
    .ok ({ m_AccessType with m_bRead := true, m_bWrite := true, m_bCreate := true }, bSeekToEnd)
  else if c = 'c' then .ok ({ m_AccessType with m_bCompress := true }, bSeekToEnd)
  else if c = '@' then .ok ({ m_AccessType with m_bASync := true }, bSeekToEnd)
  else if c = 't' then .ok ({ m_AccessType with m_Text := 1 }, bSeekToEnd)
  else if c = 'T' then .ok ({ m_AccessType with m_Text := 2 }, bSeekToEnd)
  else if c = 'b' then .ok ({ m_AccessType with m_Text := 0 }, bSeekToEnd)
  else .error (Stop.asserted "false")

/-- The loop `for (int i = 0; pMode[i]; i++)` of `stream::open`; it ends at the first
zero character of `pMode`. -/
def open_.modeLoop : List Char → access_types → Bool → Except Stop (access_types × Bool)
  | [], m_AccessType, bSeekToEnd => .ok (m_AccessType, bSeekToEnd)
  | c :: rest, m_AccessType, bSeekToEnd =>
    if c = Char.ofNat 0 then .ok (m_AccessType, bSeekToEnd)
    else
      match open_.modeChar c m_AccessType bSeekToEnd with
      | .error e => .error e
      | .ok (a, b) => open_.modeLoop rest a b

/-- The mode part of `stream::open`: `bSeekToEnd = false; m_AccessType.m_Value = 0;`
followed by the loop over `pMode`. `before` is the value `m_AccessType` held. -/
def open_.parseMode (_before : access_types) (pMode : List Char) :
    Except Stop (access_types × Bool) :=
  open_.modeLoop pMode access_types.zero false

/-- The characters the `switch` of `stream::open` has a case for. -/
def open_.recognised (c : Char) : Prop := c ∈ ['a', 'r', '+', 'w', 'c', '@', 't', 'T', 'b']

/-- Membership in the list of recognised characters is decidable. -/
instance open_.recognised.instDecidable (c : Char) : Decidable (open_.recognised c) := by
  unfold open_.recognised
  exact inferInstance

/-! ## A backend that records what it is given -/

/-- A backend whose state is the list of byte runs passed to `Write`, in call order;
every operation succeeds and `Read` leaves the view as it is. -/
def recorder : device_instance (List (List Byte)) where
  open_ := fun s _ _ => .ok (xerr.ok, s)
  close := fun s => s
  Read := fun s View => .ok (xerr.ok, View, s)
  Write := fun s View => .ok (xerr.ok, s ++ [View])
  Seek := fun s _ _ => .ok (xerr.ok, s)
  Tell := fun s => .ok (xerr.ok, 0, s)
  Flush := fun s => s
  Length := fun s => .ok (xerr.ok, 0, s)
  isEOF := fun s => .ok (false, s)
  Synchronize := fun s _ => .ok (xerr.ok, s)
  AsyncAbort := fun s => s

/-! ## stream::getC and a caller reading character by character -/

/-- The function `stream::getC(C)`: a `ReadRaw` into the one-byte local `x`; `past` is the
memory that follows `x`. Returns the new value of `C`. -/
def stream.getC {σ : Type} (I : device_instance σ) (m_AccessType : access_types) (fuel : Nat)
    (past : Nat → Byte) (s : σ) (C : Nat) : Except Stop (xerr × Nat × σ) :=
  match stream.ReadRaw I m_AccessType fuel past s [0] with
  | .error e => .error e
  | .ok (e, x, s1) => if e ≠ xerr.ok then .ok (e, C, s1) else .ok (xerr.ok, x.getD 0 0, s1)

/-- A caller that reads `n` characters with `n` calls of `getC` and stops at the first
error; it returns the characters read so far. -/
def stream.getC_n {σ : Type} (I : device_instance σ) (m_AccessType : access_types) (fuel : Nat)
    (past : Nat → Byte) : Nat → σ → Except Stop (xerr × List Nat × σ)
  | 0, s => .ok (xerr.ok, [], s)
  | n + 1, s =>
    match stream.getC I m_AccessType fuel past s 0 with
    | .error e => .error e
    | .ok (e, C, s1) =>
      if e ≠ xerr.ok then .ok (e, [], s1)
      else
        match stream.getC_n I m_AccessType fuel past n s1 with
        | .error e => .error e
        | .ok (e2, rest, s2) => .ok (e2, C :: rest, s2)

/-- A caller that writes `b` in one `WriteRaw` call to the RAM file `f`, seeks to offset 0
and reads back with one `ReadRaw` call into a zeroed buffer of `n` bytes followed in
memory by `past`. Returns the `xerr` of the first failing step, or else of the read,
with the buffer. -/
def ram_write_seek_read (m_AccessType : access_types) (f : memfile) (b : List Byte) (n : Nat)
    (past : Nat → Byte) : Except Stop (xerr × List Byte) :=
  match stream.WriteRaw memfile.ops m_AccessType f b with
  | .error e => .error e
  | .ok (e1, f1) =>
    if e1 ≠ xerr.ok then .ok (e1, [])
    else
      match memfile.ops.Seek f1 seek_mode.SKM_ORIGIN 0 with
      | .error e => .error e
      | .ok (e2, f2) =>
        if e2 ≠ xerr.ok then .ok (e2, [])
        else
          match stream.ReadRaw memfile.ops m_AccessType (n + 1) past f2 (List.replicate n 0) with
          | .error e => .error e
          | .ok (e3, View, _) => .ok (e3, View)

/-- The same caller reading back `n` characters with `getC`. -/
def ram_write_seek_getC (m_AccessType : access_types) (f : memfile) (b : List Byte) (n : Nat)
    (past : Nat → Byte) : Except Stop (xerr × List Nat) :=
  match stream.WriteRaw memfile.ops m_AccessType f b with
  | .error e => .error e
  | .ok (e1, f1) =>
    if e1 ≠ xerr.ok then .ok (e1, [])
    else
      match memfile.ops.Seek f1 seek_mode.SKM_ORIGIN 0 with
      | .error e => .error e
      | .ok (e2, f2) =>
        if e2 ≠ xerr.ok then .ok (e2, [])
        else
          match stream.getC_n memfile.ops m_AccessType 1 past n f2 with
          | .error e => .error e
          | .ok (e3, cs, _) => .ok (e3, cs)

/-- Equality of results is decidable when it is on both sides. -/
instance Except.instDecEq {ε α : Type} [DecidableEq ε] [DecidableEq α] :
    DecidableEq (Except ε α) := fun a b =>
  match a, b with
  | .ok x, .ok y => if h : x = y then isTrue (by rw [h]) else isFalse (fun h1 => h (by cases h1; rfl))
  | .error x, .error y =>
    if h : x = y then isTrue (by rw [h]) else isFalse (fun h1 => h (by cases h1; rfl))
  | .ok _, .error _ => isFalse (fun h => by cases h)
  | .error _, .ok _ => isFalse (fun h => by cases h)

/-! ## Reference functions of the text translation -/

/-- The text `b` with every LF replaced by CR, LF. -/
def crlf_expand : List Byte → List Byte
  | [] => []
  | b :: rest => if b = 10 then 13 :: 10 :: crlf_expand rest else b :: crlf_expand rest

/-- The text with every CR, LF pair replaced by LF. -/
def crlf_normalise : List Byte → List Byte
  | [] => []
  | [b] => [b]
  | a :: b :: rest =>
    if a = 13 ∧ b = 10 then 10 :: crlf_normalise rest else a :: crlf_normalise (b :: rest)

/-- Whether the text contains a CR immediately followed by a LF. -/
def has_crlf : List Byte → Bool
  | [] => false
  | [_] => false
  | a :: b :: rest => (a == 13 && b == 10) || has_crlf (b :: rest)


/-! ## The logical content of a RAM file -/

/-- The byte stored at offset `p` of the block list. -/
def memfile.byteAt (f : memfile) (p : Nat) : Byte :=
  (f.m_lBlock.getD (p / block_size_v) block.fresh) (p % block_size_v)

/-- The logical content of the file: the bytes at offsets `0 .. m_EOF - 1`. -/
def memfile.content (f : memfile) : List Byte := (List.range f.m_EOF.toNat).map f.byteAt

/-- The file with its cursor moved to `x` and nothing else changed. -/
def memfile.moveTo (f : memfile) (x : Int) : memfile := { f with m_SeekPosition := x }

/-- The state of a RAM file between calls: the cursor lies in `[0, m_EOF]`, the file is
and the block list are far from the 64-bit limit, and the block list is empty (a cleared
file) or longer than the content. -/
def memfile.WF (f : memfile) : Prop :=
  0 ≤ f.m_SeekPosition ∧ f.m_SeekPosition ≤ f.m_EOF ∧ f.m_EOF < 2 ^ 62 ∧
    f.m_lBlock.length * block_size_v < 2 ^ 63 ∧
    (f.m_EOF < ((f.m_lBlock.length * block_size_v : Nat) : Int) ∨ (f.m_lBlock = [] ∧ f.m_EOF = 0))

/-! ## Reference functions of the access mode -/

/-- Whether the character selects a text kind. -/
def open_.isTextChar (c : Char) : Bool := c = 't' || c = 'T' || c = 'b'

/-- The text kind a text character selects: 1 for `t`, 2 for `T`, 0 for `b`. -/
def open_.kindOf (c : Char) : Nat := if c = 't' then 1 else if c = 'T' then 2 else 0

/-- The text kind selected by the last of the characters `t`, `T`, `b` of the mode string,
and `dflt` when it has none of them. -/
def open_.lastText (pMode : List Char) (dflt : Nat) : Nat :=
  (pMode.reverse.find? open_.isTextChar).elim dflt open_.kindOf

/-! ## The partition of the pool -/

/-- The links from `h` run through exactly the slots of `l`, in order, and end at `-1`. -/
def device.Chain (d : device) : Int → List Nat → Prop
  | h, [] => h = -1
  | h, i :: rest => h = (i : Int) ∧ i < pool_size ∧ device.Chain d (d.link i) rest

/-- The pool `d` is partitioned into the free list `free` and the allocated slots `out`:
the links from the head run through `free`, no slot occurs twice, every slot is in exactly
one of the two lists, and the allocated slots are those whose link is `-2`. -/
def device.Part (d : device) (out free : List Nat) : Prop :=
  d.m_FileHPool.length = pool_size ∧ d.Chain d.m_iEmptyHead.m_iNext free ∧ free.Nodup ∧
    out.Nodup ∧ (∀ i ∈ out, i < pool_size) ∧ (∀ i, i < pool_size → (i ∈ free ↔ i ∉ out)) ∧
    (∀ i, i < pool_size → (d.link i = -2 ↔ i ∈ out))

/-- A caller that calls `createInstance` `n` times in a row and stops at the first
tripped assertion; it returns the slots in the order they were handed out. -/
def device.createN : Nat → device → Except Stop (List Nat × device)
  | 0, d => .ok ([], d)
  | n + 1, d =>
    match d.createInstance with
    | .error e => .error e
    | .ok (i, d1) =>
      match device.createN n d1 with
      | .error e => .error e
      | .ok (l, d2) => .ok (i :: l, d2)

/-! ## The registry and the path resolver -/

/-- What the resolver takes from the host: `std::filesystem::current_path()`,
`std::filesystem::temp_directory_path()` and `std::towlower`. -/
structure host where
  current_path : wstring
  temp_directory_path : wstring
  towlower : Char → Char

/-- The structure `device::registration`, with the device it points to held in place.
The list `s_pHead` of the source is a `List (registration δ)`, the most recently
registered device first; a pointer to a registration is its index in that list. -/
structure registration (δ : Type) where
  m_pTitle : List Char := []
  m_pNames : List Char
  m_pDevice : δ
  s_nInUse : Int := 0
  s_nHaveUsed : Int := 0

/-- The zero character that ends a C string. -/
def NUL : Char := Char.ofNat 0

/-- The character `pName[p]` of the C string `names`: its terminator at `p = names.length`. -/
def cstr (names : List Char) (p : Nat) : Char := names.getD p NUL

/-- The loop `for (i = 0; i < end; i++) if (Path[i] == L':') ...` of
`fromPathGetDeviceName` and `SetTheFinalPathAndFindDevice`: the index of the first `':'`. -/
def firstColon : wstring → Option Nat
  | [] => none
  | c :: rest => if c = ':' then some 0 else (firstColon rest).map (· + 1)

/-- The function `getTempPath`. -/
def getTempPath (H : host) : wstring := H.temp_directory_path

/-- The function `to_lower`. -/
def to_lower (H : host) (input : wstring) : wstring := input.map H.towlower

/-- A `std::wstring_view` as `fromPathGetDeviceName` returns it: `live chars` when the
characters it views are alive at the return (they belong to the argument, or the view is
empty), `dangling size` when it views `size` characters of the temporary
`std::filesystem::current_path()`, which is destroyed before the caller has the view. -/
inductive returned_view where
  | live (chars : wstring)
  | dangling (size : Nat)
  deriving DecidableEq, Repr

/-- What the caller holds after `return fromPathGetDeviceName(current_path().c_str())`:
the view the inner call returned, whose characters, when it has any, were those of the
temporary. -/
def returned_view.afterTemporary : returned_view → returned_view
  | returned_view.live chars =>
    if chars.isEmpty then returned_view.live [] else returned_view.dangling chars.length
  | returned_view.dangling size => returned_view.dangling size

/-- The function `fromPathGetDeviceName`; the recursive call on the working directory
consumes one unit of fuel, and the view it returns points into the temporary
`current_path()` of the `return` statement. -/
def fromPathGetDeviceName (H : host) : Nat → wstring → Except Stop returned_view
  | 0, _ => .error Stop.fuel
  | fuel + 1, Path =>
    if Path.isEmpty then .ok (returned_view.live [])
    else
      match firstColon Path with
      | some i => .ok (returned_view.live (Path.take (i + 1)))
      | none =>
        match fromPathGetDeviceName H fuel H.current_path with
        | .error e => .error e
        | .ok v => .ok v.afterTemporary

/-- The argument `fromPathGetDeviceName(FinalPath)` of `to_lower` in
`SetTheFinalPathAndFindDevice`: `to_lower` reads the characters of the view. -/
def SetTheFinalPath.deviceName (H : host) (fuel : Nat) (FinalPath : wstring) :
    Except Stop wstring :=
  match fromPathGetDeviceName H fuel FinalPath with
  | .error e => .error e
  | .ok (returned_view.live n) => .ok (to_lower H n)
  | .ok (returned_view.dangling _) =>
    .error (Stop.undefined "to_lower reads a view of the destroyed temporary current_path()")

/-- The loop `while (*pName != ':' && *pName) pName++` of the matching loop; the first
argument counts the characters left. -/
def findDevice.skip (names : List Char) : Nat → Nat → Nat
  | 0, p => p
  | k + 1, p => if cstr names p ≠ ':' ∧ cstr names p ≠ NUL then findDevice.skip names k (p + 1) else p

/-- The inner `for` loop of the matching loop on one device: `i` indexes
`DeviceNameLower`, `p` is the offset of `pName` in `m_pNames`; `true` stands for
`return pDevice`, `false` for leaving the loop. Every iteration advances `pName`, so
`names.length + 1` units of fuel are enough. -/
def findDevice.inner (DeviceNameLower names : List Char) : Nat → Nat → Nat → Except Stop Bool
  | 0, _, _ => .error Stop.fuel
  | fuel + 1, i, p =>
    if ¬ (i ≠ DeviceNameLower.length ∧ cstr names p ≠ NUL) then .ok false
    else if DeviceNameLower.getD i NUL = ':' ∧ cstr names p = ':' then .ok true
    else if cstr names p ≠ DeviceNameLower.getD i NUL then
      let p1 := findDevice.skip names (names.length - p) p
      if cstr names p1 = ':' then
        if cstr names (p1 + 1) ≠ NUL then findDevice.inner DeviceNameLower names fuel 0 (p1 + 1)
        else .ok false
      else if i + 1 = DeviceNameLower.length then .ok false
      else .error (Stop.undefined "pName is read after the terminator of m_pNames")
    else findDevice.inner DeviceNameLower names fuel (i + 1) (p + 1)

/-- The loop `for (pDevice = s_pHead; pDevice; pDevice = pDevice->m_pNext)`; `k` is the
index of the first registration of the list. -/
def findDevice {δ : Type} (DeviceNameLower : List Char) :
    List (registration δ) → Nat → Except Stop (Option Nat)
  | [], _ => .ok none
  | r :: rest, k =>
    match findDevice.inner DeviceNameLower r.m_pNames (r.m_pNames.length + 1) 0 0 with
    | .error e => .error e
    | .ok true => .ok (some k)
    | .ok false => findDevice DeviceNameLower rest (k + 1)

/-- The first part of `SetTheFinalPathAndFindDevice`: the final path and the lower-case
device name. `sizeof("temp")` is 5 and `sizeof("temp:")` is 6. -/
def SetTheFinalPath (H : host) (fuel : Nat) (Path : wstring) : Except Stop (wstring × wstring) :=
  let DeviceName : wstring :=
    match firstColon Path with
    | some i => Path.take (i + 1)
    | none => []
  let DeviceNameLower := if DeviceName.isEmpty = false then to_lower H DeviceName else []
  if DeviceName.isEmpty then
    let FinalPath := H.current_path ++ ['/', '/'] ++ Path
    match SetTheFinalPath.deviceName H fuel FinalPath with
    | .error e => .error e
    | .ok n => .ok (FinalPath, n)
  else if DeviceNameLower.length = 5 ∧ DeviceNameLower.take (6 - 1) = ['t', 'e', 'm', 'p', ':'] then
    if 6 > Path.length then .error (Stop.thrown "std::out_of_range from Path.substr")
    else
      let FinalPath := getTempPath H ++ Path.drop 6
      match SetTheFinalPath.deviceName H fuel FinalPath with
      | .error e => .error e
      | .ok n => .ok (FinalPath, n)
  else .ok (Path, DeviceNameLower)

/-- The function `SetTheFinalPathAndFindDevice`: the final path and the index of the
registration found, `none` for `nullptr`. -/
def SetTheFinalPathAndFindDevice {δ : Type} (H : host) (fuel : Nat)
    (s_pHead : List (registration δ)) (Path : wstring) : Except Stop (wstring × Option Nat) :=
  match SetTheFinalPath H fuel Path with
  | .error e => .error e
  | .ok (FinalPath, DeviceNameLower) =>
    if DeviceNameLower.isEmpty then .error (Stop.asserted "DeviceNameLower.empty() == false")
    else
      match findDevice DeviceNameLower s_pHead 0 with
      | .error e => .error e
      | .ok r => .ok (FinalPath, r)

/-- The first registration of the list that satisfies `p`, counted from `k`. -/
def first_match {δ : Type} (p : registration δ → Bool) : List (registration δ) → Nat → Option Nat
  | [], _ => none
  | r :: rest, k => if p r then some k else first_match p rest (k + 1)

/-- The C string `names` is the concatenation of the names `ns`, each followed by `':'`;
no name is empty or holds a `':'` or a zero character. -/
def names_wf (names : List Char) (ns : List (List Char)) : Prop :=
  names = (ns.map (· ++ [':'])).flatten ∧ ∀ n ∈ ns, n ≠ [] ∧ ':' ∉ n ∧ NUL ∉ n

/-! ## stream::open and stream::close over the registry -/

/-- The virtual interface `xfile::device` over the state `δ` of a device. A pointer to an
instance is the index of its pool slot; `inst` is the interface of the instances, `slot`
reads the instance behind a pointer and `setSlot` writes it back. -/
structure device_vtable (δ σ : Type) where
  Init : δ → δ
  Kill : δ → Except Stop δ
  createInstance : δ → Except Stop (Nat × δ)
  destroyInstance : δ → Nat → Except Stop δ
  inst : device_instance σ
  slot : δ → Nat → σ
  setSlot : δ → Nat → σ → δ

/-- A call of `stream::open` or `stream::close` into a device or one of its instances:
`reg` is the index of the registration, `h` the instance. -/
inductive device_call where
  | Init (reg : Nat)
  | createInstance (reg h : Nat)
  | destroyInstance (reg h : Nat)
  | open_ (reg h : Nat)
  | close (reg h : Nat)
  | Seek (reg h : Nat)
  deriving DecidableEq, Repr

/-- The data members of `xfile::stream`; the default value is the stream after its
constructor. -/
structure stream where
  m_pInstance : Option Nat := none
  m_pDeviceReg : Option Nat := none
  m_AccessType : access_types := {}
  m_FilePath : wstring := []
  deriving DecidableEq, Repr

/-- The function `stream::isOpen`. -/
def stream.isOpen (s : stream) : Bool := s.m_pInstance.isSome

/-- The registry with its devices, and the calls made into the devices so far, oldest
first. -/
structure world (δ : Type) where
  s_pHead : List (registration δ)
  calls : List device_call := []

/-- The statements `if (s_nHaveUsed == 0) { ++s_nHaveUsed; m_pDevice->Init(nullptr); }` and
`++s_nInUse` of `stream::open` on the registration with index `k`. -/
def open_.firstUse {δ σ : Type} (V : device_vtable δ σ) (k : Nat) (r : registration δ) :
    registration δ × List device_call :=
  if r.s_nHaveUsed = 0 then
    ({ r with s_nHaveUsed := r.s_nHaveUsed + 1, m_pDevice := V.Init r.m_pDevice,
              s_nInUse := r.s_nInUse + 1 }, [device_call.Init k])
  else ({ r with s_nInUse := r.s_nInUse + 1 }, [])

/-- The loop `while (s_nHaveUsed.load() == 0) {}` run without another thread: it returns
the number of its iterations, and never returns when the counter is zero. -/
def open_.busyWait (s_nHaveUsed : Int) : Except Stop Nat :=
  if s_nHaveUsed = 0 then .error Stop.fuel else .ok 0

/-- The statements `destroyInstance(*m_pInstance); m_pInstance = nullptr; --s_nInUse;` of
the two failure paths of `stream::open`. -/
def open_.release {δ σ : Type} (V : device_vtable δ σ) (k h : Nat) (r : registration δ)
    (d : δ) : Except Stop (registration δ × List device_call) :=
  match V.destroyInstance d h with
  | .error e => .error e
  | .ok d1 =>
    .ok ({ r with m_pDevice := d1, s_nInUse := r.s_nInUse - 1 }, [device_call.destroyInstance k h])

/-- The part of `stream::open` that follows the mode loop, on the registration `r` with
index `k`: first use, `createInstance`, the backend `open` and the seek to the end. It
returns the `xerr`, the new `m_pInstance`, the registration and the calls made. -/
def open_.onDevice {δ σ : Type} (V : device_vtable δ σ) (k : Nat) (r : registration δ)
    (m_FilePath : wstring) (m_AccessType : access_types) (bSeekToEnd : Bool) :
    Except Stop (xerr × Option Nat × registration δ × List device_call) :=
  match open_.firstUse V k r with
  | (r1, c1) =>
    match open_.busyWait r1.s_nHaveUsed with
    | .error e => .error e
    | .ok _ =>
      match V.createInstance r1.m_pDevice with
      | .error e => .error e
      | .ok (h, d1) =>
        match V.inst.open_ (V.slot d1 h) m_FilePath m_AccessType with
        | .error e => .error e
        | .ok (e1, f1) =>
          let d2 := V.setSlot d1 h f1
          let c2 := c1 ++ [device_call.createInstance k h, device_call.open_ k h]
          if e1 ≠ xerr.ok then
            match open_.release V k h r1 d2 with
            | .error e => .error e
            | .ok (r2, c3) => .ok (e1, none, r2, c2 ++ c3)
          else if m_AccessType.m_bCreate = false ∧ bSeekToEnd = true then
            match V.inst.Seek f1 seek_mode.SKM_END 0 with
            | .error e => .error e
            | .ok (e2, f2) =>
              let d3 := V.setSlot d2 h f2
              if e2 ≠ xerr.ok then
                match open_.release V k h r1 d3 with
                | .error e => .error e
                | .ok (r2, c3) =>
                  .ok (xerr.create state.INCOMPLETE
                    "Able to open the file but failed to seek at the end of the file",
                    none, r2, c2 ++ [device_call.Seek k h] ++ c3)
              else .ok (xerr.ok, some h, { r1 with m_pDevice := d3 }, c2 ++ [device_call.Seek k h])
          else .ok (xerr.ok, some h, { r1 with m_pDevice := d2 }, c2)

/-- The function `stream::open(Path, pMode)` on the stream `s`. -/
def stream.open_ {δ σ : Type} (H : host) (V : device_vtable δ σ) (fuel : Nat) (w : world δ)
    (s : stream) (Path : wstring) (pMode : List Char) : Except Stop (xerr × stream × world δ) :=
  if s.m_pInstance ≠ none then .error (Stop.asserted "m_pInstance == nullptr")
  else
    match SetTheFinalPathAndFindDevice H fuel w.s_pHead Path with
    | .error e => .error e
    | .ok (FinalPath, reg) =>
      let s1 := { s with m_FilePath := FinalPath, m_pDeviceReg := reg }
      match reg with
      | none => .ok (xerr.create state.DEVICE_FAILURE "Unable to find requested device", s1, w)
      | some k =>
        match open_.parseMode s1.m_AccessType pMode with
        | .error e => .error e
        | .ok (acc, bSeekToEnd) =>
          match w.s_pHead[k]? with
          | none => .error (Stop.undefined "m_pDeviceReg points outside the registry")
          | some r =>
            match open_.onDevice V k r FinalPath acc bSeekToEnd with
            | .error e => .error e
            | .ok (e, m_pInstance, r1, c) =>
              .ok (e, { s1 with m_AccessType := acc, m_pInstance := m_pInstance },
                { s_pHead := w.s_pHead.set k r1, calls := w.calls ++ c })

/-- The function `stream::close` on the stream `s`. -/
def stream.close {δ σ : Type} (V : device_vtable δ σ) (w : world δ) (s : stream) :
    Except Stop (stream × world δ) :=
  match s.m_pInstance with
  | none => .ok ({}, w)
  | some h =>
    match s.m_pDeviceReg with
    | none => .error (Stop.undefined "m_pDeviceReg is null")
    | some k =>
      match w.s_pHead[k]? with
      | none => .error (Stop.undefined "m_pDeviceReg points outside the registry")
      | some r =>
        let d1 := V.setSlot r.m_pDevice h (V.inst.close (V.slot r.m_pDevice h))
        match V.destroyInstance d1 h with
        | .error e => .error e
        | .ok d2 =>
          .ok ({}, { s_pHead := w.s_pHead.set k { r with m_pDevice := d2, s_nInUse := r.s_nInUse - 1 },
                     calls := w.calls ++ [device_call.close k h, device_call.destroyInstance k h] })

/-- The function `device::Kill` of the RAM and the Windows device. -/
def device.Kill (d : device) : Except Stop device :=
  if (List.range d.m_FileHPool.length).any (fun i => d.link i = -2) then
    .error (Stop.asserted "false")
  else .ok d

/-- A device made of the pool of the source and of instances with the interface `I`:
`Init` does nothing, `createInstance` and `destroyInstance` are those of the pool. With
`memfile.ops` it is the RAM device. -/
def device.vtable (I : device_instance memfile) : device_vtable device memfile where
  Init := fun d => d
  Kill := device.Kill
  createInstance := device.createInstance
  destroyInstance := device.destroyInstance
  inst := I
  slot := fun d h => d.m_FileHPool.getD h {}
  setSlot := fun d h f => { d with m_FileHPool := d.m_FileHPool.set h f }

/-- The instance interface leaves the pool link `m_iNext` of the instance alone. -/
def device_instance.keepsLink (I : device_instance memfile) : Prop :=
  (∀ f p a e f1, I.open_ f p a = .ok (e, f1) → f1.m_iNext = f.m_iNext) ∧
  (∀ f, (I.close f).m_iNext = f.m_iNext) ∧
  (∀ f m p e f1, I.Seek f m p = .ok (e, f1) → f1.m_iNext = f.m_iNext)

/-- The number of pool slots marked allocated. -/
def device.allocated (d : device) : Nat :=
  ((List.range pool_size).filter (fun i => d.link i = -2)).length

/-- The number of streams that own an instance of the device with registration `k`. -/
def owners (streams : List stream) (k : Nat) : Nat :=
  streams.countP (fun s => s.m_pDeviceReg = some k ∧ s.m_pInstance.isSome)

/-- The registry and the streams of a program. -/
structure program (δ : Type) where
  w : world δ
  streams : List stream

/-- The program states reached by sequential `stream::open` and `stream::close` calls that
return, from a start in which every device is as constructed (`d0`), no counter has been
touched, no call has been made and every stream is as constructed. -/
inductive program.Reach {δ σ : Type} (H : host) (V : device_vtable δ σ) (d0 : δ) :
    program δ → Prop
  | init (P : program δ) :
      (∀ r ∈ P.w.s_pHead, r.m_pDevice = d0 ∧ r.s_nInUse = 0 ∧ r.s_nHaveUsed = 0) →
      P.w.calls = [] → (∀ s ∈ P.streams, s = {}) → program.Reach H V d0 P
  | open_ (P : program δ) (j fuel : Nat) (s s1 : stream) (Path : wstring) (pMode : List Char)
      (e : xerr) (w1 : world δ) :
      program.Reach H V d0 P → P.streams[j]? = some s →
      stream.open_ H V fuel P.w s Path pMode = .ok (e, s1, w1) →
      program.Reach H V d0 { w := w1, streams := P.streams.set j s1 }
  | close (P : program δ) (j : Nat) (s s1 : stream) (w1 : world δ) :
      program.Reach H V d0 P → P.streams[j]? = some s →
      stream.close V P.w s = .ok (s1, w1) →
      program.Reach H V d0 { w := w1, streams := P.streams.set j s1 }

/-- A backend like the RAM one whose `open` reports that the file cannot be opened. -/
def failing_open : device_instance memfile :=
  { memfile.ops with
    open_ := fun f _ _ =>
      .ok (xerr.create state.OPENING_FILE "The system cannot find the file specified.", f) }

/-- A backend like the RAM one whose `Seek` reports a failure. -/
def failing_seek : device_instance memfile :=
  { memfile.ops with Seek := fun f _ _ => .ok (xerr.create state.FAILURE "Seek failed", f) }

/-- A host with a Windows working directory and temp directory, and the lower-casing of
the letters A to Z. -/
def host.sample : host :=
  { current_path := "C:\\work".toList, temp_directory_path := "C:\\Temp\\".toList,
    towlower := Char.toLower }

/-- The names of a name list: the runs of characters that end at a `':'`. -/
def name_list.go : List Char → List Char → List (List Char)
  | [], _ => []
  | c :: rest, cur => if c = ':' then cur.reverse :: name_list.go rest [] else name_list.go rest (c :: cur)

/-- The names of the name list `m_pNames`. -/
def name_list (names : List Char) : List (List Char) := name_list.go names []

/-- The registry of the source as a list: the RAM device is registered after the Windows
device, so it comes first. -/
def registry.sample : List (registration device) :=
  [ { m_pTitle := "RamDevice".toList, m_pNames := "ram:".toList, m_pDevice := device.mk0 },
    { m_pTitle := "WindowsDevice".toList,
      m_pNames := "a:b:c:d:e:f:g:h:i:j:k:l:m:n:o:p:q:r:s:t:u:v:w:x:y:z:".toList,
      m_pDevice := device.mk0 } ]

/-- The instance `createInstance` hands out when slot `i` is at the head of the free list:
the slot as it was, with its link set to `-2`. -/
def device.acquired (d : device) (i : Nat) : memfile :=
  { d.m_FileHPool.getD i {} with m_iNext := -2 }

/-- The constructed pool after one `createInstance`: slot 0 is allocated and the head of
the free list is slot 1. -/
def device.mk1 : device :=
  ({ device.mk0 with m_iEmptyHead :=
      { m_iNext := device.mk0.link 0,
        m_Counter := (device.mk0.m_iEmptyHead.m_Counter + 1) % 2 ^ 16 } } : device).setLink 0 (-2)

/-- A registry that holds the RAM device alone, with one instance handed out. -/
def registry.busy : List (registration device) :=
  [ { m_pTitle := "RamDevice".toList, m_pNames := "ram:".toList, m_pDevice := device.mk1,
      s_nInUse := 1, s_nHaveUsed := 1 } ]

/-- Test data in the size of the unit test: 12980 bytes (3245 values of 32 bits), more than
one block of 10240 bytes. -/
def test_data : List Byte := (List.range 12980).map (fun i => i % 256)

/-- A RAM file of 5 zero bytes held in one block, with the cursor at offset 2. -/
def memfile.sample5 : memfile := { m_lBlock := [block.fresh], m_SeekPosition := 2, m_EOF := 5 }

/-! ## The inline helpers of the stream -/

/-- The loop `for (int i = 0; i < Count; i++)` of `stream::putC`: one `WriteRaw` of the
one-byte local `C` per iteration, left at the first error; the first argument counts the
iterations left. -/
def putC.loop {σ : Type} (I : device_instance σ) (m_AccessType : access_types) (C : Byte) :
    Nat → σ → Except Stop (xerr × σ)
  | 0, s => .ok (xerr.ok, s)
  | k + 1, s =>
    match stream.WriteRaw I m_AccessType s [C] with
    | .error e => .error e
    | .ok (e, s1) => if e ≠ xerr.ok then .ok (e, s1) else putC.loop I m_AccessType C k s1

/-- The function `stream::putC(aC, Count, bUpdatePos)`; the declaration gives `Count = 1`
and `bUpdatePos = true` as defaults. -/
def stream.putC {σ : Type} (I : device_instance σ) (m_AccessType : access_types) (s : σ)
    (aC : Int) (Count : Int) (bUpdatePos : Bool) : Except Stop (xerr × σ) :=
  if ¬ (aC ≥ 0 ∧ aC ≤ 255) then .error (Stop.asserted "aC >= 0 && aC <= 0xff")
  else if Count = 0 then .ok (xerr.ok, s)
  else if bUpdatePos = false then
    match I.Tell s with
    | .error e => .error e
    | .ok (e0, iPos, s0) =>
      if e0 ≠ xerr.ok then .ok (e0, s0)
      else
        match putC.loop I m_AccessType aC.toNat Count.toNat s0 with
        | .error e => .error e
        | .ok (e1, s1) =>
          if e1 ≠ xerr.ok then .ok (e1, s1) else I.Seek s1 seek_mode.SKM_ORIGIN iPos
  else putC.loop I m_AccessType aC.toNat Count.toNat s

/-- The function `stream::WriteString(std::string_view)`: the body goes to the backend
`Write` directly, and in binary mode `putC(0)` follows. -/
def stream.WriteString {σ : Type} (I : device_instance σ) (m_AccessType : access_types) (s : σ)
    (String : List Byte) : Except Stop (xerr × σ) :=
  match I.Write s String with
  | .error e => .error e
  | .ok (e, s1) =>
    if e ≠ xerr.ok then .ok (e, s1)
    else if m_AccessType.m_Text = 0 then
      match stream.putC I m_AccessType s1 0 1 true with
      | .error e => .error e
      | .ok (e2, s2) => if e2 ≠ xerr.ok then .ok (e2, s2) else .ok (xerr.ok, s2)
    else .ok (xerr.ok, s1)

/-- The function `stream::ReadString(std::string&)`: `getC` until a zero character; the
first argument bounds the iterations of `while (true)`, `fuel` is that of `ReadRaw`. -/
def stream.ReadString {σ : Type} (I : device_instance σ) (m_AccessType : access_types)
    (fuel : Nat) (past : Nat → Byte) : Nat → σ → List Byte → Except Stop (xerr × List Byte × σ)
  | 0, _, _ => .error Stop.fuel
  | n + 1, s, Buffer =>
    match stream.getC I m_AccessType fuel past s 0 with
    | .error e => .error e
    | .ok (e, c, s1) =>
      if e ≠ xerr.ok then .ok (e, Buffer, s1)
      else if c = 0 then .ok (xerr.ok, Buffer, s1)
      else stream.ReadString I m_AccessType fuel past n s1 (Buffer ++ [c])

/-- The function `stream::Synchronize(bBlock)`. -/
def stream.Synchronize {σ : Type} (I : device_instance σ) (m_AccessType : access_types) (s : σ)
    (bBlock : Bool) : Except Stop (xerr × σ) :=
  if m_AccessType.m_bASync = false then
    match I.isEOF s with
    | .error e => .error e
    | .ok (b, s1) =>
      if b then .ok (xerr.create state.UNEXPECTED_EOF "Synchronize end of file", s1)
      else .ok (xerr.ok, s1)
  else I.Synchronize s bBlock

/-- A call into a backend instance, as a backend that records its calls sees it. -/
inductive backend_call where
  | Read (size : Nat)
  | Write (View : List Byte)
  | Seek (Mode : seek_mode) (Pos : Nat)
  | Tell
  | Flush
  | other
  deriving DecidableEq, Repr

/-- A backend whose state is the list of the calls made into it, oldest first; every
operation succeeds and `Read` leaves the view as it is. -/
def tracer : device_instance (List backend_call) where
  open_ := fun s _ _ => .ok (xerr.ok, s ++ [backend_call.other])
  close := fun s => s ++ [backend_call.other]
  Read := fun s View => .ok (xerr.ok, View, s ++ [backend_call.Read View.length])
  Write := fun s View => .ok (xerr.ok, s ++ [backend_call.Write View])
  Seek := fun s Mode Pos => .ok (xerr.ok, s ++ [backend_call.Seek Mode Pos])
  Tell := fun s => .ok (xerr.ok, 0, s ++ [backend_call.Tell])
  Flush := fun s => s ++ [backend_call.Flush]
  Length := fun s => .ok (xerr.ok, 0, s ++ [backend_call.other])
  isEOF := fun s => .ok (false, s ++ [backend_call.other])
  Synchronize := fun s _ => .ok (xerr.ok, s ++ [backend_call.other])
  AsyncAbort := fun s => s ++ [backend_call.other]

/-- The bytes of the header string of the unit test, `"TestFileHeader"`. -/
def header_bytes : List Byte := "TestFileHeader".toList.map Char.toNat

/-- A caller that calls `stream::Synchronize` once for every entry of `blocks`, in a row,
and stops at the first error. -/
def stream.Synchronize_all {σ : Type} (I : device_instance σ) (m_AccessType : access_types) :
    List Bool → σ → Except Stop (xerr × σ)
  | [], s => .ok (xerr.ok, s)
  | b :: rest, s =>
    match stream.Synchronize I m_AccessType s b with
    | .error e => .error e
    | .ok (e, s1) =>
      if e ≠ xerr.ok then .ok (e, s1) else stream.Synchronize_all I m_AccessType rest s1

/-- A caller on an empty RAM file opened without `@`: `WriteRaw` of 5 bytes, `Seek` to the
origin, `ReadRaw` of 10 bytes in binary mode, then `Synchronize(bBlock)`. It returns the
`xerr` of the read and of `Synchronize`, and the cursor and EOF at the end. -/
def ram_overread_sync (bBlock : Bool) : Except Stop (xerr × xerr × Int × Int) :=
  match stream.WriteRaw memfile.ops {} {} [1, 2, 3, 4, 5] with
  | .error e => .error e
  | .ok (_, f1) =>
    match memfile.ops.Seek f1 seek_mode.SKM_ORIGIN 0 with
    | .error e => .error e
    | .ok (_, f2) =>
      match stream.ReadRaw memfile.ops {} 1 (fun _ => 0) f2 (List.replicate 10 0) with
      | .error e => .error e
      | .ok (e3, _, f3) =>
        match stream.Synchronize memfile.ops {} f3 bBlock with
        | .error e => .error e
        | .ok (e4, f4) => .ok (e3, e4, f4.m_SeekPosition, f4.m_EOF)

/-- A RAM file of the 5 bytes CR, B, A, CR, LF in one block, with the cursor at offset 0. -/
def memfile.sampleCR : memfile :=
  { m_lBlock := [fun j => [13, 66, 65, 13, 10].getD j 0], m_SeekPosition := 0, m_EOF := 5 }

/-- A RAM file as `memfile::clear` leaves it, whatever its pool link: no blocks, cursor 0
and EOF 0. -/
def memfile.cleared (f : memfile) : Prop :=
  f.m_lBlock = [] ∧ f.m_SeekPosition = 0 ∧ f.m_EOF = 0

/-- The instance in slot `i` of the pool `m_FileHPool`. -/
def device.file (d : device) (i : Nat) : memfile := d.m_FileHPool.getD i {}

/-- The program states reached on RAM devices by sequential `stream::open`,
`stream::WriteRaw`, `Seek` and `stream::close` calls that return, from a start in which
every device is as constructed, no counter has been touched and every stream is as
constructed. A write or a seek acts on the instance the stream owns. -/
inductive program.ReachRam (H : host) : program device → Prop
  | init (P : program device) :
      (∀ r ∈ P.w.s_pHead, r.m_pDevice = device.mk0 ∧ r.s_nInUse = 0 ∧ r.s_nHaveUsed = 0) →
      P.w.calls = [] → (∀ s ∈ P.streams, s = {}) → program.ReachRam H P
  | open_ (P : program device) (j fuel : Nat) (s s1 : stream) (Path : wstring)
      (pMode : List Char) (e : xerr) (w1 : world device) :
      program.ReachRam H P → P.streams[j]? = some s →
      stream.open_ H (device.vtable memfile.ops) fuel P.w s Path pMode = .ok (e, s1, w1) →
      program.ReachRam H { w := w1, streams := P.streams.set j s1 }
  | close (P : program device) (j : Nat) (s s1 : stream) (w1 : world device) :
      program.ReachRam H P → P.streams[j]? = some s →
      stream.close (device.vtable memfile.ops) P.w s = .ok (s1, w1) →
      program.ReachRam H { w := w1, streams := P.streams.set j s1 }
  | write (P : program device) (j h k : Nat) (s : stream) (r : registration device)
      (View : List Byte) (e : xerr) (f1 : memfile) :
      program.ReachRam H P → P.streams[j]? = some s → s.m_pInstance = some h →
      s.m_pDeviceReg = some k → P.w.s_pHead[k]? = some r →
      stream.WriteRaw memfile.ops s.m_AccessType (r.m_pDevice.file h) View = .ok (e, f1) →
      program.ReachRam H
        { w := { s_pHead := P.w.s_pHead.set k
                   { r with m_pDevice := (device.vtable memfile.ops).setSlot r.m_pDevice h f1 },
                 calls := P.w.calls },
          streams := P.streams }
  | seek (P : program device) (j h k : Nat) (s : stream) (r : registration device)
      (Mode : seek_mode) (Pos : Nat) (e : xerr) (f1 : memfile) :
      program.ReachRam H P → P.streams[j]? = some s → s.m_pInstance = some h →
      s.m_pDeviceReg = some k → P.w.s_pHead[k]? = some r →
      memfile.Seek (r.m_pDevice.file h) Mode Pos = .ok (e, f1) →
      program.ReachRam H
        { w := { s_pHead := P.w.s_pHead.set k
                   { r with m_pDevice := (device.vtable memfile.ops).setSlot r.m_pDevice h f1 },
                 calls := P.w.calls },
          streams := P.streams }

/-- The streams own instances of the device with registration `k` only among the slots
`out`, and no two streams own the same instance of it. -/
def owns (streams : List stream) (k : Nat) (out : List Nat) : Prop :=
  (∀ (j : Nat) (s : stream) (h : Nat), streams[j]? = some s → s.m_pInstance = some h →
    s.m_pDeviceReg = some k → h ∈ out) ∧
  ∀ (j j2 : Nat) (s s2 : stream) (h : Nat), j ≠ j2 → streams[j]? = some s →
    streams[j2]? = some s2 →
    s.m_pInstance = some h → s2.m_pInstance = some h → s.m_pDeviceReg = some k →
    s2.m_pDeviceReg ≠ some k

/-- A host with a POSIX working directory and temp directory: neither holds a `':'`. -/
def host.posix : host :=
  { current_path := "/home/user".toList, temp_directory_path := "/tmp".toList,
    towlower := Char.toLower }

/-- A host with a Windows working directory and a temp directory on a network share,
which holds no `':'`. -/
def host.share : host :=
  { current_path := "C:\\work".toList, temp_directory_path := "\\\\srv\\tmp\\".toList,
    towlower := Char.toLower }

/-! ## The Windows device: synchronisation and seek of `small_file` -/

/-- The fields of the Win32 structure `OVERLAPPED` that the backend reads and writes. -/
structure OVERLAPPED where
  Offset : Nat := 0
  OffsetHigh : Nat := 0
  deriving DecidableEq, Repr

/-- The structure `small_file` of the Windows device. -/
structure small_file where
  m_Handle : Nat := 0
  m_Overlapped : OVERLAPPED := {}
  m_AccessTypes : access_types := {}
  m_iNext : Int := 0
  m_bIOPending : Bool := false
  m_LastError : wstring := []

/-- A call into Win32, as the operating system sees it. -/
inductive win_call where
  | HasOverlappedIoCompleted
  | GetOverlappedResult (bWait : Bool)
  | GetLastError
  | FormatMessage
  | SetFilePointerEx (liDistanceToMove : Int) (dwMoveMethod : Nat)
  deriving DecidableEq, Repr

/-- What `small_file` takes from Win32, over a state `ω` of the operating system:
`GetOverlappedResult` and `SetFilePointerEx` return their result and the next state,
`SetFilePointerEx` also the new file pointer. -/
structure win32 (ω : Type) where
  HasOverlappedIoCompleted : ω → OVERLAPPED → Bool
  GetOverlappedResult : ω → Nat → OVERLAPPED → Bool → Bool × ω
  GetLastError : ω → Nat
  FormatMessage : ω → Nat → wstring
  SetFilePointerEx : ω → Nat → Int → Nat → Nat × Nat × ω

/-- The operating system as the backend runs against it: its state and the calls made
into it so far, oldest first. -/
structure os (ω : Type) where
  sys : ω
  calls : List win_call := []

/-- The Win32 error code `ERROR_HANDLE_EOF`. -/
def ERROR_HANDLE_EOF : Nat := 38

/-- The Win32 error code `ERROR_IO_INCOMPLETE`. -/
def ERROR_IO_INCOMPLETE : Nat := 996

/-- The Win32 error code `ERROR_OPERATION_ABORTED`. -/
def ERROR_OPERATION_ABORTED : Nat := 995

/-- The Win32 constant `INVALID_SET_FILE_POINTER`. -/
def INVALID_SET_FILE_POINTER : Nat := 2 ^ 32 - 1

/-- The function `small_file::CollectErrorAsString`. -/
def small_file.CollectErrorAsString {ω : Type} (W : win32 ω) (f : small_file) (o : os ω) :
    small_file × os ω :=
  ({ f with m_LastError := W.FormatMessage o.sys (W.GetLastError o.sys) },
    { o with calls := o.calls ++ [win_call.GetLastError, win_call.FormatMessage] })

/-- The function `small_file::Synchronize(bBlock)`. -/
def small_file.Synchronize {ω : Type} (W : win32 ω) (f : small_file) (o : os ω) (bBlock : Bool) :
    xerr × small_file × os ω :=
  let o0 : os ω :=
    if f.m_bIOPending = true then { o with calls := o.calls ++ [win_call.HasOverlappedIoCompleted] }
    else o
  if f.m_bIOPending = true ∧ W.HasOverlappedIoCompleted o.sys f.m_Overlapped = true then
    (xerr.ok, { f with m_bIOPending := false }, o0)
  else
    let Result := W.GetOverlappedResult o0.sys f.m_Handle f.m_Overlapped bBlock
    let o1 : os ω := { sys := Result.2, calls := o0.calls ++ [win_call.GetOverlappedResult bBlock] }
    if Result.1 ≠ false then (xerr.ok, { f with m_bIOPending := false }, o1)
    else
      let dwError := W.GetLastError o1.sys
      let o2 : os ω := { o1 with calls := o1.calls ++ [win_call.GetLastError] }
      if dwError = ERROR_HANDLE_EOF then
        (xerr.create state.UNEXPECTED_EOF "Unexpected end of file", f, o2)
      else if dwError = ERROR_IO_INCOMPLETE then
        (xerr.create state.INCOMPLETE "Incomplete", { f with m_bIOPending := true }, o2)
      else if dwError = ERROR_OPERATION_ABORTED then
        (xerr.create state.FAILURE "Operation Aborted",
          (small_file.CollectErrorAsString W f o2).1, (small_file.CollectErrorAsString W f o2).2)
      else
        (xerr.create state.FAILURE "Unknown Error",
          (small_file.CollectErrorAsString W f o2).1, (small_file.CollectErrorAsString W f o2).2)

/-- The lambda `HardwareMode` of `small_file::Seek`: `FILE_BEGIN` is 0, `FILE_CURRENT` 1
and `FILE_END` 2. -/
def Seek.HardwareMode (Mode : seek_mode) : Nat :=
  match Mode with
  | seek_mode.SKM_CURENT => 1
  | seek_mode.SKM_END => 2
  | seek_mode.SKM_ORIGIN => 0

/-- The second part of `small_file::Seek`, from `// Seek!` on. -/
def small_file.Seek.move {ω : Type} (W : win32 ω) (f : small_file) (o : os ω) (Mode : seek_mode)
    (Pos : Nat) : xerr × small_file × os ω :=
  let Position := i64 Pos
  let r := W.SetFilePointerEx o.sys f.m_Handle Position (Seek.HardwareMode Mode)
  let Result := r.1
  let NewFilePointer := r.2.1
  let o1 : os ω :=
    { sys := r.2.2,
      calls := o.calls ++ [win_call.SetFilePointerEx Position (Seek.HardwareMode Mode)] }
  if Result = 0 then
    if Result = INVALID_SET_FILE_POINTER then
      (xerr.create state.FAILURE "Fail to seek, INVALID_SET_FILE_POINTER",
        (small_file.CollectErrorAsString W f o1).1, (small_file.CollectErrorAsString W f o1).2)
    else
      (xerr.create state.FAILURE "Fail to seek",
        (small_file.CollectErrorAsString W f o1).1, (small_file.CollectErrorAsString W f o1).2)
  else
    (xerr.ok,
      { f with m_Overlapped :=
        { Offset := NewFilePointer % 2 ^ 32, OffsetHigh := NewFilePointer / 2 ^ 32 % 2 ^ 32 } },
      o1)

/-- The function `small_file::Seek(Mode, Pos)`. -/
def small_file.Seek {ω : Type} (W : win32 ω) (f : small_file) (o : os ω) (Mode : seek_mode)
    (Pos : Nat) : xerr × small_file × os ω :=
  if f.m_AccessTypes.m_bASync = true then
    if (small_file.Synchronize W f o true).1 ≠ xerr.ok then small_file.Synchronize W f o true
    else
      small_file.Seek.move W (small_file.Synchronize W f o true).2.1
        (small_file.Synchronize W f o true).2.2 Mode Pos
  else small_file.Seek.move W f o Mode Pos

/-- An operating system whose state says whether the transfer in flight was cancelled:
`GetOverlappedResult` succeeds unless it was, and then the last error is
`ERROR_OPERATION_ABORTED`; `SetFilePointerEx` moves the pointer to the distance given. -/
def win32.sample : win32 Bool where
  HasOverlappedIoCompleted := fun _ _ => false
  GetOverlappedResult := fun s _ _ _ => (!s, s)
  GetLastError := fun s => if s then ERROR_OPERATION_ABORTED else 0
  FormatMessage := fun _ _ => "The I/O operation has been aborted".toList
  SetFilePointerEx := fun s _ Position _ => (1, Position.toNat, s)

/-- A caller on the RAM file CR, B, A, CR, LF (EOF 5) with the cursor at offset 2: one
`Read` into a buffer of `n` bytes that hold 9, then `Seek(current, 0)`. It returns the
`xerr` of the read, the buffer, the cursor and the EOF after the read, and what the seek
does. -/
def ram_read_across_EOF (n : Nat) :
    Except Stop (xerr × List Byte × Int × Int × Except Stop xerr) :=
  match memfile.Read (memfile.sampleCR.moveTo 2) (List.replicate n 9) with
  | .error e => .error e
  | .ok (e, View, f1) =>
    .ok (e, View, f1.m_SeekPosition, f1.m_EOF,
      match memfile.Seek f1 seek_mode.SKM_CURENT 0 with
      | .error s => .error s
      | .ok (e2, _) => .ok e2)

/-- A caller that reads the whole RAM file CR, B, A, CR, LF from offset 0 with one `Read`
of 5 bytes, then asks `isEOF`, then reads one more byte. It returns the `xerr` of the
first read, the cursor and the EOF after it, the answer of `isEOF` and the `xerr` of the
second read. -/
def ram_read_all_isEOF : Except Stop (xerr × Int × Int × Bool × xerr) :=
  match memfile.Read memfile.sampleCR (List.replicate 5 0) with
  | .error e => .error e
  | .ok (e, _, f1) =>
    match memfile.isEOF f1 with
    | .error s => .error s
    | .ok (b, f2) =>
      match memfile.Read f2 [0] with
      | .error s => .error s
      | .ok (e2, _, _) => .ok (e, f2.m_SeekPosition, f2.m_EOF, b, e2)

/-- The function `stream::ToMemory(View)`. The span `{ View.data(), Length }` handed to
`ReadRaw` starts at the view and has the length of the file: when the file is longer than
the view it covers the `Length - View.size()` bytes of memory that follow the view, given
by `past`. The result holds the bytes of that span after the call. -/
def stream.ToMemory {σ : Type} (I : device_instance σ) (m_AccessType : access_types)
    (fuel : Nat) (past : Nat → Byte) (s : σ) (View : List Byte) :
    Except Stop (xerr × List Byte × σ) :=
  match I.Seek s seek_mode.SKM_ORIGIN 0 with
  | .error e => .error e
  | .ok (e, s1) =>
    if e ≠ xerr.ok then .ok (e, View, s1)
    else
      match I.Length s1 with
      | .error e => .error e
      | .ok (e2, Length, s2) =>
        if e2 ≠ xerr.ok then .ok (e2, View, s2)
        else if Length < View.length then
          .ok (xerr.create state.FAILURE "Buffer is too small", View, s2)
        else
          stream.ReadRaw I m_AccessType fuel (fun j => past (j + (Length - View.length))) s2
            (View ++ (List.range (Length - View.length)).map past)

/-- The loop `for (i = 0; i < Length; i += 256)` of `stream::ToFile`, with `Length`
already lowered by the buffer size: each iteration reads the whole 512-byte buffer from
the source and writes it to the destination. The first argument counts the iterations
left; the result holds the value of `i` at the end. -/
def ToFile.loop {σ τ : Type} (I : device_instance σ) (J : device_instance τ)
    (m_AccessType File_AccessType : access_types) (fuel : Nat) (past : Nat → Byte) (Length : Nat) :
    Nat → Nat → List Byte → σ → τ → Except Stop (xerr × Nat × List Byte × σ × τ)
  | 0, _, _, _, _ => .error Stop.fuel
  | k + 1, i, Buffer, s, t =>
    if ¬ (i < Length) then .ok (xerr.ok, i, Buffer, s, t)
    else
      match stream.ReadRaw I m_AccessType fuel past s Buffer with
      | .error e => .error e
      | .ok (e, Buffer1, s1) =>
        if e ≠ xerr.ok then .ok (e, i, Buffer1, s1, t)
        else
          match stream.WriteRaw J File_AccessType t Buffer1 with
          | .error e => .error e
          | .ok (e2, t1) =>
            if e2 ≠ xerr.ok then .ok (e2, i, Buffer1, s1, t1)
            else ToFile.loop I J m_AccessType File_AccessType fuel past Length k
              ((i + 256) % 2 ^ 64) Buffer1 s1 t1

/-- The function `stream::ToFile(File)`: `s` is the instance of the source stream, `t` that
of `File`; `Buffer` is the content of the local 512-byte array and `past` the memory
after it. The local `i` is given a value only by the `for` statement, which runs when the
file is longer than the buffer; otherwise `Length - i` reads it without a value. -/
def stream.ToFile {σ τ : Type} (I : device_instance σ) (J : device_instance τ)
    (m_AccessType File_AccessType : access_types) (fuel : Nat) (past : Nat → Byte)
    (Buffer : List Byte) (s : σ) (t : τ) : Except Stop (xerr × σ × τ) :=
  match I.Seek s seek_mode.SKM_ORIGIN 0 with
  | .error e => .error e
  | .ok (e, s1) =>
    if e ≠ xerr.ok then .ok (e, s1, t)
    else
      match I.Length s1 with
      | .error e => .error e
      | .ok (e2, Length, s2) =>
        if e2 ≠ xerr.ok then .ok (e2, s2, t)
        else if Length > Buffer.length then
          match ToFile.loop I J m_AccessType File_AccessType fuel past (Length - Buffer.length)
              ((Length - Buffer.length) / 256 + 2) 0 Buffer s2 t with
          | .error e => .error e
          | .ok (e3, i, Buffer1, s3, t3) =>
            if e3 ≠ xerr.ok then .ok (e3, s3, t3)
            else
              let S := (Length + 2 ^ 64 - i) % 2 ^ 64
              if S ≠ 0 then
                if S > Buffer1.length then
                  .error (Stop.undefined "FinalView is longer than Buffer")
                else
                  match stream.ReadRaw I m_AccessType fuel (after (Buffer1.drop S) past) s3
                      (Buffer1.take S) with
                  | .error e => .error e
                  | .ok (e4, FinalView, s4) =>
                    if e4 ≠ xerr.ok then .ok (e4, s4, t3)
                    else
                      match stream.WriteRaw J File_AccessType t3 FinalView with
                      | .error e => .error e
                      | .ok (e5, t5) => .ok (e5, s4, t5)
              else .ok (xerr.ok, s3, t3)
        else .error (Stop.undefined "i is read before it has a value")

/-- The local array `Buffer` of `ToFile`: 512 bytes, here with the value 0 (the source
leaves them without a value; every byte is written by a read before it is used). -/
def ToFile.Buffer : List Byte := List.replicate 512 0

/-- A caller of `ToMemory` on the RAM file CR, B, A, CR, LF (length 5) in binary mode, with
a view of `S` bytes that hold 9, followed in memory by bytes that hold 7. It returns the
`xerr`, the bytes of the span after the call and the cursor. -/
def ram_ToMemory (S : Nat) : Except Stop (xerr × List Byte × Int) :=
  match stream.ToMemory memfile.ops {} 1 (fun _ => 7) memfile.sampleCR (List.replicate S 9) with
  | .error e => .error e
  | .ok (e, View, f1) => .ok (e, View, f1.m_SeekPosition)

/-- A RAM file of `L` bytes in one block, the byte at offset `j` being `j % 251`; the
block holds `j % 251` beyond the EOF too. -/
def memfile.ramp (L : Nat) : memfile :=
  { m_lBlock := [fun j => j % 251], m_SeekPosition := 0, m_EOF := L }

/-- The conversion `static_cast<int>` of an unsigned 64-bit value: its low 32 bits read as
a signed number. -/
def i32 (n : Nat) : Int :=
  if n % 2 ^ 32 < 2 ^ 31 then ((n % 2 ^ 32 : Nat) : Int) else ((n % 2 ^ 32 : Nat) : Int) - 2 ^ 32

/-- The function `details::Align(Address, AlignTo)`:
`(Address + (size_t(AlignTo) - 1)) & size_t(-AlignTo)` in unsigned 64-bit arithmetic. -/
def details.Align (Address : Nat) (AlignTo : Int) : Nat :=
  ((Address + (u64 AlignTo + 2 ^ 64 - 1) % 2 ^ 64) % 2 ^ 64) &&& u64 (-AlignTo)

/-- The function `stream::AlignPutC(C, Count, Aligment, bUpdatePos)`; the declaration gives
`Count = 0`, `Aligment = 4` and `bUpdatePos = true` as defaults. -/
def stream.AlignPutC {σ : Type} (I : device_instance σ) (m_AccessType : access_types) (s : σ)
    (C : Int) (Count : Int) (Aligment : Int) (bUpdatePos : Bool) : Except Stop (xerr × σ) :=
  if ¬ (C ≥ 0 ∧ C ≤ 255) then .error (Stop.asserted "C >= 0 && C <= 0xff")
  else
    match I.Tell s with
    | .error e => .error e
    | .ok (e, Pos, s1) =>
      if e ≠ xerr.ok then .ok (e, s1)
      else
        let PutCount :=
          i32 ((details.Align ((u64 Count + Pos) % 2 ^ 64) Aligment + 2 ^ 64 - Pos) % 2 ^ 64)
        stream.putC I m_AccessType s1 C PutCount bUpdatePos

/-- A caller of `AlignPutC` on an empty RAM file in binary mode. It returns the `xerr`, and
the cursor and the EOF at the end. -/
def ram_AlignPutC (C Count Aligment : Int) : Except Stop (xerr × Int × Int) :=
  match stream.AlignPutC memfile.ops {} {} C Count Aligment true with
  | .error e => .error e
  | .ok (e, f1) => .ok (e, f1.m_SeekPosition, f1.m_EOF)

/-- A RAM file of the 2 bytes A, CR in one block, with the cursor at offset 0. -/
def memfile.sampleACR : memfile :=
  { m_lBlock := [fun j => [65, 13].getD j 0], m_SeekPosition := 0, m_EOF := 2 }

/-! ## Lemmas on the narrow write translation -/


theorem crlf_expand_append_noLF (seg rest : List Byte) (h : ∀ x ∈ seg, x ≠ 10) :
    crlf_expand (seg ++ rest) = seg ++ crlf_expand rest := by
  induction seg with
  | nil => rfl
  | cons a t ih =>
    have ha : a ≠ 10 := h a (List.mem_cons_self _ _)
    have ht : ∀ x ∈ t, x ≠ 10 := fun x hx => h x (List.mem_cons_of_mem _ hx)
    simp [crlf_expand, ha, ih ht]

theorem crlf_expand_noLF (seg : List Byte) (h : ∀ x ∈ seg, x ≠ 10) : crlf_expand seg = seg := by
  have := crlf_expand_append_noLF seg [] h
  simpa [crlf_expand] using this

theorem crlf_expand_length (b : List Byte) : (crlf_expand b).length = b.length + b.count 10 := by
  induction b with
  | nil => rfl
  | cons a t ih =>
    by_cases ha : a = 10
    · subst ha
      simp [crlf_expand, ih]
      omega
    · have : (10 : Nat) ≠ a := fun h => ha h.symm
      simp [crlf_expand, ha, ih, List.count_cons, this]
      omega

theorem drop_eq_span_append (View : List Byte) (iLast i : Nat) (h : iLast ≤ i) :
    View.drop iLast = span View iLast (i - iLast) ++ View.drop i := by
  unfold span
  have : View.drop i = (View.drop iLast).drop (i - iLast) := by
    rw [List.drop_drop]; congr 1; omega
  rw [this, List.take_append_drop]

theorem drop_eq_getD_cons (View : List Byte) (i : Nat) (h : i < View.length) :
    View.drop i = View.getD i 0 :: View.drop (i + 1) := by
  rw [List.drop_eq_getElem_cons h]
  simp [List.getD_eq_getElem?_getD, List.getElem?_eq_getElem h]

theorem span_succ (View : List Byte) (iLast i : Nat) (h : iLast ≤ i) (hi : i < View.length) :
    span View iLast (i + 1 - iLast) = span View iLast (i - iLast) ++ [View.getD i 0] := by
  unfold span
  have e : i + 1 - iLast = (i - iLast) + 1 := by omega
  rw [e, List.take_succ]
  congr 1
  have : (List.drop iLast View)[i - iLast]? = some (View.getD i 0) := by
    rw [List.getElem?_drop]
    have : iLast + (i - iLast) = i := by omega
    rw [this, List.getElem?_eq_getElem hi]
    simp [List.getD_eq_getElem?_getD, List.getElem?_eq_getElem hi]
  rw [this]; rfl

theorem le_bytes_Data16 : le_bytes 2 WriteRaw.Data16 = [13, 10] := by decide

theorem narrowLoop_log {σ : Type} (I : device_instance σ) (log : σ → List Byte) (Inv : σ → Prop)
    (N : Nat)
    (hW : ∀ s v, Inv s → (log s).length + v.length ≤ N →
      ∃ s1, I.Write s v = .ok (xerr.ok, s1) ∧ Inv s1 ∧ log s1 = log s ++ v)
    (View : List Byte) :
    ∀ (k i iLast : Nat) (s : σ), i + k = View.length → iLast ≤ i →
      (∀ x ∈ span View iLast (i - iLast), x ≠ 10) → Inv s →
      (log s).length + (crlf_expand (View.drop iLast)).length ≤ N →
      ∃ iLast1 s1, WriteRaw.narrowLoop I View k i iLast s = .ok (xerr.ok, iLast1, s1) ∧ Inv s1 ∧
        iLast1 ≤ View.length ∧
        log s1 ++ View.drop iLast1 = log s ++ crlf_expand (View.drop iLast) := by
  intro k
  induction k with
  | zero =>
    intro i iLast s hi hle hseg hs _
    refine ⟨iLast, s, rfl, hs, by omega, ?_⟩
    have e := drop_eq_span_append View iLast i hle
    have hd : View.drop i = [] := List.drop_eq_nil_of_le (by omega)
    rw [hd, List.append_nil] at e
    rw [e, crlf_expand_noLF _ hseg]
  | succ k ih =>
    intro i iLast s hi hle hseg hs hN
    have hil : i < View.length := by omega
    have e := drop_eq_span_append View iLast i hle
    have e2 := drop_eq_getD_cons View i hil
    rw [WriteRaw.narrowLoop]
    by_cases hx : View.getD i 0 = 10
    · have hexp : crlf_expand (View.drop iLast) =
          span View iLast (i - iLast) ++ (13 :: 10 :: crlf_expand (View.drop (i + 1))) := by
        rw [e, crlf_expand_append_noLF _ _ hseg, e2, hx]
        simp [crlf_expand]
      rw [hexp] at hN
      simp only [List.length_append, List.length_cons] at hN
      obtain ⟨s1, hw1, hs1, hl1⟩ := hW s (span View iLast (i - iLast)) hs (by omega)
      obtain ⟨s2, hw2, hs2, hl2⟩ := hW s1 [13, 10] hs1 (by
        rw [hl1]; simp only [List.length_append, List.length_cons, List.length_nil]; omega)
      obtain ⟨iLast1, s3, h3, hs3, hle3, hl3⟩ := ih (i + 1) (i + 1) s2 (by omega) (le_refl _)
        (by simp [span]) hs2 (by
          rw [hl2, hl1]; simp only [List.length_append, List.length_cons, List.length_nil]; omega)
      refine ⟨iLast1, s3, ?_, hs3, hle3, ?_⟩
      · simp only [hx, if_true, hw1, le_bytes_Data16, hw2, ne_eq, not_true_eq_false, if_false, h3]
      · rw [hl3, hl2, hl1, hexp]; simp
    · have hseg2 : ∀ x ∈ span View iLast (i + 1 - iLast), x ≠ 10 := by
        rw [span_succ View iLast i hle hil]
        intro x hxm
        rcases List.mem_append.1 hxm with h | h
        · exact hseg x h
        · rw [List.mem_singleton] at h; rw [h]; exact hx
      obtain ⟨iLast1, s3, h3, hs3, hle3, hl3⟩ := ih (i + 1) iLast s (by omega) (by omega) hseg2 hs hN
      exact ⟨iLast1, s3, by simp only [hx, if_false, h3], hs3, hle3, hl3⟩

theorem WriteRaw_narrow_log {σ : Type} (I : device_instance σ) (log : σ → List Byte)
    (Inv : σ → Prop) (N : Nat)
    (hW : ∀ s v, Inv s → (log s).length + v.length ≤ N →
      ∃ s1, I.Write s v = .ok (xerr.ok, s1) ∧ Inv s1 ∧ log s1 = log s ++ v)
    (hF : ∀ s, Inv s → Inv (I.Flush s) ∧ log (I.Flush s) = log s)
    (acc : access_types) (ht : acc.m_Text = 1) (s : σ) (b : List Byte) (hb : b ≠ [])
    (hs : Inv s) (hN : (log s).length + (crlf_expand b).length ≤ N) :
    ∃ s1, stream.WriteRaw I acc s b = .ok (xerr.ok, s1) ∧ Inv s1 ∧
      log s1 = log s ++ crlf_expand b := by
  obtain ⟨iLast, s1, hl, hs1, hle, hlog⟩ := narrowLoop_log I log Inv N hW b b.length 0 0 s
    (by omega) (le_refl _) (by simp [span]) hs (by simpa using hN)
  have hfin : ∀ t, Inv t → log t = log s ++ crlf_expand b →
      ∃ t1, WriteRaw.finish I acc t = .ok (xerr.ok, t1) ∧ Inv t1 ∧
        log t1 = log s ++ crlf_expand b := by
    intro t ht1 hlt
    unfold WriteRaw.finish
    by_cases hf : acc.m_bForceFlush = true
    · exact ⟨I.Flush t, by simp [hf], (hF t ht1).1, by rw [(hF t ht1).2, hlt]⟩
    · exact ⟨t, by simp [hf], ht1, hlt⟩
  have hne : b.isEmpty = false := by cases b <;> simp_all
  simp only [List.drop_zero] at hlog
  unfold stream.WriteRaw
  simp only [hne, ht, hl]
  by_cases hi : iLast = b.length
  · have : log s1 = log s ++ crlf_expand b := by
      rw [← hlog, hi, List.drop_length, List.append_nil]
    obtain ⟨t1, h1, h2, h3⟩ := hfin s1 hs1 this
    exact ⟨t1, by simp [hi, h1], h2, h3⟩
  · have hsp : span b iLast (b.length - iLast) = b.drop iLast := by
      unfold span; apply List.take_of_length_le; simp
    have hlen : (log s1).length + (b.drop iLast).length ≤ N := by
      have := congrArg List.length hlog
      simp only [List.length_append] at this
      omega
    obtain ⟨s2, hw, hs2, hl2⟩ := hW s1 (b.drop iLast) hs1 hlen
    obtain ⟨t1, h1, h2, h3⟩ := hfin s2 hs2 (by rw [hl2, hlog])
    exact ⟨t1, by simp [hi, hsp, hw, h1], h2, h3⟩


/-! ## Lemmas on the RAM file -/


theorem u64_of_nonneg (x : Int) (h0 : 0 ≤ x) (h1 : x < 2 ^ 64) : u64 x = x.toNat := by
  unfold u64
  rw [Int.emod_eq_of_lt h0 h1]

theorem u64_natCast (p : Nat) (h : p < 2 ^ 64) : u64 (p : Int) = p := by
  rw [u64_of_nonneg _ (by omega) (by omega)]; simp

theorem i64_of_lt (n : Nat) (h : n < 2 ^ 63) : i64 n = (n : Int) := by
  unfold i64
  have : n % 2 ^ 64 = n := Nat.mod_eq_of_lt (by omega)
  rw [this, if_pos h]

theorem byteAt_set (f : memfile) (idx off : Nat) (v : Byte) (hidx : idx < f.m_lBlock.length)
    (hoff : off < block_size_v) (x : Int) (q : Nat) :
    memfile.byteAt { f with
      m_lBlock := f.m_lBlock.set idx ((f.m_lBlock.getD idx block.fresh).set off v)
      m_SeekPosition := x } q =
    if q = idx * block_size_v + off then v else memfile.byteAt f q := by
  unfold memfile.byteAt
  simp only [List.getD_eq_getElem?_getD, List.getElem?_set]
  by_cases h1 : idx = q / block_size_v
  · subst h1
    simp only [if_true, hidx, Option.getD_some, block.set]
    by_cases h2 : q % block_size_v = off
    · have : q = q / block_size_v * block_size_v + off := by
        have := Nat.div_add_mod q block_size_v
        simp only [block_size_v] at *; omega
      simp [h2, ← this]
    · have : ¬ q = q / block_size_v * block_size_v + off := by
        have := Nat.div_add_mod q block_size_v
        simp only [block_size_v] at *; omega
      simp [h2, this]
  · have : ¬ q = idx * block_size_v + off := by
      intro hq; apply h1; subst hq
      simp only [block_size_v] at *; omega
    simp [h1, this]

theorem WriteLoop_spec (View : List Byte) :
    ∀ (k : Nat) (f : memfile) (idx off bo p : Nat), f.m_SeekPosition = (p : Int) →
      idx * block_size_v + off = p → off < block_size_v →
      p + k < f.m_lBlock.length * block_size_v →
      ∃ f1, memfile.WriteLoop View k f idx off bo = .ok (xerr.ok, f1) ∧
        f1.m_SeekPosition = ((p + k : Nat) : Int) ∧ f1.m_EOF = f.m_EOF ∧ f1.m_iNext = f.m_iNext ∧
        f1.m_lBlock.length = f.m_lBlock.length ∧
        ∀ q, f1.byteAt q =
          if p ≤ q ∧ q < p + k then View.getD (bo + (q - p)) 0 else f.byteAt q := by
  intro k
  induction k with
  | zero =>
    intro f idx off bo p hp _ _ _
    refine ⟨f, rfl, by simpa using hp, rfl, rfl, rfl, ?_⟩
    intro q
    have : ¬ (p ≤ q ∧ q < p + 0) := by omega
    rw [if_neg this]
  | succ k ih =>
    intro f idx off bo p hp hidx hoff hlen
    have hidxlt : idx < f.m_lBlock.length := by
      by_contra hc
      have : f.m_lBlock.length * block_size_v ≤ idx * block_size_v :=
        Nat.mul_le_mul_right _ (by omega)
      omega
    rw [memfile.WriteLoop]
    have hb := byteAt_set f idx off (View.getD bo 0) hidxlt hoff (f.m_SeekPosition + 1)
    generalize hf1 : ({ f with
      m_lBlock := f.m_lBlock.set idx ((f.m_lBlock.getD idx block.fresh).set off (View.getD bo 0))
      m_SeekPosition := f.m_SeekPosition + 1 } : memfile) = f1 at hb
    have hf1len : f1.m_lBlock.length = f.m_lBlock.length := by subst hf1; simp
    have hf1pos : f1.m_SeekPosition = ((p + 1 : Nat) : Int) := by subst hf1; simp [hp]
    have hf1eof : f1.m_EOF = f.m_EOF := by subst hf1; rfl
    have hf1nx : f1.m_iNext = f.m_iNext := by subst hf1; rfl
    have key : ∀ (idx1 off1 : Nat), idx1 * block_size_v + off1 = p + 1 → off1 < block_size_v →
        ∃ f2, memfile.WriteLoop View k f1 idx1 off1 (bo + 1) = .ok (xerr.ok, f2) ∧
        f2.m_SeekPosition = ((p + (k + 1) : Nat) : Int) ∧ f2.m_EOF = f.m_EOF ∧
        f2.m_iNext = f.m_iNext ∧ f2.m_lBlock.length = f.m_lBlock.length ∧
        ∀ q, f2.byteAt q =
          if p ≤ q ∧ q < p + (k + 1) then View.getD (bo + (q - p)) 0 else f.byteAt q := by
      intro idx1 off1 h1 h2
      obtain ⟨f2, e, e1, e2, e3, e4, e5⟩ := ih f1 idx1 off1 (bo + 1) (p + 1) hf1pos h1 h2
        (by rw [hf1len]; omega)
      refine ⟨f2, e, by rw [e1]; congr 1; omega, by rw [e2, hf1eof], by rw [e3, hf1nx],
        by rw [e4, hf1len], ?_⟩
      intro q
      rw [e5 q, hb q, hidx]
      by_cases hq : q = p
      · subst hq
        have : ¬ (q + 1 ≤ q ∧ q < q + 1 + k) := by omega
        simp [this]
      · by_cases hq2 : p + 1 ≤ q ∧ q < p + 1 + k
        · have h3 : p ≤ q ∧ q < p + (k + 1) := by omega
          have h4 : bo + 1 + (q - (p + 1)) = bo + (q - p) := by omega
          simp [hq2, h3, h4]
        · have h3 : ¬ (p ≤ q ∧ q < p + (k + 1)) := by omega
          simp [hq2, h3, hq]
    by_cases hwrap : off + 1 ≥ block_size_v
    · have hnext : idx + 1 < f1.m_lBlock.length := by
        rw [hf1len]
        by_contra hc
        have : f.m_lBlock.length * block_size_v ≤ (idx + 1) * block_size_v :=
          Nat.mul_le_mul_right _ (by omega)
        have e : (idx + 1) * block_size_v = idx * block_size_v + block_size_v := by ring
        omega
      obtain ⟨f2, e, rest⟩ := key (idx + 1) 0
        (by have e : (idx + 1) * block_size_v = idx * block_size_v + block_size_v := by ring
            omega) (by decide)
      exact ⟨f2, by simp only [hwrap, if_true, hnext, not_true_eq_false, if_false, e], rest⟩
    · obtain ⟨f2, e, rest⟩ := key idx (off + 1) (by omega) (by omega)
      exact ⟨f2, by simp only [hwrap, if_false, e], rest⟩

theorem getD_append_fresh (l : List block) (n i : Nat) :
    (l ++ List.replicate n block.fresh).getD i block.fresh = l.getD i block.fresh := by
  simp only [List.getD_eq_getElem?_getD]
  by_cases h : i < l.length
  · rw [List.getElem?_append_left h]
  · rw [List.getElem?_append_right (by omega), List.getElem?_replicate]
    rw [List.getElem?_eq_none (by omega)]
    split <;> rfl

theorem Write_post (f : memfile) (v : List Byte) (h0 : 0 ≤ f.m_SeekPosition)
    (hle : f.m_SeekPosition ≤ f.m_EOF) (hcap : f.m_lBlock.length * block_size_v < 2 ^ 63)
    (p e : Nat) (hp : f.m_SeekPosition = (p : Int)) (he : f.m_EOF = (e : Int))
    (hb : e + v.length < 2 ^ 62) :
    ∃ f1, memfile.Write f v = .ok (xerr.ok, f1) ∧ f1.WF ∧
      f1.m_SeekPosition = ((p + v.length : Nat) : Int) ∧
      f1.m_EOF = ((max e (p + v.length) : Nat) : Int) ∧ f1.m_iNext = f.m_iNext ∧
      ∀ q, f1.byteAt q =
        if p ≤ q ∧ q < p + v.length then v.getD (q - p) 0 else f.byteAt q := by
  have hpe : p ≤ e := by omega
  -- the file after the update of m_EOF and of the block list
  let len1 : Nat := if max e (p + v.length) ≥ f.m_lBlock.length * block_size_v
    then max e (p + v.length) / block_size_v + 1 else f.m_lBlock.length
  have hlen1 : max e (p + v.length) < len1 * block_size_v := by
    simp only [len1]
    split
    · have := Nat.div_add_mod (max e (p + v.length)) block_size_v
      have := Nat.mod_lt (max e (p + v.length)) (show block_size_v > 0 by decide)
      have e2 : (max e (p + v.length) / block_size_v + 1) * block_size_v =
        block_size_v * (max e (p + v.length) / block_size_v) + block_size_v := by ring
      omega
    · omega
  have hlen1ge : f.m_lBlock.length ≤ len1 := by
    simp only [len1]
    split
    · rename_i h
      by_contra hc
      have : (max e (p + v.length) / block_size_v + 1) * block_size_v ≤
          f.m_lBlock.length * block_size_v := Nat.mul_le_mul_right _ (by omega)
      have := Nat.div_add_mod (max e (p + v.length)) block_size_v
      have := Nat.mod_lt (max e (p + v.length)) (show block_size_v > 0 by decide)
      have e2 : (max e (p + v.length) / block_size_v + 1) * block_size_v =
        block_size_v * (max e (p + v.length) / block_size_v) + block_size_v := by ring
      omega
    · exact le_refl _
  let f2 : memfile := { f with
    m_EOF := ((max e (p + v.length) : Nat) : Int)
    m_lBlock := f.m_lBlock ++ List.replicate (len1 - f.m_lBlock.length) block.fresh }
  have hf2len : f2.m_lBlock.length = len1 := by simp [f2]; omega
  have hf2b : ∀ q, f2.byteAt q = f.byteAt q := by
    intro q; simp only [memfile.byteAt, f2, getD_append_fresh]
  obtain ⟨f3, hw, h1, h2, h3, h4, h5⟩ := WriteLoop_spec v v.length f2 (p / block_size_v)
    (p % block_size_v) 0 p hp (Nat.div_add_mod' p block_size_v)
    (Nat.mod_lt _ (by decide)) (by rw [hf2len]; omega)
  have hcap1 : len1 * block_size_v < 2 ^ 63 := by
    simp only [len1]
    split
    · have := Nat.div_add_mod' (max e (p + v.length)) block_size_v
      have e2 : (max e (p + v.length) / block_size_v + 1) * block_size_v =
        max e (p + v.length) / block_size_v * block_size_v + block_size_v := by ring
      simp only [block_size_v] at *
      omega
    · exact hcap
  refine ⟨f3, ?_, ⟨by rw [h1]; omega, by rw [h1, h2]; simp [f2], by rw [h2]; simp [f2]; omega,
    by rw [h4, hf2len]; exact hcap1,
    Or.inl (by rw [h2, h4, hf2len]; simp only [f2]; exact_mod_cast hlen1)⟩, h1,
    by rw [h2], by rw [h3], ?_⟩
  · have hu : u64 f.m_SeekPosition = p := by rw [hp]; exact u64_natCast p (by omega)
    have hi : i64 (p + v.length) = ((p + v.length : Nat) : Int) := i64_of_lt _ (by omega)
    have hf1 : memfile.Write.setEOF f v.length
        = { f with m_EOF := ((max e (p + v.length) : Nat) : Int) } := by
      unfold memfile.Write.setEOF
      simp only [hu, Nat.mod_eq_of_lt (show p + v.length < 2 ^ 64 by omega), hi, he]
      by_cases hc : (e : Int) < ((p + v.length : Nat) : Int)
      · rw [if_pos hc]; congr 2; omega
      · rw [if_neg hc]
        have : max e (p + v.length) = e := by omega
        rw [this, ← he]
    have hi2 : i64 (f.m_lBlock.length * block_size_v) = ((f.m_lBlock.length * block_size_v : Nat) : Int) :=
      i64_of_lt _ hcap
    have hu2 : u64 ((max e (p + v.length) : Nat) : Int) = max e (p + v.length) :=
      u64_natCast _ (by omega)
    have hf2 : memfile.Write.allocate (memfile.Write.setEOF f v.length) = f2 := by
      rw [hf1]
      unfold memfile.Write.allocate
      simp only [hi2, hu2]
      by_cases hc : ((max e (p + v.length) : Nat) : Int) ≥ ((f.m_lBlock.length * block_size_v : Nat) : Int)
      · rw [if_pos hc]
        have hc1 : max e (p + v.length) ≥ f.m_lBlock.length * block_size_v := by exact_mod_cast hc
        have hl : len1 = max e (p + v.length) / block_size_v + 1 := by simp only [len1]; rw [if_pos hc1]
        have : (max e (p + v.length) / block_size_v + 1 + 2 ^ 64 - f.m_lBlock.length) % 2 ^ 64
            = len1 - f.m_lBlock.length := by
          rw [← hl]
          have e3 : len1 + 2 ^ 64 - f.m_lBlock.length = (len1 - f.m_lBlock.length) + 2 ^ 64 := by omega
          rw [e3, Nat.add_mod_right]
          apply Nat.mod_eq_of_lt
          have : len1 * 1 ≤ len1 * block_size_v := Nat.mul_le_mul_left _ (by decide)
          omega
        simp only [this, f2]
      · rw [if_neg hc]
        have hc1 : ¬ max e (p + v.length) ≥ f.m_lBlock.length * block_size_v := by
          intro h; apply hc; exact_mod_cast h
        have hl : len1 = f.m_lBlock.length := by simp only [len1]; rw [if_neg hc1]
        simp only [f2, hl, Nat.sub_self, List.replicate_zero, List.append_nil]
    unfold memfile.Write
    simp only [hf2]
    have hu3 : u64 f2.m_SeekPosition = p := hu
    have hidx : p / block_size_v < f2.m_lBlock.length := by
      rw [hf2len]
      apply Nat.div_lt_of_lt_mul
      rw [Nat.mul_comm]; omega
    simp only [hu3, hidx, not_true_eq_false, if_false, hw]
  · intro q
    rw [h5 q, hf2b q]
    simp


theorem Write_spec (f : memfile) (v : List Byte) (hwf : f.WF) (p e : Nat)
    (hp : f.m_SeekPosition = (p : Int)) (he : f.m_EOF = (e : Int)) (hb : e + v.length < 2 ^ 62) :
    ∃ f1, memfile.Write f v = .ok (xerr.ok, f1) ∧ f1.WF ∧
      f1.m_SeekPosition = ((p + v.length : Nat) : Int) ∧
      f1.m_EOF = ((max e (p + v.length) : Nat) : Int) ∧ f1.m_iNext = f.m_iNext ∧
      ∀ q, f1.byteAt q =
        if p ≤ q ∧ q < p + v.length then v.getD (q - p) 0 else f.byteAt q :=
  Write_post f v hwf.1 hwf.2.1 hwf.2.2.2.1 p e hp he hb

/-! ## Lemmas on reading a RAM file back -/


theorem content_length (f : memfile) : f.content.length = f.m_EOF.toNat := by
  simp [memfile.content]

theorem Write_append (f : memfile) (v : List Byte) (hwf : f.WF)
    (hpos : f.m_SeekPosition = f.m_EOF) (hb : f.content.length + v.length < 2 ^ 62) :
    ∃ f1, memfile.Write f v = .ok (xerr.ok, f1) ∧ (f1.WF ∧ f1.m_SeekPosition = f1.m_EOF) ∧
      f1.content = f.content ++ v := by
  have h0 : 0 ≤ f.m_EOF := by have := hwf.1; omega
  obtain ⟨e, he⟩ := Int.eq_ofNat_of_zero_le h0
  rw [content_length, he] at hb
  simp only [Int.toNat_ofNat] at hb
  obtain ⟨f1, hw, hwf1, hp1, he1, _, hbyte⟩ := Write_spec f v hwf e e (by rw [hpos, he]) he hb
  have hmax : max e (e + v.length) = e + v.length := by omega
  rw [hmax] at he1
  refine ⟨f1, hw, ⟨hwf1, by rw [hp1, he1]⟩, ?_⟩
  unfold memfile.content
  rw [he1, he]
  simp only [Int.toNat_ofNat]
  rw [List.range_add, List.map_append]
  congr 1
  · apply List.map_congr_left
    intro q hq
    rw [hbyte q, if_neg]
    have := List.mem_range.1 hq
    omega
  · apply List.ext_getElem
    · simp
    · intro j h1 h2
      simp only [List.getElem_map, List.getElem_range]
      rw [hbyte, if_pos (by omega)]
      have : e + j - e = j := by omega
      rw [this]
      simp [List.getD_eq_getElem?_getD, List.getElem?_eq_getElem h2]

theorem WF_empty : ({} : memfile).WF := by
  refine ⟨le_refl _, le_refl _, by decide, by decide, Or.inr ⟨rfl, rfl⟩⟩

theorem WriteRaw_ram (acc : access_types) (ht : acc.m_Text = 1) (s : List Byte) (hs : s ≠ [])
    (hlen : (crlf_expand s).length < 2 ^ 62) :
    ∃ f1, stream.WriteRaw memfile.ops acc {} s = .ok (xerr.ok, f1) ∧
      (f1.WF ∧ f1.m_SeekPosition = f1.m_EOF) ∧ f1.content = crlf_expand s := by
  have h := WriteRaw_narrow_log memfile.ops memfile.content
    (fun f => f.WF ∧ f.m_SeekPosition = f.m_EOF) (2 ^ 62 - 1)
    (fun f v hf hb => Write_append f v hf.1 hf.2 (by omega))
    (fun f hf => ⟨hf, rfl⟩) acc ht {} s hs ⟨WF_empty, rfl⟩
    (by simp only [memfile.content]; simp; omega)
  obtain ⟨f1, h1, h2, h3⟩ := h
  refine ⟨f1, h1, h2, ?_⟩
  rw [h3]; simp [memfile.content]

theorem byteAt_content (f : memfile) (q : Nat) (hq : (q : Int) < f.m_EOF) :
    f.byteAt q = f.content.getD q 0 := by
  have hq2 : q < f.m_EOF.toNat := by omega
  simp [memfile.content, List.getD_eq_getElem?_getD, List.getElem?_range hq2, hq2]

theorem Read_one (f : memfile) (hwf : f.WF) (p : Nat) (hp : f.m_SeekPosition = (p : Int))
    (hlt : (p : Int) < f.m_EOF) (x : Byte) :
    memfile.Read f [x] = .ok (xerr.ok, [f.byteAt p], f.moveTo ((p + 1 : Nat) : Int)) := by
  obtain ⟨h0, hle, hb, hcap, hblk⟩ := hwf
  have hcapn : p < f.m_lBlock.length * block_size_v := by
    rcases hblk with h | ⟨_, h⟩
    · have : (p : Int) < ((f.m_lBlock.length * block_size_v : Nat) : Int) := by omega
      exact_mod_cast this
    · omega
  have hu : u64 f.m_SeekPosition = p := by rw [hp]; exact u64_natCast p (by omega)
  have hidx : p / block_size_v < f.m_lBlock.length := by
    apply Nat.div_lt_of_lt_mul; rw [Nat.mul_comm]; exact hcapn
  have hnwrap : ¬ (p % block_size_v + 1 ≥ block_size_v ∧ p / block_size_v + 1 ≥ f.m_lBlock.length) := by
    rintro ⟨h1, h2⟩
    have := Nat.div_add_mod' p block_size_v
    have : f.m_lBlock.length * block_size_v ≤ (p / block_size_v + 1) * block_size_v :=
      Nat.mul_le_mul_right _ h2
    have e : (p / block_size_v + 1) * block_size_v = p / block_size_v * block_size_v + block_size_v := by
      ring
    rcases hblk with h | ⟨_, h⟩
    · have : (p : Int) + 1 < ((f.m_lBlock.length * block_size_v : Nat) : Int) := by omega
      have : p + 1 < f.m_lBlock.length * block_size_v := by exact_mod_cast this
      omega
    · omega
  unfold memfile.Read
  have hge : ¬ f.m_SeekPosition ≥ f.m_EOF := by omega
  simp only [hge, if_false, hu, hidx, not_true_eq_false, List.length_singleton]
  rw [memfile.ReadLoop]
  have hset : ([x] : List Byte).set 0 ((f.m_lBlock.getD (p / block_size_v) block.fresh) (p % block_size_v))
      = [f.byteAt p] := rfl
  simp only [hset]
  have hpos : f.m_SeekPosition + 1 = ((p + 1 : Nat) : Int) := by rw [hp]; push_cast; ring
  by_cases hw : p % block_size_v + 1 ≥ block_size_v
  · have h2 : ¬ p / block_size_v + 1 ≥ f.m_lBlock.length := fun h => hnwrap ⟨hw, h⟩
    simp only [hw, if_true, h2, if_false, memfile.ReadLoop, hpos, memfile.moveTo]
  · simp only [hw, if_false, memfile.ReadLoop, hpos, memfile.moveTo]

theorem Seek_origin_zero (f : memfile) (hwf : f.WF) :
    memfile.Seek f seek_mode.SKM_ORIGIN 0 = .ok (xerr.ok, f.moveTo 0) := by
  have : (0 : Int) ≤ f.m_EOF := by have := hwf.1; have := hwf.2.1; omega
  have hi : i64 0 = 0 := i64_of_lt 0 (by omega)
  have hc : (0 : Int) ≤ f.m_EOF ∧ (0 : Int) ≥ 0 := ⟨this, le_refl _⟩
  show memfile.seekCheck { f with m_SeekPosition := i64 0 } = _
  rw [hi]
  unfold memfile.seekCheck
  rw [if_pos hc]; rfl

theorem Seek_back_one (f : memfile) (p : Nat) (hp : f.m_SeekPosition = ((p + 1 : Nat) : Int))
    (hle : ((p + 1 : Nat) : Int) ≤ f.m_EOF) (hb : f.m_EOF < 2 ^ 62) :
    memfile.Seek f seek_mode.SKM_CURENT (2 ^ 64 - 1) = .ok (xerr.ok, f.moveTo (p : Int)) := by
  have hu : u64 f.m_SeekPosition = p + 1 := by rw [hp]; exact u64_natCast _ (by omega)
  have hm : (p + 1 + (2 ^ 64 - 1)) % 2 ^ 64 = p := by
    have : p + 1 + (2 ^ 64 - 1) = p + 2 ^ 64 := by omega
    rw [this, Nat.add_mod_right]; exact Nat.mod_eq_of_lt (by omega)
  have hi : i64 p = (p : Int) := i64_of_lt _ (by omega)
  have hc : (p : Int) ≤ f.m_EOF ∧ (p : Int) ≥ 0 := by omega
  show memfile.seekCheck
    { f with m_SeekPosition := i64 ((u64 f.m_SeekPosition + (2 ^ 64 - 1)) % 2 ^ 64) } = _
  rw [hu, hm, hi]
  unfold memfile.seekCheck
  rw [if_pos hc]; rfl

theorem moveTo_WF (f : memfile) (hwf : f.WF) (x : Int) (h0 : 0 ≤ x) (h1 : x ≤ f.m_EOF) :
    (f.moveTo x).WF := by
  obtain ⟨_, _, hb, hcap, hblk⟩ := hwf
  exact ⟨h0, h1, hb, hcap, hblk⟩

theorem moveTo_moveTo (f : memfile) (x y : Int) : (f.moveTo x).moveTo y = f.moveTo y := rfl

theorem moveTo_byteAt (f : memfile) (x : Int) (q : Nat) : (f.moveTo x).byteAt q = f.byteAt q := rfl

theorem moveTo_EOF (f : memfile) (x : Int) : (f.moveTo x).m_EOF = f.m_EOF := rfl

theorem moveTo_pos (f : memfile) (x : Int) : (f.moveTo x).m_SeekPosition = x := rfl

theorem narrowLoop_one (past : Nat → Byte) (hpast : past 0 ≠ 10) (a : Byte) :
    ReadRaw.narrowLoop past 1 [a] 0 0 = ([a], 1, 1) := by
  simp [ReadRaw.narrowLoop, peek, hpast]

theorem ReadRaw_one_unfold {σ : Type} (I : device_instance σ) (acc : access_types)
    (ht : acc.m_Text = 1) (past : Nat → Byte) (hpast : past 0 ≠ 10) (s s1 : σ) (a : Byte)
    (hr : I.Read s [0] = .ok (xerr.ok, [a], s1)) :
    stream.ReadRaw I acc 1 past s [0] =
      if a = 13 then
        match I.Read s1 [0] with
        | .error e => .error e
        | .ok (e2, C, s2) =>
          if e2 ≠ xerr.ok then .ok (e2, [a], s2)
          else if C.getD 0 0 = 10 then .ok (xerr.ok, [10], s2)
          else
            match I.Seek s2 seek_mode.SKM_CURENT (2 ^ 64 - 1) with
            | .error e => .error e
            | .ok (e3, s3) => .ok (e3, [a], s3)
      else .ok (xerr.ok, [a], s1) := by
  rw [stream.ReadRaw]
  simp only [List.isEmpty_cons, Bool.false_eq_true, if_false, hr, ne_eq, not_true_eq_false, ht,
    one_ne_zero, not_false_eq_true, if_true, List.length_singleton, narrowLoop_one past hpast a,
    Nat.sub_self, List.getD_cons_zero, List.set_cons_zero]

theorem getC_ram_plain (acc : access_types) (ht : acc.m_Text = 1) (past : Nat → Byte)
    (hpast : past 0 ≠ 10) (f : memfile) (hwf : f.WF) (p : Nat)
    (hp : f.m_SeekPosition = (p : Int)) (hlt : (p : Int) < f.m_EOF) (ha : f.byteAt p ≠ 13) :
    stream.getC memfile.ops acc 1 past f 0 =
      .ok (xerr.ok, f.byteAt p, f.moveTo ((p + 1 : Nat) : Int)) := by
  have hr : memfile.ops.Read f [0] = _ := Read_one f hwf p hp hlt 0
  rw [stream.getC, ReadRaw_one_unfold memfile.ops acc ht past hpast f _ _ hr, if_neg ha]
  rfl

theorem getC_ram_crlf (acc : access_types) (ht : acc.m_Text = 1) (past : Nat → Byte)
    (hpast : past 0 ≠ 10) (f : memfile) (hwf : f.WF) (p : Nat)
    (hp : f.m_SeekPosition = (p : Int)) (hlt : ((p + 1 : Nat) : Int) < f.m_EOF)
    (ha : f.byteAt p = 13) (hb : f.byteAt (p + 1) = 10) :
    stream.getC memfile.ops acc 1 past f 0 =
      .ok (xerr.ok, 10, f.moveTo ((p + 2 : Nat) : Int)) := by
  have hr : memfile.ops.Read f [0] = _ := Read_one f hwf p hp (by omega) 0
  have hwf1 := moveTo_WF f hwf ((p + 1 : Nat) : Int) (by omega) (by omega)
  have hr2 : memfile.ops.Read (f.moveTo ((p + 1 : Nat) : Int)) [0] = _ :=
    Read_one _ hwf1 (p + 1) rfl hlt 0
  rw [stream.getC, ReadRaw_one_unfold memfile.ops acc ht past hpast f _ _ hr, if_pos ha, hr2]
  simp only [moveTo_byteAt, hb, ne_eq, not_true_eq_false, if_false, List.getD_cons_zero, if_true,
    moveTo_moveTo]

theorem getC_ram_cr (acc : access_types) (ht : acc.m_Text = 1) (past : Nat → Byte)
    (hpast : past 0 ≠ 10) (f : memfile) (hwf : f.WF) (p : Nat)
    (hp : f.m_SeekPosition = (p : Int)) (hlt : ((p + 1 : Nat) : Int) < f.m_EOF)
    (ha : f.byteAt p = 13) (hb : f.byteAt (p + 1) ≠ 10) :
    stream.getC memfile.ops acc 1 past f 0 =
      .ok (xerr.ok, 13, f.moveTo ((p + 1 : Nat) : Int)) := by
  have hr : memfile.ops.Read f [0] = _ := Read_one f hwf p hp (by omega) 0
  have hwf1 := moveTo_WF f hwf ((p + 1 : Nat) : Int) (by omega) (by omega)
  have hr2 : memfile.ops.Read (f.moveTo ((p + 1 : Nat) : Int)) [0] = _ :=
    Read_one _ hwf1 (p + 1) rfl hlt 0
  have hs : memfile.ops.Seek (f.moveTo ((p + 1 + 1 : Nat) : Int)) seek_mode.SKM_CURENT (2 ^ 64 - 1)
      = _ :=
    Seek_back_one (f.moveTo ((p + 1 + 1 : Nat) : Int)) (p + 1) rfl
      (by show ((p + 1 + 1 : Nat) : Int) ≤ f.m_EOF; omega) hwf.2.2.1
  rw [stream.getC, ReadRaw_one_unfold memfile.ops acc ht past hpast f _ _ hr, if_pos ha, hr2]
  simp only [moveTo_byteAt, hb, ne_eq, not_true_eq_false, if_false, List.getD_cons_zero,
    moveTo_moveTo, hs, ha]

theorem getC_n_step (acc : access_types) (past : Nat → Byte) (n : Nat) (f f1 f2 : memfile)
    (a : Byte) (t : List Byte)
    (h1 : stream.getC memfile.ops acc 1 past f 0 = .ok (xerr.ok, a, f1))
    (h2 : stream.getC_n memfile.ops acc 1 past n f1 = .ok (xerr.ok, t, f2)) :
    stream.getC_n memfile.ops acc 1 past (n + 1) f = .ok (xerr.ok, a :: t, f2) := by
  rw [stream.getC_n, h1]
  simp only [ne_eq, not_true_eq_false, if_false, h2]

theorem getC_n_expand (acc : access_types) (ht : acc.m_Text = 1) (past : Nat → Byte)
    (hpast : past 0 ≠ 10) :
    ∀ (s : List Byte) (f : memfile) (p : Nat), f.WF → f.m_SeekPosition = (p : Int) →
      f.m_EOF = ((p + (crlf_expand s).length : Nat) : Int) →
      (∀ j, j < (crlf_expand s).length → f.byteAt (p + j) = (crlf_expand s).getD j 0) →
      s.getLast? ≠ some 13 →
      ∃ f1, stream.getC_n memfile.ops acc 1 past s.length f = .ok (xerr.ok, s, f1) := by
  intro s
  induction s with
  | nil => intro f p _ _ _ _ _; exact ⟨f, rfl⟩
  | cons a t ih =>
    intro f p hwf hp he hbytes hlast
    have hlast_t : t.getLast? ≠ some 13 := by
      cases t with
      | nil => simp
      | cons b t1 => rwa [List.getLast?_cons_cons] at hlast
    by_cases ha10 : a = 10
    · subst ha10
      have hx : crlf_expand (10 :: t) = 13 :: 10 :: crlf_expand t := by simp [crlf_expand]
      rw [hx] at he hbytes
      simp only [List.length_cons] at he hbytes
      have hb0 := hbytes 0 (by omega)
      have hb1 := hbytes 1 (by omega)
      simp only [Nat.add_zero, List.getD_cons_zero, List.getD_cons_succ] at hb0 hb1
      have hg := getC_ram_crlf acc ht past hpast f hwf p hp (by rw [he]; push_cast; omega) hb0 hb1
      obtain ⟨f2, h2⟩ := ih (f.moveTo ((p + 2 : Nat) : Int)) (p + 2)
        (moveTo_WF f hwf _ (by omega) (by rw [he]; push_cast; omega)) rfl
        (by rw [moveTo_EOF, he]; congr 1; omega)
        (by
          intro j hj
          have := hbytes (j + 2) (by omega)
          rw [moveTo_byteAt]
          have e : p + 2 + j = p + (j + 2) := by omega
          rw [e, this]; rfl)
        hlast_t
      exact ⟨f2, getC_n_step acc past t.length f _ f2 10 t hg h2⟩
    · have hx : crlf_expand (a :: t) = a :: crlf_expand t := by simp [crlf_expand, ha10]
      rw [hx] at he hbytes
      simp only [List.length_cons] at he hbytes
      have hb0 := hbytes 0 (by omega)
      simp only [Nat.add_zero, List.getD_cons_zero] at hb0
      have hrest : ∃ f2, stream.getC_n memfile.ops acc 1 past t.length
          (f.moveTo ((p + 1 : Nat) : Int)) = .ok (xerr.ok, t, f2) :=
        ih (f.moveTo ((p + 1 : Nat) : Int)) (p + 1)
          (moveTo_WF f hwf _ (by omega) (by rw [he]; push_cast; omega)) rfl
          (by rw [moveTo_EOF, he]; congr 1; omega)
          (by
            intro j hj
            have := hbytes (j + 1) (by omega)
            rw [moveTo_byteAt]
            have e : p + 1 + j = p + (j + 1) := by omega
            rw [e, this]; rfl)
          hlast_t
      obtain ⟨f2, h2⟩ := hrest
      by_cases ha13 : a = 13
      · subst ha13
        cases t with
        | nil => simp at hlast
        | cons b t1 =>
          have hne : (crlf_expand (b :: t1)).getD 0 0 ≠ 10 := by
            by_cases hb : b = 10
            · simp [crlf_expand, hb]
            · simp [crlf_expand, hb]
          have hpos : 0 < (crlf_expand (b :: t1)).length := by
            by_cases hb : b = 10 <;> simp [crlf_expand, hb]
          have hb1 := hbytes 1 (by omega)
          simp only [List.getD_cons_succ] at hb1
          have hg := getC_ram_cr acc ht past hpast f hwf p hp (by rw [he]; push_cast; omega) hb0
            (by rw [hb1]; exact hne)
          exact ⟨f2, getC_n_step acc past _ f _ f2 13 _ hg h2⟩
      · have hg := getC_ram_plain acc ht past hpast f hwf p hp (by rw [he]; push_cast; omega)
          (by rw [hb0]; exact ha13)
        rw [hb0] at hg
        exact ⟨f2, getC_n_step acc past _ f _ f2 a _ hg h2⟩

theorem ram_roundtrip_getC (acc : access_types) (ht : acc.m_Text = 1) (s : List Byte)
    (hs : s ≠ []) (hlast : s.getLast? ≠ some 13) (hlen : s.length < 2 ^ 60)
    (past : Nat → Byte) (hpast : past 0 ≠ 10) :
    ram_write_seek_getC acc {} s s.length past = .ok (xerr.ok, s) := by
  have hl : (crlf_expand s).length < 2 ^ 62 := by
    rw [crlf_expand_length]
    have := List.count_le_length 10 s
    omega
  obtain ⟨f1, hw, ⟨hwf, hpe⟩, hc⟩ := WriteRaw_ram acc ht s hs hl
  have hsk : memfile.ops.Seek f1 seek_mode.SKM_ORIGIN 0 = _ := Seek_origin_zero f1 hwf
  have h0 : 0 ≤ f1.m_EOF := by have := hwf.1; have := hwf.2.1; omega
  have heof : f1.m_EOF = (((crlf_expand s).length : Nat) : Int) := by
    have := content_length f1
    rw [hc] at this
    omega
  obtain ⟨f3, h3⟩ := getC_n_expand acc ht past hpast s (f1.moveTo 0) 0
    (moveTo_WF f1 hwf 0 (le_refl _) h0) rfl (by rw [moveTo_EOF, heof]; simp)
    (by
      intro j hj
      rw [moveTo_byteAt, Nat.zero_add, byteAt_content f1 j (by rw [heof]; exact_mod_cast hj), hc])
    hlast
  unfold ram_write_seek_getC
  rw [hw]
  simp only [ne_eq, not_true_eq_false, if_false, hsk, h3]


/-! ## Lemmas on the pool -/

theorem link_setLink (d : device) (i j : Nat) (v : Int) (hi : i < d.m_FileHPool.length) :
    (d.setLink i v).link j = if j = i then v else d.link j := by
  unfold device.link device.setLink
  simp only [List.getD_eq_getElem?_getD, List.getElem?_set]
  by_cases h : i = j
  · subst h; simp [hi]
  · have h2 : ¬ j = i := fun e => h e.symm
    simp [h, h2]

theorem length_setLink (d : device) (i : Nat) (v : Int) :
    (d.setLink i v).m_FileHPool.length = d.m_FileHPool.length := by
  simp [device.setLink]

theorem Chain_congr (d d1 : device) (l : List Nat) (h : Int)
    (hl : ∀ i ∈ l, d1.link i = d.link i) : d1.Chain h l ↔ d.Chain h l := by
  induction l generalizing h with
  | nil => simp [device.Chain]
  | cons a t ih =>
    simp only [device.Chain]
    rw [hl a (List.mem_cons_self _ _), ih _ (fun i hi => hl i (List.mem_cons_of_mem _ hi))]

theorem Chain_lt (d : device) (l : List Nat) (h : Int) (hc : d.Chain h l) :
    ∀ i ∈ l, i < pool_size := by
  induction l generalizing h with
  | nil => simp
  | cons a t ih =>
    obtain ⟨_, h2, h3⟩ := hc
    intro i hi
    rcases List.mem_cons.1 hi with e | e
    · rw [e]; exact h2
    · exact ih _ h3 i e

theorem Part_length (d : device) (out free : List Nat) (hp : d.Part out free) :
    free.length + out.length = pool_size := by
  obtain ⟨_, hc, hfn, hon, hol, hfo, _⟩ := hp
  have hfl := Chain_lt d free _ hc
  have hnd : (free ++ out).Nodup := by
    rw [List.nodup_append]
    refine ⟨hfn, hon, ?_⟩
    intro a ha hb
    exact ((hfo a (hfl a ha)).1 ha) hb
  have hperm : (free ++ out).Perm (List.range pool_size) := by
    rw [List.perm_ext_iff_of_nodup hnd (List.nodup_range _)]
    intro a
    simp only [List.mem_append, List.mem_range]
    constructor
    · rintro (h | h)
      · exact hfl a h
      · exact hol a h
    · intro h
      by_cases ho : a ∈ out
      · exact Or.inr ho
      · exact Or.inl ((hfo a h).2 ho)
  have := hperm.length_eq
  simpa using this

theorem Part_create (d : device) (out rest : List Nat) (i : Nat) (hp : d.Part out (i :: rest)) :
    d.createInstance = .ok (i,
        ({ d with m_iEmptyHead :=
            { m_iNext := d.link i, m_Counter := (d.m_iEmptyHead.m_Counter + 1) % 2 ^ 16 } } :
          device).setLink i (-2)) ∧
      (({ d with m_iEmptyHead :=
            { m_iNext := d.link i, m_Counter := (d.m_iEmptyHead.m_Counter + 1) % 2 ^ 16 } } :
          device).setLink i (-2)).Part (i :: out) rest := by
  obtain ⟨hlen, hc, hfn, hon, hol, hfo, hlk⟩ := hp
  obtain ⟨hh, hi, hcr⟩ := hc
  have hino : i ∉ out := (hfo i hi).1 (List.mem_cons_self _ _)
  have hirest : i ∉ rest := (List.nodup_cons.1 hfn).1
  constructor
  · unfold device.createInstance
    have hge : d.m_iEmptyHead.m_iNext ≥ 0 := by rw [hh]; omega
    have htn : d.m_iEmptyHead.m_iNext.toNat = i := by rw [hh]; simp
    simp only [hge, not_true_eq_false, if_false, htn]
  · have hil : i < d.m_FileHPool.length := by rw [hlen]; exact hi
    have hlink : ∀ j, (({ d with m_iEmptyHead :=
            { m_iNext := d.link i, m_Counter := (d.m_iEmptyHead.m_Counter + 1) % 2 ^ 16 } } :
          device).setLink i (-2)).link j = if j = i then -2 else d.link j := by
      intro j
      exact link_setLink ({ d with m_iEmptyHead :=
            { m_iNext := d.link i, m_Counter := (d.m_iEmptyHead.m_Counter + 1) % 2 ^ 16 } } :
          device) i j (-2) hil
    refine ⟨by rw [length_setLink]; exact hlen, ?_, (List.nodup_cons.1 hfn).2,
      List.nodup_cons.2 ⟨hino, hon⟩, ?_, ?_, ?_⟩
    · show device.Chain _ (d.link i) rest
      rw [Chain_congr d _ rest]
      · exact hcr
      · intro j hj
        rw [hlink j, if_neg]
        intro e; rw [e] at hj; exact hirest hj
    · intro j hj
      rcases List.mem_cons.1 hj with e | e
      · rw [e]; exact hi
      · exact hol j e
    · intro j hj
      have := hfo j hj
      simp only [List.mem_cons] at this ⊢
      by_cases e : j = i
      · subst e; simp [hirest]
      · simp only [e, false_or] at this ⊢; exact this
    · intro j hj
      rw [hlink j]
      by_cases e : j = i
      · subst e; simp
      · simp only [e, if_false, List.mem_cons, false_or]; exact hlk j hj

theorem Part_destroy (d : device) (out free : List Nat) (i : Nat) (hp : d.Part out free)
    (hi : i ∈ out) :
    ∃ d1, d.destroyInstance i = .ok d1 ∧ d1.Part (out.erase i) (i :: free) ∧
      d1.m_iEmptyHead.m_iNext = (i : Int) ∧ d1.link i = d.m_iEmptyHead.m_iNext := by
  obtain ⟨hlen, hc, hfn, hon, hol, hfo, hlk⟩ := hp
  have hil : i < pool_size := hol i hi
  have hifree : i ∉ free := fun h => ((hfo i hil).1 h) hi
  have hl2 : d.link i = -2 := (hlk i hil).2 hi
  let d0 : device :=
    { d with m_FileHPool := d.m_FileHPool.set i (memfile.clear (d.m_FileHPool.getD i {})) }
  have hd0len : d0.m_FileHPool.length = pool_size := by simp [d0, hlen]
  let d2 : device := d0.setLink i d.m_iEmptyHead.m_iNext
  let d1 : device := { d2 with m_iEmptyHead :=
    { m_iNext := (i : Int), m_Counter := (d.m_iEmptyHead.m_Counter + 1) % 2 ^ 16 } }
  have hlink : ∀ j, d1.link j = if j = i then d.m_iEmptyHead.m_iNext else d.link j := by
    intro j
    show d2.link j = _
    rw [link_setLink d0 i j _ (by rw [hd0len]; exact hil)]
    by_cases e : j = i
    · simp [e]
    · simp only [e, if_false]
      unfold device.link
      simp only [d0, List.getD_eq_getElem?_getD, List.getElem?_set]
      have e2 : ¬ i = j := fun h => e h.symm
      simp [e2]
  refine ⟨d1, ?_, ⟨?_, ?_, ?_, ?_, ?_, ?_, ?_⟩, rfl, by rw [hlink i, if_pos rfl]⟩
  · unfold device.destroyInstance
    have h1 : i < d.m_FileHPool.length := by rw [hlen]; exact hil
    simp only [h1, not_true_eq_false, if_false, hl2]
  · show d2.m_FileHPool.length = pool_size
    rw [length_setLink]; exact hd0len
  · refine ⟨rfl, hil, ?_⟩
    rw [hlink i, if_pos rfl, Chain_congr d d1 free]
    · exact hc
    · intro j hj
      rw [hlink j, if_neg]
      intro e; rw [e] at hj; exact hifree hj
  · exact List.nodup_cons.2 ⟨hifree, hfn⟩
  · exact hon.erase i
  · intro j hj
    exact hol j (List.mem_of_mem_erase hj)
  · intro j hj
    have := hfo j hj
    rw [hon.mem_erase_iff]
    simp only [List.mem_cons]
    by_cases e : j = i
    · subst e; simp
    · simp only [e, false_or, ne_eq, not_false_eq_true, true_and]; exact this
  · intro j hj
    rw [hlink j, hon.mem_erase_iff]
    by_cases e : j = i
    · subst e
      simp only [if_true, ne_eq, not_true_eq_false, false_and, iff_false]
      intro h
      have hcl := Chain_lt d free _ hc
      cases free with
      | nil => have : d.m_iEmptyHead.m_iNext = -1 := hc; omega
      | cons a t => have : d.m_iEmptyHead.m_iNext = (a : Int) := hc.1; omega
    · simp only [e, if_false, ne_eq, not_false_eq_true, true_and]; exact hlk j hj

theorem link_mk0 (i : Nat) (hi : i < pool_size) :
    device.mk0.link i = if i + 1 = pool_size then -1 else ((i + 1 : Nat) : Int) := by
  simp [device.link, device.mk0, List.getD_eq_getElem?_getD, List.getElem?_range hi]

theorem Chain_mk0 : ∀ (n k : Nat), k + n = pool_size →
    device.mk0.Chain (if n = 0 then -1 else (k : Int)) (List.range' k n) := by
  intro n
  induction n with
  | zero => intro k _; simp [device.Chain]
  | succ n ih =>
    intro k hk
    simp only [List.range', device.Chain]
    refine ⟨by simp, by omega, ?_⟩
    have := ih (k + 1) (by omega)
    rw [link_mk0 k (by omega)]
    by_cases hn : n = 0
    · subst hn
      have : k + 1 = pool_size := by omega
      simp [this, device.Chain]
    · have h2 : ¬ k + 1 = pool_size := by omega
      simp only [hn, if_false] at this
      simp only [h2, if_false]
      exact this

theorem Part_mk0 : device.mk0.Part [] (List.range pool_size) := by
  refine ⟨by simp [device.mk0], ?_, List.nodup_range _, List.nodup_nil, by simp, ?_, ?_⟩
  · have := Chain_mk0 pool_size 0 (by simp)
    rw [List.range_eq_range']
    simpa using this
  · intro i hi; simp [hi]
  · intro i hi
    rw [link_mk0 i hi]
    simp only [List.not_mem_nil, iff_false]
    split <;> omega

theorem Reach_Part (d : device) (out : List Nat) (h : device.Reach d out) :
    ∃ free, d.Part out free := by
  induction h with
  | init => exact ⟨_, Part_mk0⟩
  | create _ hlt hc ih =>
    obtain ⟨free, hp⟩ := ih
    have hlen := Part_length _ _ _ hp
    cases free with
    | nil => simp at hlen; omega
    | cons a rest =>
      obtain ⟨h1, h2⟩ := Part_create _ _ _ _ hp
      rw [h1] at hc
      injection hc with hc
      injection hc with e1 e2
      subst e1; subst e2
      exact ⟨rest, h2⟩
  | destroy _ hi hd ih =>
    obtain ⟨free, hp⟩ := ih
    obtain ⟨d1, h1, h2, _⟩ := Part_destroy _ _ _ _ hp hi
    rw [h1] at hd
    injection hd with hd
    subst hd
    exact ⟨_, h2⟩

theorem walk_Chain (d : device) (hlen : d.m_FileHPool.length = pool_size) :
    ∀ (free : List Nat) (fuel : Nat) (h : Int), d.Chain h free → free.length ≤ fuel →
      d.walk fuel h = some free := by
  intro free
  induction free with
  | nil =>
    intro fuel h hc _
    have : h = -1 := hc
    cases fuel <;> simp [device.walk, this]
  | cons a t ih =>
    intro fuel h hc hl
    obtain ⟨h1, h2, h3⟩ := hc
    cases fuel with
    | zero => simp at hl
    | succ fuel =>
      have hne : ¬ h = -1 := by omega
      have hin : 0 ≤ h ∧ h.toNat < d.m_FileHPool.length := by
        rw [hlen, h1]; simp; exact h2
      have htn : h.toNat = a := by rw [h1]; simp
      rw [device.walk]
      simp only [hne, if_false, hin, and_self, if_true, htn]
      rw [ih fuel _ h3 (by simpa using hl)]
      have ha : a < d.m_FileHPool.length := by rw [hlen]; exact h2
      simp [ha]

theorem createN_Part : ∀ (n : Nat) (d : device) (out free : List Nat), d.Part out free →
    n ≤ free.length →
    ∃ d1, d.createN n = .ok (free.take n, d1) ∧ d1.Part ((free.take n).reverse ++ out) (free.drop n) := by
  intro n
  induction n with
  | zero => intro d out free hp _; exact ⟨d, rfl, by simpa using hp⟩
  | succ n ih =>
    intro d out free hp hn
    cases free with
    | nil => simp at hn
    | cons a rest =>
      obtain ⟨h1, h2⟩ := Part_create _ _ _ _ hp
      obtain ⟨d2, h3, h4⟩ := ih _ (a :: out) rest h2 (by simpa using hn)
      refine ⟨d2, ?_, ?_⟩
      · rw [device.createN, h1]
        simp only [h3, List.take_succ_cons]
      · simpa using h4

/-! ## Lemmas on the access mode -/

theorem or_shuffle3 (A p1 p2 p3 q1 q2 q3 : Prop) :
    ((((A ∨ p1) ∨ p2) ∨ p3) ∨ q1 ∨ q2 ∨ q3) ↔ (A ∨ (p1 ∨ q1) ∨ (p2 ∨ q2) ∨ (p3 ∨ q3)) := by
  tauto

theorem modeChar_spec (c : Char) (acc0 : access_types) (b0 : Bool) (hc : open_.recognised c) :
    ¬ c = Char.ofNat 0 ∧
    ∃ acc1 b1, open_.modeChar c acc0 b0 = .ok (acc1, b1) ∧
      acc1.m_bRead = (acc0.m_bRead || decide ('r' = c) || decide ('a' = c) || decide ('w' = c)) ∧
      acc1.m_bWrite = (acc0.m_bWrite || decide ('+' = c) || decide ('a' = c) || decide ('w' = c)) ∧
      acc1.m_bCreate = (acc0.m_bCreate || decide ('w' = c)) ∧
      acc1.m_bCompress = (acc0.m_bCompress || decide ('c' = c)) ∧
      acc1.m_bASync = (acc0.m_bASync || decide ('@' = c)) ∧
      acc1.m_bForceFlush = acc0.m_bForceFlush ∧
      acc1.m_Text = (if open_.isTextChar c then open_.kindOf c else acc0.m_Text) ∧
      b1 = (b0 || decide ('a' = c)) := by
  simp only [open_.recognised, List.mem_cons, List.mem_singleton, List.not_mem_nil,
    or_false] at hc
  rcases hc with e | e | e | e | e | e | e | e | e <;> subst e <;>
    refine ⟨by decide, ?_⟩ <;>
    simp only [open_.modeChar, Char.reduceEq, if_true, if_false] <;>
    exact ⟨_, _, rfl, by simp, by simp, by simp, by simp, by simp, rfl,
      by simp [open_.isTextChar, open_.kindOf], by simp⟩

theorem modeLoop_spec : ∀ (pMode : List Char) (acc0 : access_types) (b0 : Bool),
    (∀ c ∈ pMode, open_.recognised c) →
    ∃ acc b, open_.modeLoop pMode acc0 b0 = .ok (acc, b) ∧
      (acc.m_bRead = true ↔ acc0.m_bRead = true ∨ 'r' ∈ pMode ∨ 'a' ∈ pMode ∨ 'w' ∈ pMode) ∧
      (acc.m_bWrite = true ↔ acc0.m_bWrite = true ∨ '+' ∈ pMode ∨ 'a' ∈ pMode ∨ 'w' ∈ pMode) ∧
      (acc.m_bCreate = true ↔ acc0.m_bCreate = true ∨ 'w' ∈ pMode) ∧
      (acc.m_bCompress = true ↔ acc0.m_bCompress = true ∨ 'c' ∈ pMode) ∧
      (acc.m_bASync = true ↔ acc0.m_bASync = true ∨ '@' ∈ pMode) ∧
      acc.m_bForceFlush = acc0.m_bForceFlush ∧
      acc.m_Text = open_.lastText pMode acc0.m_Text ∧
      (b = true ↔ b0 = true ∨ 'a' ∈ pMode) := by
  intro pMode
  induction pMode with
  | nil =>
    intro acc0 b0 _
    exact ⟨acc0, b0, rfl, by simp, by simp, by simp, by simp, by simp, rfl,
      by simp [open_.lastText], by simp⟩
  | cons c rest ih =>
    intro acc0 b0 h
    have hc : open_.recognised c := h c (List.mem_cons_self _ _)
    have hrest : ∀ x ∈ rest, open_.recognised x := fun x hx => h x (List.mem_cons_of_mem _ hx)
    have htext : ∀ (a1 : access_types), a1.m_Text = (if open_.isTextChar c then open_.kindOf c
        else acc0.m_Text) → open_.lastText rest a1.m_Text = open_.lastText (c :: rest) acc0.m_Text := by
      intro a1 ha1
      unfold open_.lastText
      rw [List.reverse_cons, List.find?_append]
      cases hf : List.find? open_.isTextChar rest.reverse with
      | some x => rfl
      | none =>
        rw [ha1]
        by_cases hx : open_.isTextChar c = true
        · simp [hx, List.find?]
        · simp [hx, List.find?]
    obtain ⟨hnul, acc1, b1, hm, g1, g2, g3, g4, g5, g6, g7, g8⟩ := modeChar_spec c acc0 b0 hc
    obtain ⟨acc, b, h0, h1, h2, h3, h4, h5, h6, h7, h8⟩ := ih acc1 b1 hrest
    refine ⟨acc, b, ?_, ?_, ?_, ?_, ?_, ?_, by rw [h6, g6], by rw [h7]; exact htext acc1 g7, ?_⟩
    · rw [open_.modeLoop]
      simp only [hnul, if_false, hm, h0]
    · rw [h1, g1]; simp only [Bool.or_eq_true, decide_eq_true_eq, List.mem_cons]
      exact or_shuffle3 _ _ _ _ _ _ _
    · rw [h2, g2]; simp only [Bool.or_eq_true, decide_eq_true_eq, List.mem_cons]
      exact or_shuffle3 _ _ _ _ _ _ _
    · rw [h3, g3]; simp only [Bool.or_eq_true, decide_eq_true_eq, List.mem_cons]
      exact or_assoc
    · rw [h4, g4]; simp only [Bool.or_eq_true, decide_eq_true_eq, List.mem_cons]
      exact or_assoc
    · rw [h5, g5]; simp only [Bool.or_eq_true, decide_eq_true_eq, List.mem_cons]
      exact or_assoc
    · rw [h8, g8]; simp only [Bool.or_eq_true, decide_eq_true_eq, List.mem_cons]
      exact or_assoc

/-! ## The claims -/

/-- C1. Narrow-text write translation: for every non-empty buffer `b` written with
`WriteRaw` in narrow-text mode over a backend whose writes all succeed, the byte runs
passed to the backend `Write`, concatenated in call order, are `b` with every LF replaced
by CR, LF and every other byte unchanged; the backend receives `|b|` plus the number of LF
of `b` bytes. -/
theorem C1_narrow_write_translation (m_AccessType : access_types)
    (ht : m_AccessType.m_Text = 1) (b : List Byte) (hb : b ≠ []) :
    ∃ runs, stream.WriteRaw recorder m_AccessType [] b = .ok (xerr.ok, runs) ∧
      runs.flatten = crlf_expand b ∧ runs.flatten.length = b.length + b.count 10 := by
  obtain ⟨s1, h1, _, h3⟩ := WriteRaw_narrow_log recorder List.flatten (fun _ => True)
    ((crlf_expand b).length)
    (fun s v _ _ => ⟨s ++ [v], rfl, trivial, by simp⟩) (fun s _ => ⟨trivial, rfl⟩)
    m_AccessType ht [] b hb trivial (by simp)
  refine ⟨s1, h1, by simpa using h3, ?_⟩
  rw [h3]
  simpa using crlf_expand_length b

/-- C1 at the buffer `"A\nB\r\nC"`. -/
theorem C1_witness :
    ({ m_Text := 1 } : access_types).m_Text = 1 ∧ ([65, 10, 66, 13, 10, 67] : List Byte) ≠ [] ∧
    ∃ runs, stream.WriteRaw recorder { m_Text := 1 } [] [65, 10, 66, 13, 10, 67] =
        .ok (xerr.ok, runs) ∧
      runs.flatten = crlf_expand [65, 10, 66, 13, 10, 67] ∧
      runs.flatten.length = ([65, 10, 66, 13, 10, 67] : List Byte).length +
        ([65, 10, 66, 13, 10, 67] : List Byte).count 10 :=
  ⟨rfl, by decide, C1_narrow_write_translation { m_Text := 1 } rfl [65, 10, 66, 13, 10, 67]
    (by decide)⟩

set_option maxRecDepth 8000 in
/-- C2. Narrow-text read normalisation fails on the code: the RAM file holds
CR LF CR LF X (the narrow-text image of `"\n\nX"`); a narrow-text `ReadRaw` of 3 bytes from
offset 0, with a zero byte after the buffer, succeeds and returns LF CR LF, which holds a
CR immediately followed by LF and differs from the first 3 bytes LF LF X of the normalised
content. The second run: the file holds A CR B, the byte after a 2-byte buffer is LF, and
`ReadRaw` returns A B although the content has no CR, LF pair. -/
theorem C2_read_straddles_boundary :
    crlf_expand [10, 10, 88] = [13, 10, 13, 10, 88] ∧
    ram_write_seek_read { m_Text := 1 } {} [10, 10, 88] 3 (fun _ => 0) =
      .ok (xerr.ok, [10, 13, 10]) ∧
    has_crlf [10, 13, 10] = true ∧
    (crlf_normalise [13, 10, 13, 10, 88]).take 3 = [10, 10, 88] ∧
    ram_write_seek_read { m_Text := 1 } {} [65, 13, 66] 2 (fun _ => 10) =
      .ok (xerr.ok, [65, 66]) ∧
    (crlf_normalise [65, 13, 66]).take 2 = [65, 13] := by
  refine ⟨by decide, by decide, by decide, by decide, by decide, by decide⟩

set_option maxRecDepth 8000 in
/-- C3 as stated fails: `"A\nB\r\nC"` written in narrow-text mode to an empty RAM file is
stored as A CR LF B CR CR LF C; read back from offset 0 with one `ReadRaw` (zero byte after
the buffer) it gives `"A\nB\r\n"` for a 5-byte buffer, `"A\nB\r\r\n"` for a 6-byte buffer
and `UNEXPECTED_EOF` for an 8-byte buffer, never `"A\nB\nC"`; and `"B\r\nC"` read back into
a 4-byte buffer gives `"B\r\nC"`, not `"B\nC"`. -/
theorem C3_counterexample :
    crlf_normalise [65, 10, 66, 13, 10, 67] = [65, 10, 66, 10, 67] ∧
    ram_write_seek_read { m_Text := 1 } {} [65, 10, 66, 13, 10, 67] 5 (fun _ => 0) =
      .ok (xerr.ok, [65, 10, 66, 13, 10]) ∧
    ram_write_seek_read { m_Text := 1 } {} [65, 10, 66, 13, 10, 67] 6 (fun _ => 0) =
      .ok (xerr.ok, [65, 10, 66, 13, 13, 10]) ∧
    ram_write_seek_read { m_Text := 1 } {} [65, 10, 66, 13, 10, 67] 8 (fun _ => 0) =
      .ok (xerr.create state.UNEXPECTED_EOF "Unexpected End of File",
        [65, 10, 66, 13, 10, 67, 10, 67]) ∧
    ram_write_seek_read { m_Text := 1 } {} [66, 13, 10, 67] 4 (fun _ => 0) =
      .ok (xerr.ok, [66, 13, 10, 67]) ∧
    crlf_normalise [66, 13, 10, 67] = [66, 10, 67] := by
  refine ⟨by decide, by decide, by decide, by decide, by decide, by decide⟩

/-- C3, amended. For every non-empty byte string `s` that does not end in CR, writing `s`
with one `WriteRaw` in narrow-text mode to an empty RAM file, seeking to offset 0 and
reading `|s|` characters back with `getC` (one-byte `ReadRaw` calls, the byte after the
one-byte buffer not being LF) yields exactly `s`: the CR written in front of each LF is the
one removed on reading, and a CR, LF pair of `s` comes back as CR, LF. -/
theorem C3_roundtrip_by_character (m_AccessType : access_types)
    (ht : m_AccessType.m_Text = 1) (s : List Byte) (hs : s ≠ []) (hlast : s.getLast? ≠ some 13)
    (hlen : s.length < 2 ^ 60) (past : Nat → Byte) (hpast : past 0 ≠ 10) :
    ram_write_seek_getC m_AccessType {} s s.length past = .ok (xerr.ok, s) :=
  ram_roundtrip_getC m_AccessType ht s hs hlast hlen past hpast

/-- C3, amended, at `"A\nB\r\nC"`: it reads back as `"A\nB\r\nC"`. -/
theorem C3_witness :
    ram_write_seek_getC { m_Text := 1 } {} [65, 10, 66, 13, 10, 67] 6 (fun _ => 0) =
      .ok (xerr.ok, [65, 10, 66, 13, 10, 67]) :=
  C3_roundtrip_by_character { m_Text := 1 } rfl [65, 10, 66, 13, 10, 67] (by decide) (by decide)
    (by decide) (fun _ => 0) (by decide)

set_option maxRecDepth 8000 in
/-- C4. The length check of the wide branch of `ReadRaw` is inverted: on a RAM file holding
the wide text `"AB"`, a wide-text `ReadRaw` into a 4-byte or a 2-byte buffer (multiples of
2) fills the buffer and then returns the failure "not multiple of 2", and a `ReadRaw` into
a 3-byte buffer returns success. -/
theorem C4_wide_read_length_check_inverted :
    ram_write_seek_read { m_Text := 2 } {} [65, 0, 66, 0] 4 (fun _ => 0) =
      .ok (xerr.create state.FAILURE ReadRaw.msgNotMultipleOf2, [65, 0, 66, 0]) ∧
    ram_write_seek_read { m_Text := 2 } {} [65, 0, 66, 0] 2 (fun _ => 0) =
      .ok (xerr.create state.FAILURE ReadRaw.msgNotMultipleOf2, [65, 0]) ∧
    ram_write_seek_read { m_Text := 2 } {} [65, 0, 66, 0] 3 (fun _ => 0) =
      .ok (xerr.ok, [65, 0, 66]) := by
  refine ⟨by decide, by decide, by decide⟩

set_option maxRecDepth 8000 in
/-- C5. The wide branch of `WriteRaw` has no length check: for the 3-byte buffer
41 00 42 it returns success and the backend receives only 41 00 (the last byte is
dropped), and for a 1-byte buffer it returns success and the backend receives nothing.
For the 6-byte buffer 41 00 0A 00 42 00 the backend receives 41 00, 0D 00 0A 00, 42 00. -/
theorem C5_wide_write_odd_length :
    stream.WriteRaw recorder { m_Text := 2 } [] [65, 0, 66] = .ok (xerr.ok, [[65, 0]]) ∧
    stream.WriteRaw recorder { m_Text := 2 } [] [65] = .ok (xerr.ok, []) ∧
    stream.WriteRaw recorder { m_Text := 2 } [] [65, 0, 10, 0, 66, 0] =
      .ok (xerr.ok, [[65, 0], [13, 0, 10, 0], [66, 0]]) := by
  refine ⟨by decide, by decide, by decide⟩

/-- C6. Pool partition invariant (sequential): in every state reached from the constructed
pool by sequential `createInstance` / `destroyInstance` calls, with `out` the slots handed
out and not yet destroyed, the pool has 128 slots, following the links from the head
reaches the terminator `-1`, each slot either has the link `-2` and is not met on that
walk or has another link and is met exactly once, and the slots with link `-2` are exactly
those of `out`. -/
theorem C6_pool_partition (d : device) (out : List Nat) (h : device.Reach d out) :
    d.m_FileHPool.length = pool_size ∧
    ∃ free, d.freeList = some free ∧
      (∀ i, i < pool_size →
        (d.link i = -2 ∧ free.count i = 0) ∨ (d.link i ≠ -2 ∧ free.count i = 1)) ∧
      (∀ i, i < pool_size → (d.link i = -2 ↔ i ∈ out)) ∧ out.Nodup := by
  obtain ⟨free, hp⟩ := Reach_Part d out h
  have hlen := Part_length d out free hp
  obtain ⟨hl, hc, hfn, hon, hol, hfo, hlk⟩ := hp
  refine ⟨hl, free, ?_, ?_, hlk, hon⟩
  · unfold device.freeList
    exact walk_Chain d hl free _ _ hc (by rw [hl]; omega)
  · intro i hi
    by_cases ho : i ∈ out
    · left
      exact ⟨(hlk i hi).2 ho, List.count_eq_zero_of_not_mem (fun hf => ((hfo i hi).1 hf) ho)⟩
    · right
      exact ⟨fun h2 => ho ((hlk i hi).1 h2),
        List.count_eq_one_of_mem hfn ((hfo i hi).2 ho)⟩

/-- C6 at the constructed pool. -/
theorem C6_witness :
    device.Reach device.mk0 [] ∧ device.mk0.m_FileHPool.length = pool_size ∧
    ∃ free, device.mk0.freeList = some free ∧
      (∀ i, i < pool_size →
        (device.mk0.link i = -2 ∧ free.count i = 0) ∨
          (device.mk0.link i ≠ -2 ∧ free.count i = 1)) ∧
      (∀ i, i < pool_size → (device.mk0.link i = -2 ↔ i ∈ ([] : List Nat))) ∧
      ([] : List Nat).Nodup :=
  ⟨device.Reach.init, C6_pool_partition device.mk0 [] device.Reach.init⟩

/-- C7. Acquire fails only on exhaustion: in every state reached sequentially, with `out`
the allocated slots, `createInstance` succeeds whenever fewer than 128 slots are allocated,
returning the slot at the head of the free list, marking it `-2` and making its former link
the new head; it trips the assertion `Local.m_iNext >= 0` exactly when all 128 slots are
allocated, which is exactly when the head index is negative. On the constructed pool the
first 128 calls return the slots 0, 1, ..., 127 in this order and the 129th call trips the
assertion. -/
theorem C7_acquire_fails_only_on_exhaustion (d : device) (out : List Nat)
    (h : device.Reach d out) :
    (out.length < pool_size →
      ∃ i d1, d.createInstance = .ok (i, d1) ∧ (i : Int) = d.m_iEmptyHead.m_iNext ∧
        i < pool_size ∧ i ∉ out ∧ d1.link i = -2 ∧ d1.m_iEmptyHead.m_iNext = d.link i ∧
        device.Reach d1 (i :: out)) ∧
    (d.createInstance = .error (Stop.asserted "Local.m_iNext >= 0") ↔ out.length = pool_size) ∧
    (d.m_iEmptyHead.m_iNext < 0 ↔ out.length = pool_size) ∧
    out.length ≤ pool_size ∧
    (∃ d128, device.mk0.createN 128 = .ok (List.range 128, d128) ∧
      d128.createInstance = .error (Stop.asserted "Local.m_iNext >= 0")) := by
  obtain ⟨free, hp⟩ := Reach_Part d out h
  have hlen := Part_length d out free hp
  have hsucc : out.length < pool_size →
      ∃ i d1, d.createInstance = .ok (i, d1) ∧ (i : Int) = d.m_iEmptyHead.m_iNext ∧
        i < pool_size ∧ i ∉ out ∧ d1.link i = -2 ∧ d1.m_iEmptyHead.m_iNext = d.link i ∧
        device.Reach d1 (i :: out) := by
    intro hlt
    cases free with
    | nil => simp at hlen; omega
    | cons a rest =>
      obtain ⟨h1, h2⟩ := Part_create d out rest a hp
      have ha : a < pool_size := hp.2.1.2.1
      refine ⟨a, _, h1, hp.2.1.1.symm, ha,
        (hp.2.2.2.2.2.1 a ha).1 (List.mem_cons_self _ _), ?_, ?_, device.Reach.create h hlt h1⟩
      · exact (h2.2.2.2.2.2.2 a ha).2 (List.mem_cons_self _ _)
      · rfl
  have hhead : d.m_iEmptyHead.m_iNext < 0 ↔ out.length = pool_size := by
    cases free with
    | nil =>
      have : d.m_iEmptyHead.m_iNext = -1 := hp.2.1
      simp at hlen
      constructor
      · intro _; exact hlen
      · intro _; omega
    | cons a rest =>
      have : d.m_iEmptyHead.m_iNext = (a : Int) := hp.2.1.1
      simp at hlen
      constructor
      · intro h1; omega
      · intro h1; omega
  refine ⟨hsucc, ?_, hhead, by omega, ?_⟩
  · constructor
    · intro he
      by_contra hne
      obtain ⟨i, d1, h1, _⟩ := hsucc (by omega)
      rw [h1] at he
      cases he
    · intro he
      have hneg := hhead.2 he
      unfold device.createInstance
      have : ¬ d.m_iEmptyHead.m_iNext ≥ 0 := by omega
      simp only [this, not_false_eq_true, if_true]
  · obtain ⟨d128, h1, h2⟩ := createN_Part 128 device.mk0 [] (List.range pool_size) Part_mk0
      (by simp)
    refine ⟨d128, by simpa using h1, ?_⟩
    have hd : List.drop 128 (List.range pool_size) = [] := by simp
    rw [hd] at h2
    have : d128.m_iEmptyHead.m_iNext = -1 := h2.2.1
    unfold device.createInstance
    have hn : ¬ d128.m_iEmptyHead.m_iNext ≥ 0 := by omega
    simp only [hn, not_false_eq_true, if_true]

/-- C7 at the constructed pool: the first call returns slot 0. -/
theorem C7_witness :
    device.Reach device.mk0 [] ∧
    (([] : List Nat).length < pool_size →
      ∃ i d1, device.mk0.createInstance = .ok (i, d1) ∧
        (i : Int) = device.mk0.m_iEmptyHead.m_iNext ∧
        i < pool_size ∧ i ∉ ([] : List Nat) ∧ d1.link i = -2 ∧
        d1.m_iEmptyHead.m_iNext = device.mk0.link i ∧ device.Reach d1 (i :: [])) :=
  ⟨device.Reach.init,
    (C7_acquire_fails_only_on_exhaustion device.mk0 [] device.Reach.init).1⟩

/-- C9. Mode-string parsing: for every mode string made only of the characters
`a r + w c @ t T b`, whatever flags the stream held before, the flags after the mode loop
of `stream::open` are: read iff the string contains `r`, `a` or `w`; write iff it contains
`+`, `a` or `w`; create iff it contains `w`; compress iff it contains `c`; async iff it
contains `@`; force-flush clear; the text kind is the one selected by the last of `t`,
`T`, `b`, and 0 when none occurs. `"w"` and `"w+"` give the same flags, so do `"a"` and
`"a+"`, and `"r+"` gives read and write without create. -/
theorem C9_mode_parsing (before : access_types) (pMode : List Char)
    (h : ∀ c ∈ pMode, open_.recognised c) :
    (∃ acc b, open_.parseMode before pMode = .ok (acc, b) ∧
      (acc.m_bRead = true ↔ 'r' ∈ pMode ∨ 'a' ∈ pMode ∨ 'w' ∈ pMode) ∧
      (acc.m_bWrite = true ↔ '+' ∈ pMode ∨ 'a' ∈ pMode ∨ 'w' ∈ pMode) ∧
      (acc.m_bCreate = true ↔ 'w' ∈ pMode) ∧
      (acc.m_bCompress = true ↔ 'c' ∈ pMode) ∧
      (acc.m_bASync = true ↔ '@' ∈ pMode) ∧
      acc.m_bForceFlush = false ∧
      acc.m_Text = open_.lastText pMode 0 ∧
      (b = true ↔ 'a' ∈ pMode)) ∧
    open_.parseMode before ['w'] = open_.parseMode before ['w', '+'] ∧
    open_.parseMode before ['a'] = open_.parseMode before ['a', '+'] ∧
    open_.parseMode before ['r', '+'] =
      .ok ({ m_bRead := true, m_bWrite := true, m_bCreate := false }, false) := by
  refine ⟨?_, by unfold open_.parseMode; decide, by unfold open_.parseMode; decide,
    by unfold open_.parseMode; decide⟩
  obtain ⟨acc, b, h0, h1, h2, h3, h4, h5, h6, h7, h8⟩ :=
    modeLoop_spec pMode access_types.zero false h
  refine ⟨acc, b, h0, ?_, ?_, ?_, ?_, ?_, h6, h7, ?_⟩
  · rw [h1]; simp [access_types.zero]
  · rw [h2]; simp [access_types.zero]
  · rw [h3]; simp [access_types.zero]
  · rw [h4]; simp [access_types.zero]
  · rw [h5]; simp [access_types.zero]
  · rw [h8]; simp

/-- C9 at the mode string `"r+T@"` on a stream that held the force-flush flag. -/
theorem C9_witness :
    (∀ c ∈ ['r', '+', 'T', '@'], open_.recognised c) ∧
    ∃ acc b, open_.parseMode { m_bForceFlush := true, m_bCreate := true } ['r', '+', 'T', '@'] =
        .ok (acc, b) ∧
      (acc.m_bRead = true ↔ 'r' ∈ ['r', '+', 'T', '@'] ∨ 'a' ∈ ['r', '+', 'T', '@'] ∨
        'w' ∈ ['r', '+', 'T', '@']) ∧
      (acc.m_bWrite = true ↔ '+' ∈ ['r', '+', 'T', '@'] ∨ 'a' ∈ ['r', '+', 'T', '@'] ∨
        'w' ∈ ['r', '+', 'T', '@']) ∧
      (acc.m_bCreate = true ↔ 'w' ∈ ['r', '+', 'T', '@']) ∧
      (acc.m_bCompress = true ↔ 'c' ∈ ['r', '+', 'T', '@']) ∧
      (acc.m_bASync = true ↔ '@' ∈ ['r', '+', 'T', '@']) ∧
      acc.m_bForceFlush = false ∧
      acc.m_Text = open_.lastText ['r', '+', 'T', '@'] 0 ∧
      (b = true ↔ 'a' ∈ ['r', '+', 'T', '@']) :=
  ⟨by decide,
    (C9_mode_parsing { m_bForceFlush := true, m_bCreate := true } ['r', '+', 'T', '@']
      (by decide)).1⟩

/-- C10 as stated fails: `"tb"` and `"bt"` are permutations of each other, and the mode
loop of `stream::open` gives text kind 0 (binary) for `"tb"` and text kind 1 (narrow text)
for `"bt"`. -/
theorem C10_counterexample :
    List.Perm ['t', 'b'] ['b', 't'] ∧
    open_.parseMode access_types.zero ['t', 'b'] = .ok ({ m_Text := 0 }, false) ∧
    open_.parseMode access_types.zero ['b', 't'] = .ok ({ m_Text := 1 }, false) :=
  ⟨List.Perm.swap _ _ _, by decide, by decide⟩

/-- C10, amended. For every two mode strings over the recognised characters that are
permutations of each other, the mode loop of `stream::open` computes the same read, write,
create, compress, async and force-flush flags and the same seek-to-end decision; the text
kind of each is the one selected by the last of `t`, `T`, `b` in that string (0 when none
occurs). -/
theorem C10_mode_permutation (before1 before2 : access_types) (p q : List Char)
    (hp : ∀ c ∈ p, open_.recognised c) (hperm : p.Perm q) :
    ∃ a1 a2 b, open_.parseMode before1 p = .ok (a1, b) ∧
      open_.parseMode before2 q = .ok (a2, b) ∧
      a2 = { a1 with m_Text := a2.m_Text } ∧
      a1.m_Text = open_.lastText p 0 ∧ a2.m_Text = open_.lastText q 0 := by
  have hq : ∀ c ∈ q, open_.recognised c := fun c hc => hp c (hperm.mem_iff.2 hc)
  obtain ⟨a1, b1, h0, h1, h2, h3, h4, h5, h6, h7, h8⟩ :=
    modeLoop_spec p access_types.zero false hp
  obtain ⟨a2, b2, k0, k1, k2, k3, k4, k5, k6, k7, k8⟩ :=
    modeLoop_spec q access_types.zero false hq
  have m : ∀ c : Char, c ∈ p ↔ c ∈ q := fun c => hperm.mem_iff
  have e1 : a2.m_bRead = a1.m_bRead := by
    rw [Bool.eq_iff_iff, h1, k1, m 'r', m 'a', m 'w']
  have e2 : a2.m_bWrite = a1.m_bWrite := by
    rw [Bool.eq_iff_iff, h2, k2, m '+', m 'a', m 'w']
  have e3 : a2.m_bCreate = a1.m_bCreate := by rw [Bool.eq_iff_iff, h3, k3, m 'w']
  have e4 : a2.m_bCompress = a1.m_bCompress := by rw [Bool.eq_iff_iff, h4, k4, m 'c']
  have e5 : a2.m_bASync = a1.m_bASync := by rw [Bool.eq_iff_iff, h5, k5, m '@']
  have e6 : a2.m_bForceFlush = a1.m_bForceFlush := by rw [h6, k6]
  have e8 : b2 = b1 := by rw [Bool.eq_iff_iff, h8, k8, m 'a']
  refine ⟨a1, a2, b1, h0, by rw [← e8]; exact k0, ?_, h7, k7⟩
  cases a1; cases a2
  simp only at e1 e2 e3 e4 e5 e6
  simp [e1, e2, e3, e4, e5, e6]

/-- C10, amended, at `"tw@"` and `"@wt"`. -/
theorem C10_witness :
    (∀ c ∈ ['t', 'w', '@'], open_.recognised c) ∧ List.Perm ['t', 'w', '@'] ['@', 'w', 't'] ∧
    ∃ a1 a2 b, open_.parseMode access_types.zero ['t', 'w', '@'] = .ok (a1, b) ∧
      open_.parseMode access_types.zero ['@', 'w', 't'] = .ok (a2, b) ∧
      a2 = { a1 with m_Text := a2.m_Text } ∧
      a1.m_Text = open_.lastText ['t', 'w', '@'] 0 ∧
      a2.m_Text = open_.lastText ['@', 'w', 't'] 0 :=
  ⟨by decide, by decide,
    C10_mode_permutation access_types.zero access_types.zero ['t', 'w', '@'] ['@', 'w', 't']
      (by decide) (by decide)⟩

/-! ## Lemmas on the path resolver -/


theorem cstr_append_right (pre l : List Char) (j : Nat) :
    cstr (pre ++ l) (pre.length + j) = cstr l j := by
  unfold cstr
  rw [List.getD_append_right _ _ _ _ (by omega)]
  congr 1; omega

theorem cstr_append_left (n l : List Char) (j : Nat) (h : j < n.length) :
    cstr (n ++ l) j = n.getD j NUL := by
  unfold cstr
  rw [List.getD_append _ _ _ _ h]

theorem getD_mem (n : List Char) (j : Nat) (h : j < n.length) : n.getD j NUL ∈ n := by
  rw [List.getD_eq_getElem _ _ h]
  exact List.getElem_mem h

theorem cstr_name (pre n suf : List Char) (j : Nat) (h : j < n.length) :
    cstr (pre ++ (n ++ ':' :: suf)) (pre.length + j) = n.getD j NUL := by
  rw [cstr_append_right, cstr_append_left _ _ _ h]

theorem cstr_colon (pre n suf : List Char) :
    cstr (pre ++ (n ++ ':' :: suf)) (pre.length + n.length) = ':' := by
  rw [cstr_append_right]
  have := cstr_append_right n (':' :: suf) 0
  simpa [cstr] using this

theorem cstr_suf (pre n suf : List Char) (j : Nat) :
    cstr (pre ++ (n ++ ':' :: suf)) (pre.length + n.length + 1 + j) = cstr suf j := by
  have e : pre.length + n.length + 1 + j = pre.length + (n.length + (1 + j)) := by omega
  rw [e, cstr_append_right, cstr_append_right]
  have := cstr_append_right [':'] suf j
  simpa [Nat.add_comm] using this

theorem skip_name (pre n suf : List Char) (hc : ':' ∉ n) (hz : NUL ∉ n) :
    ∀ (k j fuel : Nat), j + k = n.length → k ≤ fuel →
      findDevice.skip (pre ++ (n ++ ':' :: suf)) fuel (pre.length + j) = pre.length + n.length := by
  intro k
  induction k with
  | zero =>
    intro j fuel hj _
    have hj2 : j = n.length := by omega
    subst hj2
    cases fuel with
    | zero => rfl
    | succ m =>
      rw [findDevice.skip, cstr_colon]
      simp
  | succ k ih =>
    intro j fuel hj hf
    cases fuel with
    | zero => omega
    | succ m =>
      have hlt : j < n.length := by omega
      have hm := getD_mem n j hlt
      rw [findDevice.skip, cstr_name _ _ _ _ hlt]
      have h1 : n.getD j NUL ≠ ':' := fun e => hc (e ▸ hm)
      have h2 : n.getD j NUL ≠ NUL := fun e => hz (e ▸ hm)
      simp only [h1, h2, ne_eq, not_false_eq_true, and_self, if_true]
      exact ih (j + 1) m (by omega) (by omega)

theorem alias_getD_lt (a : List Char) (i : Nat) (h : i < a.length) :
    (a ++ [':']).getD i NUL = a.getD i NUL := List.getD_append _ _ _ _ h

theorem alias_getD_end (a : List Char) : (a ++ [':']).getD a.length NUL = ':' := by
  rw [List.getD_append_right _ _ _ _ (le_refl _)]
  simp

theorem take_succ_eq (a n : List Char) (i : Nat) (hi : i < a.length) (hn : i < n.length)
    (h : a.take i = n.take i) (e : a.getD i NUL = n.getD i NUL) : a.take (i + 1) = n.take (i + 1) := by
  rw [List.take_succ, List.take_succ, h]
  congr 1
  rw [List.getD_eq_getElem _ _ hi, List.getD_eq_getElem _ _ hn] at e
  rw [List.getElem?_eq_getElem hi, List.getElem?_eq_getElem hn, e]

theorem ne_of_getD_ne (a n : List Char) (i : Nat)
    (e : a.getD i NUL ≠ n.getD i NUL) : a ≠ n := by
  intro h; subst h; exact e rfl

theorem inner_scan (a pre n suf : List Char) (hc : ':' ∉ n) (hz : NUL ∉ n)
    (ha : ':' ∉ a) (R : Bool)
    (hhead : suf ≠ [] → cstr suf 0 ≠ NUL)
    (hrest : suf ≠ [] → ∀ fuel, suf.length + 1 ≤ fuel →
      findDevice.inner (a ++ [':']) (pre ++ (n ++ ':' :: suf)) fuel 0
        (pre.length + n.length + 1) = .ok R)
    (hempty : suf = [] → R = false) :
    ∀ (k i fuel : Nat), i + k = n.length → i ≤ a.length → a.take i = n.take i →
      k + 1 + suf.length + 1 ≤ fuel →
      findDevice.inner (a ++ [':']) (pre ++ (n ++ ':' :: suf)) fuel i (pre.length + i) =
        .ok (decide (a = n) || R) := by
  -- what the loop does once a character differs, from any offset inside the name
  have hmis : ∀ (i fuel : Nat), i ≤ n.length → suf.length + 1 ≤ fuel →
      (if cstr (pre ++ (n ++ ':' :: suf))
            (findDevice.skip (pre ++ (n ++ ':' :: suf))
              ((pre ++ (n ++ ':' :: suf)).length - (pre.length + i)) (pre.length + i)) = ':' then
          if cstr (pre ++ (n ++ ':' :: suf))
              (findDevice.skip (pre ++ (n ++ ':' :: suf))
                ((pre ++ (n ++ ':' :: suf)).length - (pre.length + i)) (pre.length + i) + 1) ≠ NUL
          then findDevice.inner (a ++ [':']) (pre ++ (n ++ ':' :: suf)) fuel 0
            (findDevice.skip (pre ++ (n ++ ':' :: suf))
              ((pre ++ (n ++ ':' :: suf)).length - (pre.length + i)) (pre.length + i) + 1)
          else .ok false
        else if i + 1 = (a ++ [':']).length then .ok false
        else .error (Stop.undefined "pName is read after the terminator of m_pNames")) =
      .ok R := by
    intro i fuel hi hf
    rw [skip_name pre n suf hc hz (n.length - i) i _ (by omega)
      (by simp only [List.length_append, List.length_cons]; omega)]
    rw [cstr_colon, if_pos rfl]
    have e := cstr_suf pre n suf 0
    rw [Nat.add_zero] at e
    rw [e]
    by_cases hs : suf = []
    · subst hs
      simp [cstr, hempty rfl]
    · rw [if_pos (hhead hs)]
      exact hrest hs fuel hf
  have hcn : (':' : Char) ≠ NUL := by decide
  have hlenA : (a ++ [':']).length = a.length + 1 := by simp
  intro k
  induction k with
  | zero =>
    intro i fuel hi hia htake hf
    have hin : i = n.length := by omega
    subst hin
    cases fuel with
    | zero => omega
    | succ m =>
      rw [findDevice.inner, cstr_colon,
        if_neg (not_not.2 ⟨by omega, hcn⟩)]
      by_cases hia2 : n.length = a.length
      · have han : a = n := by
          have h1 := htake
          rw [List.take_of_length_le (by omega), List.take_of_length_le (by omega)] at h1
          exact h1
        rw [hia2, alias_getD_end, if_pos ⟨rfl, rfl⟩]
        simp [han]
      · have hlt : n.length < a.length := by omega
        have hx : (a ++ [':']).getD n.length NUL ≠ ':' := by
          rw [alias_getD_lt a _ hlt]
          exact fun e => ha (e ▸ getD_mem a _ hlt)
        have han : a ≠ n := fun e => by rw [e] at hlt; omega
        rw [if_neg (fun h => hx h.1), if_pos (fun e => hx e.symm)]
        have := hmis n.length m (le_refl _) (by omega)
        rw [this]
        simp [han]
  | succ k ih =>
    intro i fuel hi hia htake hf
    have hlt : i < n.length := by omega
    cases fuel with
    | zero => omega
    | succ m =>
      have hm := getD_mem n i hlt
      have h1 : n.getD i NUL ≠ ':' := fun e => hc (e ▸ hm)
      have h2 : n.getD i NUL ≠ NUL := fun e => hz (e ▸ hm)
      rw [findDevice.inner, cstr_name _ _ _ _ hlt,
        if_neg (not_not.2 ⟨by omega, h2⟩), if_neg (fun h => h1 h.2)]
      by_cases hmatch : n.getD i NUL = (a ++ [':']).getD i NUL
      · have hia2 : i < a.length := by
          by_contra hc2
          have hia3 : i = a.length := by omega
          subst hia3
          rw [alias_getD_end] at hmatch
          exact h1 hmatch
        rw [if_neg (not_not.2 hmatch)]
        rw [alias_getD_lt a i hia2] at hmatch
        exact ih (i + 1) m (by omega) (by omega)
          (take_succ_eq a n i hia2 hlt htake hmatch.symm) (by omega)
      · have han : a ≠ n := by
          by_cases hia2 : i < a.length
          · rw [alias_getD_lt a i hia2] at hmatch
            exact ne_of_getD_ne a n i (fun e => hmatch e.symm)
          · intro e; rw [e] at hia2; omega
        rw [if_pos hmatch]
        have := hmis i m (by omega) (by omega)
        rw [this]
        simp [han]

theorem flat_names_cons (n : List Char) (rest : List (List Char)) :
    ((n :: rest).map (· ++ [':'])).flatten = n ++ ':' :: (rest.map (· ++ [':'])).flatten := by
  simp

theorem inner_names (a : List Char) (ha : ':' ∉ a) :
    ∀ (ns : List (List Char)) (pre : List Char), (∀ n ∈ ns, n ≠ [] ∧ ':' ∉ n ∧ NUL ∉ n) →
      ∀ fuel, ((ns.map (· ++ [':'])).flatten).length + 1 ≤ fuel →
      findDevice.inner (a ++ [':']) (pre ++ (ns.map (· ++ [':'])).flatten) fuel 0 pre.length =
        .ok (decide (a ∈ ns)) := by
  intro ns
  induction ns with
  | nil =>
    intro pre _ fuel hf
    cases fuel with
    | zero => omega
    | succ m =>
      rw [findDevice.inner]
      have : cstr (pre ++ (List.map (· ++ [':']) []).flatten) pre.length = NUL := by
        simp [cstr]
      rw [if_pos (fun h => h.2 this)]
      simp
  | cons n rest ih =>
    intro pre hwf fuel hf
    obtain ⟨hne, hc, hz⟩ := hwf n (List.mem_cons_self _ _)
    have hwr : ∀ x ∈ rest, x ≠ [] ∧ ':' ∉ x ∧ NUL ∉ x :=
      fun x hx => hwf x (List.mem_cons_of_mem _ hx)
    rw [flat_names_cons] at hf ⊢
    have key := inner_scan a pre n ((rest.map (· ++ [':'])).flatten) hc hz ha (decide (a ∈ rest))
      (by
        intro hs
        cases rest with
        | nil => simp at hs
        | cons r0 rs =>
          obtain ⟨hr0, _, hz0⟩ := hwr r0 (List.mem_cons_self _ _)
          cases r0 with
          | nil => exact absurd rfl hr0
          | cons c cs =>
            simp only [List.map_cons, List.flatten_cons, List.cons_append, cstr, List.getD_cons_zero]
            exact fun e => hz0 (e ▸ List.mem_cons_self _ _))
      (by
        intro _ fuel2 hf2
        have := ih (pre ++ (n ++ [':'])) hwr fuel2 hf2
        have e1 : pre ++ (n ++ [':']) ++ (rest.map (· ++ [':'])).flatten =
            pre ++ (n ++ ':' :: (rest.map (· ++ [':'])).flatten) := by simp
        have e2 : (pre ++ (n ++ [':'])).length = pre.length + n.length + 1 := by
          simp; omega
        rw [e1, e2] at this
        exact this)
      (by
        intro hs
        cases rest with
        | nil => simp
        | cons r0 rs =>
          obtain ⟨hr0, _, _⟩ := hwr r0 (List.mem_cons_self _ _)
          cases r0 with
          | nil => exact absurd rfl hr0
          | cons c cs => simp at hs)
      n.length 0 fuel (by omega) (by omega) (by simp)
      (by simp only [List.length_append, List.length_cons] at hf; omega)
    rw [Nat.add_zero] at key
    rw [key]
    congr 1
    simp only [List.mem_cons, Bool.decide_or]

theorem findDevice_spec {δ : Type} (a : List Char) (ha : ':' ∉ a)
    (nl : registration δ → List (List Char)) :
    ∀ (reg : List (registration δ)) (k : Nat), (∀ r ∈ reg, names_wf r.m_pNames (nl r)) →
      findDevice (a ++ [':']) reg k = .ok (first_match (fun r => decide (a ∈ nl r)) reg k) := by
  intro reg
  induction reg with
  | nil => intro k _; rfl
  | cons r rest ih =>
    intro k hwf
    obtain ⟨hn, hw⟩ := hwf r (List.mem_cons_self _ _)
    have h := inner_names a ha (nl r) [] hw (r.m_pNames.length + 1) (by rw [hn])
    simp only [List.nil_append, List.length_nil] at h
    rw [← hn] at h
    rw [findDevice, h, first_match]
    by_cases hm : a ∈ nl r
    · simp [hm]
    · simp only [hm, decide_False, Bool.false_eq_true, if_false]
      exact ih (k + 1) (fun x hx => hwf x (List.mem_cons_of_mem _ hx))

theorem firstColon_alias (a rest : List Char) (ha : ':' ∉ a) :
    firstColon (a ++ ':' :: rest) = some a.length := by
  induction a with
  | nil => simp [firstColon]
  | cons c t ih =>
    have hc : c ≠ ':' := fun e => ha (e ▸ List.mem_cons_self _ _)
    have ht : ':' ∉ t := fun h => ha (List.mem_cons_of_mem _ h)
    simp [firstColon, hc, ih ht]

theorem SetTheFinalPath_alias (H : host) (fuel : Nat) (a rest : List Char) (ha : ':' ∉ a)
    (hcolon : H.towlower ':' = ':') (htemp : a.map H.towlower ≠ ['t', 'e', 'm', 'p']) :
    SetTheFinalPath H fuel (a ++ ':' :: rest) =
      .ok (a ++ ':' :: rest, a.map H.towlower ++ [':']) := by
  have htk : (a ++ ':' :: rest).take (a.length + 1) = a ++ [':'] := by
    have : a ++ ':' :: rest = (a ++ [':']) ++ rest := by simp
    rw [this, List.take_left' (by simp)]
  have hlow : to_lower H (a ++ [':']) = a.map H.towlower ++ [':'] := by
    simp [to_lower, hcolon]
  have hne : (a ++ [':']).isEmpty = false := by cases a <;> rfl
  unfold SetTheFinalPath
  simp only [firstColon_alias a rest ha, htk, hne, hlow, if_true, Bool.false_eq_true, if_false]
  rw [if_neg]
  rintro ⟨h5, ht⟩
  have h4 : (a.map H.towlower).length = 4 := by simpa using h5
  rw [List.take_of_length_le (by simp at h5 ⊢; omega)] at ht
  have : a.map H.towlower ++ [':'] = ['t', 'e', 'm', 'p'] ++ [':'] := ht
  exact htemp (List.append_cancel_right this)

theorem resolve_alias {δ : Type} (H : host) (fuel : Nat) (reg : List (registration δ))
    (nl : registration δ → List (List Char)) (hwf : ∀ r ∈ reg, names_wf r.m_pNames (nl r))
    (a rest : List Char) (ha : ':' ∉ a) (hcolon : H.towlower ':' = ':')
    (hlow : ':' ∉ a.map H.towlower) (htemp : a.map H.towlower ≠ ['t', 'e', 'm', 'p']) :
    SetTheFinalPathAndFindDevice H fuel reg (a ++ ':' :: rest) =
      .ok (a ++ ':' :: rest, first_match (fun r => decide (a.map H.towlower ∈ nl r)) reg 0) := by
  unfold SetTheFinalPathAndFindDevice
  rw [SetTheFinalPath_alias H fuel a rest ha hcolon htemp]
  have hne : (a.map H.towlower ++ [':']).isEmpty = false := by
    cases (a.map H.towlower) <;> rfl
  simp only [hne, Bool.false_eq_true, if_false,
    findDevice_spec (a.map H.towlower) hlow nl reg 0 hwf]

/-! ## Lemmas on stream::open over the pool -/

theorem Part_congr (d d1 : device) (out free : List Nat)
    (hlink : ∀ j, d1.link j = d.link j)
    (hlen : d1.m_FileHPool.length = d.m_FileHPool.length)
    (hhead : d1.m_iEmptyHead.m_iNext = d.m_iEmptyHead.m_iNext) (hp : d.Part out free) :
    d1.Part out free := by
  obtain ⟨h1, h2, h3, h4, h5, h6, h7⟩ := hp
  refine ⟨by rw [hlen]; exact h1, ?_, h3, h4, h5, h6, ?_⟩
  · rw [hhead, Chain_congr d d1 free _ (fun i _ => hlink i)]
    exact h2
  · intro i hi; rw [hlink i]; exact h7 i hi

theorem link_setSlot {I : device_instance memfile} (d : device) (h : Nat) (f : memfile) (hf : f.m_iNext = d.link h) (j : Nat) :
    ((device.vtable I).setSlot d h f).link j = d.link j := by
  show (({ d with m_FileHPool := d.m_FileHPool.set h f } : device)).link j = d.link j
  unfold device.link
  simp only [List.getD_eq_getElem?_getD, List.getElem?_set]
  by_cases e : h = j
  · subst e
    by_cases hl : h < d.m_FileHPool.length
    · simp only [if_true, hl, Option.getD_some, hf, device.link, List.getD_eq_getElem?_getD]
    · simp only [if_true, hl, if_false]
      rw [List.getElem?_eq_none (by omega)]
  · simp only [e, if_false]

theorem Part_setSlot (I : device_instance memfile) (d : device) (out free : List Nat) (h : Nat)
    (f : memfile) (hf : f.m_iNext = d.link h) (hp : d.Part out free) :
    ((device.vtable I).setSlot d h f).Part out free :=
  Part_congr d _ out free (fun j => link_setSlot (I := I) d h f hf j)
    (by show (d.m_FileHPool.set h f).length = _; simp) rfl hp

theorem allocated_eq (d : device) (out free : List Nat) (hp : d.Part out free) :
    d.allocated = out.length := by
  obtain ⟨_, _, _, hon, hol, _, hlk⟩ := hp
  unfold device.allocated
  apply List.Perm.length_eq
  rw [List.perm_ext_iff_of_nodup ((List.nodup_range _).filter _) hon]
  intro a
  simp only [List.mem_filter, List.mem_range, decide_eq_true_eq]
  constructor
  · rintro ⟨h1, h2⟩; exact (hlk a h1).1 h2
  · intro h; exact ⟨hol a h, (hlk a (hol a h)).2 h⟩

theorem slot_create (I : device_instance memfile) (d : device) (i : Nat) (x : next)
    (hi : i < d.m_FileHPool.length) :
    (device.vtable I).slot (({ d with m_iEmptyHead := x } : device).setLink i (-2)) i =
      d.acquired i := by
  show (({ d with m_iEmptyHead := x } : device).setLink i (-2)).m_FileHPool.getD i {} = _
  simp [device.setLink, device.acquired, List.getD_eq_getElem?_getD, hi]

theorem firstUse_pool (I : device_instance memfile) (k : Nat) (r : registration device) :
    open_.firstUse (device.vtable I) k r =
      ({ r with s_nHaveUsed := if r.s_nHaveUsed = 0 then 1 else r.s_nHaveUsed,
                s_nInUse := r.s_nInUse + 1 },
        if r.s_nHaveUsed = 0 then [device_call.Init k] else []) := by
  unfold open_.firstUse
  by_cases h : r.s_nHaveUsed = 0
  · simp only [h, if_true, zero_add]; rfl
  · simp only [h, if_false]

theorem busyWait_firstUse (x : Int) : open_.busyWait (if x = 0 then 1 else x) = .ok 0 := by
  unfold open_.busyWait
  by_cases h : x = 0
  · simp [h]
  · simp [h]

/-- What `open_.onDevice` needs about the pool when slot `i` is at the head of the free list. -/
theorem pool_acquire (I : device_instance memfile) (d : device)
    (out rest : List Nat) (i : Nat) (hp : d.Part out (i :: rest)) :
    ∃ d1, (device.vtable I).createInstance d = .ok (i, d1) ∧
      (device.vtable I).slot d1 i = d.acquired i ∧ d1.Part (i :: out) rest ∧
      (∀ f, f.m_iNext = (d.acquired i).m_iNext →
        ((device.vtable I).setSlot d1 i f).Part (i :: out) rest ∧
        ∃ d3, (device.vtable I).destroyInstance ((device.vtable I).setSlot d1 i f) i = .ok d3 ∧
          d3.Part out (i :: rest) ∧ d3.m_iEmptyHead.m_iNext = (i : Int)) ∧
      (∀ f f2, f.m_iNext = (d.acquired i).m_iNext → f2.m_iNext = f.m_iNext →
        (device.vtable I).setSlot ((device.vtable I).setSlot d1 i f) i f2 =
          (device.vtable I).setSlot d1 i f2) := by
  obtain ⟨hc, hpc⟩ := Part_create d out rest i hp
  have hil : i < d.m_FileHPool.length := by rw [hp.1]; exact hp.2.1.2.1
  have hl2 : ∀ d1 : device, d1.Part (i :: out) rest → d1.link i = -2 := fun d1 h =>
    (h.2.2.2.2.2.2 i (h.2.2.2.2.1 i (List.mem_cons_self _ _))).2 (List.mem_cons_self _ _)
  refine ⟨_, hc, slot_create I d i _ hil, hpc, ?_, ?_⟩
  · intro f hf
    have hf2 : f.m_iNext = (({ d with m_iEmptyHead :=
        { m_iNext := d.link i, m_Counter := (d.m_iEmptyHead.m_Counter + 1) % 2 ^ 16 } } :
          device).setLink i (-2)).link i := by
      rw [hl2 _ hpc, hf]; rfl
    have hp2 := Part_setSlot I _ (i :: out) rest i f hf2 hpc
    refine ⟨hp2, ?_⟩
    obtain ⟨d3, hd, hp3, hh, _⟩ := Part_destroy _ (i :: out) rest i hp2 (List.mem_cons_self _ _)
    rw [List.erase_cons_head] at hp3
    exact ⟨d3, hd, hp3, hh⟩
  · intro f f2 _ _
    simp [device.vtable, List.set_set]

theorem onDevice_open_error (I : device_instance memfile) (k : Nat) (r : registration device)
    (out rest : List Nat) (i : Nat) (FP : wstring) (acc : access_types) (b : Bool) (x : Stop)
    (hp : r.m_pDevice.Part out (i :: rest))
    (hopen : I.open_ (r.m_pDevice.acquired i) FP acc = .error x) :
    open_.onDevice (device.vtable I) k r FP acc b = .error x := by
  obtain ⟨d1, hc, hs, _, _, _⟩ := pool_acquire I r.m_pDevice out rest i hp
  have hc2 : (device.vtable I).createInstance
      (open_.firstUse (device.vtable I) k r).1.m_pDevice = .ok (i, d1) := by
    rw [firstUse_pool]; exact hc
  have hopen2 : (device.vtable I).inst.open_ ((device.vtable I).slot d1 i) FP acc = .error x := by
    rw [hs]; exact hopen
  unfold open_.onDevice
  have hb : open_.busyWait (open_.firstUse (device.vtable I) k r).1.s_nHaveUsed = .ok 0 := by
    rw [firstUse_pool]; exact busyWait_firstUse _
  simp only [hb, hc2, hopen2]

theorem onDevice_open_fails (I : device_instance memfile) (hI : I.keepsLink) (k : Nat)
    (r : registration device) (out rest : List Nat) (i : Nat) (FP : wstring)
    (acc : access_types) (b : Bool) (E : xerr) (f1 : memfile)
    (hp : r.m_pDevice.Part out (i :: rest))
    (hopen : I.open_ (r.m_pDevice.acquired i) FP acc = .ok (E, f1)) (hE : E ≠ xerr.ok) :
    ∃ d3, open_.onDevice (device.vtable I) k r FP acc b =
        .ok (E, none,
          { r with m_pDevice := d3, s_nInUse := r.s_nInUse + 1 - 1,
                   s_nHaveUsed := if r.s_nHaveUsed = 0 then 1 else r.s_nHaveUsed },
          (if r.s_nHaveUsed = 0 then [device_call.Init k] else []) ++
            [device_call.createInstance k i, device_call.open_ k i] ++
            [device_call.destroyInstance k i]) ∧
      d3.Part out (i :: rest) ∧ d3.m_iEmptyHead.m_iNext = (i : Int) := by
  obtain ⟨d1, hc, hs, _, hset, _⟩ := pool_acquire I r.m_pDevice out rest i hp
  obtain ⟨_, d3, hd, hp3, hh⟩ := hset f1 (hI.1 _ _ _ _ _ hopen)
  have hc2 : (device.vtable I).createInstance
      (open_.firstUse (device.vtable I) k r).1.m_pDevice = .ok (i, d1) := by
    rw [firstUse_pool]; exact hc
  have hopen2 : (device.vtable I).inst.open_ ((device.vtable I).slot d1 i) FP acc =
      .ok (E, f1) := by
    rw [hs]; exact hopen
  have hb : open_.busyWait (open_.firstUse (device.vtable I) k r).1.s_nHaveUsed = .ok 0 := by
    rw [firstUse_pool]; exact busyWait_firstUse _
  refine ⟨d3, ?_, hp3, hh⟩
  unfold open_.onDevice
  simp only [hb, hc2, hopen2, ne_eq, hE, not_false_eq_true, if_true, open_.release, hd]
  rw [firstUse_pool]

theorem onDevice_opens (I : device_instance memfile) (hI : I.keepsLink) (k : Nat)
    (r : registration device) (out rest : List Nat) (i : Nat) (FP : wstring)
    (acc : access_types) (b : Bool) (f1 : memfile)
    (hp : r.m_pDevice.Part out (i :: rest))
    (hopen : I.open_ (r.m_pDevice.acquired i) FP acc = .ok (xerr.ok, f1))
    (hns : ¬ (acc.m_bCreate = false ∧ b = true)) :
    ∃ d2, open_.onDevice (device.vtable I) k r FP acc b =
        .ok (xerr.ok, some i,
          { r with m_pDevice := d2, s_nInUse := r.s_nInUse + 1,
                   s_nHaveUsed := if r.s_nHaveUsed = 0 then 1 else r.s_nHaveUsed },
          (if r.s_nHaveUsed = 0 then [device_call.Init k] else []) ++
            [device_call.createInstance k i, device_call.open_ k i]) ∧
      d2.Part (i :: out) rest := by
  obtain ⟨d1, hc, hs, _, hset, _⟩ := pool_acquire I r.m_pDevice out rest i hp
  obtain ⟨hp2, _⟩ := hset f1 (hI.1 _ _ _ _ _ hopen)
  have hc2 : (device.vtable I).createInstance
      (open_.firstUse (device.vtable I) k r).1.m_pDevice = .ok (i, d1) := by
    rw [firstUse_pool]; exact hc
  have hopen2 : (device.vtable I).inst.open_ ((device.vtable I).slot d1 i) FP acc =
      .ok (xerr.ok, f1) := by
    rw [hs]; exact hopen
  have hb : open_.busyWait (open_.firstUse (device.vtable I) k r).1.s_nHaveUsed = .ok 0 := by
    rw [firstUse_pool]; exact busyWait_firstUse _
  refine ⟨_, ?_, hp2⟩
  unfold open_.onDevice
  simp only [hb, hc2, hopen2, ne_eq, not_true_eq_false, if_false, hns]
  rw [firstUse_pool]

theorem onDevice_seek_error (I : device_instance memfile) (k : Nat)
    (r : registration device) (out rest : List Nat) (i : Nat) (FP : wstring)
    (acc : access_types) (b : Bool) (f1 : memfile) (x : Stop)
    (hp : r.m_pDevice.Part out (i :: rest))
    (hopen : I.open_ (r.m_pDevice.acquired i) FP acc = .ok (xerr.ok, f1))
    (hsk : acc.m_bCreate = false ∧ b = true)
    (hseek : I.Seek f1 seek_mode.SKM_END 0 = .error x) :
    open_.onDevice (device.vtable I) k r FP acc b = .error x := by
  obtain ⟨d1, hc, hs, _, _, _⟩ := pool_acquire I r.m_pDevice out rest i hp
  have hc2 : (device.vtable I).createInstance
      (open_.firstUse (device.vtable I) k r).1.m_pDevice = .ok (i, d1) := by
    rw [firstUse_pool]; exact hc
  have hopen2 : (device.vtable I).inst.open_ ((device.vtable I).slot d1 i) FP acc =
      .ok (xerr.ok, f1) := by
    rw [hs]; exact hopen
  have hseek2 : (device.vtable I).inst.Seek f1 seek_mode.SKM_END 0 = .error x := hseek
  have hb : open_.busyWait (open_.firstUse (device.vtable I) k r).1.s_nHaveUsed = .ok 0 := by
    rw [firstUse_pool]; exact busyWait_firstUse _
  unfold open_.onDevice
  simp only [hb, hc2, hopen2, ne_eq, not_true_eq_false, if_false, hsk, and_self, if_true, hseek2]

theorem onDevice_seek_fails (I : device_instance memfile) (hI : I.keepsLink) (k : Nat)
    (r : registration device) (out rest : List Nat) (i : Nat) (FP : wstring)
    (acc : access_types) (b : Bool) (f1 f2 : memfile) (E : xerr)
    (hp : r.m_pDevice.Part out (i :: rest))
    (hopen : I.open_ (r.m_pDevice.acquired i) FP acc = .ok (xerr.ok, f1))
    (hsk : acc.m_bCreate = false ∧ b = true)
    (hseek : I.Seek f1 seek_mode.SKM_END 0 = .ok (E, f2)) (hE : E ≠ xerr.ok) :
    ∃ d3, open_.onDevice (device.vtable I) k r FP acc b =
        .ok (xerr.create state.INCOMPLETE
            "Able to open the file but failed to seek at the end of the file", none,
          { r with m_pDevice := d3, s_nInUse := r.s_nInUse + 1 - 1,
                   s_nHaveUsed := if r.s_nHaveUsed = 0 then 1 else r.s_nHaveUsed },
          (if r.s_nHaveUsed = 0 then [device_call.Init k] else []) ++
            [device_call.createInstance k i, device_call.open_ k i] ++ [device_call.Seek k i] ++
            [device_call.destroyInstance k i]) ∧
      d3.Part out (i :: rest) ∧ d3.m_iEmptyHead.m_iNext = (i : Int) := by
  obtain ⟨d1, hc, hs, _, hset, hss⟩ := pool_acquire I r.m_pDevice out rest i hp
  have hf1 := hI.1 _ _ _ _ _ hopen
  have hf2 : f2.m_iNext = f1.m_iNext := hI.2.2 _ _ _ _ _ hseek
  obtain ⟨_, d3, hd, hp3, hh⟩ := hset f2 (by rw [hf2, hf1])
  rw [← hss f1 f2 hf1 hf2] at hd
  have hc2 : (device.vtable I).createInstance
      (open_.firstUse (device.vtable I) k r).1.m_pDevice = .ok (i, d1) := by
    rw [firstUse_pool]; exact hc
  have hopen2 : (device.vtable I).inst.open_ ((device.vtable I).slot d1 i) FP acc =
      .ok (xerr.ok, f1) := by
    rw [hs]; exact hopen
  have hseek2 : (device.vtable I).inst.Seek f1 seek_mode.SKM_END 0 = .ok (E, f2) := hseek
  have hb : open_.busyWait (open_.firstUse (device.vtable I) k r).1.s_nHaveUsed = .ok 0 := by
    rw [firstUse_pool]; exact busyWait_firstUse _
  refine ⟨d3, ?_, hp3, hh⟩
  unfold open_.onDevice
  simp only [hb, hc2, hopen2, ne_eq, not_true_eq_false, if_false, hsk, and_self, if_true, hseek2,
    hE, not_false_eq_true, open_.release, hd]
  rw [firstUse_pool]

theorem onDevice_seeks (I : device_instance memfile) (hI : I.keepsLink) (k : Nat)
    (r : registration device) (out rest : List Nat) (i : Nat) (FP : wstring)
    (acc : access_types) (b : Bool) (f1 f2 : memfile)
    (hp : r.m_pDevice.Part out (i :: rest))
    (hopen : I.open_ (r.m_pDevice.acquired i) FP acc = .ok (xerr.ok, f1))
    (hsk : acc.m_bCreate = false ∧ b = true)
    (hseek : I.Seek f1 seek_mode.SKM_END 0 = .ok (xerr.ok, f2)) :
    ∃ d3, open_.onDevice (device.vtable I) k r FP acc b =
        .ok (xerr.ok, some i,
          { r with m_pDevice := d3, s_nInUse := r.s_nInUse + 1,
                   s_nHaveUsed := if r.s_nHaveUsed = 0 then 1 else r.s_nHaveUsed },
          (if r.s_nHaveUsed = 0 then [device_call.Init k] else []) ++
            [device_call.createInstance k i, device_call.open_ k i] ++ [device_call.Seek k i]) ∧
      d3.Part (i :: out) rest := by
  obtain ⟨d1, hc, hs, _, hset, hss⟩ := pool_acquire I r.m_pDevice out rest i hp
  have hf1 := hI.1 _ _ _ _ _ hopen
  have hf2 : f2.m_iNext = f1.m_iNext := hI.2.2 _ _ _ _ _ hseek
  obtain ⟨hp3, _⟩ := hset f2 (by rw [hf2, hf1])
  rw [← hss f1 f2 hf1 hf2] at hp3
  have hc2 : (device.vtable I).createInstance
      (open_.firstUse (device.vtable I) k r).1.m_pDevice = .ok (i, d1) := by
    rw [firstUse_pool]; exact hc
  have hopen2 : (device.vtable I).inst.open_ ((device.vtable I).slot d1 i) FP acc =
      .ok (xerr.ok, f1) := by
    rw [hs]; exact hopen
  have hseek2 : (device.vtable I).inst.Seek f1 seek_mode.SKM_END 0 = .ok (xerr.ok, f2) := hseek
  have hb : open_.busyWait (open_.firstUse (device.vtable I) k r).1.s_nHaveUsed = .ok 0 := by
    rw [firstUse_pool]; exact busyWait_firstUse _
  refine ⟨_, ?_, hp3⟩
  unfold open_.onDevice
  simp only [hb, hc2, hopen2, ne_eq, not_true_eq_false, if_false, hsk, and_self, if_true, hseek2]
  rw [firstUse_pool]

/-! ## The claims on the path resolver -/

theorem first_match_none {δ : Type} (p : registration δ → Bool) :
    ∀ (reg : List (registration δ)) (k0 : Nat),
      first_match p reg k0 = none ↔ ∀ r ∈ reg, p r = false := by
  intro reg
  induction reg with
  | nil => intro k0; simp [first_match]
  | cons r rest ih =>
    intro k0
    by_cases hp : p r = true
    · simp [first_match, hp]
    · simp only [first_match, hp, Bool.false_eq_true, if_false, ih (k0 + 1), List.mem_cons,
        forall_eq_or_imp]
      simp [hp]

theorem first_match_some {δ : Type} (p : registration δ → Bool) :
    ∀ (reg : List (registration δ)) (k0 k : Nat),
      first_match p reg k0 = some (k0 + k) ↔
        (∃ r, reg[k]? = some r ∧ p r = true) ∧
          ∀ j, j < k → ∀ r, reg[j]? = some r → p r = false := by
  intro reg
  induction reg with
  | nil => intro k0 k; simp [first_match]
  | cons r rest ih =>
    intro k0 k
    by_cases hp : p r = true
    · simp only [first_match, hp, if_true, Option.some.injEq]
      constructor
      · intro h
        have hk : k = 0 := by omega
        subst hk
        exact ⟨⟨r, List.getElem?_cons_zero, hp⟩, fun j hj => absurd hj (Nat.not_lt_zero j)⟩
      · rintro ⟨_, hall⟩
        cases k with
        | zero => rfl
        | succ k =>
          have := hall 0 (Nat.succ_pos k) r List.getElem?_cons_zero
          rw [hp] at this
          exact absurd this (by decide)
    · have hpf : p r = false := by simpa using hp
      simp only [first_match, hp, Bool.false_eq_true, if_false]
      cases k with
      | zero =>
        constructor
        · intro h
          exfalso
          have hge : ∀ (l : List (registration δ)) (a b : Nat), first_match p l a = some b → a ≤ b := by
            intro l
            induction l with
            | nil => intro a b h; simp [first_match] at h
            | cons x t iht =>
              intro a b h
              simp only [first_match] at h
              split at h
              · simp only [Option.some.injEq] at h; omega
              · have := iht (a + 1) b h; omega
          have := hge rest (k0 + 1) (k0 + 0) h
          omega
        · rintro ⟨⟨x, hx, hpx⟩, _⟩
          simp only [List.getElem?_cons_zero, Option.some.injEq] at hx
          subst hx
          rw [hpf] at hpx
          exact absurd hpx (by decide)
      | succ k =>
        have e : k0 + (k + 1) = (k0 + 1) + k := by omega
        rw [e, ih (k0 + 1) k]
        constructor
        · rintro ⟨hx, hall⟩
          refine ⟨by simpa using hx, ?_⟩
          intro j hj x hx
          cases j with
          | zero =>
            simp only [List.getElem?_cons_zero, Option.some.injEq] at hx
            subst hx; exact hpf
          | succ j =>
            exact hall j (by omega) x (by simpa using hx)
        · rintro ⟨hx, hall⟩
          refine ⟨by simpa using hx, ?_⟩
          intro j hj x hx
          exact hall (j + 1) (by omega) x (by simpa using hx)

/-- C11. Resolver match is exact membership, first match wins: on a registry in which the
name list of every device is a concatenation of non-empty names each ended by a colon, and
a path that starts with an alias `a:` other than `temp:`, `SetTheFinalPathAndFindDevice`
leaves the path as it is and returns the registration with index `k` exactly when the name
list of `k` holds a name equal to the lower-cased `a` and no registration before `k` holds
one; it returns null exactly when no registration holds such a name; and it returns the
same registration for every alias with the same lower-casing. -/
theorem C11_resolver_exact_first_match {δ : Type} (H : host) (fuel : Nat)
    (s_pHead : List (registration δ)) (nl : registration δ → List (List Char))
    (hwf : ∀ r ∈ s_pHead, names_wf r.m_pNames (nl r))
    (a rest : List Char) (ha : ':' ∉ a) (hcolon : H.towlower ':' = ':')
    (hlow : ':' ∉ a.map H.towlower) (htemp : a.map H.towlower ≠ ['t', 'e', 'm', 'p']) :
    ∃ found, SetTheFinalPathAndFindDevice H fuel s_pHead (a ++ ':' :: rest) =
        .ok (a ++ ':' :: rest, found) ∧
      (∀ k, found = some k ↔
        (∃ r, s_pHead[k]? = some r ∧ a.map H.towlower ∈ nl r) ∧
          ∀ j, j < k → ∀ r, s_pHead[j]? = some r → a.map H.towlower ∉ nl r) ∧
      (found = none ↔ ∀ r ∈ s_pHead, a.map H.towlower ∉ nl r) ∧
      ∀ a2 rest2 : List Char, ':' ∉ a2 → a2.map H.towlower = a.map H.towlower →
        SetTheFinalPathAndFindDevice H fuel s_pHead (a2 ++ ':' :: rest2) =
          .ok (a2 ++ ':' :: rest2, found) := by
  refine ⟨_, resolve_alias H fuel s_pHead nl hwf a rest ha hcolon hlow htemp, ?_, ?_, ?_⟩
  · intro k
    have h := first_match_some (fun r => decide (a.map H.towlower ∈ nl r)) s_pHead 0 k
    simp only [Nat.zero_add, decide_eq_true_eq, decide_eq_false_iff_not] at h
    exact h
  · have h := first_match_none (fun r => decide (a.map H.towlower ∈ nl r)) s_pHead 0
    simp only [decide_eq_false_iff_not] at h
    exact h
  · intro a2 rest2 ha2 he
    have h := resolve_alias H fuel s_pHead nl hwf a2 rest2 ha2 hcolon (by rw [he]; exact hlow)
      (by rw [he]; exact htemp)
    rw [he] at h
    exact h

theorem sample_names_wf : ∀ r ∈ registry.sample, names_wf r.m_pNames (name_list r.m_pNames) := by
  intro r hr
  simp only [registry.sample, List.mem_cons, List.mem_singleton, List.not_mem_nil, or_false] at hr
  rcases hr with rfl | rfl
  · unfold names_wf; decide
  · unfold names_wf; decide

set_option maxRecDepth 8000 in
/-- C11 at the alias `RAM:` on the registry of the source. -/
theorem C11_witness :
    (∀ r ∈ registry.sample, names_wf r.m_pNames (name_list r.m_pNames)) ∧
    ∃ found, SetTheFinalPathAndFindDevice host.sample 0 registry.sample
        (['R', 'A', 'M'] ++ ':' :: ['/', 'x']) = .ok (['R', 'A', 'M'] ++ ':' :: ['/', 'x'], found) ∧
      (∀ k, found = some k ↔
        (∃ r, registry.sample[k]? = some r ∧
            ['R', 'A', 'M'].map host.sample.towlower ∈ name_list r.m_pNames) ∧
          ∀ j, j < k → ∀ r, registry.sample[j]? = some r →
            ['R', 'A', 'M'].map host.sample.towlower ∉ name_list r.m_pNames) ∧
      (found = none ↔
        ∀ r ∈ registry.sample, ['R', 'A', 'M'].map host.sample.towlower ∉ name_list r.m_pNames) ∧
      ∀ a2 rest2 : List Char, ':' ∉ a2 →
        a2.map host.sample.towlower = ['R', 'A', 'M'].map host.sample.towlower →
        SetTheFinalPathAndFindDevice host.sample 0 registry.sample (a2 ++ ':' :: rest2) =
          .ok (a2 ++ ':' :: rest2, found) :=
  ⟨sample_names_wf,
    C11_resolver_exact_first_match host.sample 0 registry.sample (fun r => name_list r.m_pNames)
      sample_names_wf ['R', 'A', 'M'] ['/', 'x'] (by decide) (by decide) (by decide) (by decide)⟩

set_option maxRecDepth 8000 in
/-- C12. The temp branch of `SetTheFinalPathAndFindDevice` removes six characters, the
alias `temp:` and the character after it: for `temp:file.txt` the final path is the temp
directory followed by `ile.txt`, for `TEMP:a/b` it is the temp directory followed by `/b`,
and for `temp:` alone `Path.substr(6)` throws `std::out_of_range`; only a remainder that
starts with a separator, as in `temp:/test.dat`, loses nothing but that separator. -/
theorem C12_temp_alias_drops_a_character :
    SetTheFinalPathAndFindDevice host.sample 2 registry.sample "temp:file.txt".toList =
        .ok ("C:\\Temp\\ile.txt".toList, some 1) ∧
    SetTheFinalPathAndFindDevice host.sample 2 registry.sample "TEMP:a/b".toList =
        .ok ("C:\\Temp\\/b".toList, some 1) ∧
    SetTheFinalPathAndFindDevice host.sample 2 registry.sample "temp:".toList =
        .error (Stop.thrown "std::out_of_range from Path.substr") ∧
    SetTheFinalPathAndFindDevice host.sample 2 registry.sample "temp:/test.dat".toList =
        .ok ("C:\\Temp\\test.dat".toList, some 1) := by
  refine ⟨?_, ?_, ?_, ?_⟩ <;> decide

/-- C13. Unresolved device: when the stream owns no instance and no registered device has
a name equal to the lower-case device name the resolver computes for the path (the
lower-cased alias of the path; for a `temp:` path or a path without alias, that of the
rewritten path), `stream::open` returns the DEVICE_FAILURE state, the stream owns no
instance afterwards, and the registry, with every in-use counter, initialised counter and
pool, and the calls made into the devices are as before. -/
theorem C13_unresolved_device {δ σ : Type} (H : host) (V : device_vtable δ σ) (fuel : Nat)
    (w : world δ) (s : stream) (Path : wstring) (pMode : List Char)
    (nl : registration δ → List (List Char))
    (hwf : ∀ r ∈ w.s_pHead, names_wf r.m_pNames (nl r)) (hs : s.m_pInstance = none)
    (FinalPath a : List Char)
    (hpath : SetTheFinalPath H fuel Path = .ok (FinalPath, a ++ [':'])) (ha : ':' ∉ a)
    (hno : ∀ r ∈ w.s_pHead, a ∉ nl r) :
    ∃ s1, stream.open_ H V fuel w s Path pMode =
        .ok (xerr.create state.DEVICE_FAILURE "Unable to find requested device", s1, w) ∧
      s1.m_pInstance = none ∧ s1.isOpen = false := by
  have hfm : first_match (fun r => decide (a ∈ nl r)) w.s_pHead 0 = none := by
    rw [first_match_none]
    intro r hr
    simpa using hno r hr
  have hne : (a ++ [':']).isEmpty = false := by cases a <;> rfl
  have hres : SetTheFinalPathAndFindDevice H fuel w.s_pHead Path = .ok (FinalPath, none) := by
    unfold SetTheFinalPathAndFindDevice
    rw [hpath]
    simp only [hne, Bool.false_eq_true, if_false, findDevice_spec a ha nl w.s_pHead 0 hwf, hfm]
  refine ⟨{ s with m_FilePath := FinalPath, m_pDeviceReg := none }, ?_, hs, ?_⟩
  · unfold stream.open_
    simp only [hs, ne_eq, not_true_eq_false, if_false, hres]
  · simp [stream.isOpen, hs]

set_option maxRecDepth 8000 in
/-- C13 at the path `net:/x` on the registry of the source, with the RAM device. -/
theorem C13_witness :
    (∀ r ∈ registry.sample, names_wf r.m_pNames (name_list r.m_pNames)) ∧
    SetTheFinalPath host.sample 0 "net:/x".toList = .ok ("net:/x".toList, ['n', 'e', 't'] ++ [':']) ∧
    (∀ r ∈ registry.sample, ['n', 'e', 't'] ∉ name_list r.m_pNames) ∧
    ∃ s1, stream.open_ host.sample (device.vtable memfile.ops) 0 { s_pHead := registry.sample } {}
        "net:/x".toList ['r'] =
        .ok (xerr.create state.DEVICE_FAILURE "Unable to find requested device", s1,
          { s_pHead := registry.sample }) ∧
      s1.m_pInstance = none ∧ s1.isOpen = false :=
  ⟨sample_names_wf, by decide, by decide,
    C13_unresolved_device host.sample (device.vtable memfile.ops) 0 { s_pHead := registry.sample }
      {} "net:/x".toList ['r'] (fun r => name_list r.m_pNames) sample_names_wf rfl
      "net:/x".toList ['n', 'e', 't'] (by decide) (by decide) (by decide)⟩

/-! ## The claims on stream::open and stream::close -/

theorem seekCheck_link (f e f1) (h : memfile.seekCheck f = .ok (e, f1)) : f1.m_iNext = f.m_iNext := by
  unfold memfile.seekCheck at h
  split at h
  · simp only [Except.ok.injEq, Prod.mk.injEq] at h; rw [← h.2]
  · exact absurd h (by simp)

theorem Seek_link (f : memfile) (m : seek_mode) (p : Nat) (e : xerr) (f1 : memfile)
    (h : memfile.Seek f m p = .ok (e, f1)) : f1.m_iNext = f.m_iNext := by
  cases m
  · simp only [memfile.Seek, memfile.SeekOrigin] at h
    exact seekCheck_link _ _ _ h |>.trans rfl
  · simp only [memfile.Seek, memfile.SeekCurrent] at h
    exact seekCheck_link _ _ _ h |>.trans rfl
  · simp only [memfile.Seek, memfile.SeekEnd] at h
    exact seekCheck_link _ _ _ h |>.trans rfl

theorem open_link (f : memfile) (p : wstring) (a : access_types) (e : xerr) (f1 : memfile)
    (h : memfile.open_ f p a = .ok (e, f1)) : f1.m_iNext = f.m_iNext := by
  unfold memfile.open_ at h
  split at h
  · simp only [Except.ok.injEq, Prod.mk.injEq] at h; rw [← h.2]
  · exact absurd h (by simp)

theorem ops_keepsLink : memfile.ops.keepsLink :=
  ⟨open_link, fun _ => rfl, Seek_link⟩

theorem failing_open_keepsLink : failing_open.keepsLink := by
  refine ⟨?_, fun _ => rfl, Seek_link⟩
  intro f p a e f1 h
  simp only [failing_open, Except.ok.injEq, Prod.mk.injEq] at h
  rw [← h.2]

theorem failing_seek_keepsLink : failing_seek.keepsLink := by
  refine ⟨open_link, fun _ => rfl, ?_⟩
  intro f m p e f1 h
  simp only [failing_seek, Except.ok.injEq, Prod.mk.injEq] at h
  rw [← h.2]

theorem Part_mk0_cons : device.mk0.Part [] (0 :: List.range' 1 127) := by
  have h : List.range pool_size = 0 :: List.range' 1 127 := by decide
  rw [← h]; exact Part_mk0

theorem open_ok {δ σ : Type} (H : host) (V : device_vtable δ σ) (fuel : Nat) (w : world δ)
    (s : stream) (Path : wstring) (pMode : List Char) (FinalPath : wstring) (k : Nat)
    (acc : access_types) (b : Bool) (r : registration δ) (e : xerr) (m_pInstance : Option Nat)
    (r1 : registration δ) (c : List device_call) (hs : s.m_pInstance = none)
    (hres : SetTheFinalPathAndFindDevice H fuel w.s_pHead Path = .ok (FinalPath, some k))
    (hmode : open_.parseMode s.m_AccessType pMode = .ok (acc, b))
    (hr : w.s_pHead[k]? = some r)
    (hd : open_.onDevice V k r FinalPath acc b = .ok (e, m_pInstance, r1, c)) :
    stream.open_ H V fuel w s Path pMode =
      .ok (e, { s with m_FilePath := FinalPath, m_pDeviceReg := some k, m_AccessType := acc,
                       m_pInstance := m_pInstance },
        { s_pHead := w.s_pHead.set k r1, calls := w.calls ++ c }) := by
  unfold stream.open_
  simp only [hs, ne_eq, not_true_eq_false, if_false, hres, hmode, hr, hd]

theorem link_allocated (d d1 : device) (out free free1 : List Nat) (hp : d.Part out free)
    (hp1 : d1.Part out free1) (j : Nat) (hj : j < pool_size) :
    d1.link j = -2 ↔ d.link j = -2 := by
  rw [hp.2.2.2.2.2.2 j hj, hp1.2.2.2.2.2.2 j hj]

/-- C14. Backend open failure is atomic: on a device made of the pool, with `out` the
allocated slots and slot `i` at the head of the free list, when the stream owns no
instance, the path resolves to the device and the backend `open` of the acquired instance
returns an error `E`, `stream::open` returns `E`, the stream owns no instance, the in-use
counter of the device has its value of before the call, the allocated slots are the same
as before and slot `i` is back at the head of the free list; the calls made are `Init` on
first use, `createInstance`, the backend `open` and `destroyInstance`. -/
theorem C14_backend_open_failure_is_atomic (H : host) (I : device_instance memfile)
    (hI : I.keepsLink) (fuel : Nat) (w : world device) (s : stream) (Path : wstring)
    (pMode : List Char) (FinalPath : wstring) (k : Nat) (acc : access_types) (b : Bool)
    (r : registration device) (out rest : List Nat) (i : Nat) (E : xerr) (f1 : memfile)
    (hs : s.m_pInstance = none)
    (hres : SetTheFinalPathAndFindDevice H fuel w.s_pHead Path = .ok (FinalPath, some k))
    (hmode : open_.parseMode s.m_AccessType pMode = .ok (acc, b))
    (hr : w.s_pHead[k]? = some r) (hp : r.m_pDevice.Part out (i :: rest))
    (hopen : I.open_ (r.m_pDevice.acquired i) FinalPath acc = .ok (E, f1)) (hE : E ≠ xerr.ok) :
    ∃ s1 r1, stream.open_ H (device.vtable I) fuel w s Path pMode =
        .ok (E, s1, { s_pHead := w.s_pHead.set k r1,
                      calls := w.calls ++
                        ((if r.s_nHaveUsed = 0 then [device_call.Init k] else []) ++
                          [device_call.createInstance k i, device_call.open_ k i] ++
                          [device_call.destroyInstance k i]) }) ∧
      s1.m_pInstance = none ∧ s1.isOpen = false ∧ r1.s_nInUse = r.s_nInUse ∧
      r1.m_pDevice.Part out (i :: rest) ∧ r1.m_pDevice.m_iEmptyHead.m_iNext = (i : Int) ∧
      r1.m_pDevice.allocated = r.m_pDevice.allocated ∧
      ∀ j, j < pool_size → (r1.m_pDevice.link j = -2 ↔ r.m_pDevice.link j = -2) := by
  obtain ⟨d3, hd, hp3, hh⟩ := onDevice_open_fails I hI k r out rest i FinalPath acc b E f1 hp hopen hE
  refine ⟨_, { r with m_pDevice := d3, s_nInUse := r.s_nInUse + 1 - 1,
                        s_nHaveUsed := if r.s_nHaveUsed = 0 then 1 else r.s_nHaveUsed },
    open_ok H (device.vtable I) fuel w s Path pMode FinalPath k acc b r _ _ _ _ hs hres
      hmode hr hd, rfl, rfl, ?_, hp3, hh, ?_, ?_⟩
  · show r.s_nInUse + 1 - 1 = r.s_nInUse
    omega
  · show d3.allocated = _
    rw [allocated_eq d3 _ _ hp3, allocated_eq _ _ _ hp]
  · intro j hj
    exact link_allocated r.m_pDevice d3 out _ _ hp hp3 j hj

set_option maxRecDepth 8000 in
/-- C14 at the path `c:/x`, opened for reading on the registry of the source, with a
backend whose `open` reports that the file is missing. -/
theorem C14_witness :
    failing_open.keepsLink ∧ ({} : stream).m_pInstance = none ∧
    SetTheFinalPathAndFindDevice host.sample 0 registry.sample "c:/x".toList =
      .ok ("c:/x".toList, some 1) ∧
    open_.parseMode ({} : stream).m_AccessType ['r'] = .ok ({ m_bRead := true }, false) ∧
    registry.sample[1]? = some (registry.sample.get ⟨1, by decide⟩) ∧
    device.mk0.Part [] (0 :: List.range' 1 127) ∧
    ∃ s1 r1, stream.open_ host.sample (device.vtable failing_open) 0
        { s_pHead := registry.sample } {} "c:/x".toList ['r'] =
        .ok (xerr.create state.OPENING_FILE "The system cannot find the file specified.", s1,
          { s_pHead := registry.sample.set 1 r1,
            calls := [] ++
              ((if (registry.sample.get ⟨1, by decide⟩).s_nHaveUsed = 0 then [device_call.Init 1]
                else []) ++
                [device_call.createInstance 1 0, device_call.open_ 1 0] ++
                [device_call.destroyInstance 1 0]) }) ∧
      s1.m_pInstance = none ∧ s1.isOpen = false ∧
      r1.s_nInUse = (registry.sample.get ⟨1, by decide⟩).s_nInUse ∧
      r1.m_pDevice.Part [] (0 :: List.range' 1 127) ∧
      r1.m_pDevice.m_iEmptyHead.m_iNext = ((0 : Nat) : Int) ∧
      r1.m_pDevice.allocated = (registry.sample.get ⟨1, by decide⟩).m_pDevice.allocated ∧
      ∀ j, j < pool_size →
        (r1.m_pDevice.link j = -2 ↔ (registry.sample.get ⟨1, by decide⟩).m_pDevice.link j = -2) :=
  ⟨failing_open_keepsLink, rfl, by decide, by decide, rfl, Part_mk0_cons,
    C14_backend_open_failure_is_atomic host.sample failing_open failing_open_keepsLink 0
      { s_pHead := registry.sample } {} "c:/x".toList ['r'] "c:/x".toList 1 { m_bRead := true }
      false (registry.sample.get ⟨1, by decide⟩) [] (List.range' 1 127) 0
      (xerr.create state.OPENING_FILE "The system cannot find the file specified.")
      (device.mk0.acquired 0) rfl (by decide) (by decide) rfl Part_mk0_cons rfl (by decide)⟩

theorem mem_set_cases {α : Type} (l : List α) (k : Nat) (x y : α) (h : y ∈ l.set k x) :
    y = x ∨ y ∈ l := by
  induction l generalizing k with
  | nil => simp at h
  | cons a t ih =>
    cases k with
    | zero =>
      simp only [List.set_cons_zero, List.mem_cons] at h
      rcases h with h | h
      · exact Or.inl h
      · exact Or.inr (List.mem_cons_of_mem _ h)
    | succ k =>
      simp only [List.set_cons_succ, List.mem_cons] at h
      rcases h with h | h
      · exact Or.inr (h ▸ List.mem_cons_self _ _)
      · rcases ih k h with h2 | h2
        · exact Or.inl h2
        · exact Or.inr (List.mem_cons_of_mem _ h2)

set_option maxRecDepth 8000 in
/-- The run of C15 on the registry of the source: with a backend whose `Seek` fails,
opening `c:/x` in mode `"a"` returns the INCOMPLETE state, and afterwards the stream owns
no instance (`isOpen` is false), every in-use counter is 0 and no pool slot is allocated. -/
theorem seek_failure_on_sample_registry :
    ∃ s1 w1, stream.open_ host.sample (device.vtable failing_seek) 0
        { s_pHead := registry.sample } {} "c:/x".toList ['a'] =
        .ok (xerr.create state.INCOMPLETE
          "Able to open the file but failed to seek at the end of the file", s1, w1) ∧
      ¬ (s1.isOpen = true) ∧ s1.m_pInstance = none ∧
      ∀ r ∈ w1.s_pHead, r.s_nInUse = 0 ∧ r.m_pDevice.allocated = 0 := by
  obtain ⟨d3, hd, hp3, _⟩ := onDevice_seek_fails failing_seek failing_seek_keepsLink 1
    (registry.sample.get ⟨1, by decide⟩) [] (List.range' 1 127) 0 "c:/x".toList
    { m_bRead := true, m_bWrite := true } true (device.mk0.acquired 0) (device.mk0.acquired 0)
    (xerr.create state.FAILURE "Seek failed") Part_mk0_cons rfl (by decide) rfl (by decide)
  refine ⟨_, _, open_ok host.sample (device.vtable failing_seek) 0 { s_pHead := registry.sample }
    {} "c:/x".toList ['a'] "c:/x".toList 1 _ _ _ _ _ _ _ rfl (by decide) (by decide) rfl hd,
    by decide, rfl, ?_⟩
  intro r hr
  rcases mem_set_cases _ _ _ _ hr with h | h
  · subst h
    exact ⟨rfl, allocated_eq d3 _ _ hp3⟩
  · simp only [registry.sample, List.mem_cons, List.mem_singleton, List.not_mem_nil,
      or_false] at h
    rcases h with rfl | rfl
    · exact ⟨rfl, allocated_eq _ _ _ Part_mk0⟩
    · exact ⟨rfl, allocated_eq _ _ _ Part_mk0⟩

/-- C15. Append seek failure does not keep the file open, and drops the opened instance
without closing it: on a device made of the pool, with `out` the allocated slots and slot
`i` at the head of the free list, when the stream owns no instance, the path resolves to
the device, the mode asks for the seek to the end and not for creation (it holds `a` and
not `w`), the backend `open` succeeds and the seek to the end fails, `stream::open`
returns the INCOMPLETE state and the stream owns no instance (`isOpen` is false); the
calls made into the device are `createInstance`, `open`, `Seek` and `destroyInstance`,
with no call of the backend `close` for the instance whose `open` succeeded; slot `i` is
back at the head of the free list, the allocated slots are the same as before and the
in-use counter has its value of before the call. -/
theorem C15_append_seek_failure_releases (H : host) (I : device_instance memfile)
    (hI : I.keepsLink) (fuel : Nat) (w : world device) (s : stream) (Path : wstring)
    (pMode : List Char) (FinalPath : wstring) (k : Nat) (acc : access_types) (b : Bool)
    (r : registration device) (out rest : List Nat) (i : Nat) (E : xerr) (f1 f2 : memfile)
    (hs : s.m_pInstance = none)
    (hres : SetTheFinalPathAndFindDevice H fuel w.s_pHead Path = .ok (FinalPath, some k))
    (hmode : open_.parseMode s.m_AccessType pMode = .ok (acc, b))
    (hsk : acc.m_bCreate = false ∧ b = true)
    (hr : w.s_pHead[k]? = some r) (hp : r.m_pDevice.Part out (i :: rest))
    (hopen : I.open_ (r.m_pDevice.acquired i) FinalPath acc = .ok (xerr.ok, f1))
    (hseek : I.Seek f1 seek_mode.SKM_END 0 = .ok (E, f2)) (hE : E ≠ xerr.ok) :
    ∃ s1 r1, stream.open_ H (device.vtable I) fuel w s Path pMode =
        .ok (xerr.create state.INCOMPLETE
            "Able to open the file but failed to seek at the end of the file", s1,
          { s_pHead := w.s_pHead.set k r1,
            calls := w.calls ++
              ((if r.s_nHaveUsed = 0 then [device_call.Init k] else []) ++
                [device_call.createInstance k i, device_call.open_ k i] ++
                [device_call.Seek k i] ++ [device_call.destroyInstance k i]) }) ∧
      s1.m_pInstance = none ∧ s1.isOpen = false ∧ r1.s_nInUse = r.s_nInUse ∧
      r1.m_pDevice.Part out (i :: rest) ∧ r1.m_pDevice.m_iEmptyHead.m_iNext = (i : Int) ∧
      r1.m_pDevice.allocated = r.m_pDevice.allocated ∧
      ∀ j, j < pool_size → (r1.m_pDevice.link j = -2 ↔ r.m_pDevice.link j = -2) := by
  obtain ⟨d3, hd, hp3, hh⟩ :=
    onDevice_seek_fails I hI k r out rest i FinalPath acc b f1 f2 E hp hopen hsk hseek hE
  refine ⟨_, { r with m_pDevice := d3, s_nInUse := r.s_nInUse + 1 - 1,
                        s_nHaveUsed := if r.s_nHaveUsed = 0 then 1 else r.s_nHaveUsed },
    open_ok H (device.vtable I) fuel w s Path pMode FinalPath k acc b r _ _ _ _ hs hres
      hmode hr hd, rfl, rfl, ?_, hp3, hh, ?_, ?_⟩
  · show r.s_nInUse + 1 - 1 = r.s_nInUse
    omega
  · show d3.allocated = _
    rw [allocated_eq d3 _ _ hp3, allocated_eq _ _ _ hp]
  · intro j hj
    exact link_allocated r.m_pDevice d3 out _ _ hp hp3 j hj

set_option maxRecDepth 8000 in
/-- C15 at the path `c:/x` opened in mode `"a"` on the registry of the source, with a
backend whose `Seek` fails. -/
theorem C15_witness :
    failing_seek.keepsLink ∧ ({} : stream).m_pInstance = none ∧
    SetTheFinalPathAndFindDevice host.sample 0 registry.sample "c:/x".toList =
      .ok ("c:/x".toList, some 1) ∧
    open_.parseMode ({} : stream).m_AccessType ['a'] =
      .ok ({ m_bRead := true, m_bWrite := true }, true) ∧
    registry.sample[1]? = some (registry.sample.get ⟨1, by decide⟩) ∧
    device.mk0.Part [] (0 :: List.range' 1 127) ∧
    ∃ s1 r1, stream.open_ host.sample (device.vtable failing_seek) 0
        { s_pHead := registry.sample } {} "c:/x".toList ['a'] =
        .ok (xerr.create state.INCOMPLETE
            "Able to open the file but failed to seek at the end of the file", s1,
          { s_pHead := registry.sample.set 1 r1,
            calls := [] ++
              ((if (registry.sample.get ⟨1, by decide⟩).s_nHaveUsed = 0 then [device_call.Init 1]
                else []) ++
                [device_call.createInstance 1 0, device_call.open_ 1 0] ++
                [device_call.Seek 1 0] ++ [device_call.destroyInstance 1 0]) }) ∧
      s1.m_pInstance = none ∧ s1.isOpen = false ∧
      r1.s_nInUse = (registry.sample.get ⟨1, by decide⟩).s_nInUse ∧
      r1.m_pDevice.Part [] (0 :: List.range' 1 127) ∧
      r1.m_pDevice.m_iEmptyHead.m_iNext = ((0 : Nat) : Int) ∧
      r1.m_pDevice.allocated = (registry.sample.get ⟨1, by decide⟩).m_pDevice.allocated ∧
      ∀ j, j < pool_size →
        (r1.m_pDevice.link j = -2 ↔ (registry.sample.get ⟨1, by decide⟩).m_pDevice.link j = -2) :=
  ⟨failing_seek_keepsLink, rfl, by decide, by decide, rfl, Part_mk0_cons,
    C15_append_seek_failure_releases host.sample failing_seek failing_seek_keepsLink 0
      { s_pHead := registry.sample } {} "c:/x".toList ['a'] "c:/x".toList 1
      { m_bRead := true, m_bWrite := true } true (registry.sample.get ⟨1, by decide⟩) []
      (List.range' 1 127) 0 (xerr.create state.FAILURE "Seek failed") (device.mk0.acquired 0)
      (device.mk0.acquired 0) rfl (by decide) (by decide) (by decide) rfl Part_mk0_cons rfl rfl
      (by decide)⟩

theorem Part_mk1 : device.mk1.Part [0] (List.range' 1 127) :=
  (Part_create device.mk0 [] (List.range' 1 127) 0 Part_mk0_cons).2

theorem close_none {δ σ : Type} (V : device_vtable δ σ) (w : world δ) (s : stream)
    (hs : s.m_pInstance = none) : stream.close V w s = .ok ({}, w) := by
  unfold stream.close
  rw [hs]

theorem close_fst {δ σ : Type} (V : device_vtable δ σ) (w w1 : world δ) (s s1 : stream)
    (h : stream.close V w s = .ok (s1, w1)) : s1 = {} := by
  unfold stream.close at h
  split at h
  · simp only [Except.ok.injEq, Prod.mk.injEq] at h; exact h.1.symm
  · split at h
    · exact absurd h (by simp)
    · split at h
      · exact absurd h (by simp)
      · dsimp only at h
        split at h
        · exact absurd h (by simp)
        · simp only [Except.ok.injEq, Prod.mk.injEq] at h; exact h.1.symm

theorem close_close {δ σ : Type} (V : device_vtable δ σ) (w : world δ) (s : stream) :
    (stream.close V w s).bind (fun p => stream.close V p.2 p.1) = stream.close V w s := by
  cases h : stream.close V w s with
  | error e => rfl
  | ok p =>
    obtain ⟨s1, w1⟩ := p
    have h1 := close_fst V w w1 s s1 h
    subst h1
    exact close_none V w1 {} rfl

theorem close_pool (I : device_instance memfile) (hI : I.keepsLink) (w : world device)
    (s : stream) (h k : Nat) (r : registration device) (out free : List Nat)
    (hinst : s.m_pInstance = some h) (hreg : s.m_pDeviceReg = some k)
    (hr : w.s_pHead[k]? = some r) (hp : r.m_pDevice.Part out free) (hh : h ∈ out) :
    ∃ d2, stream.close (device.vtable I) w s =
        .ok ({}, { s_pHead := w.s_pHead.set k { r with m_pDevice := d2, s_nInUse := r.s_nInUse - 1 },
                   calls := w.calls ++ [device_call.close k h, device_call.destroyInstance k h] }) ∧
      d2.Part (out.erase h) (h :: free) := by
  have hp1 := Part_setSlot I r.m_pDevice out free h (I.close ((device.vtable I).slot r.m_pDevice h))
    (hI.2.1 _) hp
  obtain ⟨d2, hd, hp2, _⟩ := Part_destroy _ out free h hp1 hh
  have hd2 : (device.vtable I).destroyInstance
      ((device.vtable I).setSlot r.m_pDevice h
        ((device.vtable I).inst.close ((device.vtable I).slot r.m_pDevice h))) h = .ok d2 := hd
  refine ⟨d2, ?_, hp2⟩
  unfold stream.close
  simp only [hinst, hreg, hr, hd2]

/-- C16. Close releases once and is idempotent: on a device made of the pool, with `out`
the allocated slots, `stream::close` on a stream that owns the instance `h` of the device
`k` calls the backend `close` of `h` once and then `destroyInstance`, takes one from the
in-use counter of the device, moves slot `h` from the allocated slots to the head of the
free list, changes no other registration, and leaves the stream with no instance, no device
reference, zero access flags and an empty path; `stream::close` on a stream without
instance returns the same stream state and leaves the registry and the calls made as they
are; and `close` followed by `close` equals `close`. -/
theorem C16_close_releases_once (I : device_instance memfile) (hI : I.keepsLink)
    (w : world device) (s : stream) (h k : Nat) (r : registration device) (out free : List Nat)
    (hinst : s.m_pInstance = some h) (hreg : s.m_pDeviceReg = some k)
    (hr : w.s_pHead[k]? = some r) (hp : r.m_pDevice.Part out free) (hh : h ∈ out) :
    (∃ d2, stream.close (device.vtable I) w s =
        .ok ({ m_pInstance := none, m_pDeviceReg := none, m_AccessType := access_types.zero,
               m_FilePath := [] },
          { s_pHead := w.s_pHead.set k { r with m_pDevice := d2, s_nInUse := r.s_nInUse - 1 },
            calls := w.calls ++ [device_call.close k h, device_call.destroyInstance k h] }) ∧
      d2.Part (out.erase h) (h :: free) ∧ d2.allocated + 1 = r.m_pDevice.allocated) ∧
    (∀ (w2 : world device) (s2 : stream), s2.m_pInstance = none →
      stream.close (device.vtable I) w2 s2 =
        .ok ({ m_pInstance := none, m_pDeviceReg := none, m_AccessType := access_types.zero,
               m_FilePath := [] }, w2)) ∧
    ∀ (w2 : world device) (s2 : stream),
      (stream.close (device.vtable I) w2 s2).bind
          (fun p => stream.close (device.vtable I) p.2 p.1) =
        stream.close (device.vtable I) w2 s2 := by
  refine ⟨?_, fun w2 s2 h2 => close_none _ w2 s2 h2, fun w2 s2 => close_close _ w2 s2⟩
  obtain ⟨d2, hc, hp2⟩ := close_pool I hI w s h k r out free hinst hreg hr hp hh
  refine ⟨d2, hc, hp2, ?_⟩
  rw [allocated_eq d2 _ _ hp2, allocated_eq _ _ _ hp, List.length_erase_of_mem hh]
  have : 0 < out.length := List.length_pos_of_mem hh
  omega

set_option maxRecDepth 8000 in
/-- C16 at a stream that owns instance 0 of the RAM device. -/
theorem C16_witness :
    memfile.ops.keepsLink ∧
    registry.busy[0]? = some (registry.busy.get ⟨0, by decide⟩) ∧
    device.mk1.Part [0] (List.range' 1 127) ∧ 0 ∈ [0] ∧
    (∃ d2, stream.close (device.vtable memfile.ops) { s_pHead := registry.busy }
          { m_pInstance := some 0, m_pDeviceReg := some 0, m_AccessType := { m_bRead := true },
            m_FilePath := "ram:/x".toList } =
        .ok ({ m_pInstance := none, m_pDeviceReg := none, m_AccessType := access_types.zero,
               m_FilePath := [] },
          { s_pHead := registry.busy.set 0
              { registry.busy.get ⟨0, by decide⟩ with
                m_pDevice := d2, s_nInUse := (registry.busy.get ⟨0, by decide⟩).s_nInUse - 1 },
            calls := [] ++ [device_call.close 0 0, device_call.destroyInstance 0 0] }) ∧
      d2.Part ([0].erase 0) (0 :: List.range' 1 127) ∧
      d2.allocated + 1 = (registry.busy.get ⟨0, by decide⟩).m_pDevice.allocated) ∧
    (∀ (w2 : world device) (s2 : stream), s2.m_pInstance = none →
      stream.close (device.vtable memfile.ops) w2 s2 =
        .ok ({ m_pInstance := none, m_pDeviceReg := none, m_AccessType := access_types.zero,
               m_FilePath := [] }, w2)) ∧
    ∀ (w2 : world device) (s2 : stream),
      (stream.close (device.vtable memfile.ops) w2 s2).bind
          (fun p => stream.close (device.vtable memfile.ops) p.2 p.1) =
        stream.close (device.vtable memfile.ops) w2 s2 :=
  ⟨ops_keepsLink, rfl, Part_mk1, by decide,
    C16_close_releases_once memfile.ops ops_keepsLink { s_pHead := registry.busy }
      { m_pInstance := some 0, m_pDeviceReg := some 0, m_AccessType := { m_bRead := true },
        m_FilePath := "ram:/x".toList } 0 0 (registry.busy.get ⟨0, by decide⟩) [0]
      (List.range' 1 127) rfl rfl rfl Part_mk1 (by decide)⟩

/-! ## The in-use counter -/

theorem create_exhausted (d : device) (out : List Nat) (hp : d.Part out []) :
    ∃ x, d.createInstance = .error x := by
  have hc : d.m_iEmptyHead.m_iNext = -1 := hp.2.1
  refine ⟨Stop.asserted "Local.m_iNext >= 0", ?_⟩
  unfold device.createInstance
  simp only [hc]
  rfl

theorem onDevice_exhausted (I : device_instance memfile) (k : Nat) (r : registration device)
    (out : List Nat) (FP : wstring) (acc : access_types) (b : Bool)
    (hp : r.m_pDevice.Part out []) :
    ∃ x, open_.onDevice (device.vtable I) k r FP acc b = .error x := by
  obtain ⟨x, hx⟩ := create_exhausted r.m_pDevice out hp
  have hc2 : (device.vtable I).createInstance
      (open_.firstUse (device.vtable I) k r).1.m_pDevice = .error x := by
    rw [firstUse_pool]; exact hx
  have hb : open_.busyWait (open_.firstUse (device.vtable I) k r).1.s_nHaveUsed = .ok 0 := by
    rw [firstUse_pool]; exact busyWait_firstUse _
  refine ⟨x, ?_⟩
  unfold open_.onDevice
  simp only [hb, hc2]

theorem onDevice_ok (I : device_instance memfile) (hI : I.keepsLink) (k : Nat)
    (r : registration device) (out free : List Nat) (FP : wstring) (acc : access_types)
    (b : Bool) (e : xerr) (inst : Option Nat) (r1 : registration device) (c : List device_call)
    (hp : r.m_pDevice.Part out free)
    (h : open_.onDevice (device.vtable I) k r FP acc b = .ok (e, inst, r1, c)) :
    (inst = none ∧ r1.s_nInUse = r.s_nInUse ∧ ∃ free1, r1.m_pDevice.Part out free1) ∨
    (∃ i, inst = some i ∧ r1.s_nInUse = r.s_nInUse + 1 ∧ i ∉ out ∧
      ∃ free1, r1.m_pDevice.Part (i :: out) free1) := by
  cases free with
  | nil =>
    obtain ⟨x, hx⟩ := onDevice_exhausted I k r out FP acc b hp
    rw [hx] at h; exact absurd h (by simp)
  | cons i rest =>
    have hi : i ∉ out := by
      have hil : i < pool_size := (Part_length r.m_pDevice out (i :: rest) hp ▸ hp.2.1.2.1)
      exact (hp.2.2.2.2.2.1 i hil).1 (List.mem_cons_self _ _)
    cases ho : I.open_ (r.m_pDevice.acquired i) FP acc with
    | error x =>
      rw [onDevice_open_error I k r out rest i FP acc b x hp ho] at h
      exact absurd h (by simp)
    | ok p =>
      obtain ⟨E, f1⟩ := p
      by_cases hE : E = xerr.ok
      · subst hE
        by_cases hsk : acc.m_bCreate = false ∧ b = true
        · cases hs : I.Seek f1 seek_mode.SKM_END 0 with
          | error x =>
            rw [onDevice_seek_error I k r out rest i FP acc b f1 x hp ho hsk hs] at h
            exact absurd h (by simp)
          | ok q =>
            obtain ⟨E2, f2⟩ := q
            by_cases hE2 : E2 = xerr.ok
            · subst hE2
              obtain ⟨d3, hd, hp3⟩ := onDevice_seeks I hI k r out rest i FP acc b f1 f2 hp ho hsk hs
              rw [hd] at h
              simp only [Except.ok.injEq, Prod.mk.injEq] at h
              obtain ⟨_, h2, h3, _⟩ := h
              subst h2; subst h3
              exact Or.inr ⟨i, rfl, rfl, hi, rest, hp3⟩
            · obtain ⟨d3, hd, hp3, _⟩ :=
                onDevice_seek_fails I hI k r out rest i FP acc b f1 f2 E2 hp ho hsk hs hE2
              rw [hd] at h
              simp only [Except.ok.injEq, Prod.mk.injEq] at h
              obtain ⟨_, h2, h3, _⟩ := h
              subst h2; subst h3
              exact Or.inl ⟨rfl, by show r.s_nInUse + 1 - 1 = _; omega, _, hp3⟩
        · obtain ⟨d2, hd, hp2⟩ := onDevice_opens I hI k r out rest i FP acc b f1 hp ho hsk
          rw [hd] at h
          simp only [Except.ok.injEq, Prod.mk.injEq] at h
          obtain ⟨_, h2, h3, _⟩ := h
          subst h2; subst h3
          exact Or.inr ⟨i, rfl, rfl, hi, rest, hp2⟩
      · obtain ⟨d3, hd, hp3, _⟩ := onDevice_open_fails I hI k r out rest i FP acc b E f1 hp ho hE
        rw [hd] at h
        simp only [Except.ok.injEq, Prod.mk.injEq] at h
        obtain ⟨_, h2, h3, _⟩ := h
        subst h2; subst h3
        exact Or.inl ⟨rfl, by show r.s_nInUse + 1 - 1 = _; omega, _, hp3⟩

theorem open_cases {δ σ : Type} (H : host) (V : device_vtable δ σ) (fuel : Nat) (w : world δ)
    (s : stream) (Path : wstring) (pMode : List Char) (e : xerr) (s1 : stream) (w1 : world δ)
    (h : stream.open_ H V fuel w s Path pMode = .ok (e, s1, w1)) :
    s.m_pInstance = none ∧
    ((s1.m_pDeviceReg = none ∧ s1.m_pInstance = none ∧
        e = xerr.create state.DEVICE_FAILURE "Unable to find requested device" ∧ w1 = w) ∨
      ∃ k r FP acc b r1 c, w.s_pHead[k]? = some r ∧
        open_.onDevice V k r FP acc b = .ok (e, s1.m_pInstance, r1, c) ∧
        s1.m_pDeviceReg = some k ∧
        w1 = { s_pHead := w.s_pHead.set k r1, calls := w.calls ++ c }) := by
  unfold stream.open_ at h
  split at h
  · exact absurd h (by simp)
  · rename_i hs
    have hs : s.m_pInstance = none := by simpa using hs
    refine ⟨hs, ?_⟩
    split at h
    · exact absurd h (by simp)
    · rename_i FP reg hres
      dsimp only at h
      split at h
      · simp only [Except.ok.injEq, Prod.mk.injEq] at h
        obtain ⟨h1, h2, h3⟩ := h
        subst h2
        exact Or.inl ⟨rfl, hs, h1.symm, h3.symm⟩
      · rename_i k
        split at h
        · exact absurd h (by simp)
        · rename_i acc b hmode
          split at h
          · exact absurd h (by simp)
          · rename_i r hr
            split at h
            · exact absurd h (by simp)
            · rename_i e0 inst r1 c hd
              simp only [Except.ok.injEq, Prod.mk.injEq] at h
              obtain ⟨h1, h2, h3⟩ := h
              subst h1; subst h2
              exact Or.inr ⟨k, r, FP, acc, b, r1, c, hr, hd, rfl, h3.symm⟩

theorem close_cases {δ σ : Type} (V : device_vtable δ σ) (w w1 : world δ) (s s1 : stream)
    (h : stream.close V w s = .ok (s1, w1)) :
    s1 = {} ∧
    ((s.m_pInstance = none ∧ w1 = w) ∨
      ∃ i k r d2, s.m_pInstance = some i ∧ s.m_pDeviceReg = some k ∧ w.s_pHead[k]? = some r ∧
        V.destroyInstance (V.setSlot r.m_pDevice i (V.inst.close (V.slot r.m_pDevice i))) i =
          .ok d2 ∧
        w1 = { s_pHead := w.s_pHead.set k { r with m_pDevice := d2, s_nInUse := r.s_nInUse - 1 },
               calls := w.calls ++ [device_call.close k i, device_call.destroyInstance k i] }) := by
  refine ⟨close_fst V w w1 s s1 h, ?_⟩
  unfold stream.close at h
  split at h
  · rename_i hi
    simp only [Except.ok.injEq, Prod.mk.injEq] at h
    exact Or.inl ⟨hi, h.2.symm⟩
  · rename_i i hi
    split at h
    · exact absurd h (by simp)
    · rename_i k hk
      split at h
      · exact absurd h (by simp)
      · rename_i r hr
        dsimp only at h
        split at h
        · exact absurd h (by simp)
        · rename_i d2 hd
          simp only [Except.ok.injEq, Prod.mk.injEq] at h
          exact Or.inr ⟨i, k, r, d2, hi, hk, hr, hd, h.2.symm⟩

theorem countP_set {α : Type} (p : α → Bool) (l : List α) (j : Nat) (a b : α)
    (h : l[j]? = some a) :
    (l.set j b).countP p + (if p a = true then 1 else 0) =
      l.countP p + (if p b = true then 1 else 0) := by
  induction l generalizing j with
  | nil => simp at h
  | cons x t ih =>
    cases j with
    | zero =>
      simp only [List.getElem?_cons_zero, Option.some.injEq] at h
      subst h
      simp only [List.set_cons_zero, List.countP_cons]
      omega
    | succ j =>
      simp only [List.getElem?_cons_succ] at h
      simp only [List.set_cons_succ, List.countP_cons]
      have := ih j h
      omega

theorem owners_set (streams : List stream) (j : Nat) (s s1 : stream) (k : Nat)
    (h : streams[j]? = some s) :
    owners (streams.set j s1) k +
        (if s.m_pDeviceReg = some k ∧ s.m_pInstance.isSome = true then 1 else 0) =
      owners streams k +
        (if s1.m_pDeviceReg = some k ∧ s1.m_pInstance.isSome = true then 1 else 0) := by
  have := countP_set (fun s => decide (s.m_pDeviceReg = some k ∧ s.m_pInstance.isSome = true))
    streams j s s1 h
  simp only [decide_eq_true_eq] at this
  exact this

theorem destroy_ok_mem (d d2 : device) (out free : List Nat) (i : Nat) (hp : d.Part out free)
    (h : d.destroyInstance i = .ok d2) : i ∈ out := by
  unfold device.destroyInstance at h
  split at h
  · exact absurd h (by simp)
  · rename_i hlt
    split at h
    · exact absurd h (by simp)
    · rename_i hl
      have hlt : i < pool_size := by
        have := hp.1
        simp only [not_not] at hlt
        omega
      exact (hp.2.2.2.2.2.2 i hlt).1 (by simpa using hl)

theorem getElem?_set_cases {α : Type} (l : List α) (k j : Nat) (x y : α)
    (h : (l.set k x)[j]? = some y) :
    (j = k ∧ y = x ∧ k < l.length) ∨ (j ≠ k ∧ l[j]? = some y) := by
  by_cases hjk : j = k
  · subst hjk
    by_cases hl : j < l.length
    · rw [List.getElem?_set_self hl] at h
      simp only [Option.some.injEq] at h
      exact Or.inl ⟨rfl, h.symm, hl⟩
    · rw [List.getElem?_eq_none (by simpa using hl)] at h
      exact absurd h (by simp)
  · rw [List.getElem?_set_ne (fun e => hjk e.symm)] at h
    exact Or.inr ⟨hjk, h⟩

/-- The invariant behind the in-use counter: the pool of every registered device is
partitioned, its allocated slots are as many as the in-use counter says and as many as the
streams that own an instance of the device. -/
theorem Reach_inUse (H : host) (I : device_instance memfile) (hI : I.keepsLink)
    (P : program device) (h : program.Reach H (device.vtable I) device.mk0 P) :
    ∀ k r, P.w.s_pHead[k]? = some r →
      ∃ out free, r.m_pDevice.Part out free ∧ r.s_nInUse = (out.length : Int) ∧
        out.length = owners P.streams k := by
  induction h with
  | init P hreg _ hstr =>
    intro k r hr
    obtain ⟨hd, hu, _⟩ := hreg r (List.getElem?_mem hr)
    refine ⟨[], List.range pool_size, by rw [hd]; exact Part_mk0, by simpa using hu, ?_⟩
    unfold owners
    rw [List.countP_eq_zero.2]
    · rfl
    · intro s hs
      rw [hstr s hs]
      simp
  | open_ P j fuel s s1 Path pMode e w1 _ hj hopen ih =>
    intro k r hr
    obtain ⟨hs, hcase⟩ := open_cases H (device.vtable I) fuel P.w s Path pMode e s1 w1 hopen
    have hown := owners_set P.streams j s s1 k hj
    simp only [hs, Option.isSome_none, Bool.false_eq_true, and_false, if_false,
      Nat.add_zero] at hown
    rcases hcase with ⟨h1, h2, _, h4⟩ | ⟨k0, r0, FP, acc, b, r1, c, hr0, hd, hk0, hw⟩
    · subst h4
      obtain ⟨out, free, hp, hu, ho⟩ := ih k r hr
      refine ⟨out, free, hp, hu, ?_⟩
      show out.length = owners (P.streams.set j s1) k
      rw [hown, ho]
      simp [h2]
    · subst hw
      obtain ⟨out0, free0, hp0, hu0, ho0⟩ := ih k0 r0 hr0
      rcases getElem?_set_cases _ _ _ _ _ hr with ⟨hk, hrr, _⟩ | ⟨hk, hrr⟩
      · subst hk; subst hrr
        rcases onDevice_ok I hI k r0 out0 free0 FP acc b e _ _ c hp0 hd with
          ⟨hn, hu1, free1, hp1⟩ | ⟨i, hn, hu1, _, free1, hp1⟩
        · refine ⟨out0, free1, hp1, by rw [hu1, hu0], ?_⟩
          show out0.length = owners (P.streams.set j s1) k
          rw [hown, ho0]
          simp [hn]
        · refine ⟨i :: out0, free1, hp1, by rw [hu1, hu0]; simp, ?_⟩
          show (i :: out0).length = owners (P.streams.set j s1) k
          rw [hown, ← ho0]
          simp [hn, hk0]
      · obtain ⟨out, free, hp, hu, ho⟩ := ih k r hrr
        refine ⟨out, free, hp, hu, ?_⟩
        show out.length = owners (P.streams.set j s1) k
        rw [hown, ho]
        have : s1.m_pDeviceReg ≠ some k := by
          rw [hk0]; intro h; exact hk (Option.some.inj h).symm
        simp [this]
  | close P j s s1 w1 _ hj hclose ih =>
    intro k r hr
    obtain ⟨hs1, hcase⟩ := close_cases (device.vtable I) P.w w1 s s1 hclose
    have hown := owners_set P.streams j s s1 k hj
    subst hs1
    simp only [Option.isSome_none, Bool.false_eq_true, and_false, if_false,
      Nat.add_zero] at hown
    rcases hcase with ⟨hn, hw⟩ | ⟨i, k0, r0, d2, hi, hk0, hr0, hd, hw⟩
    · subst hw
      obtain ⟨out, free, hp, hu, ho⟩ := ih k r hr
      refine ⟨out, free, hp, hu, ?_⟩
      show out.length = owners (P.streams.set j {}) k
      rw [ho, ← hown]
      simp [hn]
    · subst hw
      obtain ⟨out0, free0, hp0, hu0, ho0⟩ := ih k0 r0 hr0
      rcases getElem?_set_cases _ _ _ _ _ hr with ⟨hk, hrr, _⟩ | ⟨hk, hrr⟩
      · subst hk; subst hrr
        have hp1 := Part_setSlot I r0.m_pDevice out0 free0 i
          (I.close ((device.vtable I).slot r0.m_pDevice i)) (hI.2.1 _) hp0
        have hmem := destroy_ok_mem _ d2 out0 free0 i hp1 hd
        obtain ⟨d2x, hdx, hp2, _⟩ := Part_destroy _ out0 free0 i hp1 hmem
        have hd2 : d2x = d2 := by
          have : Except.ok d2x = (Except.ok d2 : Except Stop device) := hdx.symm.trans hd
          exact Except.ok.inj this
        subst hd2
        have hpos : 0 < out0.length := List.length_pos_of_mem hmem
        refine ⟨out0.erase i, i :: free0, hp2, ?_, ?_⟩
        · show r0.s_nInUse - 1 = _
          rw [hu0, List.length_erase_of_mem hmem]
          omega
        · show (out0.erase i).length = owners (P.streams.set j {}) k
          rw [List.length_erase_of_mem hmem]
          have h1 : owners (P.streams.set j {}) k + 1 = owners P.streams k := by
            rw [← hown]; simp [hi, hk0]
          omega
      · obtain ⟨out, free, hp, hu, ho⟩ := ih k r hrr
        refine ⟨out, free, hp, hu, ?_⟩
        show out.length = owners (P.streams.set j {}) k
        rw [ho, ← hown]
        have : s.m_pDeviceReg ≠ some k := by
          rw [hk0]; intro h; exact hk (Option.some.inj h).symm
        simp [this]

theorem sample_init :
    ∀ r ∈ registry.sample, r.m_pDevice = device.mk0 ∧ r.s_nInUse = 0 ∧ r.s_nHaveUsed = 0 := by
  intro r hr
  simp only [registry.sample, List.mem_cons, List.mem_singleton, List.not_mem_nil,
    or_false] at hr
  rcases hr with rfl | rfl
  · exact ⟨rfl, rfl, rfl⟩
  · exact ⟨rfl, rfl, rfl⟩

/-- C17. In-use counter invariant: after every sequential sequence of `stream::open` and
`stream::close` calls that return, on any number of streams and devices made of the pool
(opens that fail at resolution, at the backend `open` or at the append seek included), the
in-use counter of every registered device equals the number of its pool slots marked
allocated, which equals the number of streams that own an instance of the device; the
counter is never negative. -/
theorem C17_in_use_counter_invariant (H : host) (I : device_instance memfile)
    (hI : I.keepsLink) (P : program device)
    (h : program.Reach H (device.vtable I) device.mk0 P) (k : Nat) (r : registration device)
    (hr : P.w.s_pHead[k]? = some r) :
    r.s_nInUse = (r.m_pDevice.allocated : Int) ∧ r.m_pDevice.allocated = owners P.streams k ∧
      0 ≤ r.s_nInUse := by
  obtain ⟨out, free, hp, hu, ho⟩ := Reach_inUse H I hI P h k r hr
  rw [allocated_eq _ _ _ hp, hu]
  exact ⟨rfl, ho, Int.natCast_nonneg _⟩

set_option maxRecDepth 8000 in
/-- C17 at the program state after `ram:/x` has been opened in mode `"w"` on the first
of two streams, on the registry of the source. -/
theorem C17_witness :
    memfile.ops.keepsLink ∧
    ∃ s1 w1, stream.open_ host.sample (device.vtable memfile.ops) 0
        { s_pHead := registry.sample } {} "ram:/x".toList ['w'] = .ok (xerr.ok, s1, w1) ∧
      s1.isOpen = true ∧
      program.Reach host.sample (device.vtable memfile.ops) device.mk0
        { w := w1, streams := [s1, {}] } ∧
      ∃ r, w1.s_pHead[0]? = some r ∧
        r.s_nInUse = (r.m_pDevice.allocated : Int) ∧ r.m_pDevice.allocated = owners [s1, {}] 0 ∧
        0 ≤ r.s_nInUse ∧ r.s_nInUse = 1 := by
  obtain ⟨d2, hd, _⟩ := onDevice_opens memfile.ops ops_keepsLink 0
    (registry.sample.get ⟨0, by decide⟩) [] (List.range' 1 127) 0 "ram:/x".toList
    { m_bRead := true, m_bWrite := true, m_bCreate := true } false (device.mk0.acquired 0)
    Part_mk0_cons rfl (by decide)
  have hopen := open_ok host.sample (device.vtable memfile.ops) 0 { s_pHead := registry.sample }
    {} "ram:/x".toList ['w'] "ram:/x".toList 0 _ _ _ _ _ _ _ rfl (by decide) (by decide) rfl hd
  have hreach : program.Reach host.sample (device.vtable memfile.ops) device.mk0
      { w := _, streams := [_, {}] } :=
    program.Reach.open_ { w := { s_pHead := registry.sample }, streams := [{}, {}] } 0 0 {} _
      "ram:/x".toList ['w'] _ _
      (program.Reach.init _ sample_init rfl (by decide)) rfl hopen
  exact ⟨ops_keepsLink, _, _, hopen, rfl, hreach, _, rfl,
    (C17_in_use_counter_invariant host.sample memfile.ops ops_keepsLink _ hreach 0 _ rfl).1,
    (C17_in_use_counter_invariant host.sample memfile.ops ops_keepsLink _ hreach 0 _ rfl).2.1,
    (C17_in_use_counter_invariant host.sample memfile.ops ops_keepsLink _ hreach 0 _ rfl).2.2,
    rfl⟩

/-! ## The one-time initialisation -/

theorem release_trace {δ σ : Type} (V : device_vtable δ σ) (k h : Nat) (r : registration δ)
    (d : δ) (r2 : registration δ) (c3 : List device_call)
    (hrel : open_.release V k h r d = .ok (r2, c3)) :
    r2.s_nHaveUsed = r.s_nHaveUsed ∧ c3 = [device_call.destroyInstance k h] := by
  unfold open_.release at hrel
  split at hrel
  · exact absurd hrel (by simp)
  · simp only [Except.ok.injEq, Prod.mk.injEq] at hrel
    obtain ⟨h1, h2⟩ := hrel
    subst h1
    exact ⟨rfl, h2.symm⟩

theorem onDevice_trace {δ σ : Type} (V : device_vtable δ σ) (k : Nat) (r : registration δ)
    (FP : wstring) (acc : access_types) (b : Bool) (e : xerr) (inst : Option Nat)
    (r1 : registration δ) (c : List device_call)
    (h : open_.onDevice V k r FP acc b = .ok (e, inst, r1, c)) :
    r1.s_nHaveUsed = (if r.s_nHaveUsed = 0 then 1 else r.s_nHaveUsed) ∧
    ∃ h0 c1, c = (if r.s_nHaveUsed = 0 then [device_call.Init k] else []) ++
        device_call.createInstance k h0 :: c1 ∧
      (∀ j, device_call.Init j ∉ c1) ∧ ∀ j h1, device_call.createInstance j h1 ∉ c1 := by
  have hfu : (open_.firstUse V k r).1.s_nHaveUsed = (if r.s_nHaveUsed = 0 then 1 else r.s_nHaveUsed) ∧
      (open_.firstUse V k r).2 = (if r.s_nHaveUsed = 0 then [device_call.Init k] else []) := by
    unfold open_.firstUse
    by_cases h0 : r.s_nHaveUsed = 0
    · simp [h0]
    · simp [h0]
  unfold open_.onDevice at h
  generalize open_.firstUse V k r = fu at h hfu
  obtain ⟨ra, ca⟩ := fu
  simp only at h hfu
  obtain ⟨hfu1, hfu2⟩ := hfu
  split at h
  · exact absurd h (by simp)
  · split at h
    · exact absurd h (by simp)
    · rename_i h0 d1 _
      split at h
      · exact absurd h (by simp)
      · rename_i e1 f1 _
        split at h
        · split at h
          · exact absurd h (by simp)
          · rename_i r2 c3 hrel
            obtain ⟨hr2, hc3⟩ := release_trace V k h0 ra _ r2 c3 hrel
            simp only [Except.ok.injEq, Prod.mk.injEq] at h
            obtain ⟨_, _, h3, h4⟩ := h
            subst h3; subst h4; subst hc3
            refine ⟨by rw [hr2, hfu1], h0, [device_call.open_ k h0, device_call.destroyInstance k h0],
              by simp [hfu2], ?_, ?_⟩
            · intro j; simp
            · intro j h1; simp
        · split at h
          · split at h
            · exact absurd h (by simp)
            · rename_i e2 f2 _
              split at h
              · split at h
                · exact absurd h (by simp)
                · rename_i r2 c3 hrel
                  obtain ⟨hr2, hc3⟩ := release_trace V k h0 ra _ r2 c3 hrel
                  simp only [Except.ok.injEq, Prod.mk.injEq] at h
                  obtain ⟨_, _, h3, h4⟩ := h
                  subst h3; subst h4; subst hc3
                  refine ⟨by rw [hr2, hfu1], h0,
                    [device_call.open_ k h0, device_call.Seek k h0,
                      device_call.destroyInstance k h0], by simp [hfu2], ?_, ?_⟩
                  · intro j; simp
                  · intro j h1; simp
              · simp only [Except.ok.injEq, Prod.mk.injEq] at h
                obtain ⟨_, _, h3, h4⟩ := h
                subst h3; subst h4
                refine ⟨hfu1, h0, [device_call.open_ k h0, device_call.Seek k h0],
                  by simp [hfu2], ?_, ?_⟩
                · intro j; simp
                · intro j h1; simp
          · simp only [Except.ok.injEq, Prod.mk.injEq] at h
            obtain ⟨_, _, h3, h4⟩ := h
            subst h3; subst h4
            refine ⟨hfu1, h0, [device_call.open_ k h0], by simp [hfu2], ?_, ?_⟩
            · intro j; simp
            · intro j h1; simp

/-- The invariant behind the one-time initialisation: the initialised counter of every
registered device is 0 or 1, it counts the `Init` calls made into the device, and it is 0
exactly as long as no `createInstance` call has been made into the device. -/
theorem Reach_init {δ σ : Type} (H : host) (V : device_vtable δ σ) (d0 : δ) (P : program δ)
    (h : program.Reach H V d0 P) :
    ∀ k r, P.w.s_pHead[k]? = some r →
      (r.s_nHaveUsed = 0 ∨ r.s_nHaveUsed = 1) ∧
      ((P.w.calls.count (device_call.Init k) : Nat) : Int) = r.s_nHaveUsed ∧
      (r.s_nHaveUsed = 0 ↔ ∀ i, device_call.createInstance k i ∉ P.w.calls) := by
  induction h with
  | init P hreg hcalls _ =>
    intro k r hr
    obtain ⟨_, _, hu⟩ := hreg r (List.getElem?_mem hr)
    rw [hcalls, hu]
    simp
  | open_ P j fuel s s1 Path pMode e w1 _ _ hopen ih =>
    intro k r hr
    obtain ⟨_, hcase⟩ := open_cases H V fuel P.w s Path pMode e s1 w1 hopen
    rcases hcase with ⟨_, _, _, h4⟩ | ⟨k0, r0, FP, acc, b, r1, c, hr0, hd, _, hw⟩
    · subst h4
      exact ih k r hr
    · subst hw
      obtain ⟨hu1, i0, c1, hc, hnoI, hnoC⟩ := onDevice_trace V k0 r0 FP acc b e _ r1 c hd
      obtain ⟨h01, hcnt, hiff⟩ := ih k0 r0 hr0
      have hI1 : ∀ j, c1.count (device_call.Init j) = 0 := fun j =>
        List.count_eq_zero_of_not_mem (hnoI j)
      rcases getElem?_set_cases _ _ _ _ _ hr with ⟨hk, hrr, _⟩ | ⟨hk, hrr⟩
      · subst hk; subst hrr
        have h1 : r.s_nHaveUsed = 1 := by
          rw [hu1]; rcases h01 with h | h <;> simp [h]
        refine ⟨Or.inr h1, ?_, ?_⟩
        · show (((P.w.calls ++ c).count (device_call.Init k) : Nat) : Int) = _
          rw [h1, hc]
          simp only [List.count_append, List.count_cons, hI1]
          rcases h01 with h | h
          · rw [h] at hcnt
            simp only [h, if_true, List.count_cons, List.count_nil]
            simp
            omega
          · rw [h] at hcnt
            simp only [h]
            simp
            omega
        · constructor
          · intro h; rw [h1] at h; exact absurd h (by decide)
          · intro h
            exfalso
            apply h i0
            show device_call.createInstance k i0 ∈ P.w.calls ++ c
            rw [hc]
            simp
      · obtain ⟨a01, acnt, aiff⟩ := ih k r hrr
        have hne : k0 ≠ k := fun e => hk e.symm
        refine ⟨a01, ?_, ?_⟩
        · show (((P.w.calls ++ c).count (device_call.Init k) : Nat) : Int) = _
          rw [← acnt, hc]
          simp only [List.count_append, List.count_cons, hI1]
          by_cases h0 : r0.s_nHaveUsed = 0
          · have : List.count (device_call.Init k) [device_call.Init k0] = 0 :=
              List.count_eq_zero_of_not_mem (by simp [hk])
            simp [h0, this]
          · simp [h0]
        · rw [aiff]
          constructor
          · intro h i hi
            have hi : device_call.createInstance k i ∈ P.w.calls ++ c := hi
            rw [hc] at hi
            simp only [List.mem_append, List.mem_cons] at hi
            rcases hi with hi | hi | hi | hi
            · exact h i hi
            · split at hi <;> simp at hi
            · simp only [device_call.createInstance.injEq] at hi
              exact hne hi.1.symm
            · exact hnoC k i hi
          · intro h i hi
            exact h i (List.mem_append_left _ hi)
  | close P j s s1 w1 _ _ hclose ih =>
    intro k r hr
    obtain ⟨_, hcase⟩ := close_cases V P.w w1 s s1 hclose
    rcases hcase with ⟨_, hw⟩ | ⟨i, k0, r0, d2, _, _, hr0, _, hw⟩
    · subst hw
      exact ih k r hr
    · subst hw
      have hcount : (P.w.calls ++ [device_call.close k0 i, device_call.destroyInstance k0 i]).count
          (device_call.Init k) = P.w.calls.count (device_call.Init k) := by
        simp [List.count_append, List.count_cons]
      have hmem : ∀ x, device_call.createInstance k x ∈
          P.w.calls ++ [device_call.close k0 i, device_call.destroyInstance k0 i] ↔
          device_call.createInstance k x ∈ P.w.calls := by
        intro x; simp
      rcases getElem?_set_cases _ _ _ _ _ hr with ⟨hk, hrr, _⟩ | ⟨hk, hrr⟩
      · subst hk; subst hrr
        obtain ⟨a01, acnt, aiff⟩ := ih k r0 hr0
        refine ⟨a01, ?_, ?_⟩
        · show ((List.count _ (P.w.calls ++ _) : Nat) : Int) = r0.s_nHaveUsed
          rw [hcount]; exact acnt
        · show r0.s_nHaveUsed = 0 ↔ ∀ x, device_call.createInstance k x ∉ P.w.calls ++ _
          simp only [hmem]; exact aiff
      · obtain ⟨a01, acnt, aiff⟩ := ih k r hrr
        refine ⟨a01, ?_, ?_⟩
        · show ((List.count _ (P.w.calls ++ _) : Nat) : Int) = r.s_nHaveUsed
          rw [hcount]; exact acnt
        · show r.s_nHaveUsed = 0 ↔ ∀ x, device_call.createInstance k x ∉ P.w.calls ++ _
          simp only [hmem]; exact aiff

/-- C18. One-time device initialisation: in every program state reached by sequential
`stream::open` and `stream::close` calls, whatever the devices, the initialised counter of
a registered device is 0 or 1 and equals the number of `Init` calls made into the device;
it is 0 exactly as long as no open has acquired an instance of the device; the busy-wait
of an open that resolves to the device returns without iterating; and for every open that
returns from this state: when it resolves to no device it returns DEVICE_FAILURE and
leaves the registry and the calls as they are (no `Init`); when it resolves to this device
the counter is 1 afterwards and the calls it makes are `Init` exactly when the counter was
0, then `createInstance`, then calls none of which is an `Init`, whether or not the open
succeeds; when it resolves to another device, the registration and the number of `Init`
calls of this device are as before. -/
theorem C18_one_time_initialisation {δ σ : Type} (H : host) (V : device_vtable δ σ) (d0 : δ)
    (P : program δ) (hP : program.Reach H V d0 P) (k : Nat) (r : registration δ)
    (hr : P.w.s_pHead[k]? = some r) :
    (r.s_nHaveUsed = 0 ∨ r.s_nHaveUsed = 1) ∧
    ((P.w.calls.count (device_call.Init k) : Nat) : Int) = r.s_nHaveUsed ∧
    (r.s_nHaveUsed = 0 ↔ ∀ i, device_call.createInstance k i ∉ P.w.calls) ∧
    open_.busyWait (open_.firstUse V k r).1.s_nHaveUsed = .ok 0 ∧
    ∀ (fuel : Nat) (s : stream) (Path : wstring) (pMode : List Char) (e : xerr) (s1 : stream)
      (w1 : world δ), stream.open_ H V fuel P.w s Path pMode = .ok (e, s1, w1) →
      (s1.m_pDeviceReg = none →
        e = xerr.create state.DEVICE_FAILURE "Unable to find requested device" ∧ w1 = P.w) ∧
      (s1.m_pDeviceReg = some k →
        ∃ r1 i c, w1.s_pHead[k]? = some r1 ∧ r1.s_nHaveUsed = 1 ∧
          w1.calls = P.w.calls ++ ((if r.s_nHaveUsed = 0 then [device_call.Init k] else []) ++
            device_call.createInstance k i :: c) ∧
          ∀ j, device_call.Init j ∉ c) ∧
      (s1.m_pDeviceReg ≠ some k →
        w1.s_pHead[k]? = some r ∧
          w1.calls.count (device_call.Init k) = P.w.calls.count (device_call.Init k)) := by
  obtain ⟨h01, hcnt, hiff⟩ := Reach_init H V d0 P hP k r hr
  refine ⟨h01, hcnt, hiff, ?_, ?_⟩
  · unfold open_.firstUse open_.busyWait
    rcases h01 with h | h <;> simp [h]
  · intro fuel s Path pMode e s1 w1 hopen
    obtain ⟨_, hcase⟩ := open_cases H V fuel P.w s Path pMode e s1 w1 hopen
    rcases hcase with ⟨h1, _, h3, h4⟩ | ⟨k0, r0, FP, acc, b, r1, c, hr0, hd, hk0, hw⟩
    · refine ⟨fun _ => ⟨h3, h4⟩, fun h => ?_, fun _ => ?_⟩
      · rw [h1] at h; exact absurd h (by simp)
      · rw [h4]; exact ⟨hr, rfl⟩
    · obtain ⟨hu1, i0, c1, hc, hnoI, hnoC⟩ := onDevice_trace V k0 r0 FP acc b e _ r1 c hd
      refine ⟨fun h => ?_, fun h => ?_, fun h => ?_⟩
      · rw [hk0] at h; exact absurd h (by simp)
      · rw [hk0] at h
        have hk : k0 = k := Option.some.inj h
        subst hk
        have hrr : r0 = r := Option.some.inj (hr0.symm.trans hr)
        subst hrr
        have hlt : k0 < P.w.s_pHead.length := by
          by_contra hge
          rw [List.getElem?_eq_none (by omega)] at hr
          exact absurd hr (by simp)
        refine ⟨r1, i0, c1, ?_, ?_, ?_, hnoI⟩
        · rw [hw]; exact List.getElem?_set_self hlt
        · rw [hu1]; rcases h01 with h | h <;> simp [h]
        · rw [hw, hc]
      · have hne : k0 ≠ k := fun e => h (by rw [hk0, e])
        refine ⟨?_, ?_⟩
        · rw [hw]
          show (P.w.s_pHead.set k0 r1)[k]? = some r
          rw [List.getElem?_set_ne hne]; exact hr
        · rw [hw]
          show List.count (device_call.Init k) (P.w.calls ++ c) = _
          have h1 : List.count (device_call.Init k) c1 = 0 :=
            List.count_eq_zero_of_not_mem (hnoI k)
          rw [hc]
          simp only [List.count_append, List.count_cons, h1]
          by_cases h0 : r0.s_nHaveUsed = 0
          · have : List.count (device_call.Init k) [device_call.Init k0] = 0 :=
              List.count_eq_zero_of_not_mem (by simp [Ne.symm hne])
            simp [h0, this]
          · simp [h0]

set_option maxRecDepth 8000 in
/-- C18 at the program state after `ram:/x` has been opened in mode `"w"` on the registry
of the source: one `Init` call has been made into the RAM device and its counter is 1, none
into the Windows device. -/
theorem C18_witness :
    ∃ s1 w1, stream.open_ host.sample (device.vtable memfile.ops) 0
        { s_pHead := registry.sample } {} "ram:/x".toList ['w'] = .ok (xerr.ok, s1, w1) ∧
      program.Reach host.sample (device.vtable memfile.ops) device.mk0
        { w := w1, streams := [s1] } ∧
      ∃ r, w1.s_pHead[0]? = some r ∧ r.s_nHaveUsed = 1 ∧
        ((w1.calls.count (device_call.Init 0) : Nat) : Int) = r.s_nHaveUsed ∧
        (r.s_nHaveUsed = 0 ↔ ∀ i, device_call.createInstance 0 i ∉ w1.calls) ∧
        open_.busyWait (open_.firstUse (device.vtable memfile.ops) 0 r).1.s_nHaveUsed = .ok 0 := by
  obtain ⟨d2, hd, _⟩ := onDevice_opens memfile.ops ops_keepsLink 0
    (registry.sample.get ⟨0, by decide⟩) [] (List.range' 1 127) 0 "ram:/x".toList
    { m_bRead := true, m_bWrite := true, m_bCreate := true } false (device.mk0.acquired 0)
    Part_mk0_cons rfl (by decide)
  have hopen := open_ok host.sample (device.vtable memfile.ops) 0 { s_pHead := registry.sample }
    {} "ram:/x".toList ['w'] "ram:/x".toList 0 _ _ _ _ _ _ _ rfl (by decide) (by decide) rfl hd
  have hreach : program.Reach host.sample (device.vtable memfile.ops) device.mk0
      { w := _, streams := [_] } :=
    program.Reach.open_ { w := { s_pHead := registry.sample }, streams := [{}] } 0 0 {} _
      "ram:/x".toList ['w'] _ _
      (program.Reach.init _ sample_init rfl (by decide)) rfl hopen
  exact ⟨_, _, hopen, hreach, _, rfl, rfl,
    (C18_one_time_initialisation host.sample (device.vtable memfile.ops) device.mk0 _ hreach 0 _
      rfl).2.1,
    (C18_one_time_initialisation host.sample (device.vtable memfile.ops) device.mk0 _ hreach 0 _
      rfl).2.2.1,
    (C18_one_time_initialisation host.sample (device.vtable memfile.ops) device.mk0 _ hreach 0 _
      rfl).2.2.2.1⟩

/-! ## The RAM file: growth and round trip -/

theorem ReadLoop_spec :
    ∀ (k : Nat) (f : memfile) (idx off bo p : Nat) (View : List Byte),
      f.m_SeekPosition = (p : Int) → idx * block_size_v + off = p → off < block_size_v →
      p + k < f.m_lBlock.length * block_size_v → bo + k ≤ View.length →
      ∃ V1, memfile.ReadLoop k f idx off bo View =
          .ok (xerr.ok, V1, f.moveTo ((p + k : Nat) : Int)) ∧
        V1.length = View.length ∧
        ∀ j, V1.getD j 0 =
          if bo ≤ j ∧ j < bo + k then f.byteAt (p + (j - bo)) else View.getD j 0 := by
  intro k
  induction k with
  | zero =>
    intro f idx off bo p View hp _ _ _ _
    refine ⟨View, ?_, rfl, ?_⟩
    · simp only [memfile.ReadLoop, Nat.add_zero, memfile.moveTo]
      rw [← hp]
    · intro j
      have : ¬ (bo ≤ j ∧ j < bo + 0) := by omega
      rw [if_neg this]
  | succ k ih =>
    intro f idx off bo p View hp hidx hoff hcap hbo
    have hdiv : p / block_size_v = idx ∧ p % block_size_v = off := by
      rw [← hidx]
      simp only [block_size_v] at *
      omega
    have hb : (f.m_lBlock.getD idx block.fresh) off = f.byteAt p := by
      unfold memfile.byteAt
      rw [hdiv.1, hdiv.2]
    have hpos : f.m_SeekPosition + 1 = ((p + 1 : Nat) : Int) := by rw [hp]; push_cast; ring
    have hmv : ({ f with m_SeekPosition := ((p + 1 : Nat) : Int) } : memfile) =
        f.moveTo ((p + 1 : Nat) : Int) := rfl
    have hstep : ∀ idx1 off1, idx1 * block_size_v + off1 = p + 1 → off1 < block_size_v →
        ∃ V1, memfile.ReadLoop k (f.moveTo ((p + 1 : Nat) : Int)) idx1 off1 (bo + 1)
            (View.set bo (f.byteAt p)) =
            .ok (xerr.ok, V1, f.moveTo ((p + (k + 1) : Nat) : Int)) ∧
          V1.length = View.length ∧
          ∀ j, V1.getD j 0 =
            if bo ≤ j ∧ j < bo + (k + 1) then f.byteAt (p + (j - bo)) else View.getD j 0 := by
      intro idx1 off1 h1 h2
      obtain ⟨V1, hr, hl, hg⟩ := ih (f.moveTo ((p + 1 : Nat) : Int)) idx1 off1 (bo + 1) (p + 1)
        (View.set bo (f.byteAt p)) rfl h1 h2 (by show p + 1 + k < f.m_lBlock.length * _; omega)
        (by rw [List.length_set]; omega)
      refine ⟨V1, ?_, by rw [hl, List.length_set], ?_⟩
      · rw [hr, moveTo_moveTo]
        have : p + 1 + k = p + (k + 1) := by omega
        rw [this]
      · intro j
        rw [hg j]
        simp only [moveTo_byteAt]
        by_cases hj : j = bo
        · subst hj
          have c1 : ¬ (j + 1 ≤ j ∧ j < j + 1 + k) := by omega
          have c2 : j ≤ j ∧ j < j + (k + 1) := by omega
          rw [if_neg c1, if_pos c2, List.getD_eq_getElem?_getD, List.getElem?_set_self (by omega)]
          simp
        · by_cases hin : bo + 1 ≤ j ∧ j < bo + 1 + k
          · have c2 : bo ≤ j ∧ j < bo + (k + 1) := by omega
            rw [if_pos hin, if_pos c2]
            congr 1; omega
          · have c2 : ¬ (bo ≤ j ∧ j < bo + (k + 1)) := by omega
            rw [if_neg hin, if_neg c2, List.getD_eq_getElem?_getD,
              List.getElem?_set_ne (fun e => hj e.symm), ← List.getD_eq_getElem?_getD]
    rw [memfile.ReadLoop]
    simp only [hb, hpos, hmv]
    by_cases hw : off + 1 ≥ block_size_v
    · have h2 : ¬ idx + 1 ≥ f.m_lBlock.length := by
        intro h
        have : f.m_lBlock.length * block_size_v ≤ (idx + 1) * block_size_v :=
          Nat.mul_le_mul_right _ h
        have e : (idx + 1) * block_size_v = idx * block_size_v + block_size_v := by ring
        simp only [block_size_v] at *
        omega
      simp only [hw, if_true, h2, if_false]
      exact hstep (idx + 1) 0 (by
        have e : (idx + 1) * block_size_v = idx * block_size_v + block_size_v := by ring
        simp only [block_size_v] at *
        omega) (by decide)
    · simp only [hw, if_false]
      exact hstep idx (off + 1) (by omega) (by omega)

theorem Read_many (f : memfile) (hwf : f.WF) (p : Nat) (hp : f.m_SeekPosition = (p : Int))
    (View : List Byte) (hv : View ≠ []) (hle : ((p + View.length : Nat) : Int) ≤ f.m_EOF) :
    ∃ V1, memfile.Read f View =
        .ok (xerr.ok, V1, f.moveTo ((p + View.length : Nat) : Int)) ∧
      V1.length = View.length ∧ ∀ j, j < View.length → V1.getD j 0 = f.byteAt (p + j) := by
  obtain ⟨h0, hpe, hb, hcap, hblk⟩ := hwf
  have hpos : 0 < View.length := List.length_pos.2 hv
  have hlt : (p : Int) < f.m_EOF := by push_cast at hle; omega
  have hcapn : p + View.length < f.m_lBlock.length * block_size_v := by
    rcases hblk with h | ⟨_, h⟩
    · have : ((p + View.length : Nat) : Int) < ((f.m_lBlock.length * block_size_v : Nat) : Int) := by
        omega
      exact_mod_cast this
    · omega
  have hu : u64 f.m_SeekPosition = p := by rw [hp]; exact u64_natCast p (by omega)
  have hidx : p / block_size_v < f.m_lBlock.length := by
    apply Nat.div_lt_of_lt_mul; rw [Nat.mul_comm]; omega
  obtain ⟨V1, hr, hl, hg⟩ := ReadLoop_spec View.length f (p / block_size_v) (p % block_size_v) 0 p
    View hp (Nat.div_add_mod' p block_size_v) (Nat.mod_lt _ (by decide)) hcapn (by omega)
  refine ⟨V1, ?_, hl, ?_⟩
  · unfold memfile.Read
    have hge : ¬ f.m_SeekPosition ≥ f.m_EOF := by omega
    simp only [hge, if_false, hu, hidx, not_true_eq_false, hr]
  · intro j hj
    rw [hg j, if_pos (by omega)]
    simp

theorem Seek_origin (f : memfile) (p : Nat) (hle : (p : Int) ≤ f.m_EOF) (hb : p < 2 ^ 63) :
    memfile.Seek f seek_mode.SKM_ORIGIN p = .ok (xerr.ok, f.moveTo (p : Int)) := by
  have hi : i64 p = (p : Int) := i64_of_lt _ hb
  have hc : (p : Int) ≤ f.m_EOF ∧ (p : Int) ≥ 0 := by omega
  show memfile.seekCheck { f with m_SeekPosition := i64 p } = _
  rw [hi]
  unfold memfile.seekCheck
  rw [if_pos hc]; rfl

/-- C20. RAM write/read round trip: for every non-empty byte sequence `d` and every RAM
file state between calls (cursor `p` with `0 <= p <= EOF`, sizes far from the 64-bit
limit), `Write(d)` returns success, `Seek(origin, p)` returns success, and `Read` into a
buffer of `|d|` bytes then returns success with the buffer equal to `d` byte for byte and
the cursor at `p + |d|`, wherever the block boundaries fall. -/
theorem C20_ram_write_read_round_trip (f : memfile) (d buf : List Byte) (hwf : f.WF)
    (hd : d ≠ []) (hb : f.m_EOF.toNat + d.length < 2 ^ 62) (hbuf : buf.length = d.length) :
    ∃ f1 f2 f3, memfile.Write f d = .ok (xerr.ok, f1) ∧
      memfile.Seek f1 seek_mode.SKM_ORIGIN f.m_SeekPosition.toNat = .ok (xerr.ok, f2) ∧
      memfile.Read f2 buf = .ok (xerr.ok, d, f3) ∧
      f3.m_SeekPosition = f.m_SeekPosition + (d.length : Int) := by
  have h0 := hwf.1
  have hpe := hwf.2.1
  obtain ⟨p, hp⟩ := Int.eq_ofNat_of_zero_le h0
  obtain ⟨e, he⟩ := Int.eq_ofNat_of_zero_le (le_trans h0 hpe)
  rw [he] at hb
  simp only [Int.toNat_ofNat] at hb
  have hpe2 : p ≤ e := by omega
  obtain ⟨f1, hw, hwf1, hp1, he1, _, hbyte⟩ := Write_spec f d hwf p e hp he hb
  have hle1 : (p : Int) ≤ f1.m_EOF := by rw [he1]; exact_mod_cast (by omega : p ≤ max e (p + d.length))
  have hseek := Seek_origin f1 p hle1 (by omega)
  have hwf2 : (f1.moveTo (p : Int)).WF := moveTo_WF f1 hwf1 _ (by omega) hle1
  have hbn : buf ≠ [] := by
    intro h; rw [h] at hbuf
    exact hd (List.length_eq_zero.1 hbuf.symm)
  obtain ⟨V1, hr, hl, hg⟩ := Read_many (f1.moveTo (p : Int)) hwf2 p rfl buf hbn
    (by rw [moveTo_EOF, he1, hbuf]; exact_mod_cast (by omega : p + d.length ≤ max e (p + d.length)))
  have hV : V1 = d := by
    apply List.ext_getElem
    · rw [hl, hbuf]
    · intro j h1 h2
      have hj := hg j (by rw [← hl]; exact h1)
      rw [moveTo_byteAt, hbyte, if_pos (by omega)] at hj
      have e1 : p + j - p = j := by omega
      rw [e1] at hj
      simp only [List.getD_eq_getElem?_getD, List.getElem?_eq_getElem h1,
        List.getElem?_eq_getElem h2, Option.getD_some] at hj
      exact hj
  subst hV
  refine ⟨f1, f1.moveTo (p : Int), _, hw, ?_, hr, ?_⟩
  · rw [hp]; exact hseek
  · rw [moveTo_moveTo, moveTo_pos, hp, hbuf]
    push_cast; ring

theorem test_data_length : test_data.length = 12980 := by
  unfold test_data
  rw [List.length_map, List.length_range]

theorem test_data_ne : test_data ≠ [] := by
  intro h
  have := congrArg List.length h
  rw [test_data_length] at this
  exact absurd this (by decide)

/-- C20 at the empty RAM file and the 12980 bytes of the test (3245 values of 32 bits),
which cross the boundary of the first block. -/
theorem C20_witness :
    ({} : memfile).WF ∧ test_data ≠ [] ∧
    ({} : memfile).m_EOF.toNat + test_data.length < 2 ^ 62 ∧
    (List.replicate 12980 0).length = test_data.length ∧
    ∃ f1 f2 f3, memfile.Write {} test_data = .ok (xerr.ok, f1) ∧
      memfile.Seek f1 seek_mode.SKM_ORIGIN ({} : memfile).m_SeekPosition.toNat =
        .ok (xerr.ok, f2) ∧
      memfile.Read f2 (List.replicate 12980 0) = .ok (xerr.ok, test_data, f3) ∧
      f3.m_SeekPosition = ({} : memfile).m_SeekPosition + (test_data.length : Int) :=
  ⟨WF_empty, test_data_ne, by rw [test_data_length]; decide,
    by rw [test_data_length, List.length_replicate],
    C20_ram_write_read_round_trip {} test_data (List.replicate 12980 0) WF_empty test_data_ne
      (by rw [test_data_length]; decide) (by rw [test_data_length, List.length_replicate])⟩

theorem WriteLoop_length (View : List Byte) :
    ∀ (k : Nat) (f : memfile) (idx off bo : Nat) (e : xerr) (f1 : memfile),
      memfile.WriteLoop View k f idx off bo = .ok (e, f1) →
      f1.m_lBlock.length = f.m_lBlock.length := by
  intro k
  induction k with
  | zero =>
    intro f idx off bo e f1 h
    simp only [memfile.WriteLoop, Except.ok.injEq, Prod.mk.injEq] at h
    rw [← h.2]
  | succ k ih =>
    intro f idx off bo e f1 h
    rw [memfile.WriteLoop] at h
    dsimp only at h
    split at h
    · split at h
      · exact absurd h (by simp)
      · rw [ih _ _ _ _ _ _ h, List.length_set]
    · rw [ih _ _ _ _ _ _ h, List.length_set]

theorem Write_empty_blocks (v : List Byte) (hb : v.length < 2 ^ 62) :
    ∃ f1, memfile.Write {} v = .ok (xerr.ok, f1) ∧
      f1.m_lBlock.length = v.length / block_size_v + 1 ∧ f1.m_EOF = (v.length : Int) := by
  obtain ⟨f1, hw, _, _, he, _, _⟩ := Write_spec {} v WF_empty 0 0 rfl rfl (by omega)
  refine ⟨f1, hw, ?_, by rw [he]; simp⟩
  have hw2 := hw
  unfold memfile.Write at hw2
  dsimp only at hw2
  split at hw2
  · exact absurd hw2 (by simp)
  · rw [WriteLoop_length _ _ _ _ _ _ _ _ hw2]
    have hu0 : u64 (0 : Int) = 0 := u64_natCast 0 (by omega)
    have hi : i64 v.length = (v.length : Int) := i64_of_lt _ (by omega)
    have hi0 : i64 (0 * block_size_v) = 0 := by
      rw [Nat.zero_mul]; exact i64_of_lt 0 (by omega)
    have hs : memfile.Write.setEOF {} v.length = { m_EOF := (v.length : Int) } := by
      unfold memfile.Write.setEOF
      show (if (0 : Int) < i64 ((u64 (0 : Int) + v.length) % 2 ^ 64) then _ else _) = _
      rw [hu0, Nat.zero_add, Nat.mod_eq_of_lt (by omega), hi]
      by_cases h0 : (0 : Int) < (v.length : Int)
      · rw [if_pos h0]
      · rw [if_neg h0]
        have : (v.length : Int) = 0 := by omega
        rw [this]
    rw [hs]
    unfold memfile.Write.allocate
    have hge : ((v.length : Int) ≥ i64 (0 * block_size_v)) := by rw [hi0]; omega
    show (if (v.length : Int) ≥ i64 (0 * block_size_v) then _ else _ : memfile).m_lBlock.length = _
    rw [if_pos hge]
    show ([] ++ List.replicate ((u64 (v.length : Int) / block_size_v + 1 + 2 ^ 64 - 0) % 2 ^ 64)
      block.fresh).length = _
    rw [List.nil_append, List.length_replicate, u64_natCast _ (by omega), Nat.sub_zero,
      Nat.add_mod_right]
    apply Nat.mod_eq_of_lt
    have := Nat.div_le_self v.length block_size_v
    omega

/-- C19 as stated fails: writing 20480 bytes, twice the block size, at offset 0 of an empty
RAM file leaves the store with 3 blocks, and `ceil(20480 / 10240)` is 2. -/
theorem C19_counterexample :
    ∃ f1, memfile.Write {} (List.replicate 20480 0) = .ok (xerr.ok, f1) ∧
      f1.m_lBlock.length = 3 ∧ (20480 + block_size_v - 1) / block_size_v = 2 := by
  obtain ⟨f1, hw, hl, _⟩ := Write_empty_blocks (List.replicate 20480 0)
    (by rw [List.length_replicate]; decide)
  refine ⟨f1, hw, ?_, by decide⟩
  rw [hl, List.length_replicate]
  decide

/-- C19, amended. RAM store growth: for every `N` greater than the block size (10240),
writing `N` bytes at offset 0 of an empty RAM file returns success and leaves the store
with exactly `N / 10240 + 1` blocks (integer division) and `Length()` reporting exactly
`N`; the number of blocks is `ceil(N / 10240)` when `N` is not a multiple of the block
size, and one more than that when it is. -/
theorem C19_ram_store_growth (v : List Byte) (hN : block_size_v < v.length)
    (hb : v.length < 2 ^ 62) :
    ∃ f1, memfile.Write {} v = .ok (xerr.ok, f1) ∧
      f1.m_lBlock.length = v.length / block_size_v + 1 ∧
      memfile.Length f1 = .ok (xerr.ok, v.length, f1) ∧
      (v.length % block_size_v ≠ 0 →
        f1.m_lBlock.length = (v.length + block_size_v - 1) / block_size_v) ∧
      (v.length % block_size_v = 0 →
        f1.m_lBlock.length = (v.length + block_size_v - 1) / block_size_v + 1) := by
  obtain ⟨f1, hw, hl, he⟩ := Write_empty_blocks v hb
  refine ⟨f1, hw, hl, ?_, ?_, ?_⟩
  · unfold memfile.Length
    rw [he, u64_natCast _ (by omega)]
  · intro hm
    rw [hl]
    have := Nat.div_add_mod v.length block_size_v
    have := Nat.mod_lt v.length (show block_size_v > 0 by decide)
    simp only [block_size_v] at *
    omega
  · intro hm
    rw [hl]
    have := Nat.div_add_mod v.length block_size_v
    simp only [block_size_v] at *
    omega

/-- C19, amended, at 20480 bytes, twice the block size. -/
theorem C19_witness :
    block_size_v < (List.replicate 20480 (0 : Byte)).length ∧
    (List.replicate 20480 (0 : Byte)).length < 2 ^ 62 ∧
    ∃ f1, memfile.Write {} (List.replicate 20480 0) = .ok (xerr.ok, f1) ∧
      f1.m_lBlock.length = (List.replicate 20480 (0 : Byte)).length / block_size_v + 1 ∧
      memfile.Length f1 = .ok (xerr.ok, (List.replicate 20480 (0 : Byte)).length, f1) ∧
      ((List.replicate 20480 (0 : Byte)).length % block_size_v ≠ 0 →
        f1.m_lBlock.length =
          ((List.replicate 20480 (0 : Byte)).length + block_size_v - 1) / block_size_v) ∧
      ((List.replicate 20480 (0 : Byte)).length % block_size_v = 0 →
        f1.m_lBlock.length =
          ((List.replicate 20480 (0 : Byte)).length + block_size_v - 1) / block_size_v + 1) :=
  ⟨by rw [List.length_replicate]; decide, by rw [List.length_replicate]; decide,
    C19_ram_store_growth (List.replicate 20480 0) (by rw [List.length_replicate]; decide)
      (by rw [List.length_replicate]; decide)⟩

/-! ## Seek bounds of the RAM file and the release of a slot -/

theorem ReadLoop_err :
    ∀ (k : Nat) (f : memfile) (idx off bo : Nat) (View : List Byte) (e : xerr) (V1 : List Byte)
      (f1 : memfile), memfile.ReadLoop k f idx off bo View = .ok (e, V1, f1) →
      e = xerr.ok ∨ e = xerr.create state.FAILURE "Fail to read all the bytes from the ram drive" := by
  intro k
  induction k with
  | zero =>
    intro f idx off bo View e V1 f1 h
    simp only [memfile.ReadLoop, Except.ok.injEq, Prod.mk.injEq] at h
    exact Or.inl h.1.symm
  | succ k ih =>
    intro f idx off bo View e V1 f1 h
    rw [memfile.ReadLoop] at h
    split at h
    · split at h
      · simp only [Except.ok.injEq, Prod.mk.injEq] at h
        exact Or.inr h.1.symm
      · exact ih _ _ _ _ _ _ _ _ h
    · exact ih _ _ _ _ _ _ _ _ h

theorem Seek_end_zero (f : memfile) (h0 : 0 ≤ f.m_EOF) (hb : f.m_EOF < 2 ^ 63) :
    memfile.Seek f seek_mode.SKM_END 0 = .ok (xerr.ok, f.moveTo f.m_EOF) := by
  obtain ⟨L, hL⟩ := Int.eq_ofNat_of_zero_le h0
  have hLb : L < 2 ^ 63 := by rw [hL] at hb; exact_mod_cast hb
  have hu : u64 f.m_EOF = L := by rw [hL]; exact u64_natCast L (by omega)
  have hm : (L + 2 ^ 64 - 0 % 2 ^ 64) % 2 ^ 64 = L := by
    rw [Nat.zero_mod, Nat.sub_zero, Nat.add_mod_right]; exact Nat.mod_eq_of_lt (by omega)
  have hi : i64 L = (L : Int) := i64_of_lt _ hLb
  have hc : (L : Int) ≤ f.m_EOF ∧ (L : Int) ≥ 0 := by omega
  show memfile.seekCheck
    { f with m_SeekPosition := i64 ((u64 f.m_EOF + 2 ^ 64 - 0 % 2 ^ 64) % 2 ^ 64) } = _
  rw [hu, hm, hi]
  have hmv : f.moveTo f.m_EOF = f.moveTo (L : Int) := by rw [hL]
  unfold memfile.seekCheck
  rw [if_pos hc, hmv]; rfl

/-- C21. RAM seek bounds and end-of-file read: on a RAM file of length `L` (`0 <= L`),
`Seek(end, 0)` returns success and sets the cursor to exactly `L`, and `Tell` then returns
`L`; a `Read` at a cursor `>= EOF` returns UNEXPECTED_EOF and leaves the file (cursor, EOF,
blocks) and the caller's buffer as they are; a `Read` that returns, returns UNEXPECTED_EOF
exactly when the cursor is `>= EOF` at the call; and after `Seek(origin, L)`, which
succeeds, a one-byte `Read` returns UNEXPECTED_EOF. -/
theorem C21_ram_seek_bounds_and_eof_read (f : memfile) (h0 : 0 ≤ f.m_EOF)
    (hb : f.m_EOF < 2 ^ 63) :
    memfile.Seek f seek_mode.SKM_END 0 = .ok (xerr.ok, f.moveTo f.m_EOF) ∧
    memfile.Tell (f.moveTo f.m_EOF) = .ok (xerr.ok, f.m_EOF.toNat, f.moveTo f.m_EOF) ∧
    (∀ View : List Byte, f.m_SeekPosition ≥ f.m_EOF →
      memfile.Read f View =
        .ok (xerr.create state.UNEXPECTED_EOF "Unexpected End of File", View, f)) ∧
    (∀ (View : List Byte) (e : xerr) (V1 : List Byte) (f1 : memfile),
      memfile.Read f View = .ok (e, V1, f1) →
      ((∃ msg, e = xerr.create state.UNEXPECTED_EOF msg) ↔ f.m_SeekPosition ≥ f.m_EOF)) ∧
    memfile.Seek f seek_mode.SKM_ORIGIN f.m_EOF.toNat = .ok (xerr.ok, f.moveTo f.m_EOF) ∧
    ∀ x : Byte, memfile.Read (f.moveTo f.m_EOF) [x] =
      .ok (xerr.create state.UNEXPECTED_EOF "Unexpected End of File", [x], f.moveTo f.m_EOF) := by
  obtain ⟨L, hL⟩ := Int.eq_ofNat_of_zero_le h0
  have hLb : L < 2 ^ 63 := by rw [hL] at hb; exact_mod_cast hb
  have hread : ∀ (g : memfile) (View : List Byte), g.m_SeekPosition ≥ g.m_EOF →
      memfile.Read g View =
        .ok (xerr.create state.UNEXPECTED_EOF "Unexpected End of File", View, g) := by
    intro g View hge
    unfold memfile.Read
    rw [if_pos hge]
  refine ⟨Seek_end_zero f h0 hb, ?_, hread f, ?_, ?_, ?_⟩
  · unfold memfile.Tell
    rw [moveTo_pos, hL, u64_natCast L (by omega)]
    rfl
  · intro View e V1 f1 h
    constructor
    · rintro ⟨msg, hmsg⟩
      by_contra hlt
      unfold memfile.Read at h
      rw [if_neg hlt] at h
      dsimp only at h
      split at h
      · exact absurd h (by simp)
      · rcases ReadLoop_err _ _ _ _ _ _ _ _ _ h with h1 | h1
        · rw [h1] at hmsg; exact absurd hmsg (by simp)
        · rw [h1] at hmsg; exact absurd hmsg (by simp)
    · intro hge
      rw [hread f View hge] at h
      simp only [Except.ok.injEq, Prod.mk.injEq] at h
      exact ⟨_, h.1.symm⟩
  · have := Seek_origin f L (by rw [hL]) hLb
    rw [hL]
    simpa using this
  · intro x
    exact hread _ _ (by rw [moveTo_pos, moveTo_EOF])

/-- C21 at a RAM file of length 5 with the cursor at 2. -/
theorem C21_witness :
    0 ≤ memfile.sample5.m_EOF ∧ memfile.sample5.m_EOF < 2 ^ 63 ∧
    memfile.Seek memfile.sample5 seek_mode.SKM_END 0 =
      .ok (xerr.ok, memfile.sample5.moveTo memfile.sample5.m_EOF) ∧
    memfile.Tell (memfile.sample5.moveTo memfile.sample5.m_EOF) =
      .ok (xerr.ok, memfile.sample5.m_EOF.toNat, memfile.sample5.moveTo memfile.sample5.m_EOF) ∧
    (∀ View : List Byte, memfile.sample5.m_SeekPosition ≥ memfile.sample5.m_EOF →
      memfile.Read memfile.sample5 View =
        .ok (xerr.create state.UNEXPECTED_EOF "Unexpected End of File", View, memfile.sample5)) ∧
    (∀ (View : List Byte) (e : xerr) (V1 : List Byte) (f1 : memfile),
      memfile.Read memfile.sample5 View = .ok (e, V1, f1) →
      ((∃ msg, e = xerr.create state.UNEXPECTED_EOF msg) ↔
        memfile.sample5.m_SeekPosition ≥ memfile.sample5.m_EOF)) ∧
    memfile.Seek memfile.sample5 seek_mode.SKM_ORIGIN memfile.sample5.m_EOF.toNat =
      .ok (xerr.ok, memfile.sample5.moveTo memfile.sample5.m_EOF) ∧
    ∀ x : Byte, memfile.Read (memfile.sample5.moveTo memfile.sample5.m_EOF) [x] =
      .ok (xerr.create state.UNEXPECTED_EOF "Unexpected End of File", [x],
        memfile.sample5.moveTo memfile.sample5.m_EOF) :=
  ⟨by decide, by decide, C21_ram_seek_bounds_and_eof_read memfile.sample5 (by decide) (by decide)⟩

theorem getD_set_self {α : Type} (l : List α) (i : Nat) (x d : α) (h : i < l.length) :
    (l.set i x).getD i d = x := by
  rw [List.getD_eq_getElem?_getD, List.getElem?_set_self h]; rfl

theorem getD_set_ne {α : Type} (l : List α) (i j : Nat) (x d : α) (h : i ≠ j) :
    (l.set i x).getD j d = l.getD j d := by
  rw [List.getD_eq_getElem?_getD, List.getElem?_set_ne h, ← List.getD_eq_getElem?_getD]

theorem create_head (d : device) (i : Nat) (h : d.m_iEmptyHead.m_iNext = (i : Int)) :
    ∃ d2, d.createInstance = .ok (i, d2) := by
  unfold device.createInstance
  simp only [h, ge_iff_le, Int.natCast_nonneg, not_true_eq_false, if_false, Int.toNat_ofNat]
  exact ⟨_, rfl⟩

/-- C30. Release requires an allocated slot: on a pool of 128 slots, `destroyInstance` on an
index outside `0..127` trips the assertion `Index < m_FileHPool.size()`, and on a slot
whose link is not the allocated marker `-2` it trips `SmallFile.m_iNext == -2`, in both
cases without a new state; on an allocated slot it succeeds, the slot is cleared (no
blocks, cursor 0, EOF 0) and its link is the previous head index, the slot is the new head,
every other slot is as before, and the next `createInstance` returns that same slot. -/
theorem C30_release_requires_allocated_slot (d : device) (Index : Nat)
    (hlen : d.m_FileHPool.length = pool_size) :
    (¬ Index < pool_size →
      d.destroyInstance Index = .error (Stop.asserted "Index < m_FileHPool.size()")) ∧
    (Index < pool_size → d.link Index ≠ -2 →
      d.destroyInstance Index = .error (Stop.asserted "SmallFile.m_iNext == -2")) ∧
    (Index < pool_size → d.link Index = -2 →
      ∃ d1, d.destroyInstance Index = .ok d1 ∧
        d1.m_FileHPool.getD Index {} =
          { m_lBlock := [], m_SeekPosition := 0, m_EOF := 0, m_iNext := d.m_iEmptyHead.m_iNext } ∧
        d1.m_iEmptyHead.m_iNext = (Index : Int) ∧
        d1.m_FileHPool.length = pool_size ∧
        (∀ j, j ≠ Index → d1.m_FileHPool.getD j {} = d.m_FileHPool.getD j {}) ∧
        ∃ d2, d1.createInstance = .ok (Index, d2)) := by
  refine ⟨?_, ?_, ?_⟩
  · intro h
    unfold device.destroyInstance
    rw [hlen, if_pos h]
  · intro h hl
    unfold device.destroyInstance
    rw [hlen, if_neg (not_not.2 h), if_pos hl]
  · intro h hl
    have hi : Index < d.m_FileHPool.length := by rw [hlen]; exact h
    have key : d.destroyInstance Index = .ok
        { (({ d with m_FileHPool :=
              d.m_FileHPool.set Index (memfile.clear (d.m_FileHPool.getD Index {})) } :
            device).setLink Index d.m_iEmptyHead.m_iNext) with
          m_iEmptyHead := { m_iNext := (Index : Int),
                            m_Counter := (d.m_iEmptyHead.m_Counter + 1) % 2 ^ 16 } } := by
      unfold device.destroyInstance
      rw [hlen, if_neg (not_not.2 h), if_neg (not_not.2 hl)]
    refine ⟨_, key, ?_, rfl, ?_, ?_, ?_⟩
    · simp only [device.setLink, memfile.clear]
      rw [getD_set_self _ _ _ _ (by rw [List.length_set]; exact hi),
        getD_set_self _ _ _ _ hi]
    · simp only [device.setLink, List.length_set]
      exact hlen
    · intro j hj
      simp only [device.setLink]
      rw [getD_set_ne _ _ _ _ _ (fun e => hj e.symm), getD_set_ne _ _ _ _ _ (fun e => hj e.symm)]
    · exact create_head _ Index rfl

/-- C30 at the pool with slot 0 allocated, for the index 0. -/
theorem C30_witness :
    device.mk1.m_FileHPool.length = pool_size ∧
    (¬ 0 < pool_size →
      device.mk1.destroyInstance 0 = .error (Stop.asserted "Index < m_FileHPool.size()")) ∧
    (0 < pool_size → device.mk1.link 0 ≠ -2 →
      device.mk1.destroyInstance 0 = .error (Stop.asserted "SmallFile.m_iNext == -2")) ∧
    (0 < pool_size → device.mk1.link 0 = -2 →
      ∃ d1, device.mk1.destroyInstance 0 = .ok d1 ∧
        d1.m_FileHPool.getD 0 {} =
          { m_lBlock := [], m_SeekPosition := 0, m_EOF := 0,
            m_iNext := device.mk1.m_iEmptyHead.m_iNext } ∧
        d1.m_iEmptyHead.m_iNext = ((0 : Nat) : Int) ∧
        d1.m_FileHPool.length = pool_size ∧
        (∀ j, j ≠ 0 → d1.m_FileHPool.getD j {} = device.mk1.m_FileHPool.getD j {}) ∧
        ∃ d2, d1.createInstance = .ok (0, d2)) :=
  ⟨Part_mk1.1, C30_release_requires_allocated_slot device.mk1 0 Part_mk1.1⟩

/-! ## The postcondition of the RAM write -/

theorem setEOF_blocks (f : memfile) (n : Nat) :
    (memfile.Write.setEOF f n).m_lBlock = f.m_lBlock := by
  unfold memfile.Write.setEOF
  dsimp only
  split <;> rfl

theorem allocate_blocks (f : memfile) :
    ∃ added, (memfile.Write.allocate f).m_lBlock = f.m_lBlock ++ added := by
  unfold memfile.Write.allocate
  split
  · exact ⟨_, rfl⟩
  · exact ⟨[], (List.append_nil _).symm⟩

theorem Write_blocks (f : memfile) (v : List Byte) (e : xerr) (f1 : memfile)
    (h : memfile.Write f v = .ok (e, f1)) :
    ∃ added : List block, f1.m_lBlock.length = (f.m_lBlock ++ added).length := by
  unfold memfile.Write at h
  dsimp only at h
  split at h
  · exact absurd h (by simp)
  · obtain ⟨added, ha⟩ := allocate_blocks (memfile.Write.setEOF f v.length)
    rw [setEOF_blocks] at ha
    exact ⟨added, by rw [WriteLoop_length _ _ _ _ _ _ _ _ h, ha]⟩

/-- C29. RAM write postcondition and frame: for every RAM file state with cursor `p`,
`0 <= p <= EOF`, whose block count is 0 or `EOF / 10240 + 1`, and every buffer of `n >= 0`
bytes (sizes far from the 64-bit limit), `Write` returns success, so no assertion trips;
the cursor becomes `p + n`, EOF becomes `max(EOF, p + n)`, the bytes `p .. p+n-1` equal the
buffer, every other byte is unchanged, and the block list is the old one with blocks
appended: it is not shorter, and every byte of every old block outside the written range
is as before. -/
theorem C29_ram_write_postcondition_and_frame (f : memfile) (v : List Byte)
    (h0 : 0 ≤ f.m_SeekPosition) (hle : f.m_SeekPosition ≤ f.m_EOF)
    (hblk : f.m_lBlock.length = 0 ∨ f.m_lBlock.length = f.m_EOF.toNat / block_size_v + 1)
    (hb : f.m_EOF.toNat + v.length < 2 ^ 62) :
    ∃ f1, memfile.Write f v = .ok (xerr.ok, f1) ∧
      f1.m_SeekPosition = f.m_SeekPosition + (v.length : Int) ∧
      f1.m_EOF = max f.m_EOF (f.m_SeekPosition + (v.length : Int)) ∧
      (∀ j, j < v.length → f1.byteAt (f.m_SeekPosition.toNat + j) = v.getD j 0) ∧
      (∀ q, ¬ (f.m_SeekPosition.toNat ≤ q ∧ q < f.m_SeekPosition.toNat + v.length) →
        f1.byteAt q = f.byteAt q) ∧
      (∃ added : List block, f1.m_lBlock.length = (f.m_lBlock ++ added).length) ∧
      ∀ i off, i < f.m_lBlock.length → off < block_size_v →
        ¬ (f.m_SeekPosition.toNat ≤ i * block_size_v + off ∧
          i * block_size_v + off < f.m_SeekPosition.toNat + v.length) →
        (f1.m_lBlock.getD i block.fresh) off = (f.m_lBlock.getD i block.fresh) off := by
  obtain ⟨p, hp⟩ := Int.eq_ofNat_of_zero_le h0
  obtain ⟨e, he⟩ := Int.eq_ofNat_of_zero_le (le_trans h0 hle)
  rw [he] at hb hblk
  simp only [Int.toNat_ofNat] at hb hblk
  have hcap : f.m_lBlock.length * block_size_v < 2 ^ 63 := by
    rcases hblk with h | h
    · rw [h]; decide
    · rw [h]
      have := Nat.div_add_mod' e block_size_v
      have e2 : (e / block_size_v + 1) * block_size_v = e / block_size_v * block_size_v + block_size_v := by
        ring
      simp only [block_size_v] at *
      omega
  obtain ⟨f1, hw, _, hp1, he1, _, hbyte⟩ := Write_post f v h0 hle hcap p e hp he hb
  have hpn : f.m_SeekPosition.toNat = p := by rw [hp]; rfl
  refine ⟨f1, hw, ?_, ?_, ?_, ?_, Write_blocks f v _ f1 hw, ?_⟩
  · rw [hp1, hp]; push_cast; ring
  · rw [he1, he, hp]
    push_cast
    rfl
  · intro j hj
    rw [hpn, hbyte, if_pos (by omega)]
    congr 1; omega
  · intro q hq
    rw [hpn] at hq
    rw [hbyte, if_neg hq]
  · intro i off hi hoff hq
    rw [hpn] at hq
    have hdm : (i * block_size_v + off) / block_size_v = i ∧
        (i * block_size_v + off) % block_size_v = off := by
      simp only [block_size_v] at *
      omega
    have := hbyte (i * block_size_v + off)
    rw [if_neg hq] at this
    unfold memfile.byteAt at this
    rw [hdm.1, hdm.2] at this
    exact this

/-- C29 at a RAM file of length 5 in one block with the cursor at 2, and 4 bytes. -/
theorem C29_witness :
    0 ≤ memfile.sample5.m_SeekPosition ∧ memfile.sample5.m_SeekPosition ≤ memfile.sample5.m_EOF ∧
    (memfile.sample5.m_lBlock.length = 0 ∨
      memfile.sample5.m_lBlock.length = memfile.sample5.m_EOF.toNat / block_size_v + 1) ∧
    memfile.sample5.m_EOF.toNat + ([1, 2, 3, 4] : List Byte).length < 2 ^ 62 ∧
    ∃ f1, memfile.Write memfile.sample5 [1, 2, 3, 4] = .ok (xerr.ok, f1) ∧
      f1.m_SeekPosition = memfile.sample5.m_SeekPosition + (([1, 2, 3, 4] : List Byte).length : Int) ∧
      f1.m_EOF = max memfile.sample5.m_EOF
        (memfile.sample5.m_SeekPosition + (([1, 2, 3, 4] : List Byte).length : Int)) ∧
      (∀ j, j < ([1, 2, 3, 4] : List Byte).length →
        f1.byteAt (memfile.sample5.m_SeekPosition.toNat + j) = ([1, 2, 3, 4] : List Byte).getD j 0) ∧
      (∀ q, ¬ (memfile.sample5.m_SeekPosition.toNat ≤ q ∧
          q < memfile.sample5.m_SeekPosition.toNat + ([1, 2, 3, 4] : List Byte).length) →
        f1.byteAt q = memfile.sample5.byteAt q) ∧
      (∃ added : List block, f1.m_lBlock.length = (memfile.sample5.m_lBlock ++ added).length) ∧
      ∀ i off, i < memfile.sample5.m_lBlock.length → off < block_size_v →
        ¬ (memfile.sample5.m_SeekPosition.toNat ≤ i * block_size_v + off ∧
          i * block_size_v + off <
            memfile.sample5.m_SeekPosition.toNat + ([1, 2, 3, 4] : List Byte).length) →
        (f1.m_lBlock.getD i block.fresh) off = (memfile.sample5.m_lBlock.getD i block.fresh) off :=
  ⟨by decide, by decide, Or.inr (by decide), by decide,
    C29_ram_write_postcondition_and_frame memfile.sample5 [1, 2, 3, 4] (by decide) (by decide)
      (Or.inr (by decide)) (by decide)⟩

/-! ## WriteString and ReadString -/

theorem WriteRaw_binary {σ : Type} (I : device_instance σ) (acc : access_types)
    (hb : acc.m_Text = 0) (s s1 : σ) (View : List Byte) (hv : View ≠ [])
    (hw : I.Write s View = .ok (xerr.ok, s1)) :
    stream.WriteRaw I acc s View =
      .ok (xerr.ok, if acc.m_bForceFlush = true then I.Flush s1 else s1) := by
  have hne : View.isEmpty = false := by cases View with
    | nil => exact absurd rfl hv
    | cons _ _ => rfl
  unfold stream.WriteRaw
  simp only [hne, Bool.false_eq_true, if_false, hb, ne_eq, not_true_eq_false, hw,
    WriteRaw.finish]
  split <;> rfl

theorem putC_one {σ : Type} (I : device_instance σ) (acc : access_types)
    (hb : acc.m_Text = 0) (s s1 : σ) (hw : I.Write s [0] = .ok (xerr.ok, s1)) :
    stream.putC I acc s 0 1 true =
      .ok (xerr.ok, if acc.m_bForceFlush = true then I.Flush s1 else s1) := by
  have h := WriteRaw_binary I acc hb s s1 [0] (by simp) hw
  unfold stream.putC
  have h1 : (1 : Int).toNat = 1 := rfl
  have h0 : (0 : Int).toNat = 0 := rfl
  simp only [ge_iff_le, le_refl, Int.reduceLE, and_self, not_true_eq_false, if_false,
    one_ne_zero, Bool.true_eq_false, h1, h0, putC.loop, h, ne_eq]

theorem WriteString_binary {σ : Type} (I : device_instance σ) (acc : access_types)
    (hb : acc.m_Text = 0) (s s1 s2 : σ) (str : List Byte)
    (hw : I.Write s str = .ok (xerr.ok, s1)) (hw2 : I.Write s1 [0] = .ok (xerr.ok, s2)) :
    stream.WriteString I acc s str =
      .ok (xerr.ok, if acc.m_bForceFlush = true then I.Flush s2 else s2) := by
  unfold stream.WriteString
  simp only [hw, ne_eq, not_true_eq_false, if_false, hb, if_true, putC_one I acc hb s1 s2 hw2]

theorem WriteString_text {σ : Type} (I : device_instance σ) (acc : access_types)
    (ht : acc.m_Text ≠ 0) (s s1 : σ) (str : List Byte)
    (hw : I.Write s str = .ok (xerr.ok, s1)) :
    stream.WriteString I acc s str = .ok (xerr.ok, s1) := by
  unfold stream.WriteString
  simp only [hw, ne_eq, not_true_eq_false, if_false, ht]

theorem WriteString_ram (acc : access_types) (hb : acc.m_Text = 0) (f : memfile) (hwf : f.WF)
    (s : List Byte) (p e : Nat) (hp : f.m_SeekPosition = (p : Int)) (he : f.m_EOF = (e : Int))
    (hsz : e + s.length + 1 < 2 ^ 62) :
    ∃ f1, stream.WriteString memfile.ops acc f s = .ok (xerr.ok, f1) ∧ f1.WF ∧
      f1.m_SeekPosition = ((p + s.length + 1 : Nat) : Int) ∧
      f1.m_EOF = ((max e (p + s.length + 1) : Nat) : Int) ∧
      (∀ j, j < s.length → f1.byteAt (p + j) = s.getD j 0) ∧ f1.byteAt (p + s.length) = 0 ∧
      ∀ q, ¬ (p ≤ q ∧ q < p + s.length + 1) → f1.byteAt q = f.byteAt q := by
  have hpe : p ≤ e := by
    have := hwf.2.1
    rw [hp, he] at this
    exact_mod_cast this
  obtain ⟨f1, hw1, hwf1, hp1, he1, _, hb1⟩ := Write_spec f s hwf p e hp he (by omega)
  obtain ⟨f2, hw2, hwf2, hp2, he2, _, hb2⟩ := Write_spec f1 [0] hwf1 (p + s.length)
    (max e (p + s.length)) hp1 he1 (by simp only [List.length_singleton]; omega)
  have hfl : (if acc.m_bForceFlush = true then memfile.ops.Flush f2 else f2) = f2 := by
    split <;> rfl
  refine ⟨f2, ?_, hwf2, hp2, ?_, ?_, ?_, ?_⟩
  · rw [WriteString_binary memfile.ops acc hb f f1 f2 s hw1 hw2, hfl]
  · rw [he2]
    simp only [List.length_singleton]
    congr 1; omega
  · intro j hj
    rw [hb2, if_neg (by simp only [List.length_singleton]; omega), hb1, if_pos (by omega)]
    congr 1; omega
  · rw [hb2, if_pos (by simp only [List.length_singleton]; omega)]
    simp
  · intro q hq
    rw [hb2, if_neg (by simp only [List.length_singleton]; omega), hb1, if_neg (by omega)]

/-- C23. WriteString terminator: for every narrow string `s`, on a backend that records
the byte runs it is given, `stream::WriteString(s)` in binary mode delivers `s` and then
one zero byte and nothing else, and in text mode (kind 1 or 2) it delivers exactly `s` and
no terminator; on a RAM file in binary mode it returns success with the cursor advanced
by `|s| + 1`, the bytes of `s` at the old cursor and a zero byte after them. -/
theorem C23_WriteString_terminator (m_AccessType : access_types) (s : List Byte) :
    (m_AccessType.m_Text = 0 →
      stream.WriteString recorder m_AccessType [] s = .ok (xerr.ok, [s, [0]])) ∧
    (m_AccessType.m_Text = 1 ∨ m_AccessType.m_Text = 2 →
      stream.WriteString recorder m_AccessType [] s = .ok (xerr.ok, [s])) ∧
    (m_AccessType.m_Text = 0 → ∀ f : memfile, f.WF → f.m_EOF.toNat + s.length + 1 < 2 ^ 62 →
      ∃ f1, stream.WriteString memfile.ops m_AccessType f s = .ok (xerr.ok, f1) ∧
        f1.m_SeekPosition = f.m_SeekPosition + ((s.length + 1 : Nat) : Int) ∧
        (∀ j, j < s.length → f1.byteAt (f.m_SeekPosition.toNat + j) = s.getD j 0) ∧
        f1.byteAt (f.m_SeekPosition.toNat + s.length) = 0) := by
  refine ⟨?_, ?_, ?_⟩
  · intro hb
    rw [WriteString_binary recorder m_AccessType hb [] [s] [s, [0]] s rfl rfl]
    split <;> rfl
  · intro ht
    exact WriteString_text recorder m_AccessType (by omega) [] [s] s rfl
  · intro hb f hwf hsz
    obtain ⟨p, hp⟩ := Int.eq_ofNat_of_zero_le hwf.1
    obtain ⟨e, he⟩ := Int.eq_ofNat_of_zero_le (le_trans hwf.1 hwf.2.1)
    rw [he] at hsz
    simp only [Int.toNat_ofNat] at hsz
    obtain ⟨f1, hw, _, hp1, _, hby, hz, _⟩ := WriteString_ram m_AccessType hb f hwf s p e hp he hsz
    have hpn : f.m_SeekPosition.toNat = p := by rw [hp]; rfl
    refine ⟨f1, hw, ?_, ?_, ?_⟩
    · rw [hp1, hp]; push_cast; ring
    · intro j hj; rw [hpn]; exact hby j hj
    · rw [hpn]; exact hz

/-- C23 at the header string of the unit test, `"TestFileHeader"`, on an empty RAM file. -/
theorem C23_witness :
    ({} : access_types).m_Text = 0 ∧
    (({ m_Text := 1 } : access_types).m_Text = 1 ∨ ({ m_Text := 1 } : access_types).m_Text = 2) ∧
    ({} : memfile).WF ∧ ({} : memfile).m_EOF.toNat + header_bytes.length + 1 < 2 ^ 62 ∧
    stream.WriteString recorder {} [] header_bytes = .ok (xerr.ok, [header_bytes, [0]]) ∧
    stream.WriteString recorder { m_Text := 1 } [] header_bytes = .ok (xerr.ok, [header_bytes]) ∧
    ∃ f1, stream.WriteString memfile.ops {} {} header_bytes = .ok (xerr.ok, f1) ∧
      f1.m_SeekPosition = ({} : memfile).m_SeekPosition + ((header_bytes.length + 1 : Nat) : Int) ∧
      (∀ j, j < header_bytes.length →
        f1.byteAt (({} : memfile).m_SeekPosition.toNat + j) = header_bytes.getD j 0) ∧
      f1.byteAt (({} : memfile).m_SeekPosition.toNat + header_bytes.length) = 0 :=
  ⟨rfl, Or.inl rfl, WF_empty, by decide,
    (C23_WriteString_terminator {} header_bytes).1 rfl,
    (C23_WriteString_terminator { m_Text := 1 } header_bytes).2.1 (Or.inl rfl),
    (C23_WriteString_terminator {} header_bytes).2.2 rfl {} WF_empty (by decide)⟩

theorem getC_ram_binary (acc : access_types) (hb : acc.m_Text = 0) (fuel : Nat)
    (past : Nat → Byte) (f : memfile) (hwf : f.WF) (p : Nat)
    (hp : f.m_SeekPosition = (p : Int)) (hlt : (p : Int) < f.m_EOF) (C : Nat) :
    stream.getC memfile.ops acc (fuel + 1) past f C =
      .ok (xerr.ok, f.byteAt p, f.moveTo ((p + 1 : Nat) : Int)) := by
  have hr : memfile.ops.Read f [0] =
      .ok (xerr.ok, [f.byteAt p], f.moveTo ((p + 1 : Nat) : Int)) := Read_one f hwf p hp hlt 0
  unfold stream.getC
  rw [stream.ReadRaw]
  simp only [List.isEmpty_cons, Bool.false_eq_true, if_false, hr, ne_eq, not_true_eq_false, hb]
  rfl

theorem ReadString_ram (acc : access_types) (hb : acc.m_Text = 0) (fuel : Nat)
    (past : Nat → Byte) (f : memfile) (hwf : f.WF) :
    ∀ (t : List Byte) (q n : Nat) (Buffer : List Byte), (∀ x ∈ t, x ≠ 0) →
      (∀ j, j < t.length → f.byteAt (q + j) = t.getD j 0) → f.byteAt (q + t.length) = 0 →
      ((q + t.length : Nat) : Int) < f.m_EOF → t.length < n →
      stream.ReadString memfile.ops acc (fuel + 1) past n (f.moveTo (q : Int)) Buffer =
        .ok (xerr.ok, Buffer ++ t, f.moveTo ((q + t.length + 1 : Nat) : Int)) := by
  intro t
  induction t with
  | nil =>
    intro q n Buffer _ _ hz hlt hn
    obtain ⟨m, rfl⟩ : ∃ m, n = m + 1 := ⟨n - 1, by simp at hn; omega⟩
    have hwq : (f.moveTo (q : Int)).WF :=
      moveTo_WF f hwf _ (by omega) (by simp at hlt; omega)
    rw [stream.ReadString,
      getC_ram_binary acc hb fuel past _ hwq q rfl (by rw [moveTo_EOF]; simpa using hlt) 0]
    simp only [ne_eq, not_true_eq_false, if_false, moveTo_byteAt, moveTo_moveTo]
    simp only [List.length_nil, Nat.add_zero] at hz
    rw [hz]
    simp
  | cons c t ih =>
    intro q n Buffer hnz hby hz hlt hn
    obtain ⟨m, rfl⟩ : ∃ m, n = m + 1 := ⟨n - 1, by omega⟩
    simp only [List.length_cons] at hz hlt hn hby
    have hwq : (f.moveTo (q : Int)).WF :=
      moveTo_WF f hwf _ (by omega) (by push_cast at hlt; omega)
    have hc : f.byteAt q = c := by
      have := hby 0 (by omega)
      simpa using this
    have hc0 : c ≠ 0 := hnz c (List.mem_cons_self _ _)
    rw [stream.ReadString,
      getC_ram_binary acc hb fuel past _ hwq q rfl
        (by rw [moveTo_EOF]; push_cast at hlt ⊢; omega) 0]
    simp only [ne_eq, not_true_eq_false, if_false, moveTo_byteAt, moveTo_moveTo, hc, hc0]
    rw [ih (q + 1) m (Buffer ++ [c]) (fun x hx => hnz x (List.mem_cons_of_mem _ hx))
      (fun j hj => by
        have := hby (j + 1) (by omega)
        rw [List.getD_cons_succ] at this
        rw [← this]; congr 1; omega)
      (by rw [← hz]; congr 1; omega)
      (by have e : q + 1 + t.length = q + (t.length + 1) := by omega
          rw [e]; exact hlt)
      (by omega)]
    have e : q + 1 + t.length + 1 = q + (t.length + 1) + 1 := by omega
    rw [e]
    simp

/-- C24. String round trip: for every narrow string `s` without a zero byte (the empty
string included), on a binary-mode RAM stream with the cursor at offset 0,
`WriteString(s)`, then `SeekOrigin(0)`, then `ReadString` into an empty string return
success, the string read equals `s`, and the cursor is left at `|s| + 1`, immediately past
the terminator; `n` bounds the iterations of the read loop and any `n > |s|` is enough. -/
theorem C24_string_round_trip (m_AccessType : access_types) (hb : m_AccessType.m_Text = 0)
    (s : List Byte) (hs : ∀ x ∈ s, x ≠ 0) (f : memfile) (hwf : f.WF)
    (hpos : f.m_SeekPosition = 0) (hsz : f.m_EOF.toNat + s.length + 1 < 2 ^ 62)
    (fuel n : Nat) (past : Nat → Byte) (hn : s.length < n) :
    ∃ f1 f2 f3, stream.WriteString memfile.ops m_AccessType f s = .ok (xerr.ok, f1) ∧
      memfile.ops.Seek f1 seek_mode.SKM_ORIGIN 0 = .ok (xerr.ok, f2) ∧
      stream.ReadString memfile.ops m_AccessType (fuel + 1) past n f2 [] = .ok (xerr.ok, s, f3) ∧
      f3.m_SeekPosition = ((s.length + 1 : Nat) : Int) := by
  obtain ⟨e, he⟩ := Int.eq_ofNat_of_zero_le (le_trans hwf.1 hwf.2.1)
  rw [he] at hsz
  simp only [Int.toNat_ofNat] at hsz
  obtain ⟨f1, hw, hwf1, hp1, he1, hby, hz, _⟩ :=
    WriteString_ram m_AccessType hb f hwf s 0 e (by rw [hpos]; rfl) he hsz
  have hseek : memfile.ops.Seek f1 seek_mode.SKM_ORIGIN 0 = .ok (xerr.ok, f1.moveTo 0) :=
    Seek_origin_zero f1 hwf1
  have hrd := ReadString_ram m_AccessType hb fuel past f1 hwf1 s 0 n [] hs
    (fun j hj => hby j hj) hz
    (by rw [he1]; exact_mod_cast (by omega : 0 + s.length < max e (0 + s.length + 1))) hn
  refine ⟨f1, f1.moveTo 0, f1.moveTo ((0 + s.length + 1 : Nat) : Int), hw, hseek, ?_, ?_⟩
  · simpa using hrd
  · rw [moveTo_pos]; simp

set_option maxRecDepth 8000 in
/-- C24 at the header string of the unit test, `"TestFileHeader"`, on an empty RAM file. -/
theorem C24_witness :
    ({} : access_types).m_Text = 0 ∧ (∀ x ∈ header_bytes, x ≠ 0) ∧ ({} : memfile).WF ∧
    ({} : memfile).m_SeekPosition = 0 ∧
    ({} : memfile).m_EOF.toNat + header_bytes.length + 1 < 2 ^ 62 ∧ header_bytes.length < 15 ∧
    ∃ f1 f2 f3, stream.WriteString memfile.ops {} {} header_bytes = .ok (xerr.ok, f1) ∧
      memfile.ops.Seek f1 seek_mode.SKM_ORIGIN 0 = .ok (xerr.ok, f2) ∧
      stream.ReadString memfile.ops {} (0 + 1) (fun _ => 0) 15 f2 [] =
        .ok (xerr.ok, header_bytes, f3) ∧
      f3.m_SeekPosition = ((header_bytes.length + 1 : Nat) : Int) :=
  ⟨rfl, by decide, WF_empty, rfl, by decide, by decide,
    C24_string_round_trip {} rfl header_bytes (by decide) {} WF_empty rfl (by decide) 0 15
      (fun _ => 0) (by decide)⟩

set_option maxRecDepth 8000 in
/-- C25. On a narrow-text stream `WriteString` does not go through the translation of
`WriteRaw`: for the string `"A\nB"` the backend receives the three bytes A, LF, B from
`WriteString`, and the four bytes A, CR, LF, B from `WriteRaw` applied to the same bytes. -/
theorem C25_WriteString_bypasses_translation :
    stream.WriteString recorder { m_Text := 1 } [] [65, 10, 66] = .ok (xerr.ok, [[65, 10, 66]]) ∧
    stream.WriteRaw recorder { m_Text := 1 } [] [65, 10, 66] =
      .ok (xerr.ok, [[65], [13, 10], [66]]) ∧
    ([[65, 10, 66]] : List (List Byte)).flatten ≠ ([[65], [13, 10], [66]] : List (List Byte)).flatten ∧
    ([[65], [13, 10], [66]] : List (List Byte)).flatten = crlf_expand [65, 10, 66] := by
  refine ⟨?_, ?_, ?_, ?_⟩ <;> decide

set_option maxRecDepth 8000 in
/-- C26. With the force-flush flag set, `WriteString` on a narrow-text stream returns
success without a call of the backend `Flush`: the backend that records its calls sees
the one `Write` of the body and nothing else, where `WriteRaw` of the same bytes ends in a
`Flush`, and `WriteString` in binary mode ends in the `Flush` of its `putC`. With the flag
clear none of them calls `Flush`. -/
theorem C26_WriteString_text_skips_flush :
    stream.WriteString tracer { m_Text := 1, m_bForceFlush := true } [] [65, 66] =
      .ok (xerr.ok, [backend_call.Write [65, 66]]) ∧
    stream.WriteRaw tracer { m_Text := 1, m_bForceFlush := true } [] [65, 66] =
      .ok (xerr.ok, [backend_call.Write [65, 66], backend_call.Flush]) ∧
    stream.WriteString tracer { m_Text := 0, m_bForceFlush := true } [] [65, 66] =
      .ok (xerr.ok, [backend_call.Write [65, 66], backend_call.Write [0], backend_call.Flush]) ∧
    stream.WriteRaw tracer { m_Text := 1, m_bForceFlush := false } [] [65, 66] =
      .ok (xerr.ok, [backend_call.Write [65, 66]]) ∧
    stream.WriteString tracer { m_Text := 0, m_bForceFlush := false } [] [65, 66] =
      .ok (xerr.ok, [backend_call.Write [65, 66], backend_call.Write [0]]) := by
  refine ⟨?_, ?_, ?_, ?_, ?_⟩ <;> decide

/-! ## Outcomes of the stream operations on the RAM file -/

theorem narrowLoop_inv {σ : Type} (I : device_instance σ) (G : σ → Prop) (P : xerr → Prop)
    (hP : P xerr.ok)
    (hW : ∀ s v e s1, G s → I.Write s v = .ok (e, s1) → G s1 ∧ P e) (View : List Byte) :
    ∀ (k i iLast : Nat) (s : σ) (e : xerr) (iLast1 : Nat) (s1 : σ), G s →
      WriteRaw.narrowLoop I View k i iLast s = .ok (e, iLast1, s1) → G s1 ∧ P e := by
  intro k
  induction k with
  | zero =>
    intro i iLast s e iLast1 s1 hG h
    simp only [WriteRaw.narrowLoop, Except.ok.injEq, Prod.mk.injEq] at h
    obtain ⟨h1, _, h3⟩ := h
    subst h1; subst h3
    exact ⟨hG, hP⟩
  | succ k ih =>
    intro i iLast s e iLast1 s1 hG h
    rw [WriteRaw.narrowLoop] at h
    split at h
    · split at h
      · exact absurd h (by simp)
      · rename_i e1 sa hwa
        obtain ⟨hGa, hPa⟩ := hW _ _ _ _ hG hwa
        split at h
        · simp only [Except.ok.injEq, Prod.mk.injEq] at h
          obtain ⟨h1, _, h3⟩ := h
          subst h1; subst h3
          exact ⟨hGa, hPa⟩
        · split at h
          · exact absurd h (by simp)
          · rename_i e2 sb hwb
            obtain ⟨hGb, hPb⟩ := hW _ _ _ _ hGa hwb
            split at h
            · simp only [Except.ok.injEq, Prod.mk.injEq] at h
              obtain ⟨h1, _, h3⟩ := h
              subst h1; subst h3
              exact ⟨hGb, hPb⟩
            · exact ih _ _ _ _ _ _ hGb h
    · exact ih _ _ _ _ _ _ hG h

theorem wideLoop_inv {σ : Type} (I : device_instance σ) (G : σ → Prop) (P : xerr → Prop)
    (hP : P xerr.ok)
    (hW : ∀ s v e s1, G s → I.Write s v = .ok (e, s1) → G s1 ∧ P e) (View : List Byte) :
    ∀ (k i iLast : Nat) (s : σ) (e : xerr) (iLast1 : Nat) (s1 : σ), G s →
      WriteRaw.wideLoop I View k i iLast s = .ok (e, iLast1, s1) → G s1 ∧ P e := by
  intro k
  induction k with
  | zero =>
    intro i iLast s e iLast1 s1 hG h
    simp only [WriteRaw.wideLoop, Except.ok.injEq, Prod.mk.injEq] at h
    obtain ⟨h1, _, h3⟩ := h
    subst h1; subst h3
    exact ⟨hG, hP⟩
  | succ k ih =>
    intro i iLast s e iLast1 s1 hG h
    rw [WriteRaw.wideLoop] at h
    split at h
    · split at h
      · exact absurd h (by simp)
      · rename_i e1 sa hwa
        obtain ⟨hGa, hPa⟩ := hW _ _ _ _ hG hwa
        split at h
        · simp only [Except.ok.injEq, Prod.mk.injEq] at h
          obtain ⟨h1, _, h3⟩ := h
          subst h1; subst h3
          exact ⟨hGa, hPa⟩
        · split at h
          · exact absurd h (by simp)
          · rename_i e2 sb hwb
            obtain ⟨hGb, hPb⟩ := hW _ _ _ _ hGa hwb
            split at h
            · simp only [Except.ok.injEq, Prod.mk.injEq] at h
              obtain ⟨h1, _, h3⟩ := h
              subst h1; subst h3
              exact ⟨hGb, hPb⟩
            · exact ih _ _ _ _ _ _ hGb h
    · exact ih _ _ _ _ _ _ hG h

theorem finish_inv {σ : Type} (I : device_instance σ) (G : σ → Prop) (P : xerr → Prop)
    (hP : P xerr.ok) (hF : ∀ s, G s → G (I.Flush s)) (acc : access_types) (s : σ) (e : xerr)
    (s1 : σ) (hG : G s) (h : WriteRaw.finish I acc s = .ok (e, s1)) : G s1 ∧ P e := by
  unfold WriteRaw.finish at h
  split at h
  · simp only [Except.ok.injEq, Prod.mk.injEq] at h
    obtain ⟨h1, h2⟩ := h
    subst h1; subst h2
    exact ⟨hF s hG, hP⟩
  · simp only [Except.ok.injEq, Prod.mk.injEq] at h
    obtain ⟨h1, h2⟩ := h
    subst h1; subst h2
    exact ⟨hG, hP⟩

theorem WriteRaw_inv {σ : Type} (I : device_instance σ) (G : σ → Prop) (P : xerr → Prop)
    (hP : P xerr.ok)
    (hW : ∀ s v e s1, G s → I.Write s v = .ok (e, s1) → G s1 ∧ P e)
    (hF : ∀ s, G s → G (I.Flush s)) (acc : access_types) (s : σ) (View : List Byte) (e : xerr)
    (s1 : σ) (hG : G s) (h : stream.WriteRaw I acc s View = .ok (e, s1)) : G s1 ∧ P e := by
  unfold stream.WriteRaw at h
  split at h
  · exact absurd h (by simp)
  · split at h
    · split at h
      · split at h
        · exact absurd h (by simp)
        · rename_i e1 iL sa hl
          obtain ⟨hGa, hPa⟩ := narrowLoop_inv I G P hP hW View _ _ _ _ _ _ _ hG hl
          split at h
          · simp only [Except.ok.injEq, Prod.mk.injEq] at h
            obtain ⟨h1, h2⟩ := h
            subst h1; subst h2
            exact ⟨hGa, hPa⟩
          · split at h
            · split at h
              · exact absurd h (by simp)
              · rename_i e2 sb hwb
                obtain ⟨hGb, hPb⟩ := hW _ _ _ _ hGa hwb
                split at h
                · simp only [Except.ok.injEq, Prod.mk.injEq] at h
                  obtain ⟨h1, h2⟩ := h
                  subst h1; subst h2
                  exact ⟨hGb, hPb⟩
                · exact finish_inv I G P hP hF acc _ _ _ hGb h
            · exact finish_inv I G P hP hF acc _ _ _ hGa h
      · split at h
        · split at h
          · exact absurd h (by simp)
          · rename_i e1 iL sa hl
            obtain ⟨hGa, hPa⟩ := wideLoop_inv I G P hP hW View _ _ _ _ _ _ _ hG hl
            split at h
            · simp only [Except.ok.injEq, Prod.mk.injEq] at h
              obtain ⟨h1, h2⟩ := h
              subst h1; subst h2
              exact ⟨hGa, hPa⟩
            · split at h
              · split at h
                · exact absurd h (by simp)
                · rename_i e2 sb hwb
                  obtain ⟨hGb, hPb⟩ := hW _ _ _ _ hGa hwb
                  split at h
                  · simp only [Except.ok.injEq, Prod.mk.injEq] at h
                    obtain ⟨h1, h2⟩ := h
                    subst h1; subst h2
                    exact ⟨hGb, hPb⟩
                  · exact finish_inv I G P hP hF acc _ _ _ hGb h
              · exact finish_inv I G P hP hF acc _ _ _ hGa h
        · exact finish_inv I G P hP hF acc _ _ _ hG h
    · split at h
      · exact absurd h (by simp)
      · rename_i e1 sa hwa
        obtain ⟨hGa, hPa⟩ := hW _ _ _ _ hG hwa
        split at h
        · simp only [Except.ok.injEq, Prod.mk.injEq] at h
          obtain ⟨h1, h2⟩ := h
          subst h1; subst h2
          exact ⟨hGa, hPa⟩
        · exact finish_inv I G P hP hF acc _ _ _ hGa h

theorem peekTail_inv {σ : Type} (I : device_instance σ) (G : σ → Prop) (P : xerr → Prop)
    (hP : P xerr.ok)
    (hR : ∀ s v e v1 s1, G s → I.Read s v = .ok (e, v1, s1) → G s1 ∧ P e)
    (hS : ∀ s m p e s1, G s → I.Seek s m p = .ok (e, s1) → G s1 ∧ P e)
    (s : σ) (hG : G s) (buf Va Vb : List Byte) (c : List Byte → Prop) [DecidablePred c]
    (back : Nat) (e : xerr) (V1 : List Byte) (s1 : σ)
    (h : (match I.Read s buf with
      | .error x => .error x
      | .ok (e2, C, s2) =>
        if e2 ≠ xerr.ok then .ok (e2, Va, s2)
        else if c C then .ok (xerr.ok, Vb, s2)
        else
          match I.Seek s2 seek_mode.SKM_CURENT back with
          | .error x => .error x
          | .ok (e3, s3) => .ok (e3, Va, s3)) = (Except.ok (e, V1, s1) : Except Stop _)) :
    G s1 ∧ P e := by
  cases hr : I.Read s buf with
  | error x => rw [hr] at h; exact absurd h (by simp)
  | ok r =>
    obtain ⟨e2, C, s2⟩ := r
    obtain ⟨hG2, hP2⟩ := hR _ _ _ _ _ hG hr
    rw [hr] at h
    dsimp only at h
    by_cases h1 : e2 ≠ xerr.ok
    · rw [if_pos h1] at h
      simp only [Except.ok.injEq, Prod.mk.injEq] at h
      obtain ⟨a1, _, a3⟩ := h
      subst a1; subst a3
      exact ⟨hG2, hP2⟩
    · rw [if_neg h1] at h
      by_cases h2 : c C
      · rw [if_pos h2] at h
        simp only [Except.ok.injEq, Prod.mk.injEq] at h
        obtain ⟨a1, _, a3⟩ := h
        subst a1; subst a3
        exact ⟨hG2, hP⟩
      · rw [if_neg h2] at h
        cases hs : I.Seek s2 seek_mode.SKM_CURENT back with
        | error x => rw [hs] at h; exact absurd h (by simp)
        | ok q =>
          obtain ⟨e3, s3⟩ := q
          obtain ⟨hG3, hP3⟩ := hS _ _ _ _ _ hG2 hs
          rw [hs] at h
          simp only [Except.ok.injEq, Prod.mk.injEq] at h
          obtain ⟨a1, _, a3⟩ := h
          subst a1; subst a3
          exact ⟨hG3, hP3⟩

theorem ReadRaw_inv {σ : Type} (I : device_instance σ) (G : σ → Prop) (P : xerr → Prop)
    (hP : P xerr.ok) (hPf : P (xerr.create state.FAILURE ReadRaw.msgNotMultipleOf2))
    (hR : ∀ s v e v1 s1, G s → I.Read s v = .ok (e, v1, s1) → G s1 ∧ P e)
    (hS : ∀ s m p e s1, G s → I.Seek s m p = .ok (e, s1) → G s1 ∧ P e) (acc : access_types) :
    ∀ (fuel : Nat) (past : Nat → Byte) (s : σ) (View : List Byte) (e : xerr) (V1 : List Byte)
      (s1 : σ), G s → stream.ReadRaw I acc fuel past s View = .ok (e, V1, s1) → G s1 ∧ P e := by
  intro fuel
  induction fuel with
  | zero =>
    intro past s View e V1 s1 _ h
    have h0 : stream.ReadRaw I acc 0 past s View = .error Stop.fuel := rfl
    have h1 : (Except.error Stop.fuel : Except Stop (xerr × List Byte × σ)) = .ok (e, V1, s1) :=
      h0.symm.trans h
    cases h1
  | succ fuel ih =>
    intro past s View e V1 s1 hG h
    rw [stream.ReadRaw] at h
    by_cases hv : View.isEmpty = true
    · rw [if_pos hv] at h; exact absurd h (by simp)
    rw [if_neg hv] at h
    cases hr : I.Read s View with
    | error x => rw [hr] at h; exact absurd h (by simp)
    | ok r =>
      obtain ⟨e0, Va, sa⟩ := r
      obtain ⟨hGa, hPa⟩ := hR _ _ _ _ _ hG hr
      rw [hr] at h
      dsimp only at h
      have fin : ∀ (W : List Byte) (t : σ), G t →
          (Except.ok (xerr.ok, W, t) : Except Stop _) = .ok (e, V1, s1) → G s1 ∧ P e := by
        intro W t hGt hh
        simp only [Except.ok.injEq, Prod.mk.injEq] at hh
        obtain ⟨a1, _, a3⟩ := hh
        subst a1; subst a3
        exact ⟨hGt, hP⟩
      by_cases h1 : e0 ≠ xerr.ok
      · rw [if_pos h1] at h
        simp only [Except.ok.injEq, Prod.mk.injEq] at h
        obtain ⟨a1, _, a3⟩ := h
        subst a1; subst a3
        exact ⟨hGa, hPa⟩
      rw [if_neg h1] at h
      by_cases ht : acc.m_Text ≠ 0
      swap
      · rw [if_neg ht] at h; exact fin _ _ hGa h
      rw [if_pos ht] at h
      by_cases ht1 : acc.m_Text = 1
      · rw [if_pos ht1] at h
        rcases hl : ReadRaw.narrowLoop past Va.length Va 0 0 with ⟨Vb, pSrc, pDst⟩
        rw [hl] at h
        dsimp only at h
        by_cases hd : pSrc ≠ pDst
        · rw [if_pos hd] at h
          cases hrec : stream.ReadRaw I acc fuel past sa
              (span Vb (Vb.length - (pSrc - pDst)) (pSrc - pDst)) with
          | error x => rw [hrec] at h; exact absurd h (by simp)
          | ok q =>
            obtain ⟨e2, sub, sb⟩ := q
            obtain ⟨hGb, hPb⟩ := ih _ _ _ _ _ _ hGa hrec
            rw [hrec] at h
            simp only [Except.ok.injEq, Prod.mk.injEq] at h
            obtain ⟨a1, _, a3⟩ := h
            subst a1; subst a3
            exact ⟨hGb, hPb⟩
        · rw [if_neg hd] at h
          by_cases hc : Vb.getD (pDst - 1) 0 = 13
          · rw [if_pos hc] at h
            exact peekTail_inv I G P hP hR hS sa hGa [0] Vb (Vb.set (pDst - 1) 10)
              (fun C => C.getD 0 0 = 10) (2 ^ 64 - 1) e V1 s1 h
          · rw [if_neg hc] at h; exact fin _ _ hGa h
      · rw [if_neg ht1] at h
        by_cases ht2 : acc.m_Text = 2
        swap
        · rw [if_neg ht2] at h; exact fin _ _ hGa h
        rw [if_pos ht2] at h
        by_cases hev : Va.length % 2 = 0
        · rw [if_pos hev] at h
          simp only [Except.ok.injEq, Prod.mk.injEq] at h
          obtain ⟨a1, _, a3⟩ := h
          subst a1; subst a3
          exact ⟨hGa, hPf⟩
        rw [if_neg hev] at h
        rcases hl : ReadRaw.wideLoop past (Va.length / 2) Va 0 0 with ⟨Vb, pSrc, pDst⟩
        rw [hl] at h
        dsimp only at h
        by_cases hd : pSrc ≠ pDst
        · rw [if_pos hd] at h
          cases hrec : stream.ReadRaw I acc fuel (after (Vb.drop (2 * (Va.length / 2))) past) sa
              (span Vb (2 * (Va.length / 2 - (pSrc - pDst))) ((pSrc - pDst) * 2)) with
          | error x => rw [hrec] at h; exact absurd h (by simp)
          | ok q =>
            obtain ⟨e2, sub, sb⟩ := q
            obtain ⟨hGb, hPb⟩ := ih _ _ _ _ _ _ hGa hrec
            rw [hrec] at h
            simp only [Except.ok.injEq, Prod.mk.injEq] at h
            obtain ⟨a1, _, a3⟩ := h
            subst a1; subst a3
            exact ⟨hGb, hPb⟩
        · rw [if_neg hd] at h
          by_cases hz : pDst = 0
          · rw [if_pos hz] at h; exact absurd h (by simp)
          rw [if_neg hz] at h
          by_cases hc : wchar_at Vb (pDst - 1) = 13
          · rw [if_pos hc] at h
            exact peekTail_inv I G P hP hR hS sa hGa [0, 0] Vb
              ((Vb.set (2 * (pDst - 1)) 10).set (2 * (pDst - 1) + 1) 0)
              (fun C => wchar_at C 0 = 10) (2 ^ 64 - 2) e V1 s1 h
          · rw [if_neg hc] at h; exact fin _ _ hGa h

theorem WriteLoop_ok (View : List Byte) :
    ∀ (k : Nat) (f : memfile) (idx off bo : Nat) (e : xerr) (f1 : memfile),
      memfile.WriteLoop View k f idx off bo = .ok (e, f1) →
      e = xerr.ok ∧ f1.m_iNext = f.m_iNext := by
  intro k
  induction k with
  | zero =>
    intro f idx off bo e f1 h
    simp only [memfile.WriteLoop, Except.ok.injEq, Prod.mk.injEq] at h
    exact ⟨h.1.symm, by rw [← h.2]⟩
  | succ k ih =>
    intro f idx off bo e f1 h
    rw [memfile.WriteLoop] at h
    dsimp only at h
    split at h
    · split at h
      · exact absurd h (by simp)
      · have r := ih _ _ _ _ _ _ h
        exact r
    · have r := ih _ _ _ _ _ _ h
      exact r

theorem Write_ok (f : memfile) (v : List Byte) (e : xerr) (f1 : memfile)
    (h : memfile.Write f v = .ok (e, f1)) : e = xerr.ok ∧ f1.m_iNext = f.m_iNext := by
  unfold memfile.Write at h
  dsimp only at h
  split at h
  · exact absurd h (by simp)
  · obtain ⟨h1, h2⟩ := WriteLoop_ok _ _ _ _ _ _ _ _ h
    refine ⟨h1, ?_⟩
    rw [h2]
    unfold memfile.Write.allocate memfile.Write.setEOF
    dsimp only
    split <;> split <;> rfl

theorem ReadLoop_link :
    ∀ (k : Nat) (f : memfile) (idx off bo : Nat) (View : List Byte) (e : xerr) (V1 : List Byte)
      (f1 : memfile), memfile.ReadLoop k f idx off bo View = .ok (e, V1, f1) →
      f1.m_iNext = f.m_iNext := by
  intro k
  induction k with
  | zero =>
    intro f idx off bo View e V1 f1 h
    simp only [memfile.ReadLoop, Except.ok.injEq, Prod.mk.injEq] at h
    rw [← h.2.2]
  | succ k ih =>
    intro f idx off bo View e V1 f1 h
    rw [memfile.ReadLoop] at h
    split at h
    · split at h
      · simp only [Except.ok.injEq, Prod.mk.injEq] at h
        rw [← h.2.2]
      · have r := ih _ _ _ _ _ _ _ _ h
        exact r
    · have r := ih _ _ _ _ _ _ _ _ h
      exact r

theorem Read_outcome (f : memfile) (v : List Byte) (e : xerr) (V1 : List Byte) (f1 : memfile)
    (h : memfile.Read f v = .ok (e, V1, f1)) :
    f1.m_iNext = f.m_iNext ∧ ∀ msg, e ≠ xerr.create state.INCOMPLETE msg := by
  unfold memfile.Read at h
  split at h
  · simp only [Except.ok.injEq, Prod.mk.injEq] at h
    obtain ⟨h1, _, h3⟩ := h
    subst h1; subst h3
    exact ⟨rfl, fun msg => by simp⟩
  · dsimp only at h
    split at h
    · exact absurd h (by simp)
    · refine ⟨ReadLoop_link _ _ _ _ _ _ _ _ _ h, fun msg => ?_⟩
      rcases ReadLoop_err _ _ _ _ _ _ _ _ _ h with h1 | h1 <;> rw [h1] <;> simp

theorem Seek_outcome (f : memfile) (m : seek_mode) (p : Nat) (e : xerr) (f1 : memfile)
    (h : memfile.Seek f m p = .ok (e, f1)) : f1.m_iNext = f.m_iNext ∧ e = xerr.ok := by
  refine ⟨Seek_link f m p e f1 h, ?_⟩
  have key : ∀ g : memfile, memfile.seekCheck g = .ok (e, f1) → e = xerr.ok := by
    intro g hg
    unfold memfile.seekCheck at hg
    split at hg
    · simp only [Except.ok.injEq, Prod.mk.injEq] at hg; exact hg.1.symm
    · exact absurd hg (by simp)
  cases m
  · exact key _ h
  · exact key _ h
  · exact key _ h

theorem Synchronize_ram (acc : access_types) (f : memfile) (b : Bool)
    (hcur : acc.m_bASync = true ∨ f.m_SeekPosition ≤ f.m_EOF) :
    stream.Synchronize memfile.ops acc f b = .ok (xerr.ok, f) := by
  unfold stream.Synchronize
  by_cases ha : acc.m_bASync = false
  · rw [if_pos ha]
    have hle : f.m_SeekPosition ≤ f.m_EOF := by
      rcases hcur with h | h
      · rw [ha] at h; exact absurd h (by decide)
      · exact h
    have hnot : decide (f.m_SeekPosition > f.m_EOF) = false := by
      simp only [gt_iff_lt, decide_eq_false_iff_not, not_lt]; exact hle
    simp only [memfile.ops, memfile.isEOF, hnot, Bool.false_eq_true, if_false]
  · rw [if_neg ha]; rfl

set_option maxRecDepth 8000 in
theorem Synchronize_ram_beyond (acc : access_types) (f : memfile) (b : Bool)
    (ha : acc.m_bASync = false) (hcur : f.m_SeekPosition > f.m_EOF) :
    stream.Synchronize memfile.ops acc f b =
      .ok (xerr.create state.UNEXPECTED_EOF "Synchronize end of file", f) := by
  unfold stream.Synchronize
  rw [if_pos ha]
  have hyes : decide (f.m_SeekPosition > f.m_EOF) = true := by
    simp only [gt_iff_lt, decide_eq_true_eq]; exact hcur
  simp only [memfile.ops, memfile.isEOF, hyes, if_true]

set_option maxRecDepth 8000 in
/-- C27. `Synchronize` on a RAM stream with nothing pending is not always a success: on a
stream opened without `@`, after 5 bytes have been written, the cursor set back to the
origin and 10 bytes read in binary mode (the read returns success, the block has room for
them), the cursor 10 is beyond the EOF 5 and `Synchronize`, for `bBlock` true and false,
returns UNEXPECTED_EOF. On every RAM file opened without `@` whose cursor is beyond EOF
`Synchronize` returns UNEXPECTED_EOF and leaves the file as it is; on a stream opened with
`@`, or whose cursor is not beyond EOF, `Synchronize`, for `bBlock` true and false and
called any number of times in a row, returns success and leaves the file as it is. A
`ReadRaw` or `WriteRaw` that returns never returns INCOMPLETE, and a `WriteRaw` that
returns returns success. -/
theorem C27_synchronize_after_over_read (m_AccessType : access_types) (f : memfile)
    (blocks : List Bool) :
    ram_overread_sync true =
      .ok (xerr.ok, xerr.create state.UNEXPECTED_EOF "Synchronize end of file", 10, 5) ∧
    ram_overread_sync false =
      .ok (xerr.ok, xerr.create state.UNEXPECTED_EOF "Synchronize end of file", 10, 5) ∧
    (m_AccessType.m_bASync = false → f.m_SeekPosition > f.m_EOF →
      ∀ b, stream.Synchronize memfile.ops m_AccessType f b =
        .ok (xerr.create state.UNEXPECTED_EOF "Synchronize end of file", f)) ∧
    (m_AccessType.m_bASync = true ∨ f.m_SeekPosition ≤ f.m_EOF →
      stream.Synchronize_all memfile.ops m_AccessType blocks f = .ok (xerr.ok, f) ∧
      ∀ b, stream.Synchronize memfile.ops m_AccessType f b = .ok (xerr.ok, f)) ∧
    (∀ (fuel : Nat) (past : Nat → Byte) (View : List Byte) (e : xerr) (V1 : List Byte)
      (f1 : memfile), stream.ReadRaw memfile.ops m_AccessType fuel past f View = .ok (e, V1, f1) →
      ∀ msg, e ≠ xerr.create state.INCOMPLETE msg) ∧
    ∀ (View : List Byte) (e : xerr) (f1 : memfile),
      stream.WriteRaw memfile.ops m_AccessType f View = .ok (e, f1) → e = xerr.ok := by
  refine ⟨by decide, by decide,
    fun ha hcur b => Synchronize_ram_beyond m_AccessType f b ha hcur, ?_, ?_, ?_⟩
  · intro hcur
    refine ⟨?_, fun b => Synchronize_ram m_AccessType f b hcur⟩
    induction blocks with
    | nil => rfl
    | cons b rest ih =>
      rw [stream.Synchronize_all, Synchronize_ram m_AccessType f b hcur]
      simp only [ne_eq, not_true_eq_false, if_false]
      exact ih
  · intro fuel past View e V1 f1 h
    exact (ReadRaw_inv memfile.ops (fun _ => True)
      (fun e => ∀ msg, e ≠ xerr.create state.INCOMPLETE msg) (fun msg => by simp)
      (fun msg => by simp)
      (fun s v e v1 s1 _ hr => ⟨trivial, (Read_outcome s v e v1 s1 hr).2⟩)
      (fun s m p e s1 _ hs => ⟨trivial, by rw [(Seek_outcome s m p e s1 hs).2]; simp⟩)
      m_AccessType fuel past f View e V1 f1 trivial h).2
  · intro View e f1 h
    exact (WriteRaw_inv memfile.ops (fun _ => True) (fun e => e = xerr.ok) rfl
      (fun s v e s1 _ hw => ⟨trivial, (Write_ok s v e s1 hw).1⟩) (fun _ _ => trivial)
      m_AccessType f View e f1 trivial h).2

/-- C27 at a RAM file of length 5 opened without `@`: with the cursor at 10, beyond EOF,
`Synchronize` returns UNEXPECTED_EOF; with the cursor at 2, three calls in a row return
success. -/
theorem C27_witness :
    ({} : access_types).m_bASync = false ∧
    (memfile.sample5.moveTo 10).m_SeekPosition > (memfile.sample5.moveTo 10).m_EOF ∧
    (∀ b, stream.Synchronize memfile.ops {} (memfile.sample5.moveTo 10) b =
      .ok (xerr.create state.UNEXPECTED_EOF "Synchronize end of file",
        memfile.sample5.moveTo 10)) ∧
    (({} : access_types).m_bASync = true ∨
      memfile.sample5.m_SeekPosition ≤ memfile.sample5.m_EOF) ∧
    stream.Synchronize_all memfile.ops {} [true, false, true] memfile.sample5 =
      .ok (xerr.ok, memfile.sample5) :=
  ⟨rfl, by decide,
    (C27_synchronize_after_over_read {} (memfile.sample5.moveTo 10) []).2.2.1 rfl (by decide),
    Or.inr (by decide),
    ((C27_synchronize_after_over_read {} memfile.sample5 [true, false, true]).2.2.2.1
      (Or.inr (by decide))).1⟩

/-! ## The look-ahead after a trailing CR -/

theorem narrowLoop_bounds (past : Nat → Byte) :
    ∀ (k : Nat) (View : List Byte) (s d : Nat),
      (ReadRaw.narrowLoop past k View s d).2.1 = s + k ∧
      (ReadRaw.narrowLoop past k View s d).2.2 ≤ d + k := by
  intro k
  induction k with
  | zero => intro View s d; exact ⟨rfl, le_refl _⟩
  | succ k ih =>
    intro View s d
    rw [ReadRaw.narrowLoop]
    split
    · obtain ⟨h1, h2⟩ := ih (View.set d (peek View past s)) (s + 1) (d + 1)
      exact ⟨by rw [h1]; omega, by omega⟩
    · obtain ⟨h1, h2⟩ := ih (View.set d (peek View past s)) (s + 1) d
      exact ⟨by rw [h1]; omega, by omega⟩

theorem set_peek_self (View : List Byte) (past : Nat → Byte) (a : Nat) :
    View.set a (peek View past a) = View := by
  by_cases h : a < View.length
  · unfold peek
    rw [if_pos h]
    apply List.ext_getElem (by simp)
    intro j h1 h2
    by_cases e : a = j
    · subst e
      simp [List.getD_eq_getElem?_getD, List.getElem?_eq_getElem h]
    · rw [List.getElem_set_ne e]
  · exact List.set_eq_of_length_le (by omega)

theorem narrowLoop_same (past : Nat → Byte) :
    ∀ (k : Nat) (View : List Byte) (a : Nat),
      (ReadRaw.narrowLoop past k View a a).2.2 = a + k →
      (ReadRaw.narrowLoop past k View a a).1 = View := by
  intro k
  induction k with
  | zero => intro View a _; rfl
  | succ k ih =>
    intro View a h
    rw [ReadRaw.narrowLoop] at h ⊢
    rw [set_peek_self] at h ⊢
    split at h
    · rename_i hc
      rw [if_pos hc]
      exact ih View (a + 1) (by rw [h]; omega)
    · have := (narrowLoop_bounds past k View (a + 1) a).2
      omega

theorem WF_sampleCR : memfile.sampleCR.WF :=
  ⟨by decide, by decide, by decide, by decide, Or.inl (by decide)⟩

theorem look_ahead_inside (m_AccessType : access_types)
    (ht : m_AccessType.m_Text = 1) (f : memfile) (hwf : f.WF) (p : Nat)
    (hp : f.m_SeekPosition = (p : Int)) (View : List Byte) (hv : View ≠ [])
    (hnext : ((p + View.length : Nat) : Int) < f.m_EOF) (past : Nat → Byte) (fuel : Nat)
    (hpass : (ReadRaw.narrowLoop past View.length
        ((List.range View.length).map (fun t => f.byteAt (p + t))) 0 0).2.1 =
      (ReadRaw.narrowLoop past View.length
        ((List.range View.length).map (fun t => f.byteAt (p + t))) 0 0).2.2)
    (hlast : f.byteAt (p + View.length - 1) = 13) :
    stream.ReadRaw memfile.ops m_AccessType (fuel + 1) past f View =
      (if f.byteAt (p + View.length) = 10 then
        .ok (xerr.ok,
          ((List.range View.length).map (fun t => f.byteAt (p + t))).set (View.length - 1) 10,
          f.moveTo ((p + View.length + 1 : Nat) : Int))
      else
        .ok (xerr.ok, (List.range View.length).map (fun t => f.byteAt (p + t)),
          f.moveTo ((p + View.length : Nat) : Int))) ∧
    (∀ x : Byte, memfile.Read (f.moveTo ((p + View.length : Nat) : Int)) [x] =
      .ok (xerr.ok, [f.byteAt (p + View.length)],
        f.moveTo ((p + View.length + 1 : Nat) : Int))) ∧
    memfile.Seek (f.moveTo ((p + View.length + 1 : Nat) : Int)) seek_mode.SKM_CURENT (2 ^ 64 - 1) =
      .ok (xerr.ok, f.moveTo ((p + View.length : Nat) : Int)) := by
  have hn : 0 < View.length := List.length_pos.2 hv
  have hEOF := hwf.2.2.1
  obtain ⟨V1, hr, hl, hg⟩ := Read_many f hwf p hp View hv (le_of_lt hnext)
  have hV : V1 = (List.range View.length).map (fun t => f.byteAt (p + t)) := by
    apply List.ext_getElem
    · rw [hl]; simp
    · intro j h1 h2
      have hj := hg j (by rw [← hl]; exact h1)
      simp only [List.getD_eq_getElem?_getD, List.getElem?_eq_getElem h1, Option.getD_some] at hj
      simp [hj]
  subst hV
  have hlen : ((List.range View.length).map (fun t => f.byteAt (p + t))).length = View.length := by
    simp
  have hwf2 : (f.moveTo ((p + View.length : Nat) : Int)).WF :=
    moveTo_WF f hwf _ (by omega) (le_of_lt hnext)
  have hone : ∀ x : Byte, memfile.Read (f.moveTo ((p + View.length : Nat) : Int)) [x] =
      .ok (xerr.ok, [f.byteAt (p + View.length)],
        f.moveTo ((p + View.length + 1 : Nat) : Int)) := by
    intro x
    have := Read_one (f.moveTo ((p + View.length : Nat) : Int)) hwf2 (p + View.length) rfl
      (by rw [moveTo_EOF]; exact hnext) x
    rw [this, moveTo_byteAt, moveTo_moveTo]
  have hback : memfile.Seek (f.moveTo ((p + View.length + 1 : Nat) : Int)) seek_mode.SKM_CURENT
      (2 ^ 64 - 1) = .ok (xerr.ok, f.moveTo ((p + View.length : Nat) : Int)) := by
    have := Seek_back_one (f.moveTo ((p + View.length + 1 : Nat) : Int)) (p + View.length) rfl
      (by rw [moveTo_EOF]; push_cast at hnext ⊢; omega) (by rw [moveTo_EOF]; exact hEOF)
    rw [this, moveTo_moveTo]
  refine ⟨?_, hone, hback⟩
  rcases hloop : ReadRaw.narrowLoop past View.length
      ((List.range View.length).map (fun t => f.byteAt (p + t))) 0 0 with ⟨Vb, pSrc, pDst⟩
  rw [hloop] at hpass
  simp only at hpass
  have hb := narrowLoop_bounds past View.length
    ((List.range View.length).map (fun t => f.byteAt (p + t))) 0 0
  rw [hloop] at hb
  simp only [Nat.zero_add] at hb
  have hsame := narrowLoop_same past View.length
    ((List.range View.length).map (fun t => f.byteAt (p + t))) 0
  rw [hloop] at hsame
  simp only [Nat.zero_add] at hsame
  have hd : pDst = View.length := by omega
  have hs : pSrc = View.length := hb.1
  have hVb : Vb = (List.range View.length).map (fun t => f.byteAt (p + t)) := hsame hd
  subst hVb
  have hne : View.isEmpty = false := by
    cases View with
    | nil => exact absurd rfl hv
    | cons _ _ => rfl
  have hlastD : ((List.range View.length).map (fun t => f.byteAt (p + t))).getD
      (View.length - 1) 0 = 13 := by
    rw [List.getD_eq_getElem?_getD, List.getElem?_eq_getElem (by rw [hlen]; omega)]
    simp only [List.getElem_map, List.getElem_range, Option.getD_some]
    rw [← hlast]; congr 1; omega
  have hr2 : memfile.ops.Read f View = .ok (xerr.ok,
      (List.range View.length).map (fun t => f.byteAt (p + t)),
      f.moveTo ((p + View.length : Nat) : Int)) := hr
  have hone2 : memfile.ops.Read (f.moveTo ((p + View.length : Nat) : Int)) [0] =
      .ok (xerr.ok, [f.byteAt (p + View.length)],
        f.moveTo ((p + View.length + 1 : Nat) : Int)) := hone 0
  have hback2 : memfile.ops.Seek (f.moveTo ((p + View.length + 1 : Nat) : Int))
      seek_mode.SKM_CURENT (2 ^ 64 - 1) =
      .ok (xerr.ok, f.moveTo ((p + View.length : Nat) : Int)) := hback
  rw [stream.ReadRaw]
  simp only [hne, Bool.false_eq_true, if_false, hr2, ne_eq, not_true_eq_false, ht, one_ne_zero,
    not_false_eq_true, if_true, hlen, hloop, hs, hd, hlastD, hone2, List.getD_cons_zero, hback2]

/-! ## The cleared instances of the RAM device -/

theorem create_frame (d d1 : device) (i : Nat) (h : d.createInstance = .ok (i, d1)) :
    d.m_iEmptyHead.m_iNext = (i : Int) ∧ (∀ j, j ≠ i → d1.file j = d.file j) ∧
      (i < d.m_FileHPool.length → d1.file i = d.acquired i) := by
  unfold device.createInstance at h
  dsimp only at h
  split at h
  · exact absurd h (by simp)
  · rename_i hge
    simp only [Except.ok.injEq, Prod.mk.injEq] at h
    obtain ⟨h1, h2⟩ := h
    subst h1; subst h2
    have hge : 0 ≤ d.m_iEmptyHead.m_iNext := by simpa using hge
    refine ⟨(Int.toNat_of_nonneg hge).symm, ?_, ?_⟩
    · intro j hj
      simp only [device.file, device.setLink]
      rw [getD_set_ne _ _ _ _ _ (fun e => hj e.symm)]
    · intro hi
      simp only [device.file, device.setLink, device.acquired]
      rw [getD_set_self _ _ _ _ hi]

theorem destroy_frame (d d1 : device) (i : Nat) (h : d.destroyInstance i = .ok d1) :
    i < d.m_FileHPool.length ∧ (∀ j, j ≠ i → d1.file j = d.file j) ∧ (d1.file i).cleared := by
  unfold device.destroyInstance at h
  split at h
  · exact absurd h (by simp)
  · rename_i hlt
    have hlt : i < d.m_FileHPool.length := by simpa using hlt
    split at h
    · exact absurd h (by simp)
    · simp only [Except.ok.injEq] at h
      subst h
      refine ⟨hlt, ?_, ?_⟩
      · intro j hj
        simp only [device.file, device.setLink]
        rw [getD_set_ne _ _ _ _ _ (fun e => hj e.symm), getD_set_ne _ _ _ _ _ (fun e => hj e.symm)]
      · simp only [device.file, device.setLink, memfile.clear]
        rw [getD_set_self _ _ _ _ (by rw [List.length_set]; exact hlt),
          getD_set_self _ _ _ _ hlt]
        exact ⟨rfl, rfl, rfl⟩

theorem setSlot_frame (I : device_instance memfile) (d : device) (i : Nat) (f : memfile) :
    (∀ j, j ≠ i → ((device.vtable I).setSlot d i f).file j = d.file j) ∧
      (i < d.m_FileHPool.length → ((device.vtable I).setSlot d i f).file i = f) := by
  refine ⟨?_, ?_⟩
  · intro j hj
    show (d.m_FileHPool.set i f).getD j {} = _
    rw [getD_set_ne _ _ _ _ _ (fun e => hj e.symm)]; rfl
  · intro hi
    show (d.m_FileHPool.set i f).getD i {} = _
    rw [getD_set_self _ _ _ _ hi]

theorem setSlot_length (I : device_instance memfile) (d : device) (i : Nat) (f : memfile) :
    ((device.vtable I).setSlot d i f).m_FileHPool.length = d.m_FileHPool.length := by
  show (d.m_FileHPool.set i f).length = _
  rw [List.length_set]

theorem create_length (d d1 : device) (i : Nat) (h : d.createInstance = .ok (i, d1)) :
    d1.m_FileHPool.length = d.m_FileHPool.length := by
  unfold device.createInstance at h
  dsimp only at h
  split at h
  · exact absurd h (by simp)
  · simp only [Except.ok.injEq, Prod.mk.injEq] at h
    rw [← h.2]
    simp [device.setLink]

theorem open_cleared (f : memfile) (FP : wstring) (acc : access_types) (e : xerr) (f1 : memfile)
    (h : memfile.open_ f FP acc = .ok (e, f1)) : e = xerr.ok ∧ f1 = f := by
  unfold memfile.open_ at h
  split at h
  · simp only [Except.ok.injEq, Prod.mk.injEq] at h
    exact ⟨h.1.symm, h.2.symm⟩
  · exact absurd h (by simp)

theorem seek_end_cleared (f : memfile) (e : xerr) (f1 : memfile)
    (h : memfile.Seek f seek_mode.SKM_END 0 = .ok (e, f1)) :
    e = xerr.ok ∧ (f.cleared → f1.cleared) := by
  refine ⟨(Seek_outcome f _ _ e f1 h).2, ?_⟩
  intro hc
  have h2 : memfile.seekCheck
      { f with m_SeekPosition := i64 ((u64 f.m_EOF + 2 ^ 64 - 0 % 2 ^ 64) % 2 ^ 64) } =
      .ok (e, f1) := h
  have hu : u64 (0 : Int) = 0 := u64_natCast 0 (by omega)
  have hm : (0 + 2 ^ 64 - 0 % 2 ^ 64) % 2 ^ 64 = 0 := by
    rw [Nat.zero_mod, Nat.sub_zero, Nat.add_mod_right, Nat.zero_mod]
  have hX : i64 ((u64 f.m_EOF + 2 ^ 64 - 0 % 2 ^ 64) % 2 ^ 64) = 0 := by
    rw [hc.2.2, hu, hm]
    exact i64_of_lt 0 (by omega)
  rw [hX] at h2
  unfold memfile.seekCheck at h2
  split at h2
  · simp only [Except.ok.injEq, Prod.mk.injEq] at h2
    rw [← h2.2]
    exact ⟨hc.1, rfl, hc.2.2⟩
  · exact absurd h2 (by simp)

theorem Part_head (d : device) (out free : List Nat) (i : Nat) (hp : d.Part out free)
    (hh : d.m_iEmptyHead.m_iNext = (i : Int)) :
    ∃ rest, free = i :: rest ∧ i < pool_size ∧ i ∉ out := by
  cases free with
  | nil =>
    have : d.m_iEmptyHead.m_iNext = -1 := hp.2.1
    omega
  | cons a rest =>
    have hc : d.m_iEmptyHead.m_iNext = (a : Int) ∧ a < pool_size ∧ _ := hp.2.1
    have ha : a = i := by have := hc.1; omega
    subst ha
    exact ⟨rest, rfl, hc.2.1, (hp.2.2.2.2.2.1 a hc.2.1).1 (List.mem_cons_self _ _)⟩

theorem onDevice_ram (k : Nat) (r : registration device) (out free : List Nat) (FP : wstring)
    (acc : access_types) (b : Bool) (e : xerr) (inst : Option Nat) (r1 : registration device)
    (c : List device_call) (hp : r.m_pDevice.Part out free)
    (h : open_.onDevice (device.vtable memfile.ops) k r FP acc b = .ok (e, inst, r1, c)) :
    ∃ i, inst = some i ∧ e = xerr.ok ∧ r.m_pDevice.m_iEmptyHead.m_iNext = (i : Int) ∧
      (∀ j, j ≠ i → r1.m_pDevice.file j = r.m_pDevice.file j) ∧
      ((r.m_pDevice.file i).cleared → (r1.m_pDevice.file i).cleared) := by
  have hfu : (open_.firstUse (device.vtable memfile.ops) k r).1.m_pDevice = r.m_pDevice := by
    rw [firstUse_pool]
  unfold open_.onDevice at h
  generalize open_.firstUse (device.vtable memfile.ops) k r = fu at h hfu
  obtain ⟨ra, ca⟩ := fu
  simp only at h hfu
  split at h
  · exact absurd h (by simp)
  · split at h
    · exact absurd h (by simp)
    · rename_i h0 d1 hc
      rw [hfu] at hc
      have hc2 : r.m_pDevice.createInstance = .ok (h0, d1) := hc
      obtain ⟨hhead, hfr, hacq⟩ := create_frame _ _ _ hc2
      obtain ⟨rest, _, hlt, _⟩ := Part_head _ out free h0 hp hhead
      have hl0 : h0 < r.m_pDevice.m_FileHPool.length := by rw [hp.1]; exact hlt
      have hl1 : h0 < d1.m_FileHPool.length := by rw [create_length _ _ _ hc2]; exact hl0
      have hacq := hacq hl0
      split at h
      · exact absurd h (by simp)
      · rename_i e1 f1 ho
        have ho2 : memfile.open_ (d1.file h0) FP acc = .ok (e1, f1) := ho
        obtain ⟨he1, hf1⟩ := open_cleared _ _ _ _ _ ho2
        subst he1
        have hf1c : (r.m_pDevice.file h0).cleared → f1.cleared := by
          intro hcl
          rw [hf1, hacq]
          exact hcl
        split at h
        · rename_i hne; exact absurd rfl hne
        · split at h
          · split at h
            · exact absurd h (by simp)
            · rename_i e2 f2 hs
              have hs2 : memfile.Seek f1 seek_mode.SKM_END 0 = .ok (e2, f2) := hs
              obtain ⟨he2, hf2c⟩ := seek_end_cleared _ _ _ hs2
              subst he2
              split at h
              · rename_i hne; exact absurd rfl hne
              · simp only [Except.ok.injEq, Prod.mk.injEq] at h
                obtain ⟨a1, a2, a3, _⟩ := h
                subst a1; subst a2; subst a3
                refine ⟨h0, rfl, rfl, hhead, ?_, ?_⟩
                · intro j hj
                  show ((device.vtable memfile.ops).setSlot
                    ((device.vtable memfile.ops).setSlot d1 h0 f1) h0 f2).file j = _
                  rw [(setSlot_frame _ _ _ _).1 j hj, (setSlot_frame _ _ _ _).1 j hj, hfr j hj]
                · intro hcl
                  show (((device.vtable memfile.ops).setSlot
                    ((device.vtable memfile.ops).setSlot d1 h0 f1) h0 f2).file h0).cleared
                  rw [(setSlot_frame _ _ _ _).2 (by rw [setSlot_length]; exact hl1)]
                  exact hf2c (hf1c hcl)
          · simp only [Except.ok.injEq, Prod.mk.injEq] at h
            obtain ⟨a1, a2, a3, _⟩ := h
            subst a1; subst a2; subst a3
            refine ⟨h0, rfl, rfl, hhead, ?_, ?_⟩
            · intro j hj
              show ((device.vtable memfile.ops).setSlot d1 h0 f1).file j = _
              rw [(setSlot_frame _ _ _ _).1 j hj, hfr j hj]
            · intro hcl
              show (((device.vtable memfile.ops).setSlot d1 h0 f1).file h0).cleared
              rw [(setSlot_frame _ _ _ _).2 hl1]
              exact hf1c hcl

theorem owns_set_free (streams : List stream) (k : Nat) (out : List Nat) (j : Nat) (s1 : stream)
    (ho : owns streams k out) (h1 : ¬ (s1.m_pInstance.isSome = true ∧ s1.m_pDeviceReg = some k)) :
    owns (streams.set j s1) k out := by
  obtain ⟨hin, huq⟩ := ho
  refine ⟨?_, ?_⟩
  · intro a s h ha hi hk
    rcases getElem?_set_cases _ _ _ _ _ ha with ⟨_, e, _⟩ | ⟨_, e⟩
    · subst e; exact absurd ⟨by rw [hi]; rfl, hk⟩ h1
    · exact hin a s h e hi hk
  · intro a b s s2 h hab ha hb hi hi2 hk
    rcases getElem?_set_cases _ _ _ _ _ ha with ⟨_, e, _⟩ | ⟨_, e⟩
    · subst e; exact absurd ⟨by rw [hi]; rfl, hk⟩ h1
    · rcases getElem?_set_cases _ _ _ _ _ hb with ⟨_, e2, _⟩ | ⟨_, e2⟩
      · subst e2
        intro hk2
        exact h1 ⟨by rw [hi2]; rfl, hk2⟩
      · exact huq a b s s2 h hab e e2 hi hi2 hk

theorem owns_set_new (streams : List stream) (k : Nat) (out : List Nat) (j i : Nat)
    (s1 : stream) (ho : owns streams k out) (h1 : s1.m_pInstance = some i) (hi : i ∉ out) :
    owns (streams.set j s1) k (i :: out) := by
  obtain ⟨hin, huq⟩ := ho
  refine ⟨?_, ?_⟩
  · intro a s h ha hih hk
    rcases getElem?_set_cases _ _ _ _ _ ha with ⟨_, e, _⟩ | ⟨_, e⟩
    · subst e
      rw [h1] at hih
      rw [← Option.some.inj hih]
      exact List.mem_cons_self _ _
    · exact List.mem_cons_of_mem _ (hin a s h e hih hk)
  · intro a b s s2 h hab ha hb hih hih2 hk
    rcases getElem?_set_cases _ _ _ _ _ ha with ⟨ea, e, _⟩ | ⟨ea, e⟩
    · subst e
      rcases getElem?_set_cases _ _ _ _ _ hb with ⟨eb, _, _⟩ | ⟨_, e2⟩
      · exact absurd (ea.trans eb.symm) hab
      · intro hk2
        rw [h1] at hih
        have : h = i := (Option.some.inj hih).symm
        subst this
        exact hi (hin b s2 h e2 hih2 hk2)
    · rcases getElem?_set_cases _ _ _ _ _ hb with ⟨_, e2, _⟩ | ⟨_, e2⟩
      · subst e2
        intro _
        rw [h1] at hih2
        have : h = i := (Option.some.inj hih2).symm
        subst this
        exact hi (hin a s h e hih hk)
      · exact huq a b s s2 h hab e e2 hih hih2 hk

theorem owns_set_release (streams : List stream) (k : Nat) (out : List Nat) (j i : Nat)
    (s s1 : stream) (ho : owns streams k out) (hj : streams[j]? = some s)
    (hi : s.m_pInstance = some i) (hk : s.m_pDeviceReg = some k) (h1 : s1.m_pInstance = none) :
    owns (streams.set j s1) k (out.erase i) := by
  obtain ⟨hin, huq⟩ := ho
  have hfree : ¬ (s1.m_pInstance.isSome = true ∧ s1.m_pDeviceReg = some k) := by
    rw [h1]; simp
  refine ⟨?_, (owns_set_free streams k out j s1 ⟨hin, huq⟩ hfree).2⟩
  intro a t h ha hih hka
  rcases getElem?_set_cases _ _ _ _ _ ha with ⟨_, e, _⟩ | ⟨ea, e⟩
  · subst e; rw [h1] at hih; exact absurd hih (by simp)
  · have hmem := hin a t h e hih hka
    have hne : h ≠ i := by
      intro heq
      subst heq
      exact huq j a s t h (fun x => ea x.symm) hj e hi hih hk hka
    exact (List.mem_erase_of_ne hne).2 hmem

theorem mk0_cleared (i : Nat) : (device.mk0.file i).cleared := by
  unfold device.file device.mk0
  by_cases h : i < pool_size
  · simp only [List.getD_eq_getElem?_getD, List.getElem?_map,
      List.getElem?_range h, Option.map_some', Option.getD_some]
    exact ⟨rfl, rfl, rfl⟩
  · rw [List.getD_eq_default _ _ (by simp; omega)]
    exact ⟨rfl, rfl, rfl⟩

theorem WriteRaw_link (acc : access_types) (f : memfile) (View : List Byte) (e : xerr)
    (f1 : memfile) (h : stream.WriteRaw memfile.ops acc f View = .ok (e, f1)) :
    f1.m_iNext = f.m_iNext :=
  (WriteRaw_inv memfile.ops (fun g => g.m_iNext = f.m_iNext) (fun _ => True) trivial
    (fun s v e s1 hs hw => ⟨((Write_ok s v e s1 hw).2).trans hs, trivial⟩)
    (fun _ hs => hs) acc f View e f1 rfl h).1

/-- The invariant behind the cleared instances: the pool of every registered RAM device is
partitioned, every slot that is not allocated is cleared, and the streams own distinct
allocated slots. -/
theorem ReachRam_inv (H : host) (P : program device) (hP : program.ReachRam H P) :
    ∀ k r, P.w.s_pHead[k]? = some r →
      ∃ out free, r.m_pDevice.Part out free ∧
        (∀ i, i < pool_size → i ∉ out → (r.m_pDevice.file i).cleared) ∧
        owns P.streams k out := by
  induction hP with
  | init P hreg _ hstr =>
    intro k r hr
    obtain ⟨hd, _, _⟩ := hreg r (List.getElem?_mem hr)
    refine ⟨[], List.range pool_size, by rw [hd]; exact Part_mk0,
      fun i _ _ => by rw [hd]; exact mk0_cleared i, ?_, ?_⟩
    · intro j s h hj hi _
      rw [hstr s (List.getElem?_mem hj)] at hi
      exact absurd hi (by simp)
    · intro j j2 s s2 h _ hj _ hi _ _
      rw [hstr s (List.getElem?_mem hj)] at hi
      exact absurd hi (by simp)
  | open_ P j fuel s s1 Path pMode e w1 _ hj hopen ih =>
    intro k r hr
    obtain ⟨hs, hcase⟩ :=
      open_cases H (device.vtable memfile.ops) fuel P.w s Path pMode e s1 w1 hopen
    rcases hcase with ⟨_, h2, _, h4⟩ | ⟨k0, r0, FP, acc, b, r1, c, hr0, hd, hk0, hw⟩
    · subst h4
      obtain ⟨out, free, hp, hcl, ho⟩ := ih k r hr
      exact ⟨out, free, hp, hcl, owns_set_free _ _ _ j s1 ho (by rw [h2]; simp)⟩
    · subst hw
      obtain ⟨out0, free0, hp0, hcl0, ho0⟩ := ih k0 r0 hr0
      obtain ⟨i, hinst, _, hhead, hfr, hclr⟩ :=
        onDevice_ram k0 r0 out0 free0 FP acc b e _ r1 c hp0 hd
      rcases getElem?_set_cases _ _ _ _ _ hr with ⟨hk, hrr, _⟩ | ⟨hk, hrr⟩
      · subst hk; subst hrr
        rcases onDevice_ok memfile.ops ops_keepsLink k r0 out0 free0 FP acc b e _ _ c hp0 hd with
          ⟨hn, _⟩ | ⟨i2, hn, _, hni, free1, hp1⟩
        · rw [hinst] at hn; exact absurd hn (by simp)
        · have hii : i2 = i := by
            rw [hinst] at hn; exact (Option.some.inj hn).symm
          subst hii
          refine ⟨i2 :: out0, free1, hp1, ?_, owns_set_new _ _ _ j i2 s1 ho0 hinst hni⟩
          intro a ha hna
          have hne : a ≠ i2 := fun e => hna (e ▸ List.mem_cons_self _ _)
          have hno : a ∉ out0 := fun h => hna (List.mem_cons_of_mem _ h)
          rw [hfr a hne]
          exact hcl0 a ha hno
      · obtain ⟨out, free, hp, hcl, ho⟩ := ih k r hrr
        refine ⟨out, free, hp, hcl, owns_set_free _ _ _ j s1 ho ?_⟩
        rintro ⟨_, hk2⟩
        rw [hk0] at hk2
        exact hk (Option.some.inj hk2).symm
  | close P j s s1 w1 _ hj hclose ih =>
    intro k r hr
    obtain ⟨hs1, hcase⟩ := close_cases (device.vtable memfile.ops) P.w w1 s s1 hclose
    subst hs1
    rcases hcase with ⟨_, hw⟩ | ⟨i, k0, r0, d2, hi, hk0, hr0, hd, hw⟩
    · subst hw
      obtain ⟨out, free, hp, hcl, ho⟩ := ih k r hr
      exact ⟨out, free, hp, hcl, owns_set_free _ _ _ j {} ho (by simp)⟩
    · subst hw
      obtain ⟨out0, free0, hp0, hcl0, ho0⟩ := ih k0 r0 hr0
      rcases getElem?_set_cases _ _ _ _ _ hr with ⟨hk, hrr, _⟩ | ⟨hk, hrr⟩
      · subst hk; subst hrr
        have hp1 := Part_setSlot memfile.ops r0.m_pDevice out0 free0 i
          (memfile.ops.close ((device.vtable memfile.ops).slot r0.m_pDevice i)) rfl hp0
        have hmem := destroy_ok_mem _ d2 out0 free0 i hp1 hd
        obtain ⟨d2x, hdx, hp2, _⟩ := Part_destroy _ out0 free0 i hp1 hmem
        have hd2 : d2x = d2 := by
          have : Except.ok d2x = (Except.ok d2 : Except Stop device) := hdx.symm.trans hd
          exact Except.ok.inj this
        subst hd2
        obtain ⟨_, hfr, hclr⟩ := destroy_frame _ _ _ hd
        refine ⟨out0.erase i, i :: free0, hp2, ?_,
          owns_set_release _ _ _ j i s {} ho0 hj hi hk0 rfl⟩
        intro a ha hna
        by_cases hai : a = i
        · subst hai; exact hclr
        · have hno : a ∉ out0 := fun h => hna ((List.mem_erase_of_ne hai).2 h)
          show (d2x.file a).cleared
          rw [hfr a hai, (setSlot_frame _ _ _ _).1 a hai]
          exact hcl0 a ha hno
      · obtain ⟨out, free, hp, hcl, ho⟩ := ih k r hrr
        exact ⟨out, free, hp, hcl, owns_set_free _ _ _ j {} ho (by simp)⟩
  | write P j h k0 s r0 View e f1 _ hj hi hk0 hr0 hwr ih =>
    intro k r hr
    obtain ⟨out0, free0, hp0, hcl0, ho0⟩ := ih k0 r0 hr0
    rcases getElem?_set_cases _ _ _ _ _ hr with ⟨hk, hrr, _⟩ | ⟨hk, hrr⟩
    · subst hk; subst hrr
      have hmem : h ∈ out0 := ho0.1 j s h hj hi hk0
      refine ⟨out0, free0, Part_setSlot memfile.ops r0.m_pDevice out0 free0 h f1
        (WriteRaw_link _ _ _ _ _ hwr) hp0, ?_, ho0⟩
      intro a ha hna
      have hne : a ≠ h := fun e => hna (e ▸ hmem)
      show (((device.vtable memfile.ops).setSlot r0.m_pDevice h f1).file a).cleared
      rw [(setSlot_frame _ _ _ _).1 a hne]
      exact hcl0 a ha hna
    · exact ih k r hrr
  | seek P j h k0 s r0 Mode Pos e f1 _ hj hi hk0 hr0 hsk ih =>
    intro k r hr
    obtain ⟨out0, free0, hp0, hcl0, ho0⟩ := ih k0 r0 hr0
    rcases getElem?_set_cases _ _ _ _ _ hr with ⟨hk, hrr, _⟩ | ⟨hk, hrr⟩
    · subst hk; subst hrr
      have hmem : h ∈ out0 := ho0.1 j s h hj hi hk0
      refine ⟨out0, free0, Part_setSlot memfile.ops r0.m_pDevice out0 free0 h f1
        (Seek_link _ _ _ _ _ hsk) hp0, ?_, ho0⟩
      intro a ha hna
      have hne : a ≠ h := fun e => hna (e ▸ hmem)
      show (((device.vtable memfile.ops).setSlot r0.m_pDevice h f1).file a).cleared
      rw [(setSlot_frame _ _ _ _).1 a hne]
      exact hcl0 a ha hna
    · exact ih k r hrr

theorem cleared_report (f : memfile) (hc : f.cleared) :
    memfile.Length f = .ok (xerr.ok, 0, f) ∧ memfile.Tell f = .ok (xerr.ok, 0, f) ∧
      ∀ (FileName : wstring) (acc : access_types), memfile.open_ f FileName acc = .ok (xerr.ok, f) := by
  have hu : u64 (0 : Int) = 0 := u64_natCast 0 (by omega)
  refine ⟨?_, ?_, ?_⟩
  · unfold memfile.Length; rw [hc.2.2, hu]
  · unfold memfile.Tell; rw [hc.2.1, hu]
  · intro FileName acc
    unfold memfile.open_
    rw [if_pos hc.2.2]

/-- C22. RAM content is cleared before reuse: in every program state reached by
sequential `stream::open`, `WriteRaw`, `Seek` and `stream::close` calls on RAM devices,
every instance `createInstance` returns has no blocks, cursor 0 and EOF 0, and
`memfile::open` on it returns success whatever the file name, so its assertion
`m_EOF == 0` does not trip; and every `stream::open` of a stream without instance whose
path resolves to the device, with a mode the parser accepts and a pool that is not
exhausted, returns success and the stream then owns a cleared instance, which reports
length 0 and position 0. -/
theorem C22_ram_content_cleared_before_reuse (H : host) (P : program device)
    (hP : program.ReachRam H P) (k : Nat) (r : registration device)
    (hr : P.w.s_pHead[k]? = some r) :
    (∀ i d1, r.m_pDevice.createInstance = .ok (i, d1) →
      (d1.file i).m_lBlock = [] ∧ (d1.file i).m_SeekPosition = 0 ∧ (d1.file i).m_EOF = 0 ∧
      ∀ (FileName : wstring) (acc : access_types),
        memfile.open_ (d1.file i) FileName acc = .ok (xerr.ok, d1.file i)) ∧
    ∀ (fuel : Nat) (s : stream) (Path : wstring) (pMode : List Char) (FinalPath : wstring)
      (acc : access_types) (b : Bool), s.m_pInstance = none →
      SetTheFinalPathAndFindDevice H fuel P.w.s_pHead Path = .ok (FinalPath, some k) →
      open_.parseMode s.m_AccessType pMode = .ok (acc, b) →
      r.m_pDevice.allocated < pool_size →
      ∃ s1 w1 h r1,
        stream.open_ H (device.vtable memfile.ops) fuel P.w s Path pMode = .ok (xerr.ok, s1, w1) ∧
        s1.m_pInstance = some h ∧ s1.m_pDeviceReg = some k ∧ w1.s_pHead[k]? = some r1 ∧
        (r1.m_pDevice.file h).cleared ∧
        memfile.Length (r1.m_pDevice.file h) = .ok (xerr.ok, 0, r1.m_pDevice.file h) ∧
        memfile.Tell (r1.m_pDevice.file h) = .ok (xerr.ok, 0, r1.m_pDevice.file h) := by
  obtain ⟨out, free, hp, hcl, _⟩ := ReachRam_inv H P hP k r hr
  have hklt : k < P.w.s_pHead.length := by
    by_contra hge
    rw [List.getElem?_eq_none (by omega)] at hr
    exact absurd hr (by simp)
  refine ⟨?_, ?_⟩
  · intro i d1 hc
    obtain ⟨hhead, _, hacq⟩ := create_frame _ _ _ hc
    obtain ⟨rest, _, hlt, hni⟩ := Part_head _ out free i hp hhead
    have hci : (d1.file i).cleared := by
      rw [hacq (by rw [hp.1]; exact hlt)]
      exact hcl i hlt hni
    exact ⟨hci.1, hci.2.1, hci.2.2, (cleared_report _ hci).2.2⟩
  · intro fuel s Path pMode FinalPath acc b hs hres hmode hroom
    have hfl : 0 < free.length := by
      have h1 := Part_length _ out free hp
      have h2 := allocated_eq _ out free hp
      omega
    obtain ⟨i, rest, hfree⟩ : ∃ i rest, free = i :: rest := by
      cases free with
      | nil => exact absurd hfl (by simp)
      | cons a t => exact ⟨a, t, rfl⟩
    subst hfree
    have hlt : i < pool_size := hp.2.1.2.1
    have hni : i ∉ out := (hp.2.2.2.2.2.1 i hlt).1 (List.mem_cons_self _ _)
    have hci : (r.m_pDevice.file i).cleared := hcl i hlt hni
    have hca : (r.m_pDevice.acquired i).cleared := hci
    have hopen : memfile.ops.open_ (r.m_pDevice.acquired i) FinalPath acc =
        .ok (xerr.ok, r.m_pDevice.acquired i) := (cleared_report _ hca).2.2 FinalPath acc
    have hdev : ∃ r1 c, open_.onDevice (device.vtable memfile.ops) k r FinalPath acc b =
        .ok (xerr.ok, some i, r1, c) := by
      by_cases hsk : acc.m_bCreate = false ∧ b = true
      · have hseek : memfile.ops.Seek (r.m_pDevice.acquired i) seek_mode.SKM_END 0 =
            .ok (xerr.ok, (r.m_pDevice.acquired i).moveTo (r.m_pDevice.acquired i).m_EOF) :=
          Seek_end_zero _ (by rw [hca.2.2]) (by rw [hca.2.2]; decide)
        obtain ⟨d3, hd, _⟩ := onDevice_seeks memfile.ops ops_keepsLink k r out rest i FinalPath
          acc b _ _ hp hopen hsk hseek
        exact ⟨_, _, hd⟩
      · obtain ⟨d2, hd, _⟩ := onDevice_opens memfile.ops ops_keepsLink k r out rest i FinalPath
          acc b _ hp hopen hsk
        exact ⟨_, _, hd⟩
    obtain ⟨r1, c, hd⟩ := hdev
    obtain ⟨i2, hinst, _, _, _, hclr⟩ :=
      onDevice_ram k r out (i :: rest) FinalPath acc b _ _ r1 c hp hd
    have hii : i2 = i := (Option.some.inj hinst).symm
    subst hii
    have hc1 := hclr hci
    refine ⟨_, _, i2, r1, open_ok H (device.vtable memfile.ops) fuel P.w s Path pMode FinalPath k
      acc b r _ _ _ _ hs hres hmode hr hd, rfl, rfl, List.getElem?_set_self hklt, hc1,
      (cleared_report _ hc1).1, (cleared_report _ hc1).2.1⟩

set_option maxRecDepth 8000 in
/-- C22 on the registry of the source: the first stream opens `ram:/name doesnt matter`
in mode `"w"`, and in the state reached every instance `createInstance` of the RAM device
returns is cleared. -/
theorem C22_witness :
    ∃ s1 w1 h r1,
      stream.open_ host.sample (device.vtable memfile.ops) 0 { s_pHead := registry.sample } {}
        "ram:/name doesnt matter".toList ['w'] = .ok (xerr.ok, s1, w1) ∧
      s1.m_pInstance = some h ∧ w1.s_pHead[0]? = some r1 ∧
      memfile.Length (r1.m_pDevice.file h) = .ok (xerr.ok, 0, r1.m_pDevice.file h) ∧
      program.ReachRam host.sample { w := w1, streams := [s1] } ∧
      ∀ i d1, r1.m_pDevice.createInstance = .ok (i, d1) →
        (d1.file i).m_lBlock = [] ∧ (d1.file i).m_SeekPosition = 0 ∧ (d1.file i).m_EOF = 0 ∧
        ∀ (FileName : wstring) (acc : access_types),
          memfile.open_ (d1.file i) FileName acc = .ok (xerr.ok, d1.file i) := by
  have h0 : program.ReachRam host.sample
      { w := { s_pHead := registry.sample }, streams := [{}] } :=
    program.ReachRam.init _ sample_init rfl (by decide)
  obtain ⟨s1, w1, h, r1, hopen, hi, _, hr1, _, hlen, _⟩ :=
    (C22_ram_content_cleared_before_reuse host.sample _ h0 0
      (registry.sample.get ⟨0, by decide⟩) rfl).2 0 {} "ram:/name doesnt matter".toList ['w']
      "ram:/name doesnt matter".toList { m_bRead := true, m_bWrite := true, m_bCreate := true }
      false rfl (by decide) (by decide)
      ((allocated_eq device.mk0 _ _ Part_mk0).trans_lt (by decide))
  have h1 : program.ReachRam host.sample { w := w1, streams := [s1] } :=
    program.ReachRam.open_ { w := { s_pHead := registry.sample }, streams := [{}] } 0 0 {} s1
      "ram:/name doesnt matter".toList ['w'] xerr.ok w1 h0 rfl hopen
  exact ⟨s1, w1, h, r1, hopen, hi, hr1, hlen, h1,
    (C22_ram_content_cleared_before_reuse host.sample _ h1 0 r1 hr1).1⟩

/-! ## Alias extraction and its termination -/

theorem firstColon_none_iff (P : wstring) : firstColon P = none ↔ ':' ∉ P := by
  induction P with
  | nil => simp [firstColon]
  | cons c t ih =>
    by_cases hc : c = ':'
    · subst hc; simp [firstColon]
    · have hc2 : ¬ (':' = c) := fun e => hc e.symm
      simp [firstColon, hc, hc2, ih]

theorem mem_colon_split (P : wstring) (h : ':' ∈ P) :
    ∃ a rest, P = a ++ ':' :: rest ∧ ':' ∉ a := by
  induction P with
  | nil => exact absurd h (by simp)
  | cons c t ih =>
    by_cases hc : c = ':'
    · exact ⟨[], t, by simp [hc], by simp⟩
    · have ht : ':' ∈ t := by
        rcases List.mem_cons.1 h with e | e
        · exact absurd e.symm hc
        · exact e
      obtain ⟨a, rest, he, ha⟩ := ih ht
      refine ⟨c :: a, rest, by simp [he], ?_⟩
      intro hm
      rcases List.mem_cons.1 hm with e | e
      · exact hc e.symm
      · exact ha e

theorem take_alias (a rest : List Char) :
    (a ++ ':' :: rest).take (a.length + 1) = a ++ [':'] := by
  have : a ++ ':' :: rest = (a ++ [':']) ++ rest := by simp
  rw [this, List.take_left' (by simp)]

theorem fromPath_alias (H : host) (fuel : Nat) (a rest : List Char) (ha : ':' ∉ a) :
    fromPathGetDeviceName H (fuel + 1) (a ++ ':' :: rest) =
      .ok (returned_view.live (a ++ [':'])) := by
  have hne : (a ++ ':' :: rest).isEmpty = false := by cases a <;> rfl
  rw [fromPathGetDeviceName]
  simp only [hne, Bool.false_eq_true, if_false, firstColon_alias a rest ha, take_alias]

theorem fromPath_rec_ok (H : host) (fuel : Nat) (Path : wstring) (hne : Path ≠ [])
    (hno : ':' ∉ Path) (v : returned_view)
    (hv : fromPathGetDeviceName H fuel H.current_path = .ok v) :
    fromPathGetDeviceName H (fuel + 1) Path = .ok v.afterTemporary := by
  have he : Path.isEmpty = false := by cases Path with
    | nil => exact absurd rfl hne
    | cons c t => rfl
  rw [fromPathGetDeviceName]
  simp only [he, Bool.false_eq_true, if_false, (firstColon_none_iff Path).2 hno, hv]

theorem fromPath_rec_error (H : host) (fuel : Nat) (Path : wstring) (hne : Path ≠ [])
    (hno : ':' ∉ Path) (e : Stop)
    (hv : fromPathGetDeviceName H fuel H.current_path = .error e) :
    fromPathGetDeviceName H (fuel + 1) Path = .error e := by
  have he : Path.isEmpty = false := by cases Path with
    | nil => exact absurd rfl hne
    | cons c t => rfl
  rw [fromPathGetDeviceName]
  simp only [he, Bool.false_eq_true, if_false, (firstColon_none_iff Path).2 hno, hv]

theorem fromPath_loops (H : host) (hne : H.current_path ≠ []) (hno : ':' ∉ H.current_path) :
    ∀ (fuel : Nat) (Path : wstring), Path ≠ [] → ':' ∉ Path →
      fromPathGetDeviceName H fuel Path = .error Stop.fuel := by
  intro fuel
  induction fuel with
  | zero => intro Path _ _; rfl
  | succ k ih =>
    intro Path hp hc
    exact fromPath_rec_error H k Path hp hc _ (ih H.current_path hne hno)

/-- C31. Alias extraction: for every path that holds a `':'`, `fromPathGetDeviceName`
returns the characters of the path up to its first `':'`, that one included (the path is
`a ++ ':' :: rest` with no `':'` in `a`, the view is `a ++ ":"`, of length `|a| + 1`, with
exactly one `':'`), and for the empty path the empty view. For a non-empty path without
`':'` it does not return the alias of the working directory: it returns the view that the
call on the temporary `current_path()` returned, after that temporary is destroyed; when
the working directory is `a ++ ':' :: r` the view has the `|a| + 1` characters of the
destroyed string. So on a host whose temp directory holds no `':'`, resolving
`temp:/x.dat` reads destroyed characters in `to_lower`. -/
theorem C31_alias_view_of_destroyed_temporary (H : host) (fuel : Nat) :
    (∀ Path : wstring, ':' ∈ Path →
      ∃ a rest, Path = a ++ ':' :: rest ∧ ':' ∉ a ∧ firstColon Path = some a.length ∧
        fromPathGetDeviceName H (fuel + 1) Path = .ok (returned_view.live (a ++ [':'])) ∧
        a ++ [':'] = Path.take (a.length + 1) ∧ (a ++ [':']).length = a.length + 1 ∧
        (a ++ [':']).count ':' = 1) ∧
    fromPathGetDeviceName H (fuel + 1) [] = .ok (returned_view.live []) ∧
    (∀ (Path : wstring) (a r : List Char), Path ≠ [] → ':' ∉ Path →
      H.current_path = a ++ ':' :: r → ':' ∉ a →
      fromPathGetDeviceName H (fuel + 1) H.current_path = .ok (returned_view.live (a ++ [':'])) ∧
      fromPathGetDeviceName H (fuel + 2) Path = .ok (returned_view.dangling (a.length + 1))) ∧
    (∀ (Path : wstring) (v : returned_view), Path ≠ [] → ':' ∉ Path →
      fromPathGetDeviceName H fuel H.current_path = .ok v →
      fromPathGetDeviceName H (fuel + 1) Path = .ok v.afterTemporary) ∧
    fromPathGetDeviceName host.sample 2 "a.txt".toList = .ok (returned_view.dangling 2) ∧
    SetTheFinalPathAndFindDevice host.share 2 registry.sample "temp:/x.dat".toList =
      .error (Stop.undefined "to_lower reads a view of the destroyed temporary current_path()") := by
  refine ⟨?_, rfl, ?_, fun Path v hne hno hv => fromPath_rec_ok H fuel Path hne hno v hv,
    by decide, by decide⟩
  · intro Path hmem
    obtain ⟨a, rest, he, ha⟩ := mem_colon_split Path hmem
    subst he
    refine ⟨a, rest, rfl, ha, firstColon_alias a rest ha, fromPath_alias H fuel a rest ha,
      (take_alias a rest).symm, by simp, ?_⟩
    rw [List.count_append, List.count_eq_zero_of_not_mem ha]
    rfl
  · intro Path a r hne hno hcwd ha
    have hc : fromPathGetDeviceName H (fuel + 1) H.current_path =
        .ok (returned_view.live (a ++ [':'])) := by
      rw [hcwd]; exact fromPath_alias H fuel a r ha
    refine ⟨hc, ?_⟩
    have h := fromPath_rec_ok H (fuel + 1) Path hne hno _ hc
    have hl : (a ++ [':']).isEmpty = false := by cases a <;> rfl
    simpa [returned_view.afterTemporary, hl] using h

/-- C31 at the path `ram:/a:b`, whose first `':'` has index 3. -/
theorem C31_witness :
    ':' ∈ "ram:/a:b".toList ∧
    ∃ a rest, "ram:/a:b".toList = a ++ ':' :: rest ∧ ':' ∉ a ∧
      firstColon "ram:/a:b".toList = some a.length ∧
      fromPathGetDeviceName host.sample (0 + 1) "ram:/a:b".toList =
        .ok (returned_view.live (a ++ [':'])) ∧
      a ++ [':'] = "ram:/a:b".toList.take (a.length + 1) ∧ (a ++ [':']).length = a.length + 1 ∧
      (a ++ [':']).count ':' = 1 :=
  ⟨by decide, (C31_alias_view_of_destroyed_temporary host.sample 0).1 "ram:/a:b".toList
    (by decide)⟩

/-- C40. Termination of alias extraction, the working directory being a parameter: when
the working directory string holds a `':'`, `fromPathGetDeviceName` returns for every path
after at most one recursive call (two levels of calls are enough); when it holds none,
being not empty as every result of `std::filesystem::current_path()` is, for every
non-empty path without `':'` each call recurses on the working directory, the call on the
path is the call on the working directory, and no number of recursive calls reaches a base
case; `stream::open` on a path without `':'` does not return either. -/
theorem C40_alias_extraction_termination (H : host) :
    (':' ∈ H.current_path →
      ∀ Path : wstring, ∃ v, fromPathGetDeviceName H 2 Path = .ok v) ∧
    (H.current_path ≠ [] → ':' ∉ H.current_path →
      (∀ (Path : wstring) (fuel : Nat), Path ≠ [] → ':' ∉ Path →
        fromPathGetDeviceName H (fuel + 1) Path = fromPathGetDeviceName H fuel H.current_path ∧
        fromPathGetDeviceName H fuel Path = .error Stop.fuel) ∧
      ∀ (δ σ : Type) (V : device_vtable δ σ) (fuel : Nat) (w : world δ) (s : stream)
        (Path : wstring) (pMode : List Char), s.m_pInstance = none → ':' ∉ Path →
        stream.open_ H V fuel w s Path pMode = .error Stop.fuel) := by
  refine ⟨?_, ?_⟩
  · intro hcwd Path
    by_cases hp : Path = []
    · subst hp; exact ⟨_, rfl⟩
    · by_cases hc : ':' ∈ Path
      · obtain ⟨a, rest, he, ha⟩ := mem_colon_split Path hc
        subst he
        exact ⟨_, fromPath_alias H 1 a rest ha⟩
      · obtain ⟨a, rest, he, ha⟩ := mem_colon_split _ hcwd
        exact ⟨_, fromPath_rec_ok H 1 Path hp hc _ (by rw [he]; exact fromPath_alias H 0 a rest ha)⟩
  · intro hne hno
    refine ⟨fun Path fuel hp hc => ⟨?_, fromPath_loops H hne hno fuel Path hp hc⟩, ?_⟩
    · rw [fromPath_loops H hne hno (fuel + 1) Path hp hc,
        fromPath_loops H hne hno fuel H.current_path hne hno]
    intro δ σ V fuel w s Path pMode hs hc
    have hfp : ':' ∉ H.current_path ++ ['/', '/'] ++ Path := by
      simp only [List.mem_append, not_or]
      exact ⟨⟨hno, by decide⟩, hc⟩
    have hfne : H.current_path ++ ['/', '/'] ++ Path ≠ [] := by simp
    have hdn : SetTheFinalPath.deviceName H fuel (H.current_path ++ ['/', '/'] ++ Path) =
        .error Stop.fuel := by
      unfold SetTheFinalPath.deviceName
      rw [fromPath_loops H hne hno fuel _ hfne hfp]
    have hset : SetTheFinalPath H fuel Path = .error Stop.fuel := by
      unfold SetTheFinalPath
      simp only [(firstColon_none_iff Path).2 hc, List.isEmpty_nil, if_true, hdn]
    unfold stream.open_
    simp only [hs, ne_eq, not_true_eq_false, if_false]
    unfold SetTheFinalPathAndFindDevice
    rw [hset]

/-- C40 on a host with the POSIX working directory `/home/user`, for the path `a.txt`, and
on the host with the working directory `C:\work`. -/
theorem C40_witness :
    ':' ∈ host.sample.current_path ∧
    (∀ Path : wstring, ∃ v, fromPathGetDeviceName host.sample 2 Path = .ok v) ∧
    host.posix.current_path ≠ [] ∧ ':' ∉ host.posix.current_path ∧
    "a.txt".toList ≠ [] ∧ ':' ∉ "a.txt".toList ∧
    (fromPathGetDeviceName host.posix (7 + 1) "a.txt".toList =
        fromPathGetDeviceName host.posix 7 host.posix.current_path ∧
      fromPathGetDeviceName host.posix 7 "a.txt".toList = .error Stop.fuel) ∧
    stream.open_ host.posix (device.vtable memfile.ops) 7 { s_pHead := registry.sample } {}
      "a.txt".toList ['r'] = .error Stop.fuel :=
  ⟨by decide, (C40_alias_extraction_termination host.sample).1 (by decide),
    by decide, by decide, by decide, by decide,
    ((C40_alias_extraction_termination host.posix).2 (by decide) (by decide)).1
      "a.txt".toList 7 (by decide) (by decide),
    ((C40_alias_extraction_termination host.posix).2 (by decide) (by decide)).2
      device memfile (device.vtable memfile.ops) 7 { s_pHead := registry.sample } {}
      "a.txt".toList ['r'] rfl (by decide)⟩

/-! ## Resolution of rewritten paths -/

theorem to_lower_ne_nil (H : host) (a : List Char) : (to_lower H (a ++ [':'])).isEmpty = false := by
  cases a <;> rfl

theorem Synchronize_calls {ω : Type} (W : win32 ω) (f : small_file) (o : os ω) (bBlock : Bool) :
    ∃ sync, (small_file.Synchronize W f o bBlock).2.2.calls = o.calls ++ sync ∧ sync ≠ [] ∧
      (∀ c ∈ sync, c = win_call.HasOverlappedIoCompleted ∨ c = win_call.GetOverlappedResult bBlock ∨
        c = win_call.GetLastError ∨ c = win_call.FormatMessage) ∧
      (small_file.Synchronize W f o bBlock).2.1.m_Overlapped = f.m_Overlapped ∧
      (small_file.Synchronize W f o bBlock).2.1.m_Handle = f.m_Handle := by
  unfold small_file.Synchronize small_file.CollectErrorAsString
  dsimp only
  split_ifs with h1 h2 <;>
    first
    | exact absurd h1.1 h2
    | exact ⟨_, by simp only [List.append_assoc]; rfl, by simp, by simp, rfl, rfl⟩

theorem Seek_move_spec {ω : Type} (W : win32 ω) (f : small_file) (o : os ω) (Mode : seek_mode)
    (Pos : Nat) :
    ∃ tail, (small_file.Seek.move W f o Mode Pos).2.2.calls =
        o.calls ++ win_call.SetFilePointerEx (i64 Pos) (Seek.HardwareMode Mode) :: tail ∧
      (∀ c ∈ tail, c = win_call.GetLastError ∨ c = win_call.FormatMessage) ∧
      ((small_file.Seek.move W f o Mode Pos).1 ≠ xerr.ok →
        (W.SetFilePointerEx o.sys f.m_Handle (i64 Pos) (Seek.HardwareMode Mode)).1 = 0 ∧
        (small_file.Seek.move W f o Mode Pos).2.1.m_Overlapped = f.m_Overlapped) ∧
      ((small_file.Seek.move W f o Mode Pos).1 = xerr.ok →
        (W.SetFilePointerEx o.sys f.m_Handle (i64 Pos) (Seek.HardwareMode Mode)).1 ≠ 0 ∧
        tail = [] ∧
        (small_file.Seek.move W f o Mode Pos).2.1.m_Overlapped =
          { Offset :=
              (W.SetFilePointerEx o.sys f.m_Handle (i64 Pos) (Seek.HardwareMode Mode)).2.1 % 2 ^ 32,
            OffsetHigh :=
              (W.SetFilePointerEx o.sys f.m_Handle (i64 Pos) (Seek.HardwareMode Mode)).2.1 /
                2 ^ 32 % 2 ^ 32 }) := by
  by_cases h0 : (W.SetFilePointerEx o.sys f.m_Handle (i64 Pos) (Seek.HardwareMode Mode)).1 = 0
  · have hinv : ¬ (0 = INVALID_SET_FILE_POINTER) := by decide
    refine ⟨[win_call.GetLastError, win_call.FormatMessage], ?_, by simp, ?_, ?_⟩
    · simp [small_file.Seek.move, small_file.CollectErrorAsString, h0, hinv]
    · intro _
      refine ⟨h0, ?_⟩
      simp [small_file.Seek.move, small_file.CollectErrorAsString, h0, hinv]
    · intro h
      exfalso
      simp [small_file.Seek.move, small_file.CollectErrorAsString, h0, hinv] at h
  · refine ⟨[], ?_, by simp, ?_, ?_⟩
    · simp [small_file.Seek.move, h0]
    · intro h
      exfalso
      simp [small_file.Seek.move, h0] at h
    · intro _
      refine ⟨h0, rfl, ?_⟩
      simp [small_file.Seek.move, h0]

/-- C33. Seek never overtakes a transfer in flight: in the Windows backend, `Seek` on an
instance opened with the async flag first makes the calls of `Synchronize(true)`, none of
which moves the file pointer and whose wait, when there is one, is blocking; when that
synchronize returns an error, `Seek` returns the same error with the same instance, it
has made no call of `SetFilePointerEx` and the stored offset is as before; otherwise the
one call of `SetFilePointerEx` comes after the calls of the synchronize. On every
instance, the stored offset is changed only when `SetFilePointerEx` has succeeded, to the
new file pointer, and an error of `Seek` leaves it as it was. -/
theorem C33_seek_synchronizes_first {ω : Type} (W : win32 ω) (f : small_file) (o : os ω)
    (Mode : seek_mode) (Pos : Nat) :
    (f.m_AccessTypes.m_bASync = true →
      ∃ sync, (small_file.Synchronize W f o true).2.2.calls = o.calls ++ sync ∧ sync ≠ [] ∧
        (∀ c ∈ sync, c = win_call.HasOverlappedIoCompleted ∨ c = win_call.GetOverlappedResult true ∨
          c = win_call.GetLastError ∨ c = win_call.FormatMessage) ∧
        ((small_file.Synchronize W f o true).1 ≠ xerr.ok →
          small_file.Seek W f o Mode Pos = small_file.Synchronize W f o true ∧
          (small_file.Seek W f o Mode Pos).2.2.calls = o.calls ++ sync ∧
          (∀ p m, win_call.SetFilePointerEx p m ∉ sync) ∧
          (small_file.Seek W f o Mode Pos).2.1.m_Overlapped = f.m_Overlapped) ∧
        ((small_file.Synchronize W f o true).1 = xerr.ok →
          ∃ tail, (small_file.Seek W f o Mode Pos).2.2.calls =
              o.calls ++ sync ++
                win_call.SetFilePointerEx (i64 Pos) (Seek.HardwareMode Mode) :: tail ∧
            ∀ c ∈ tail, c = win_call.GetLastError ∨ c = win_call.FormatMessage)) ∧
    ((small_file.Seek W f o Mode Pos).1 ≠ xerr.ok →
      (small_file.Seek W f o Mode Pos).2.1.m_Overlapped = f.m_Overlapped) ∧
    ((small_file.Seek W f o Mode Pos).1 = xerr.ok →
      ∃ before, (small_file.Seek W f o Mode Pos).2.2.calls =
          before ++ [win_call.SetFilePointerEx (i64 Pos) (Seek.HardwareMode Mode)] ∧
        ∃ sys, (W.SetFilePointerEx sys f.m_Handle (i64 Pos) (Seek.HardwareMode Mode)).1 ≠ 0 ∧
          (small_file.Seek W f o Mode Pos).2.1.m_Overlapped =
            { Offset :=
                (W.SetFilePointerEx sys f.m_Handle (i64 Pos) (Seek.HardwareMode Mode)).2.1 % 2 ^ 32,
              OffsetHigh :=
                (W.SetFilePointerEx sys f.m_Handle (i64 Pos) (Seek.HardwareMode Mode)).2.1 /
                  2 ^ 32 % 2 ^ 32 }) := by
  obtain ⟨sync, hs1, hs2, hs3, hs4, hs5⟩ := Synchronize_calls W f o true
  refine ⟨?_, ?_, ?_⟩
  · intro ha
    refine ⟨sync, hs1, hs2, hs3, ?_, ?_⟩
    · intro he
      have hseek : small_file.Seek W f o Mode Pos = small_file.Synchronize W f o true := by
        unfold small_file.Seek
        rw [if_pos ha, if_pos he]
      refine ⟨hseek, by rw [hseek, hs1], ?_, by rw [hseek, hs4]⟩
      intro p m hmem
      rcases hs3 _ hmem with h | h | h | h <;> cases h
    · intro he
      have hseek : small_file.Seek W f o Mode Pos =
          small_file.Seek.move W (small_file.Synchronize W f o true).2.1
            (small_file.Synchronize W f o true).2.2 Mode Pos := by
        unfold small_file.Seek
        rw [if_pos ha, if_neg (by rw [he]; simp)]
      obtain ⟨tail, ht1, ht2, _, _⟩ := Seek_move_spec W (small_file.Synchronize W f o true).2.1
        (small_file.Synchronize W f o true).2.2 Mode Pos
      exact ⟨tail, by rw [hseek, ht1, hs1], ht2⟩
  · intro he
    unfold small_file.Seek at he ⊢
    by_cases ha : f.m_AccessTypes.m_bASync = true
    · rw [if_pos ha] at he ⊢
      by_cases hsy : (small_file.Synchronize W f o true).1 ≠ xerr.ok
      · rw [if_pos hsy]; exact hs4
      · rw [if_neg hsy] at he ⊢
        obtain ⟨_, _, _, ht3, _⟩ := Seek_move_spec W (small_file.Synchronize W f o true).2.1
          (small_file.Synchronize W f o true).2.2 Mode Pos
        rw [(ht3 he).2, hs4]
    · rw [if_neg ha] at he ⊢
      obtain ⟨_, _, _, ht3, _⟩ := Seek_move_spec W f o Mode Pos
      exact (ht3 he).2
  · intro he
    unfold small_file.Seek at he ⊢
    by_cases ha : f.m_AccessTypes.m_bASync = true
    · rw [if_pos ha] at he ⊢
      by_cases hsy : (small_file.Synchronize W f o true).1 ≠ xerr.ok
      · rw [if_pos hsy] at he; exact absurd he hsy
      · rw [if_neg hsy] at he ⊢
        obtain ⟨tail, ht1, _, _, ht4⟩ := Seek_move_spec W (small_file.Synchronize W f o true).2.1
          (small_file.Synchronize W f o true).2.2 Mode Pos
        obtain ⟨hne, htl, hov⟩ := ht4 he
        subst htl
        rw [hs5] at hne hov
        exact ⟨_, ht1, _, hne, hov⟩
    · rw [if_neg ha] at he ⊢
      obtain ⟨tail, ht1, _, _, ht4⟩ := Seek_move_spec W f o Mode Pos
      obtain ⟨hne, htl, hov⟩ := ht4 he
      subst htl
      exact ⟨_, ht1, _, hne, hov⟩

/-- C33 on an instance opened with the async flag whose transfer in flight was cancelled:
`Synchronize(true)` returns the failure `Operation Aborted`, and so does `Seek`, without a
call of `SetFilePointerEx` and with the stored offset 7 as before. -/
theorem C33_witness :
    ({ m_AccessTypes := { m_bASync := true }, m_Overlapped := { Offset := 7 } } :
      small_file).m_AccessTypes.m_bASync = true ∧
    (small_file.Synchronize win32.sample
      { m_AccessTypes := { m_bASync := true }, m_Overlapped := { Offset := 7 } }
      { sys := true } true).1 = xerr.create state.FAILURE "Operation Aborted" ∧
    (small_file.Seek win32.sample
      { m_AccessTypes := { m_bASync := true }, m_Overlapped := { Offset := 7 } }
      { sys := true } seek_mode.SKM_ORIGIN 100).1 = xerr.create state.FAILURE "Operation Aborted" ∧
    (small_file.Seek win32.sample
      { m_AccessTypes := { m_bASync := true }, m_Overlapped := { Offset := 7 } }
      { sys := true } seek_mode.SKM_ORIGIN 100).2.1.m_Overlapped = { Offset := 7 } ∧
    (small_file.Seek win32.sample
      { m_AccessTypes := { m_bASync := true }, m_Overlapped := { Offset := 7 } }
      { sys := true } seek_mode.SKM_ORIGIN 100).2.2.calls =
        [win_call.GetOverlappedResult true, win_call.GetLastError, win_call.GetLastError,
          win_call.FormatMessage] :=
  ⟨rfl, by decide,
    by
      have h := (C33_seek_synchronizes_first win32.sample
        { m_AccessTypes := { m_bASync := true }, m_Overlapped := { Offset := 7 } }
        { sys := true } seek_mode.SKM_ORIGIN 100).1 rfl
      obtain ⟨sync, _, _, _, herr, _⟩ := h
      rw [(herr (by decide)).1]
      decide,
    (C33_seek_synchronizes_first win32.sample
      { m_AccessTypes := { m_bASync := true }, m_Overlapped := { Offset := 7 } }
      { sys := true } seek_mode.SKM_ORIGIN 100).2.1 (by decide),
    by decide⟩

/-! ## The end of file of the RAM backend and the memory after the buffer -/

theorem peek_set_last (View : List Byte) (past : Nat → Byte) (d s : Nat)
    (hd : d ≤ s) (hs : s + 1 = View.length) (hl : View.getD s 0 = 13) :
    peek (View.set d (peek View past s)) past s = 13 := by
  have hs2 : s < View.length := by omega
  have hp : peek View past s = 13 := by simp only [peek, hs2, if_true, hl]
  rw [hp]
  unfold peek
  rw [List.length_set, if_pos hs2]
  by_cases hds : d = s
  · subst hds
    simp [List.getD_eq_getElem?_getD, List.getElem?_set_self hs2]
  · simp only [List.getD_eq_getElem?_getD, List.getElem?_set_ne hds]
    simpa [List.getD_eq_getElem?_getD] using hl

theorem narrowLoop_last (past1 past2 : Nat → Byte) (h1 : past1 0 = 10) (h2 : past2 0 ≠ 10) :
    ∀ (k : Nat) (View : List Byte) (s d : Nat), d ≤ s → s + k + 1 = View.length →
      View.getD (View.length - 1) 0 = 13 →
      (ReadRaw.narrowLoop past1 (k + 1) View s d).2.2 + 1 =
        (ReadRaw.narrowLoop past2 (k + 1) View s d).2.2 := by
  intro k
  induction k with
  | zero =>
    intro View s d hd hs hl
    have hs1 : s + 1 = View.length := by omega
    have hl2 : View.getD s 0 = 13 := by
      have : View.length - 1 = s := by omega
      rw [this] at hl; exact hl
    have hpk1 : peek (View.set d (peek View past1 s)) past1 (s + 1) = 10 := by
      unfold peek
      rw [List.length_set, if_neg (by omega)]
      have : s + 1 - View.length = 0 := by omega
      rw [this, h1]
    have hpk2 : peek (View.set d (peek View past2 s)) past2 (s + 1) ≠ 10 := by
      unfold peek
      rw [List.length_set, if_neg (by omega)]
      have : s + 1 - View.length = 0 := by omega
      rw [this]; exact h2
    have hc1 := peek_set_last View past1 d s hd hs1 hl2
    rw [ReadRaw.narrowLoop, ReadRaw.narrowLoop]
    simp only [hpk1, hc1, and_self, not_true_eq_false, if_false, hpk2, false_and, not_false_eq_true,
      if_true, ReadRaw.narrowLoop]
  | succ k ih =>
    intro View s d hd hs hl
    have hs2 : s < View.length := by omega
    have hs3 : s + 1 < View.length := by omega
    have hpe : peek View past1 s = peek View past2 s := by simp [peek, hs2]
    have hv : View.set d (peek View past1 s) = View.set d (peek View past2 s) := by rw [hpe]
    have hq : ∀ j, j < View.length →
        peek (View.set d (peek View past2 s)) past1 j =
          peek (View.set d (peek View past2 s)) past2 j := by
      intro j hj
      simp [peek, hj]
    have hlast : (View.set d (peek View past2 s)).getD
        ((View.set d (peek View past2 s)).length - 1) 0 = 13 := by
      rw [List.length_set]
      have hne : d ≠ View.length - 1 := by omega
      simp only [List.getD_eq_getElem?_getD, List.getElem?_set_ne hne]
      simpa [List.getD_eq_getElem?_getD] using hl
    rw [ReadRaw.narrowLoop]
    conv_rhs => rw [ReadRaw.narrowLoop]
    simp only [hv, hq (s + 1) hs3, hq s hs2]
    split
    · exact ih _ (s + 1) (d + 1) (by omega) (by rw [List.length_set]; omega) hlast
    · exact ih _ (s + 1) d (by omega) (by rw [List.length_set]; omega) hlast

set_option maxRecDepth 8000 in
/-- C35. The compaction loops of `ReadRaw` read the unit after the view: for every buffer
that ends in CR, the narrow loop ends with `pCharDst` one lower when the byte after the
buffer is LF than when it is zero; the wide loop on the 3 bytes CR, 0, LF takes the byte
after the buffer as the high byte of a wide character. So the results of `ReadRaw` depend
on the memory after the buffer: on the RAM file X, CR, Y a narrow-text read of 2 bytes
gives X, Y when that byte is LF and X, CR when it is zero, and on the wide-text file
CR, LF, B, C a read of 3 bytes fails when that byte is zero and succeeds when it is
one. -/
theorem C35_compaction_reads_past_buffer (v : List Byte) :
    (ReadRaw.narrowLoop (fun _ => 10) (v ++ [13]).length (v ++ [13]) 0 0).2.2 + 1 =
      (ReadRaw.narrowLoop (fun _ => 0) (v ++ [13]).length (v ++ [13]) 0 0).2.2 ∧
    ReadRaw.wideLoop (fun _ => 0) 1 [13, 0, 10] 0 0 = ([13, 0, 10], 1, 0) ∧
    ReadRaw.wideLoop (fun _ => 1) 1 [13, 0, 10] 0 0 = ([13, 0, 10], 1, 1) ∧
    ram_write_seek_read { m_Text := 1 } {} [88, 13, 89] 2 (fun _ => 10) = .ok (xerr.ok, [88, 89]) ∧
    ram_write_seek_read { m_Text := 1 } {} [88, 13, 89] 2 (fun _ => 0) = .ok (xerr.ok, [88, 13]) ∧
    ram_write_seek_read { m_Text := 2 } {} [10, 0, 66, 0, 67, 0] 3 (fun _ => 0) =
      .ok (xerr.create state.FAILURE ReadRaw.msgNotMultipleOf2, [0, 66, 10]) ∧
    ram_write_seek_read { m_Text := 2 } {} [10, 0, 66, 0, 67, 0] 3 (fun _ => 1) =
      .ok (xerr.ok, [13, 0, 10]) := by
  refine ⟨?_, by decide, by decide, by decide, by decide, by decide, by decide⟩
  have h := narrowLoop_last (fun _ => 10) (fun _ => 0) rfl (by decide) v.length (v ++ [13]) 0 0
    (Nat.le_refl 0) (by simp) (by simp [List.getD_eq_getElem?_getD])
  simpa using h

set_option maxRecDepth 8000 in
/-- C36. The RAM `isEOF` does not agree with `Read`: on every RAM file whose cursor is at
EOF, `isEOF` returns false while a `Read` of one byte returns UNEXPECTED_EOF; so it is on
the empty file, and after the whole file CR, B, A, CR, LF has been read with one `Read` of
5 bytes. `isEOF` is the test `m_SeekPosition > m_EOF`. -/
theorem C36_isEOF_false_at_end_of_file (m_lBlock : List block) (L : Int) (m_iNext : Int)
    (x : Byte) :
    memfile.isEOF
        { m_lBlock := m_lBlock, m_SeekPosition := L, m_EOF := L, m_iNext := m_iNext } =
      .ok (false,
        { m_lBlock := m_lBlock, m_SeekPosition := L, m_EOF := L, m_iNext := m_iNext }) ∧
    memfile.Read
        { m_lBlock := m_lBlock, m_SeekPosition := L, m_EOF := L, m_iNext := m_iNext } [x] =
      .ok (xerr.create state.UNEXPECTED_EOF "Unexpected End of File", [x],
        { m_lBlock := m_lBlock, m_SeekPosition := L, m_EOF := L, m_iNext := m_iNext }) ∧
    memfile.isEOF {} = .ok (false, {}) ∧
    memfile.Read {} [x] =
      .ok (xerr.create state.UNEXPECTED_EOF "Unexpected End of File", [x], {}) ∧
    ram_read_all_isEOF =
      .ok (xerr.ok, 5, 5, false, xerr.create state.UNEXPECTED_EOF "Unexpected End of File") ∧
    ∀ f : memfile, memfile.isEOF f = .ok (decide (f.m_SeekPosition > f.m_EOF), f) := by
  refine ⟨?_, ?_, ?_, ?_, by decide, fun _ => rfl⟩
  · simp [memfile.isEOF]
  · simp [memfile.Read]
  · simp [memfile.isEOF]
  · simp [memfile.Read]

/-! ## ToMemory and ToFile -/

theorem ReadRaw_binary {σ : Type} (I : device_instance σ) (acc : access_types)
    (hb : acc.m_Text = 0) (fuel : Nat) (past : Nat → Byte) (s s1 : σ) (View V1 : List Byte)
    (hv : View ≠ []) (hr : I.Read s View = .ok (xerr.ok, V1, s1)) :
    stream.ReadRaw I acc (fuel + 1) past s View = .ok (xerr.ok, V1, s1) := by
  have hne : View.isEmpty = false := by cases View with
    | nil => exact absurd rfl hv
    | cons a t => rfl
  rw [stream.ReadRaw]
  simp only [hne, Bool.false_eq_true, if_false, hr, ne_eq, not_true_eq_false, hb]

theorem ToMemory_ram_head (f : memfile) (hwf : f.WF) :
    memfile.ops.Seek f seek_mode.SKM_ORIGIN 0 = .ok (xerr.ok, f.moveTo 0) ∧
    memfile.ops.Length (f.moveTo 0) = .ok (xerr.ok, f.m_EOF.toNat, f.moveTo 0) := by
  have h0 : 0 ≤ f.m_EOF := le_trans hwf.1 hwf.2.1
  have h1 : f.m_EOF < 2 ^ 64 := lt_trans hwf.2.2.1 (by norm_num)
  refine ⟨Seek_origin_zero f hwf, ?_⟩
  show memfile.Length (f.moveTo 0) = _
  unfold memfile.Length
  rw [moveTo_EOF, u64_of_nonneg f.m_EOF h0 h1]

/-- C37. The buffer check of `ToMemory` is the wrong way round: on every binary-mode RAM
stream of length `L` and every view of `S` bytes, when `S > L`, so that the view has room
for the file, `ToMemory` returns the failure `Buffer is too small` and reads nothing;
when `S < L` it reads the `L` bytes of the file through the view, `L - S` of them into the
memory after it, and returns success; only for `S = L` does it read the file into the
view (when the file is not empty). In every case it first seeks to offset 0. -/
theorem C37_ToMemory_check_is_inverted (m_AccessType : access_types)
    (hb : m_AccessType.m_Text = 0) (fuel : Nat) (past : Nat → Byte) (f : memfile) (hwf : f.WF)
    (View : List Byte) :
    (f.m_EOF.toNat < View.length →
      stream.ToMemory memfile.ops m_AccessType (fuel + 1) past f View =
        .ok (xerr.create state.FAILURE "Buffer is too small", View, f.moveTo 0)) ∧
    (View.length ≤ f.m_EOF.toNat → 0 < f.m_EOF.toNat →
      ∃ V1, stream.ToMemory memfile.ops m_AccessType (fuel + 1) past f View =
          .ok (xerr.ok, V1, f.moveTo f.m_EOF) ∧
        V1.length = f.m_EOF.toNat ∧ ∀ j, j < f.m_EOF.toNat → V1.getD j 0 = f.byteAt j) := by
  obtain ⟨hseek, hlen⟩ := ToMemory_ram_head f hwf
  have h0 : 0 ≤ f.m_EOF := le_trans hwf.1 hwf.2.1
  refine ⟨?_, ?_⟩
  · intro hlt
    unfold stream.ToMemory
    simp only [hseek, hlen, ne_eq, not_true_eq_false, if_false, hlt, if_true]
  · intro hle hpos
    have hwf0 : (f.moveTo 0).WF := moveTo_WF f hwf 0 (le_refl 0) h0
    have hvl : (View ++ (List.range (f.m_EOF.toNat - View.length)).map past).length =
        f.m_EOF.toNat := by
      simp only [List.length_append, List.length_map, List.length_range]; omega
    have hvne : View ++ (List.range (f.m_EOF.toNat - View.length)).map past ≠ [] := by
      intro h
      rw [h] at hvl
      simp at hvl
      omega
    obtain ⟨V1, hr, hl1, hb1⟩ := Read_many (f.moveTo 0) hwf0 0 rfl _ hvne
      (by rw [hvl, moveTo_EOF]; simp only [Nat.zero_add]; rw [Int.toNat_of_nonneg h0])
    rw [hvl, moveTo_moveTo] at hr
    simp only [Nat.zero_add] at hr hb1
    rw [Int.toNat_of_nonneg h0] at hr
    refine ⟨V1, ?_, by rw [hl1, hvl], ?_⟩
    · unfold stream.ToMemory
      simp only [hseek, hlen, ne_eq, not_true_eq_false, if_false, not_lt.2 hle]
      exact ReadRaw_binary memfile.ops m_AccessType hb fuel _ _ _ _ _ hvne hr
    · intro j hj
      rw [hb1 j (by rw [hvl]; exact hj)]
      rfl

set_option maxRecDepth 8000 in
/-- C37 on the RAM file CR, B, A, CR, LF of length 5: a view of 8 bytes is refused as too
small, and a view of 3 bytes has 5 bytes read through it. -/
theorem C37_witness :
    ({} : access_types).m_Text = 0 ∧ memfile.sampleCR.WF ∧
    stream.ToMemory memfile.ops {} (0 + 1) (fun _ => 7) memfile.sampleCR (List.replicate 8 9) =
      .ok (xerr.create state.FAILURE "Buffer is too small", List.replicate 8 9,
        memfile.sampleCR.moveTo 0) ∧
    ram_ToMemory 8 = .ok (xerr.create state.FAILURE "Buffer is too small",
      [9, 9, 9, 9, 9, 9, 9, 9], 0) ∧
    ram_ToMemory 5 = .ok (xerr.ok, [13, 66, 65, 13, 10], 5) ∧
    ram_ToMemory 3 = .ok (xerr.ok, [13, 66, 65, 13, 10], 5) :=
  ⟨rfl, WF_sampleCR,
    (C37_ToMemory_check_is_inverted {} rfl 0 (fun _ => 7) memfile.sampleCR WF_sampleCR
      (List.replicate 8 9)).1 (by decide),
    by decide, by decide, by decide⟩

theorem ToFile_short {σ τ : Type} (I : device_instance σ) (J : device_instance τ)
    (acc accF : access_types) (fuel : Nat) (past : Nat → Byte) (Buffer : List Byte) (s s1 s2 : σ)
    (t : τ) (Length : Nat) (hs : I.Seek s seek_mode.SKM_ORIGIN 0 = .ok (xerr.ok, s1))
    (hl : I.Length s1 = .ok (xerr.ok, Length, s2)) (hle : Length ≤ Buffer.length) :
    stream.ToFile I J acc accF fuel past Buffer s t =
      .error (Stop.undefined "i is read before it has a value") := by
  unfold stream.ToFile
  simp only [hs, hl, ne_eq, not_true_eq_false, if_false, gt_iff_lt, not_lt.2 hle]

theorem ToFile_Buffer_length : ToFile.Buffer.length = 512 := List.length_replicate _ _

/-! ## Alignment and AlignPutC -/

theorem and_mask (x k : Nat) (hx : x < 2 ^ 64) (hk : k ≤ 64) :
    x &&& (2 ^ 64 - 2 ^ k) = x / 2 ^ k * 2 ^ k := by
  have hp : 2 ^ 64 = 2 ^ k * 2 ^ (64 - k) := by
    rw [← Nat.pow_add]; congr 1; omega
  have hm : 2 ^ 64 - 2 ^ k = 2 ^ k * (2 ^ (64 - k) - 1) := by
    rw [Nat.mul_sub, Nat.mul_one, ← hp]
  have hq : x / 2 ^ k < 2 ^ (64 - k) := by
    apply Nat.div_lt_of_lt_mul
    rw [← hp]; exact hx
  have hr : x % 2 ^ k < 2 ^ k := Nat.mod_lt _ (Nat.two_pow_pos k)
  apply Nat.eq_of_testBit_eq
  intro j
  rw [Nat.testBit_and, hm, Nat.testBit_mul_pow_two, Nat.mul_comm (x / 2 ^ k),
    Nat.testBit_mul_pow_two, Nat.testBit_two_pow_sub_one]
  have hx2 : x.testBit j = if j < k then (x % 2 ^ k).testBit j else (x / 2 ^ k).testBit (j - k) := by
    have := Nat.testBit_mul_pow_two_add (x / 2 ^ k) hr j
    rw [Nat.div_add_mod] at this
    exact this
  rw [hx2]
  by_cases hj : j < k
  · simp [hj, Nat.not_le_of_lt hj]
  · have hjk : k ≤ j := Nat.le_of_not_lt hj
    simp only [hj, if_false, ge_iff_le, hjk, decide_True, Bool.true_and]
    by_cases hj2 : j - k < 64 - k
    · simp [hj2]
    · have : (x / 2 ^ k).testBit (j - k) = false := by
        apply Nat.testBit_lt_two_pow
        exact lt_of_lt_of_le hq (Nat.pow_le_pow_right (by norm_num) (Nat.le_of_not_lt hj2))
      simp [this]

theorem u64_neg (n : Nat) (h0 : 0 < n) (h1 : n ≤ 2 ^ 64) : u64 (-(n : Int)) = 2 ^ 64 - n := by
  unfold u64
  have : (-(n : Int)) % (2 ^ 64 : Int) = ((2 ^ 64 - n : Nat) : Int) := by omega
  rw [this]; simp

theorem Align_pow (a k : Nat) (hk : k < 64) (ha : a + 2 ^ k - 1 < 2 ^ 64) :
    details.Align a ((2 ^ k : Nat) : Int) = (a + 2 ^ k - 1) / 2 ^ k * 2 ^ k := by
  have hpos : 0 < 2 ^ k := Nat.two_pow_pos k
  have hlt : 2 ^ k < 2 ^ 64 := Nat.pow_lt_pow_right (by norm_num) hk
  unfold details.Align
  rw [u64_natCast _ hlt, u64_neg _ hpos (Nat.le_of_lt hlt)]
  have h1 : (2 ^ k + 2 ^ 64 - 1) % 2 ^ 64 = 2 ^ k - 1 := by
    have : 2 ^ k + 2 ^ 64 - 1 = (2 ^ k - 1) + 2 ^ 64 := by omega
    rw [this, Nat.add_mod_right]; exact Nat.mod_eq_of_lt (by omega)
  have h2 : a + (2 ^ k - 1) = a + 2 ^ k - 1 := by omega
  rw [h1, h2, Nat.mod_eq_of_lt ha]
  exact and_mask _ k ha (Nat.le_of_lt hk)

theorem round_up (a A : Nat) (hA : 0 < A) :
    A ∣ (a + A - 1) / A * A ∧ a ≤ (a + A - 1) / A * A ∧ (a + A - 1) / A * A < a + A ∧
    (∀ m, A ∣ m → a ≤ m → (a + A - 1) / A * A ≤ m) ∧
    ((a + A - 1) / A * A + A - 1) / A * A = (a + A - 1) / A * A := by
  have hdm := Nat.div_add_mod (a + A - 1) A
  have hr := Nat.mod_lt (a + A - 1) hA
  have hc : (a + A - 1) / A * A = A * ((a + A - 1) / A) := Nat.mul_comm _ _
  refine ⟨Dvd.intro_left _ rfl, by omega, by omega, ?_, ?_⟩
  · rintro m ⟨c, rfl⟩ hle
    rw [hc]
    apply Nat.mul_le_mul_left
    have h1 : (a + A - 1) / A ≤ (A * c + A - 1) / A := Nat.div_le_div_right (by omega)
    have h2 : (A * c + A - 1) / A = c := by
      have : A * c + A - 1 = A - 1 + A * c := by omega
      rw [this, Nat.add_mul_div_left _ _ hA, Nat.div_eq_of_lt (by omega)]; simp
    omega
  · have h2 : ((a + A - 1) / A * A + A - 1) / A = (a + A - 1) / A := by
      have : (a + A - 1) / A * A + A - 1 = A - 1 + A * ((a + A - 1) / A) := by
        rw [hc]; omega
      rw [this, Nat.add_mul_div_left _ _ hA, Nat.div_eq_of_lt (by omega)]; simp
    rw [h2]

theorem Flush_ram (c : Bool) (f : memfile) :
    (if c = true then memfile.ops.Flush f else f) = f := by
  split <;> rfl

theorem putC_loop_ram (acc : access_types) (hb : acc.m_Text = 0) (C : Byte) :
    ∀ (N : Nat) (f : memfile) (p e : Nat), f.WF → f.m_SeekPosition = (p : Int) →
      f.m_EOF = (e : Int) → e + N < 2 ^ 62 →
      ∃ f1, putC.loop memfile.ops acc C N f = .ok (xerr.ok, f1) ∧ f1.WF ∧
        f1.m_SeekPosition = ((p + N : Nat) : Int) ∧ f1.m_EOF = ((max e (p + N) : Nat) : Int) ∧
        ∀ q, f1.byteAt q = if p ≤ q ∧ q < p + N then C else f.byteAt q := by
  intro N
  induction N with
  | zero =>
    intro f p e hwf hp he _
    have hpe : p ≤ e := by have := hwf.2.1; omega
    refine ⟨f, rfl, hwf, by simpa using hp, by rw [he, Nat.add_zero, Nat.max_eq_left hpe], ?_⟩
    intro q
    rw [if_neg (by omega)]
  | succ n ih =>
    intro f p e hwf hp he hsz
    obtain ⟨f1, hw, hwf1, hp1, he1, hi1, hb1⟩ := Write_post f [C] hwf.1 hwf.2.1 hwf.2.2.2.1 p e hp he
      (by simp only [List.length_singleton]; omega)
    simp only [List.length_singleton] at hp1 he1 hb1
    have hwr := WriteRaw_binary memfile.ops acc hb f f1 [C] (by simp) hw
    rw [Flush_ram] at hwr
    obtain ⟨f2, hl, hwf2, hp2, he2, hb2⟩ := ih f1 (p + 1) (max e (p + 1)) hwf1 hp1 he1
      (by have : max e (p + 1) ≤ e + 1 := by
            have hpe : p ≤ e := by have := hwf.2.1; omega
            omega
          omega)
    refine ⟨f2, ?_, hwf2, by rw [hp2]; congr 1; omega, by rw [he2]; congr 1; omega, ?_⟩
    · rw [putC.loop, hwr]
      simp only [ne_eq, not_true_eq_false, if_false]
      exact hl
    · intro q
      rw [hb2 q, hb1 q]
      by_cases h1 : p + 1 ≤ q ∧ q < p + 1 + n
      · rw [if_pos h1, if_pos (by omega)]
      · rw [if_neg h1]
        by_cases h2 : p ≤ q ∧ q < p + 1
        · rw [if_pos h2, if_pos (by omega)]
          have : q - p = 0 := by omega
          rw [this]; rfl
        · rw [if_neg h2, if_neg (by omega)]

theorem i32_small (n : Nat) (h : n < 2 ^ 31) : i32 n = (n : Int) := by
  unfold i32
  have : n % 2 ^ 32 = n := Nat.mod_eq_of_lt (by omega)
  rw [this, if_pos h]

theorem AlignPutC_ram (acc : access_types) (hb : acc.m_Text = 0) (f : memfile) (hwf : f.WF)
    (p e c C k : Nat) (hp : f.m_SeekPosition = (p : Int)) (he : f.m_EOF = (e : Int))
    (hC : C ≤ 255) (M : Nat)
    (hM : details.Align (p + c) ((2 ^ k : Nat) : Int) = M) (hpM : p + c ≤ M)
    (hfit : M - p < 2 ^ 31) (hsz : e + (M - p) < 2 ^ 62) :
    ∃ f1, stream.AlignPutC memfile.ops acc f (C : Int) (c : Int) ((2 ^ k : Nat) : Int) true =
        .ok (xerr.ok, f1) ∧
      f1.m_SeekPosition = (M : Int) ∧ f1.m_EOF = ((max e M : Nat) : Int) ∧
      ∀ q, f1.byteAt q = if p ≤ q ∧ q < M then C else f.byteAt q := by
  have hpe : p ≤ e := by have := hwf.2.1; omega
  have he62 : e < 2 ^ 62 := by have := hwf.2.2.1; omega
  have htell : memfile.ops.Tell f = .ok (xerr.ok, p, f) := by
    show memfile.Tell f = _
    unfold memfile.Tell
    rw [hp, u64_natCast p (by omega)]
  have hc31 : c < 2 ^ 31 := by omega
  have hcount : (u64 (c : Int) + p) % 2 ^ 64 = p + c := by
    rw [u64_natCast c (by omega), Nat.mod_eq_of_lt (by omega)]; omega
  have hput : (M + 2 ^ 64 - p) % 2 ^ 64 = M - p := by
    have : M + 2 ^ 64 - p = (M - p) + 2 ^ 64 := by omega
    rw [this, Nat.add_mod_right]; exact Nat.mod_eq_of_lt (by omega)
  have hCi : ((C : Int) ≥ 0 ∧ (C : Int) ≤ 255) := by omega
  obtain ⟨f1, hl, _, hp1, he1, hb1⟩ := putC_loop_ram acc hb C (M - p) f p e hwf hp he hsz
  have hpm : p + (M - p) = M := by omega
  rw [hpm] at hp1 he1 hb1
  refine ⟨f1, ?_, hp1, he1, hb1⟩
  unfold stream.AlignPutC
  simp only [hCi, and_self, not_true_eq_false, if_false, htell, ne_eq, hcount, hM, hput,
    i32_small _ hfit]
  unfold stream.putC
  simp only [hCi, and_self, not_true_eq_false, if_false, Int.toNat_ofNat, Bool.true_eq_false]
  by_cases h0 : M - p = 0
  · have hz : ((M - p : Nat) : Int) = 0 := by rw [h0]; rfl
    rw [if_pos hz]
    rw [h0] at hl
    exact hl
  · have hz : ¬ ((M - p : Nat) : Int) = 0 := by omega
    rw [if_neg hz]
    exact hl

theorem AlignPutC_ram_beyond_int (acc : access_types) (f : memfile) (hwf : f.WF)
    (p c C k : Nat) (hk : k ≤ 30) (hp : f.m_SeekPosition = (p : Int))
    (hC : C ≤ 255) (hc : c < 2 ^ 31)
    (hbig : 2 ^ 31 ≤ details.Align (p + c) ((2 ^ k : Nat) : Int) - p) :
    stream.AlignPutC memfile.ops acc f (C : Int) (c : Int) ((2 ^ k : Nat) : Int) true =
      .ok (xerr.ok, f) := by
  have hp62 : p < 2 ^ 62 := by have := hwf.2.1; have := hwf.2.2.1; omega
  have hpos : 0 < 2 ^ k := Nat.two_pow_pos k
  have hk30 : 2 ^ k ≤ 2 ^ 30 := Nat.pow_le_pow_right (by norm_num) hk
  have hA := Align_pow (p + c) k (by omega) (by omega)
  obtain ⟨_, r2, r3, _, _⟩ := round_up (p + c) (2 ^ k) hpos
  rw [← hA] at r2 r3
  obtain ⟨M, hM⟩ : ∃ M, details.Align (p + c) ((2 ^ k : Nat) : Int) = M := ⟨_, rfl⟩
  rw [hM] at hbig r2 r3
  have htell : memfile.ops.Tell f = .ok (xerr.ok, p, f) := by
    show memfile.Tell f = _
    unfold memfile.Tell
    rw [hp, u64_natCast p (by omega)]
  have hcount : (u64 (c : Int) + p) % 2 ^ 64 = p + c := by
    rw [u64_natCast c (by omega), Nat.mod_eq_of_lt (by omega)]; omega
  have hput : (M + 2 ^ 64 - p) % 2 ^ 64 = M - p := by
    have : M + 2 ^ 64 - p = (M - p) + 2 ^ 64 := by omega
    rw [this, Nat.add_mod_right]; exact Nat.mod_eq_of_lt (by omega)
  have hi : i32 (M - p) = ((M - p : Nat) : Int) - 2 ^ 32 := by
    unfold i32
    have : (M - p) % 2 ^ 32 = M - p := Nat.mod_eq_of_lt (by omega)
    rw [this, if_neg (by omega)]
  have hCi : ((C : Int) ≥ 0 ∧ (C : Int) ≤ 255) := by omega
  have hneg : ((M - p : Nat) : Int) - 2 ^ 32 < 0 := by omega
  unfold stream.AlignPutC
  simp only [hCi, and_self, not_true_eq_false, if_false, htell, ne_eq, hcount, hM, hput, hi]
  unfold stream.putC
  have hnz : ¬ (((M - p : Nat) : Int) - 2 ^ 32 = 0) := by omega
  have htn : (((M - p : Nat) : Int) - 2 ^ 32).toNat = 0 := Int.toNat_eq_zero.2 (le_of_lt hneg)
  simp only [hCi, and_self, not_true_eq_false, if_false, hnz, Bool.true_eq_false, htn]
  rfl

set_option maxRecDepth 8000 in
/-- C39 as stated fails at the end of the range of `int`: on an empty binary-mode RAM
stream at position 0, `AlignPutC(65, 2147483647, 2, true)` has `Align(0 + 2147483647, 2)`
equal to 2147483648, whose conversion to `int` is negative, so the loop of `putC` does not
run: the call returns success, nothing is written and the cursor stays at 0. With the
count 5 the same call writes 6 bytes. -/
theorem C39_counterexample :
    details.Align (0 + 2147483647) 2 = 2147483648 ∧
    i32 (2147483648 - 0) = -2147483648 ∧
    ram_AlignPutC 65 2147483647 2 = .ok (xerr.ok, 0, 0) ∧
    ram_AlignPutC 65 5 2 = .ok (xerr.ok, 6, 6) := by
  refine ⟨by decide, by decide, by decide, by decide⟩

/-- C39, amended. Alignment arithmetic: for every power of two `A = 2^k` that an `int`
holds (`k <= 30`) and every address `a` with `a + A - 1 < 2^64`, `details::Align(a, A)` is
the least multiple of `A` that is `>= a`, it is `< a + A`, and `Align` is idempotent;
and on a binary-mode RAM stream at position `p`, `AlignPutC(C, Count, A, true)` with
`Count >= 0`, provided `Align(p + Count, A) - p` is below `2^31` so that it is kept by the
conversion to `int`, returns success, writes the byte `C` at the offsets
`p .. Align(p + Count, A) - 1` and nowhere else, and leaves the cursor at
`Align(p + Count, A)`; when `Count` is an `int` (`Count < 2^31`) and
`Align(p + Count, A) - p` is `2^31` or more, the conversion to `int` makes the count
negative and the call returns success with the file as it was: nothing is written and the
cursor stays at `p`. -/
theorem C39_alignment_arithmetic (k : Nat) (hk : k ≤ 30) (a : Nat)
    (ha : a + 2 ^ k - 1 < 2 ^ 64) :
    (2 ^ k ∣ details.Align a ((2 ^ k : Nat) : Int) ∧ a ≤ details.Align a ((2 ^ k : Nat) : Int) ∧
      details.Align a ((2 ^ k : Nat) : Int) < a + 2 ^ k ∧
      (∀ m, 2 ^ k ∣ m → a ≤ m → details.Align a ((2 ^ k : Nat) : Int) ≤ m) ∧
      details.Align (details.Align a ((2 ^ k : Nat) : Int)) ((2 ^ k : Nat) : Int) =
        details.Align a ((2 ^ k : Nat) : Int)) ∧
    (∀ (m_AccessType : access_types) (f : memfile) (p Count C : Nat),
      m_AccessType.m_Text = 0 → f.WF → f.m_SeekPosition = (p : Int) → a = p + Count →
      C ≤ 255 → details.Align a ((2 ^ k : Nat) : Int) - p < 2 ^ 31 →
      f.m_EOF.toNat + (details.Align a ((2 ^ k : Nat) : Int) - p) < 2 ^ 62 →
      ∃ f1, stream.AlignPutC memfile.ops m_AccessType f (C : Int) (Count : Int)
          ((2 ^ k : Nat) : Int) true = .ok (xerr.ok, f1) ∧
        f1.m_SeekPosition = (details.Align a ((2 ^ k : Nat) : Int) : Int) ∧
        (∀ q, p ≤ q → q < details.Align a ((2 ^ k : Nat) : Int) → f1.byteAt q = C) ∧
        (∀ q, ¬ (p ≤ q ∧ q < details.Align a ((2 ^ k : Nat) : Int)) →
          f1.byteAt q = f.byteAt q) ∧
        f1.m_EOF = max f.m_EOF (details.Align a ((2 ^ k : Nat) : Int) : Int)) ∧
    ∀ (m_AccessType : access_types) (f : memfile) (p Count C : Nat),
      f.WF → f.m_SeekPosition = (p : Int) → a = p + Count → C ≤ 255 → Count < 2 ^ 31 →
      2 ^ 31 ≤ details.Align a ((2 ^ k : Nat) : Int) - p →
      stream.AlignPutC memfile.ops m_AccessType f (C : Int) (Count : Int)
        ((2 ^ k : Nat) : Int) true = .ok (xerr.ok, f) := by
  have hk64 : k < 64 := by omega
  have hpos : 0 < 2 ^ k := Nat.two_pow_pos k
  have hA := Align_pow a k hk64 ha
  obtain ⟨r1, r2, r3, r4, r5⟩ := round_up a (2 ^ k) hpos
  have hM64 : (a + 2 ^ k - 1) / 2 ^ k * 2 ^ k + 2 ^ k - 1 < 2 ^ 64 := by
    obtain ⟨q, hq⟩ := r1
    have hp : 2 ^ 64 = 2 ^ k * 2 ^ (64 - k) := by
      rw [← Nat.pow_add]; congr 1; omega
    have hlt : 2 ^ k * q < 2 ^ k * 2 ^ (64 - k) := by rw [← hq, ← hp]; omega
    have hq2 : q < 2 ^ (64 - k) := Nat.lt_of_mul_lt_mul_left hlt
    have : 2 ^ k * (q + 1) ≤ 2 ^ k * 2 ^ (64 - k) := Nat.mul_le_mul_left _ hq2
    rw [hq, hp]
    rw [Nat.mul_add, Nat.mul_one] at this
    omega
  refine ⟨⟨by rw [hA]; exact r1, by rw [hA]; exact r2, by rw [hA]; exact r3,
    by rw [hA]; exact r4, ?_⟩, ?_, ?_⟩
  · rw [hA, Align_pow _ k hk64 hM64]; exact r5
  · intro acc f p Count C hb hwf hp hac hC hfit hsz
    have h0 : 0 ≤ f.m_EOF := le_trans hwf.1 hwf.2.1
    have he : f.m_EOF = ((f.m_EOF.toNat : Nat) : Int) := (Int.toNat_of_nonneg h0).symm
    obtain ⟨f1, hr, hp1, he1, hb1⟩ := AlignPutC_ram acc hb f hwf p f.m_EOF.toNat Count C k hp he
      hC (details.Align a ((2 ^ k : Nat) : Int)) (by rw [hac]) (by rw [hA, ← hac]; exact r2)
      hfit hsz
    refine ⟨f1, hr, hp1, ?_, ?_, ?_⟩
    · intro q h1 h2
      rw [hb1 q, if_pos ⟨h1, h2⟩]
    · intro q hn
      rw [hb1 q, if_neg hn]
    · rw [he1]
      conv_rhs => rw [he]
      omega
  · intro acc f p Count C hwf hp hac hC hc hbig
    subst hac
    exact AlignPutC_ram_beyond_int acc f hwf p Count C k hk hp hC hc hbig

set_option maxRecDepth 8000 in
/-- C39, amended, for `A = 4`, the default, at the address 5: `Align(5, 4) = 8`, and on an
empty RAM file `AlignPutC(65, 5, 4, true)` writes 8 bytes; and for `A = 2` at the address
2147483647: on an empty RAM file `AlignPutC(65, 2147483647, 2, true)` writes nothing. -/
theorem C39_witness :
    (2 : Nat) ≤ 30 ∧ 5 + 2 ^ 2 - 1 < 2 ^ 64 ∧
    (2 ^ 2 ∣ details.Align 5 ((2 ^ 2 : Nat) : Int) ∧ 5 ≤ details.Align 5 ((2 ^ 2 : Nat) : Int) ∧
      details.Align 5 ((2 ^ 2 : Nat) : Int) < 5 + 2 ^ 2 ∧
      (∀ m, 2 ^ 2 ∣ m → 5 ≤ m → details.Align 5 ((2 ^ 2 : Nat) : Int) ≤ m) ∧
      details.Align (details.Align 5 ((2 ^ 2 : Nat) : Int)) ((2 ^ 2 : Nat) : Int) =
        details.Align 5 ((2 ^ 2 : Nat) : Int)) ∧
    details.Align 5 ((2 ^ 2 : Nat) : Int) = 8 ∧
    (∃ f1, stream.AlignPutC memfile.ops {} {} ((65 : Nat) : Int) ((5 : Nat) : Int)
        ((2 ^ 2 : Nat) : Int) true = .ok (xerr.ok, f1) ∧
      f1.m_SeekPosition = (details.Align 5 ((2 ^ 2 : Nat) : Int) : Int) ∧
      (∀ q, 0 ≤ q → q < details.Align 5 ((2 ^ 2 : Nat) : Int) → f1.byteAt q = 65) ∧
      (∀ q, ¬ (0 ≤ q ∧ q < details.Align 5 ((2 ^ 2 : Nat) : Int)) →
        f1.byteAt q = ({} : memfile).byteAt q) ∧
      f1.m_EOF = max ({} : memfile).m_EOF (details.Align 5 ((2 ^ 2 : Nat) : Int) : Int)) ∧
    (1 : Nat) ≤ 30 ∧ 2147483647 + 2 ^ 1 - 1 < 2 ^ 64 ∧
    2 ^ 31 ≤ details.Align 2147483647 ((2 ^ 1 : Nat) : Int) - 0 ∧
    stream.AlignPutC memfile.ops {} {} ((65 : Nat) : Int) ((2147483647 : Nat) : Int)
      ((2 ^ 1 : Nat) : Int) true = .ok (xerr.ok, {}) :=
  ⟨by decide, by decide, (C39_alignment_arithmetic 2 (by decide) 5 (by decide)).1, by decide,
    (C39_alignment_arithmetic 2 (by decide) 5 (by decide)).2.1 {} {} 0 5 65 rfl WF_empty rfl
      (by decide) (by decide) (by decide) (by decide),
    by decide, by decide, by decide,
    (C39_alignment_arithmetic 1 (by decide) 2147483647 (by decide)).2.2 {} {} 0 2147483647 65
      WF_empty rfl (by decide) (by decide) (by decide) (by decide)⟩

/-! ## Reads across the end of the RAM file, and ToFile -/

theorem Read_blocks (f : memfile) (p : Nat) (hp : f.m_SeekPosition = (p : Int))
    (hlt : (p : Int) < f.m_EOF) (View : List Byte)
    (hcap : p + View.length < f.m_lBlock.length * block_size_v)
    (hb : f.m_lBlock.length * block_size_v < 2 ^ 63) :
    ∃ V1, memfile.Read f View =
        .ok (xerr.ok, V1, f.moveTo ((p + View.length : Nat) : Int)) ∧
      V1.length = View.length ∧ ∀ j, j < View.length → V1.getD j 0 = f.byteAt (p + j) := by
  have hu : u64 f.m_SeekPosition = p := by rw [hp]; exact u64_natCast p (by omega)
  have hidx : p / block_size_v < f.m_lBlock.length := by
    apply Nat.div_lt_of_lt_mul; rw [Nat.mul_comm]; omega
  obtain ⟨V1, hr, hl, hg⟩ := ReadLoop_spec View.length f (p / block_size_v) (p % block_size_v) 0 p
    View hp (Nat.div_add_mod' p block_size_v) (Nat.mod_lt _ (by decide)) hcap (by omega)
  refine ⟨V1, ?_, hl, ?_⟩
  · unfold memfile.Read
    have hge : ¬ f.m_SeekPosition ≥ f.m_EOF := by omega
    simp only [hge, if_false, hu, hidx, not_true_eq_false, hr]
  · intro j hj
    rw [hg j, if_pos (by omega)]
    simp

theorem Flush_recorder (c : Bool) (t : List (List Byte)) :
    (if c = true then recorder.Flush t else t) = t := by
  split <;> rfl

theorem ToFile_one_pass (acc accF : access_types) (hb : acc.m_Text = 0) (hbF : accF.m_Text = 0)
    (fuel : Nat) (past : Nat → Byte) (Buffer : List Byte) (hB : Buffer.length = 512)
    (f : memfile) (hwf : f.WF) (L : Nat) (hL : f.m_EOF = (L : Int)) (h1 : 512 < L) (h2 : L ≤ 768)
    (hcap : L + 256 < f.m_lBlock.length * block_size_v) (t : List (List Byte)) :
    ∃ V1 V2, stream.ToFile memfile.ops recorder acc accF (fuel + 1) past Buffer f t =
        .ok (xerr.ok, f.moveTo ((L + 256 : Nat) : Int), t ++ [V1, V2]) ∧
      V1.length = 512 ∧ V2.length = L - 256 ∧ (∀ j, j < 512 → V1.getD j 0 = f.byteAt j) ∧
      ∀ j, j < L - 256 → V2.getD j 0 = f.byteAt (512 + j) := by
  obtain ⟨hseek, hlen⟩ := ToMemory_ram_head f hwf
  have h0 : 0 ≤ f.m_EOF := le_trans hwf.1 hwf.2.1
  have hLn : f.m_EOF.toNat = L := by rw [hL]; simp
  rw [hLn] at hlen
  have hBne : Buffer ≠ [] := by
    intro h; rw [h] at hB; simp at hB
  have hwf0 : (f.moveTo 0).WF := moveTo_WF f hwf 0 (le_refl 0) h0
  -- the read of the loop
  obtain ⟨V1, hr1, hl1, hb1⟩ := Read_many (f.moveTo 0) hwf0 0 rfl Buffer hBne
    (by rw [hB, moveTo_EOF, hL]; push_cast; omega)
  rw [hB, moveTo_moveTo] at hr1
  simp only [Nat.zero_add] at hr1 hb1
  rw [hB] at hl1 hb1
  have hrr1 := ReadRaw_binary memfile.ops acc hb fuel past _ _ Buffer V1 hBne hr1
  have hV1ne : V1 ≠ [] := by
    intro h; rw [h] at hl1; simp at hl1
  have hw1 : stream.WriteRaw recorder accF t V1 = .ok (xerr.ok, t ++ [V1]) := by
    have := WriteRaw_binary recorder accF hbF t (t ++ [V1]) V1 hV1ne rfl
    rw [Flush_recorder] at this
    exact this
  -- the read of the trailing bytes
  have hS : (L + 2 ^ 64 - 256) % 2 ^ 64 = L - 256 := by
    have : L + 2 ^ 64 - 256 = (L - 256) + 2 ^ 64 := by omega
    rw [this, Nat.add_mod_right]; exact Nat.mod_eq_of_lt (by omega)
  have htl : (V1.take (L - 256)).length = L - 256 := by
    rw [List.length_take, hl1]; omega
  have htne : V1.take (L - 256) ≠ [] := by
    intro h; rw [h] at htl; simp at htl; omega
  obtain ⟨V2, hr2, hl2, hb2⟩ := Read_blocks (f.moveTo ((512 : Nat) : Int)) 512 rfl
    (by rw [moveTo_EOF, hL]; push_cast; omega) (V1.take (L - 256))
    (by rw [htl]; show 512 + (L - 256) < f.m_lBlock.length * block_size_v; omega) hwf.2.2.2.1
  rw [htl, moveTo_moveTo] at hr2
  rw [htl] at hl2 hb2
  have h512 : 512 + (L - 256) = L + 256 := by omega
  rw [h512] at hr2
  have hrr2 := ReadRaw_binary memfile.ops acc hb fuel (after (V1.drop (L - 256)) past) _ _
    (V1.take (L - 256)) V2 htne hr2
  have hV2ne : V2 ≠ [] := by
    intro h; rw [h] at hl2; simp at hl2; omega
  have hw2 : stream.WriteRaw recorder accF (t ++ [V1]) V2 = .ok (xerr.ok, t ++ [V1] ++ [V2]) := by
    have := WriteRaw_binary recorder accF hbF (t ++ [V1]) (t ++ [V1] ++ [V2]) V2 hV2ne rfl
    rw [Flush_recorder] at this
    exact this
  have hloop : ToFile.loop memfile.ops recorder acc accF (fuel + 1) past (L - 512)
      ((L - 512) / 256 + 2) 0 Buffer (f.moveTo 0) t =
      .ok (xerr.ok, 256, V1, f.moveTo ((512 : Nat) : Int), t ++ [V1]) := by
    have hk : (L - 512) / 256 + 2 = ((L - 512) / 256 + 1) + 1 := rfl
    rw [hk, ToFile.loop]
    have hi0 : (0 : Nat) < L - 512 := by omega
    simp only [hi0, not_true_eq_false, if_false, hrr1, ne_eq, hw1]
    have h256 : (0 + 256) % 2 ^ 64 = 256 := by decide
    rw [h256, ToFile.loop]
    have hi1 : ¬ (256 < L - 512) := by omega
    simp only [hi1, not_false_eq_true, if_true]
  refine ⟨V1, V2, ?_, hl1, hl2, hb1, hb2⟩
  unfold stream.ToFile
  have hgt : L > Buffer.length := by rw [hB]; exact h1
  have hSle : ¬ (L - 256 > V1.length) := by rw [hl1]; omega
  have hSne : L - 256 ≠ 0 := by omega
  simp only [hseek, hlen, ne_eq, not_true_eq_false, if_false, hgt, if_true, hB, hloop, hS, hSne,
    not_false_eq_true, hSle, hrr2, hw2, List.append_assoc, List.singleton_append, h1]

theorem WF_ramp513 : (memfile.ramp 513).WF :=
  ⟨by decide, by decide, by decide, by decide, Or.inl (by decide)⟩

/-- C38. `ToFile` does not copy the file: on every RAM source in binary mode, with the
512-byte local buffer, when the length is at most 512 the function reads the local `i`
before it has a value, whatever the destination; when the length `L` is between 513 and
768 (and the blocks hold `L + 256` bytes) and the destination records what it is given,
the function returns success after two writes, of 512 and of `L - 256` bytes, that is
`L + 256` bytes in all: the bytes of the source from offset 0 and from offset 512 on, the
last 256 of them read beyond the end of the file, where the cursor of the source ends.
The loop advances `i` by 256 for every 512 bytes it copies. -/
theorem C38_ToFile_does_not_copy_the_file (m_AccessType File_AccessType : access_types)
    (hb : m_AccessType.m_Text = 0) (hbF : File_AccessType.m_Text = 0) (fuel : Nat)
    (past : Nat → Byte) (Buffer : List Byte) (hB : Buffer.length = 512) (f : memfile)
    (hwf : f.WF) :
    (f.m_EOF.toNat ≤ 512 →
      ∀ (τ : Type) (J : device_instance τ) (t : τ),
        stream.ToFile memfile.ops J m_AccessType File_AccessType (fuel + 1) past Buffer f t =
          .error (Stop.undefined "i is read before it has a value")) ∧
    (512 < f.m_EOF.toNat → f.m_EOF.toNat ≤ 768 →
      f.m_EOF.toNat + 256 < f.m_lBlock.length * block_size_v →
      ∀ t : List (List Byte), ∃ V1 V2,
        stream.ToFile memfile.ops recorder m_AccessType File_AccessType (fuel + 1) past Buffer f t =
          .ok (xerr.ok, f.moveTo ((f.m_EOF.toNat + 256 : Nat) : Int), t ++ [V1, V2]) ∧
        V1.length = 512 ∧ V2.length = f.m_EOF.toNat - 256 ∧
        (V1 ++ V2).length = f.m_EOF.toNat + 256 ∧
        (∀ j, j < 512 → V1.getD j 0 = f.byteAt j) ∧
        ∀ j, j < f.m_EOF.toNat - 256 → V2.getD j 0 = f.byteAt (512 + j)) := by
  have h0 : 0 ≤ f.m_EOF := le_trans hwf.1 hwf.2.1
  refine ⟨?_, ?_⟩
  · intro hle τ J t
    obtain ⟨hseek, hlen⟩ := ToMemory_ram_head f hwf
    exact ToFile_short memfile.ops J m_AccessType File_AccessType (fuel + 1) past Buffer f _ _ t _
      hseek hlen (by rw [hB]; exact hle)
  · intro h1 h2 hcap t
    obtain ⟨V1, V2, hr, hl1, hl2, hb1, hb2⟩ := ToFile_one_pass m_AccessType File_AccessType hb hbF
      fuel past Buffer hB f hwf f.m_EOF.toNat (Int.toNat_of_nonneg h0).symm h1 h2 hcap t
    exact ⟨V1, V2, hr, hl1, hl2, by rw [List.length_append, hl1, hl2]; omega, hb1, hb2⟩

/-- C38 on the RAM file of 513 bytes `memfile.ramp 513`: `ToFile` writes 769 bytes. -/
theorem C38_witness :
    ({} : access_types).m_Text = 0 ∧ ToFile.Buffer.length = 512 ∧ (memfile.ramp 513).WF ∧
    512 < (memfile.ramp 513).m_EOF.toNat ∧ (memfile.ramp 513).m_EOF.toNat ≤ 768 ∧
    ∃ V1 V2,
      stream.ToFile memfile.ops recorder {} {} (0 + 1) (fun _ => 0) ToFile.Buffer
          (memfile.ramp 513) [] =
        .ok (xerr.ok,
          (memfile.ramp 513).moveTo (((memfile.ramp 513).m_EOF.toNat + 256 : Nat) : Int),
          [] ++ [V1, V2]) ∧
      V1.length = 512 ∧ V2.length = (memfile.ramp 513).m_EOF.toNat - 256 ∧
      (V1 ++ V2).length = (memfile.ramp 513).m_EOF.toNat + 256 ∧
      (∀ j, j < 512 → V1.getD j 0 = (memfile.ramp 513).byteAt j) ∧
      ∀ j, j < (memfile.ramp 513).m_EOF.toNat - 256 →
        V2.getD j 0 = (memfile.ramp 513).byteAt (512 + j) :=
  ⟨rfl, ToFile_Buffer_length, WF_ramp513, by decide, by decide,
    (C38_ToFile_does_not_copy_the_file {} {} rfl rfl 0 (fun _ => 0) ToFile.Buffer
      ToFile_Buffer_length (memfile.ramp 513) WF_ramp513).2 (by decide) (by decide) (by decide) []⟩

set_option maxRecDepth 8000 in
/-- C34. The RAM cursor invariant is not preserved by `Read`: on every RAM file with the
cursor `p` below EOF, a `Read` of `n` bytes with `p + n` beyond EOF (and inside the
blocks) returns success, the buffer holds the bytes of the blocks at `p .. p+n-1`, those
at and beyond EOF included, and the cursor is `p + n`, beyond EOF; the `Seek(current, 0)`
that follows trips the assertion `m_SeekPosition<=m_EOF` of the seek helpers. So on the
file CR, B, A, CR, LF (EOF 5) with the cursor at 2 a `Read` of 10 bytes gives 3 bytes of
the file and 7 bytes from beyond EOF, and leaves the cursor at 12. -/
theorem C34_read_leaves_cursor_beyond_EOF (f : memfile) (hwf : f.WF) (p : Nat)
    (hp : f.m_SeekPosition = (p : Int)) (hlt : (p : Int) < f.m_EOF) (View : List Byte)
    (hcross : f.m_EOF < ((p + View.length : Nat) : Int))
    (hcap : p + View.length < f.m_lBlock.length * block_size_v) :
    (∃ V1 f1, memfile.Read f View = .ok (xerr.ok, V1, f1) ∧
      f1.m_SeekPosition = ((p + View.length : Nat) : Int) ∧ f1.m_EOF = f.m_EOF ∧
      ¬ (f1.m_SeekPosition ≤ f1.m_EOF) ∧ V1.length = View.length ∧
      (∀ j, j < View.length → V1.getD j 0 = f.byteAt (p + j)) ∧
      memfile.Seek f1 seek_mode.SKM_CURENT 0 =
        .error (Stop.asserted "m_SeekPosition<=m_EOF && m_SeekPosition >= 0")) ∧
    ram_read_across_EOF 10 =
      .ok (xerr.ok, [65, 13, 10, 0, 0, 0, 0, 0, 0, 0], 12, 5,
        .error (Stop.asserted "m_SeekPosition<=m_EOF && m_SeekPosition >= 0")) ∧
    ram_read_across_EOF 3 = .ok (xerr.ok, [65, 13, 10], 5, 5, .ok xerr.ok) := by
  refine ⟨?_, by decide, by decide⟩
  obtain ⟨V1, hr, hl, hbt⟩ := Read_blocks f p hp hlt View hcap hwf.2.2.2.1
  have hcapb := hwf.2.2.2.1
  refine ⟨V1, _, hr, rfl, rfl, ?_, hl, hbt, ?_⟩
  · rw [moveTo_pos, moveTo_EOF]; omega
  · have hu : u64 ((p + View.length : Nat) : Int) = p + View.length :=
      u64_natCast _ (by omega)
    have hm : (p + View.length + 0) % 2 ^ 64 = p + View.length :=
      Nat.mod_eq_of_lt (by omega)
    have hi : i64 (p + View.length) = ((p + View.length : Nat) : Int) := i64_of_lt _ (by omega)
    show memfile.seekCheck { f.moveTo ((p + View.length : Nat) : Int) with
      m_SeekPosition := i64 ((u64 (f.moveTo ((p + View.length : Nat) : Int)).m_SeekPosition + 0) %
        2 ^ 64) } = _
    rw [moveTo_pos, hu, hm, hi]
    unfold memfile.seekCheck
    rw [if_neg]
    intro hc
    have := hc.1
    simp only [memfile.moveTo] at this
    omega

/-- C34 on the file CR, B, A, CR, LF with the cursor at 2 and a buffer of 10 bytes. -/
theorem C34_witness :
    (memfile.sampleCR.moveTo 2).WF ∧ (memfile.sampleCR.moveTo 2).m_SeekPosition = ((2 : Nat) : Int) ∧
    ((2 : Nat) : Int) < (memfile.sampleCR.moveTo 2).m_EOF ∧
    (memfile.sampleCR.moveTo 2).m_EOF < ((2 + (List.replicate 10 (9 : Byte)).length : Nat) : Int) ∧
    ∃ V1 f1, memfile.Read (memfile.sampleCR.moveTo 2) (List.replicate 10 9) =
        .ok (xerr.ok, V1, f1) ∧
      f1.m_SeekPosition = ((2 + (List.replicate 10 (9 : Byte)).length : Nat) : Int) ∧
      f1.m_EOF = (memfile.sampleCR.moveTo 2).m_EOF ∧
      ¬ (f1.m_SeekPosition ≤ f1.m_EOF) ∧ V1.length = (List.replicate 10 (9 : Byte)).length ∧
      (∀ j, j < (List.replicate 10 (9 : Byte)).length →
        V1.getD j 0 = (memfile.sampleCR.moveTo 2).byteAt (2 + j)) ∧
      memfile.Seek f1 seek_mode.SKM_CURENT 0 =
        .error (Stop.asserted "m_SeekPosition<=m_EOF && m_SeekPosition >= 0") :=
  ⟨moveTo_WF _ WF_sampleCR 2 (by decide) (by decide), rfl, by decide, by decide,
    (C34_read_leaves_cursor_beyond_EOF (memfile.sampleCR.moveTo 2)
      (moveTo_WF _ WF_sampleCR 2 (by decide) (by decide)) 2 rfl (by decide) (List.replicate 10 9)
      (by decide) (by decide)).1⟩

/-! ## The trailing CR at the end of the file -/

theorem WF_sampleACR : memfile.sampleACR.WF :=
  ⟨by decide, by decide, by decide, by decide, Or.inl (by decide)⟩

theorem look_ahead_at_end (m_AccessType : access_types)
    (ht : m_AccessType.m_Text = 1) (f : memfile) (hwf : f.WF) (p : Nat)
    (hp : f.m_SeekPosition = (p : Int)) (View : List Byte) (hv : View ≠ [])
    (hlt : (p : Int) < f.m_EOF) (hcap : p + View.length < f.m_lBlock.length * block_size_v)
    (hend : f.m_EOF ≤ ((p + View.length : Nat) : Int)) (past : Nat → Byte) (fuel : Nat)
    (hpass : (ReadRaw.narrowLoop past View.length
        ((List.range View.length).map (fun t => f.byteAt (p + t))) 0 0).2.1 =
      (ReadRaw.narrowLoop past View.length
        ((List.range View.length).map (fun t => f.byteAt (p + t))) 0 0).2.2)
    (hlast : f.byteAt (p + View.length - 1) = 13) :
    stream.ReadRaw memfile.ops m_AccessType (fuel + 1) past f View =
      .ok (xerr.create state.UNEXPECTED_EOF "Unexpected End of File",
        (List.range View.length).map (fun t => f.byteAt (p + t)),
        f.moveTo ((p + View.length : Nat) : Int)) ∧
    ∀ x : Byte, memfile.Read (f.moveTo ((p + View.length : Nat) : Int)) [x] =
      .ok (xerr.create state.UNEXPECTED_EOF "Unexpected End of File", [x],
        f.moveTo ((p + View.length : Nat) : Int)) := by
  have hn : 0 < View.length := List.length_pos.2 hv
  obtain ⟨V1, hr, hl, hg⟩ := Read_blocks f p hp hlt View hcap hwf.2.2.2.1
  have hV : V1 = (List.range View.length).map (fun t => f.byteAt (p + t)) := by
    apply List.ext_getElem
    · rw [hl]; simp
    · intro j h1 h2
      have hj := hg j (by rw [← hl]; exact h1)
      simp only [List.getD_eq_getElem?_getD, List.getElem?_eq_getElem h1, Option.getD_some] at hj
      simp [hj]
  subst hV
  have hlen : ((List.range View.length).map (fun t => f.byteAt (p + t))).length = View.length := by
    simp
  have hone : ∀ x : Byte, memfile.Read (f.moveTo ((p + View.length : Nat) : Int)) [x] =
      .ok (xerr.create state.UNEXPECTED_EOF "Unexpected End of File", [x],
        f.moveTo ((p + View.length : Nat) : Int)) := by
    intro x
    unfold memfile.Read
    have hge : (f.moveTo ((p + View.length : Nat) : Int)).m_SeekPosition ≥
        (f.moveTo ((p + View.length : Nat) : Int)).m_EOF := hend
    rw [if_pos hge]
  refine ⟨?_, hone⟩
  rcases hloop : ReadRaw.narrowLoop past View.length
      ((List.range View.length).map (fun t => f.byteAt (p + t))) 0 0 with ⟨Vb, pSrc, pDst⟩
  rw [hloop] at hpass
  simp only at hpass
  have hb := narrowLoop_bounds past View.length
    ((List.range View.length).map (fun t => f.byteAt (p + t))) 0 0
  rw [hloop] at hb
  simp only [Nat.zero_add] at hb
  have hsame := narrowLoop_same past View.length
    ((List.range View.length).map (fun t => f.byteAt (p + t))) 0
  rw [hloop] at hsame
  simp only [Nat.zero_add] at hsame
  have hd : pDst = View.length := by omega
  have hs : pSrc = View.length := hb.1
  have hVb : Vb = (List.range View.length).map (fun t => f.byteAt (p + t)) := hsame hd
  subst hVb
  have hne : View.isEmpty = false := by
    cases View with
    | nil => exact absurd rfl hv
    | cons _ _ => rfl
  have hlastD : ((List.range View.length).map (fun t => f.byteAt (p + t))).getD
      (View.length - 1) 0 = 13 := by
    rw [List.getD_eq_getElem?_getD, List.getElem?_eq_getElem (by rw [hlen]; omega)]
    simp only [List.getElem_map, List.getElem_range, Option.getD_some]
    rw [← hlast]; congr 1; omega
  have hr2 : memfile.ops.Read f View = .ok (xerr.ok,
      (List.range View.length).map (fun t => f.byteAt (p + t)),
      f.moveTo ((p + View.length : Nat) : Int)) := hr
  have hone2 : memfile.ops.Read (f.moveTo ((p + View.length : Nat) : Int)) [0] =
      .ok (xerr.create state.UNEXPECTED_EOF "Unexpected End of File", [0],
        f.moveTo ((p + View.length : Nat) : Int)) := hone 0
  have hbad : xerr.create state.UNEXPECTED_EOF "Unexpected End of File" ≠ xerr.ok := by decide
  rw [stream.ReadRaw]
  simp only [hne, Bool.false_eq_true, if_false, hr2, ne_eq, not_true_eq_false, ht, one_ne_zero,
    not_false_eq_true, if_true, hlen, hloop, hs, hd, hlastD, hone2, hbad]

/-- C28. Trailing CR look-ahead, which fails when the CR is the last byte of the file: on
a RAM file with the cursor at `p` inside the file, for a narrow-text `ReadRaw` of
`n = View.length` bytes that the blocks hold, whose pass removed no CR,LF pair (its source
and destination cursors end equal) and whose last buffer byte is CR, the look-ahead reads
one further raw byte. When a byte follows in the file (`p + n < m_EOF`): if it is LF the
last buffer byte becomes LF and the cursor ends at `p + n + 1`, just past that LF;
otherwise the buffer holds the `n` bytes of the file unchanged and the cursor ends at
`p + n`, where the next read returns the peeked byte; the rewind `Seek(current, 2^64 - 1)`
moves the cursor from `p + n + 1` back to `p + n`. When no byte follows (`m_EOF ≤ p + n`,
the CR is the last byte of the file) the further byte cannot be read: `ReadRaw` returns
UNEXPECTED_EOF, although the buffer holds the `n` bytes of the file and the cursor ends at
`p + n`, and the next read returns UNEXPECTED_EOF and no byte. -/
theorem C28_trailing_CR_at_end_of_file (m_AccessType : access_types)
    (ht : m_AccessType.m_Text = 1) (f : memfile) (hwf : f.WF) (p : Nat)
    (hp : f.m_SeekPosition = (p : Int)) (View : List Byte) (hv : View ≠ [])
    (hlt : (p : Int) < f.m_EOF) (hcap : p + View.length < f.m_lBlock.length * block_size_v)
    (past : Nat → Byte) (fuel : Nat)
    (hpass : (ReadRaw.narrowLoop past View.length
        ((List.range View.length).map (fun t => f.byteAt (p + t))) 0 0).2.1 =
      (ReadRaw.narrowLoop past View.length
        ((List.range View.length).map (fun t => f.byteAt (p + t))) 0 0).2.2)
    (hlast : f.byteAt (p + View.length - 1) = 13) :
    (((p + View.length : Nat) : Int) < f.m_EOF →
      stream.ReadRaw memfile.ops m_AccessType (fuel + 1) past f View =
        (if f.byteAt (p + View.length) = 10 then
          .ok (xerr.ok,
            ((List.range View.length).map (fun t => f.byteAt (p + t))).set (View.length - 1) 10,
            f.moveTo ((p + View.length + 1 : Nat) : Int))
        else
          .ok (xerr.ok, (List.range View.length).map (fun t => f.byteAt (p + t)),
            f.moveTo ((p + View.length : Nat) : Int))) ∧
      (∀ x : Byte, memfile.Read (f.moveTo ((p + View.length : Nat) : Int)) [x] =
        .ok (xerr.ok, [f.byteAt (p + View.length)],
          f.moveTo ((p + View.length + 1 : Nat) : Int))) ∧
      memfile.Seek (f.moveTo ((p + View.length + 1 : Nat) : Int)) seek_mode.SKM_CURENT
          (2 ^ 64 - 1) =
        .ok (xerr.ok, f.moveTo ((p + View.length : Nat) : Int))) ∧
    (f.m_EOF ≤ ((p + View.length : Nat) : Int) →
      stream.ReadRaw memfile.ops m_AccessType (fuel + 1) past f View =
        .ok (xerr.create state.UNEXPECTED_EOF "Unexpected End of File",
          (List.range View.length).map (fun t => f.byteAt (p + t)),
          f.moveTo ((p + View.length : Nat) : Int)) ∧
      ∀ x : Byte, memfile.Read (f.moveTo ((p + View.length : Nat) : Int)) [x] =
        .ok (xerr.create state.UNEXPECTED_EOF "Unexpected End of File", [x],
          f.moveTo ((p + View.length : Nat) : Int))) :=
  ⟨fun hnext => look_ahead_inside m_AccessType ht f hwf p hp View hv hnext past fuel hpass hlast,
    fun hend => look_ahead_at_end m_AccessType ht f hwf p hp View hv hlt hcap hend past fuel
      hpass hlast⟩

set_option maxRecDepth 8000 in
/-- C28 at the RAM file A, CR: a narrow-text read of the two bytes of the file, whose CR
is the last byte of the file, returns UNEXPECTED_EOF with both bytes in the buffer and the
cursor at 2; and at the RAM file CR, B, A, CR, LF: a narrow-text read of the two bytes
A, CR at offset 2, followed in the file by LF, returns success with the bytes A, LF and
the cursor at 5. -/
theorem C28_witness :
    ({ m_Text := 1 } : access_types).m_Text = 1 ∧ memfile.sampleACR.WF ∧
    memfile.sampleACR.m_SeekPosition = ((0 : Nat) : Int) ∧ ([0, 0] : List Byte) ≠ [] ∧
    ((0 : Nat) : Int) < memfile.sampleACR.m_EOF ∧
    0 + ([0, 0] : List Byte).length < memfile.sampleACR.m_lBlock.length * block_size_v ∧
    memfile.sampleACR.byteAt (0 + ([0, 0] : List Byte).length - 1) = 13 ∧
    memfile.sampleACR.m_EOF ≤ ((0 + ([0, 0] : List Byte).length : Nat) : Int) ∧
    stream.ReadRaw memfile.ops { m_Text := 1 } (0 + 1) (fun _ => 0) memfile.sampleACR [0, 0] =
      .ok (xerr.create state.UNEXPECTED_EOF "Unexpected End of File",
        (List.range ([0, 0] : List Byte).length).map (fun t => memfile.sampleACR.byteAt (0 + t)),
        memfile.sampleACR.moveTo ((0 + ([0, 0] : List Byte).length : Nat) : Int)) ∧
    (List.range ([0, 0] : List Byte).length).map (fun t => memfile.sampleACR.byteAt (0 + t)) =
      [65, 13] ∧
    (((2 + ([0, 0] : List Byte).length : Nat) : Int) < (memfile.sampleCR.moveTo 2).m_EOF ∧
    stream.ReadRaw memfile.ops { m_Text := 1 } (0 + 1) (fun _ => 0) (memfile.sampleCR.moveTo 2)
        [0, 0] =
      (if (memfile.sampleCR.moveTo 2).byteAt (2 + ([0, 0] : List Byte).length) = 10 then
        .ok (xerr.ok,
          ((List.range ([0, 0] : List Byte).length).map
            (fun t => (memfile.sampleCR.moveTo 2).byteAt (2 + t))).set
              (([0, 0] : List Byte).length - 1) 10,
          (memfile.sampleCR.moveTo 2).moveTo ((2 + ([0, 0] : List Byte).length + 1 : Nat) : Int))
      else
        .ok (xerr.ok, (List.range ([0, 0] : List Byte).length).map
            (fun t => (memfile.sampleCR.moveTo 2).byteAt (2 + t)),
          (memfile.sampleCR.moveTo 2).moveTo
            ((2 + ([0, 0] : List Byte).length : Nat) : Int)))) :=
  ⟨rfl, WF_sampleACR, rfl, by decide, by decide, by decide, by decide, by decide,
    ((C28_trailing_CR_at_end_of_file { m_Text := 1 } rfl memfile.sampleACR WF_sampleACR 0 rfl
      [0, 0] (by decide) (by decide) (by decide) (fun _ => 0) 0 (by decide) (by decide)).2
      (by decide)).1,
    by decide, by decide,
    ((C28_trailing_CR_at_end_of_file { m_Text := 1 } rfl (memfile.sampleCR.moveTo 2)
      (moveTo_WF _ WF_sampleCR _ (by decide) (by decide)) 2 rfl [0, 0] (by decide) (by decide)
      (by decide) (fun _ => 0) 0 (by decide) (by decide)).1 (by decide)).1⟩

end xfile
